import Mathlib

/-! # SnapRAID scan engine and allocator: a shallow embedding

The C structures of `elem.h` and the functions of `scan.c` are translated into
Lean definitions.  Heap objects (files, links) live in an explicit store and
are named by their address; a pointer to a block record `&file->blockvec[i]`
is the pair of the file's address and the index `i`.  A function that would
touch memory outside an array, or follow a pointer to a freed object, returns
`none`.
-/

namespace Snapraid

/-! ## Data model (elem.h) -/

/-- Number of values of `block_off_t`, which is `uint32_t` (elem.h:44). -/
def BLOCK_OFF_MOD : Nat := 2 ^ 32

/-- The constant `POS_INVALID` (elem.h:38), the value `-1` stored in a `block_off_t`. -/
def POS_INVALID : Nat := 2 ^ 32 - 1

/-- Address of a `struct snapraid_file` in the store of files. -/
abbrev FilePtr := Nat

/-- Address of a `struct snapraid_link` in the store of links. -/
abbrev LinkPtr := Nat

/-- Pointer `&file->blockvec[idx]` to a block record; it also plays the role
of the record's back pointer to its owning file (elem.h:69). -/
structure BlockPtr where
  file : FilePtr
  idx : Nat
  deriving DecidableEq, Repr

/-- Block of a file, `struct snapraid_block` (elem.h:66-71).  The flag word
tested through `block_flag_clear(block, BLOCK_HAS_PARITY)` in scan.c is kept as
one boolean per flag. -/
structure snapraid_block where
  parity_pos : Nat := POS_INVALID
  is_hashed : Bool := false
  has_parity : Bool := false
  hash : List Nat := []
  deriving DecidableEq, Repr

/-- File, `struct snapraid_file` (elem.h:76-87) with the `inode` member used by
scan.c:129.  `blockmax` is the length of `blockvec`. -/
structure snapraid_file where
  sub : String := ""
  size : Nat := 0
  blockvec : List snapraid_block := []
  mtime : Int := 0
  inode : Nat := 0
  is_present : Bool := false
  deriving DecidableEq, Repr

/-- Number of blocks of a file, the member `blockmax` (elem.h:80). -/
def snapraid_file.blockmax (file : snapraid_file) : Nat := file.blockvec.length

/-- Symbolic link, `struct snapraid_link` as used by scan.c:238-323. -/
structure snapraid_link where
  sub : String := ""
  linkto : String := ""
  is_present : Bool := false
  deriving DecidableEq, Repr

/-- Disk, `struct snapraid_disk` (elem.h:92-99) with the containers used by
scan.c: `inodeset`, `linklist`, `linkset`.  `blockarr` is the allocation table:
a cell is `none` (the null pointer) or a pointer to a block record. -/
structure snapraid_disk where
  name : String := ""
  dir : String := ""
  first_free_block : Nat := 0
  filelist : List FilePtr := []
  inodeset : List FilePtr := []
  linklist : List LinkPtr := []
  linkset : List LinkPtr := []
  blockarr : List (Option BlockPtr) := []
  deriving DecidableEq, Repr

/-- The part of `struct snapraid_state` read and written by scan.c and read by
dry.c (`level`, the number of parity levels), together with the store of heap
objects the pointers refer to. -/
structure snapraid_state where
  files : List (Option snapraid_file) := []
  links : List (Option snapraid_link) := []
  diskarr : List snapraid_disk := []
  need_write : Bool := false
  force_zero : Bool := false
  force_empty : Bool := false
  block_size : Nat := 1
  level : Nat := 1
  deriving DecidableEq, Repr

/-! ## Store of heap objects -/

/-- Dereference of an address: `none` when nothing live is stored there. -/
def heap_get {α : Type} (heap : List (Option α)) (p : Nat) : Option α :=
  match heap[p]? with
  | some (some a) => some a
  | _ => none

/-- The block record a block pointer refers to. -/
def block_get (files : List (Option snapraid_file)) (bp : BlockPtr) : Option snapraid_block :=
  match heap_get files bp.file with
  | some file => file.blockvec[bp.idx]?
  | none => none

/-! ## tommy_array, the dense table behind `blockarr` -/

/-- Modelled from the spec: `tommy_array_size` of the tommyds library, the
number of cells of the dense array indexed by parity position. -/
def tommy_array_size (arr : List (Option BlockPtr)) : Nat := arr.length

/-- Modelled from the spec: `tommy_array_get` of the tommyds library, the cell
at `pos`; an index outside the array is an invalid access. -/
def tommy_array_get (arr : List (Option BlockPtr)) (pos : Nat) : Option (Option BlockPtr) :=
  arr[pos]?

/-- Modelled from the spec: `tommy_array_set` of the tommyds library, storing
into the cell at `pos`; an index outside the array is an invalid access. -/
def tommy_array_set (arr : List (Option BlockPtr)) (pos : Nat) (cell : Option BlockPtr) :
    Option (List (Option BlockPtr)) :=
  if pos < arr.length then some (arr.set pos cell) else none

/-- Modelled from the spec: `tommy_array_grow` of the tommyds library, growing
the table up to `size` cells, the new cells being empty. -/
def tommy_array_grow (arr : List (Option BlockPtr)) (size : Nat) : List (Option BlockPtr) :=
  arr ++ List.replicate (size - arr.length) none

/-- Gets a specific block of a disk; `none` if the block is over the end of the
disk or not used (elem.h:165-171). -/
def disk_block_get (disk : snapraid_disk) (pos : Nat) : Option BlockPtr :=
  if pos < tommy_array_size disk.blockarr then
    match tommy_array_get disk.blockarr pos with
    | some cell => cell
    | none => none
  else none

/-- Modelled from the spec: `block_flag_clear(block, BLOCK_HAS_PARITY)` of
elem.h, which is not part of the sources at hand: it clears the has-parity
flag of the record the pointer refers to and nothing else. -/
def block_flag_clear_has_parity (files : List (Option snapraid_file)) (bp : BlockPtr) :
    Option (List (Option snapraid_file)) :=
  match heap_get files bp.file with
  | some file =>
    match file.blockvec[bp.idx]? with
    | some block =>
      some (files.set bp.file
        (some { file with blockvec := file.blockvec.set bp.idx { block with has_parity := false } }))
    | none => none
  | none => none

/-! ## Allocator (scan.c:38-117) -/

/-- The loop of scan.c:61-68: for every disk of the array, the block at
`block_pos`, if any, loses its parity info. -/
def invalidate_other_disks (diskarr : List snapraid_disk) (block_pos : Nat)
    (files : List (Option snapraid_file)) : Option (List (Option snapraid_file)) :=
  match diskarr with
  | [] => some files
  | oth_disk :: rest =>
    match disk_block_get oth_disk block_pos with
    | some oth_block =>
      match block_flag_clear_has_parity files oth_block with
      | some files1 => invalidate_other_disks rest block_pos files1
      | none => none
    | none => invalidate_other_disks rest block_pos files

/-- One turn of the loop of scan.c:50-69, for the block of index `i`. -/
def scan_file_remove_block (state : snapraid_state) (d : Nat) (fp : FilePtr) (i : Nat) :
    Option snapraid_state :=
  match heap_get state.files fp, state.diskarr[d]? with
  | some file, some disk =>
    match file.blockvec[i]? with
    | some block =>
      let block_pos := block.parity_pos
      let first_free_block :=
        if disk.first_free_block > block_pos then block_pos else disk.first_free_block
      match tommy_array_set disk.blockarr block_pos none with
      | some blockarr =>
        let diskarr := state.diskarr.set d
          { disk with first_free_block := first_free_block, blockarr := blockarr }
        match invalidate_other_disks diskarr block_pos state.files with
        | some files => some { state with files := files, diskarr := diskarr }
        | none => none
      | none => none
    | none => none
  | _, _ => none

/-- The loop of scan.c:50-69 from index `i` on, `n` being the number of turns
left (`file->blockmax - i`). -/
def scan_file_remove_loop (d : Nat) (fp : FilePtr) :
    Nat → Nat → snapraid_state → Option snapraid_state
  | 0, _, state => some state
  | n + 1, i, state =>
    match scan_file_remove_block state d fp i with
    | some state1 => scan_file_remove_loop d fp n (i + 1) state1
    | none => none

/-- Removes the specified file from the data set (scan.c:41-77).  The disk is
given by its index in `diskarr`, the file by its address.  A file is linked in
a container through its own node, so it is there at most once and unlinking it
leaves no occurrence. -/
def scan_file_remove (state : snapraid_state) (d : Nat) (fp : FilePtr) : Option snapraid_state :=
  match heap_get state.files fp with
  | some file =>
    match scan_file_remove_loop d fp file.blockmax 0 { state with need_write := true } with
    | some state1 =>
      match state1.diskarr[d]? with
      | some disk =>
        some { state1 with
          diskarr := state1.diskarr.set d
            { disk with
              inodeset := disk.inodeset.filter (fun p => p != fp),
              filelist := disk.filelist.filter (fun p => p != fp) },
          files := state1.files.set fp none }
      | none => none
    | none => none
  | none => none

/-- The `while` of scan.c:96-97, looking for a free block from `block_pos` on;
`gap` is `block_max - block_pos`, so that `block_pos < block_max` reads
`gap ≠ 0` (the increment cannot wrap below `block_max`). -/
def find_free_block (blockarr : List (Option BlockPtr)) : Nat → Nat → Option Nat
  | 0, block_pos => some block_pos
  | gap + 1, block_pos =>
    match tommy_array_get blockarr block_pos with
    | some (some _) => find_free_block blockarr gap (block_pos + 1)
    | some none => some block_pos
    | none => none

/-- Local state of the loop of scan.c:94-108: the table of the disk, the block
vector of the file and the two counters. -/
structure insert_vars where
  blockarr : List (Option BlockPtr)
  blockvec : List snapraid_block
  block_pos : Nat
  block_max : Nat
  deriving DecidableEq, Repr

/-- One turn of the loop of scan.c:94-108, for the block of index `i`. -/
def scan_file_insert_block (fp : FilePtr) (i : Nat) (v : insert_vars) : Option insert_vars :=
  match find_free_block v.blockarr (v.block_max - v.block_pos) v.block_pos with
  | some block_pos =>
    let block_max := if block_pos = v.block_max then (v.block_max + 1) % BLOCK_OFF_MOD else v.block_max
    let grown := if block_pos = v.block_max then tommy_array_grow v.blockarr block_max else v.blockarr
    match v.blockvec[i]? with
    | some block =>
      match tommy_array_set grown block_pos (some { file := fp, idx := i }) with
      | some blockarr =>
        some { blockarr := blockarr,
               blockvec := v.blockvec.set i { block with parity_pos := block_pos },
               block_pos := block_pos,
               block_max := block_max }
      | none => none
    | none => none
  | none => none

/-- The loop of scan.c:94-108 from index `i` on, `n` being the number of turns
left (`file->blockmax - i`). -/
def scan_file_insert_loop (fp : FilePtr) : Nat → Nat → insert_vars → Option insert_vars
  | 0, _, v => some v
  | n + 1, i, v =>
    match scan_file_insert_block fp i v with
    | some v1 => scan_file_insert_loop fp n (i + 1) v1
    | none => none

/-- Inserts the specified file in the data set (scan.c:82-117).  The disk is
given by its index in `diskarr`, the file by its address. -/
def scan_file_insert (state : snapraid_state) (d : Nat) (fp : FilePtr) : Option snapraid_state :=
  match state.diskarr[d]?, heap_get state.files fp with
  | some disk, some file =>
    match scan_file_insert_loop fp file.blockmax 0
        { blockarr := disk.blockarr, blockvec := file.blockvec,
          block_pos := disk.first_free_block,
          block_max := tommy_array_size disk.blockarr } with
    | some v =>
      let first_free_block :=
        if file.blockmax ≠ 0 then (v.block_pos + 1) % BLOCK_OFF_MOD else disk.first_free_block
      some { state with
        need_write := true,
        files := state.files.set fp (some { file with blockvec := v.blockvec }),
        diskarr := state.diskarr.set d
          { disk with
            first_free_block := first_free_block,
            blockarr := v.blockarr,
            inodeset := disk.inodeset ++ [fp],
            filelist := disk.filelist ++ [fp] } }
    | none => none
  | _, _ => none


/-! ## Auxiliary notions for the allocator -/

/-- Content of the cell at position `p` of a table, positions at or past the
end reading as empty. -/
def cell (arr : List (Option BlockPtr)) (p : Nat) : Option BlockPtr :=
  match arr[p]? with
  | some c => c
  | none => none

/-- Parity position stored in the block of index `k` of a block vector. -/
def pos_at (vec : List snapraid_block) (k : Nat) : Nat :=
  match vec[k]? with
  | some b => b.parity_pos
  | none => POS_INVALID

/-- Relation between the local state `v` of the allocation loop before the
turns `i, ..., i + n - 1` and the local state `w` after them. -/
structure insert_post (fp : FilePtr) (n i : Nat) (v w : insert_vars) : Prop where
  len_vec : w.blockvec.length = v.blockvec.length
  vec_frame : ∀ k, k < i ∨ i + n ≤ k → w.blockvec[k]? = v.blockvec[k]?
  vec_fields : ∀ (k : Nat) (b1 : snapraid_block), w.blockvec[k]? = some b1 →
    ∃ b : snapraid_block, v.blockvec[k]? = some b ∧ b1 = { b with parity_pos := b1.parity_pos }
  max_len : w.block_max = w.blockarr.length
  len_ge : v.blockarr.length ≤ w.blockarr.length
  len_le : w.blockarr.length ≤ v.blockarr.length + n
  none_done : n = 0 → w = v
  last : 0 < n → w.block_pos = pos_at w.blockvec (i + n - 1) ∧
    w.blockarr.length = max v.blockarr.length (w.block_pos + 1)
  ge_start : ∀ k, i ≤ k → k < i + n → v.block_pos ≤ pos_at w.blockvec k
  was_free : ∀ k, i ≤ k → k < i + n → cell v.blockarr (pos_at w.blockvec k) = none
  now_set : ∀ k, i ≤ k → k < i + n →
    cell w.blockarr (pos_at w.blockvec k) = some { file := fp, idx := k }
  no_skip : ∀ k, i ≤ k → k < i + n → ∀ q, v.block_pos ≤ q → q < pos_at w.blockvec k →
    cell v.blockarr q = none → ∃ j, i ≤ j ∧ j < k ∧ pos_at w.blockvec j = q
  increasing : ∀ k, i ≤ k → k < i + n → ∀ j, i ≤ j → j < k →
    pos_at w.blockvec j < pos_at w.blockvec k
  arr_frame : ∀ q, (∀ k, i ≤ k → k < i + n → pos_at w.blockvec k ≠ q) →
    cell w.blockarr q = cell v.blockarr q

/-- A disk with a hole at position 1, hint 1, and a three-block file to insert. -/
def insert_example : snapraid_state :=
  { files := [some { sub := "a", size := 8, inode := 1,
                     blockvec := [{ parity_pos := 0 }, { parity_pos := 2 }] },
              some { sub := "b", size := 12, inode := 2, blockvec := [{}, {}, {}] }],
    diskarr := [{ name := "d0", first_free_block := 1, filelist := [0], inodeset := [0],
                  blockarr := [some { file := 0, idx := 0 }, none, some { file := 0, idx := 1 }] }],
    block_size := 4 }

/-! ## Auxiliary notions for scan_file_remove -/

/-- The store `files1` is the store `files` where the block records named by
`T` have lost the has-parity flag and nothing else has changed. -/
structure flags_cleared (T : BlockPtr → Prop) (files files1 : List (Option snapraid_file)) :
    Prop where
  len : files1.length = files.length
  dead : ∀ a, heap_get files a = none → heap_get files1 a = none
  live : ∀ (a : Nat) (file : snapraid_file), heap_get files a = some file →
    ∃ file1 : snapraid_file, heap_get files1 a = some file1 ∧
      file1 = { file with blockvec := file1.blockvec } ∧
      file1.blockvec.length = file.blockvec.length
  blocks : ∀ (bp : BlockPtr) (b : snapraid_block), block_get files bp = some b →
    ∃ b1 : snapraid_block, block_get files1 bp = some b1 ∧
      b1 = { b with has_parity := b1.has_parity } ∧
      (T bp → b1.has_parity = false) ∧ (¬ T bp → b1.has_parity = b.has_parity)

/-- Relation between the disk and the store of files before the turns
`i, ..., i + n - 1` of the loop of `scan_file_remove` and after them. -/
structure remove_post (d : Nat) (diskarr : List snapraid_disk) (file : snapraid_file)
    (n i : Nat) (disk disk1 : snapraid_disk)
    (files files1 : List (Option snapraid_file)) : Prop where
  disk_eq : disk1 = { disk with first_free_block := disk1.first_free_block,
                                blockarr := disk1.blockarr }
  len_arr : disk1.blockarr.length = disk.blockarr.length
  cleared : ∀ k, i ≤ k → k < i + n → cell disk1.blockarr (pos_at file.blockvec k) = none
  arr_frame : ∀ q, (∀ k, i ≤ k → k < i + n → pos_at file.blockvec k ≠ q) →
    cell disk1.blockarr q = cell disk.blockarr q
  hint_le : disk1.first_free_block ≤ disk.first_free_block
  hint_le_pos : ∀ k, i ≤ k → k < i + n → disk1.first_free_block ≤ pos_at file.blockvec k
  hint_cases : disk1.first_free_block = disk.first_free_block ∨
    ∃ k, i ≤ k ∧ k < i + n ∧ disk1.first_free_block = pos_at file.blockvec k
  flags : flags_cleared
    (fun bp => ∃ k, i ≤ k ∧ k < i + n ∧ ∃ (j : Nat) (oth : snapraid_disk),
      j ≠ d ∧ diskarr[j]? = some oth ∧
      cell oth.blockarr (pos_at file.blockvec k) = some bp) files files1

/-! ## Invariants of the allocator -/

/-- The parity positions held by the blocks of a file, in block order. -/
def positions (file : snapraid_file) : List Nat :=
  file.blockvec.map (fun b => b.parity_pos)

/-- First half of invariant I1 for one file of a disk: the file is live and,
for every `i < blockmax`, the cell `blockarr[blockvec[i].parity_pos]` is the
pointer to the record `blockvec[i]`. -/
def file_linked (state : snapraid_state) (disk : snapraid_disk) (fp : FilePtr) : Prop :=
  ∃ file, heap_get state.files fp = some file ∧
    ∀ i, i < file.blockmax →
      disk_block_get disk (pos_at file.blockvec i) = some { file := fp, idx := i }

/-- Second half of invariant I1 for one cell of a disk: a non-empty cell refers
to a record of a file of the disk, and that record holds the cell's position. -/
def cell_linked (state : snapraid_state) (disk : snapraid_disk) (p : Nat) : Prop :=
  ∀ bp, disk_block_get disk p = some bp →
    bp.file ∈ disk.filelist ∧ ∃ b, block_get state.files bp = some b ∧ b.parity_pos = p

/-- Invariant I1 on one disk: the cross-link between the block records of the
files of the disk and the cells of its allocation table. -/
def I1 (state : snapraid_state) (disk : snapraid_disk) : Prop :=
  (∀ fp, fp ∈ disk.filelist → file_linked state disk fp) ∧ ∀ p, cell_linked state disk p

/-- Invariant I1 on every disk of the array. -/
def I1_all (state : snapraid_state) : Prop :=
  ∀ disk, disk ∈ state.diskarr → I1 state disk

/-- Invariant I3 on one disk: no position strictly less than
`first_free_block` is free. -/
def I3 (disk : snapraid_disk) : Prop :=
  ∀ p, p < disk.first_free_block → disk_block_get disk p ≠ none

/-- Executable check of `file_linked`. -/
def file_linked_check (state : snapraid_state) (disk : snapraid_disk) (fp : FilePtr) : Bool :=
  match heap_get state.files fp with
  | some file =>
    (List.range file.blockmax).all (fun i =>
      disk_block_get disk (pos_at file.blockvec i) == some { file := fp, idx := i })
  | none => false

/-- Executable check of `cell_linked`. -/
def cell_linked_check (state : snapraid_state) (disk : snapraid_disk) (p : Nat) : Bool :=
  match disk_block_get disk p with
  | some bp =>
    disk.filelist.contains bp.file &&
      (match block_get state.files bp with
       | some b => b.parity_pos == p
       | none => false)
  | none => true

/-- Executable check of `I1`. -/
def I1_check (state : snapraid_state) (disk : snapraid_disk) : Bool :=
  disk.filelist.all (fun fp => file_linked_check state disk fp) &&
    (List.range disk.blockarr.length).all (fun p => cell_linked_check state disk p)

/-- Executable check of `I1_all`. -/
def I1_all_check (state : snapraid_state) : Bool :=
  state.diskarr.all (fun disk => I1_check state disk)

/-- Executable check of `I3`. -/
def I3_check (disk : snapraid_disk) : Bool :=
  (List.range disk.first_free_block).all (fun p => (disk_block_get disk p).isSome)

/-! ## Example state for removal -/

/-- Two disks: disk 0 holds `a` at positions 0 and 2 and `b` at position 1,
disk 1 holds `c` at positions 0, 1 and 2; every block has parity. -/
def remove_example : snapraid_state :=
  { files := [some { sub := "a", size := 8, inode := 1,
                     blockvec := [{ parity_pos := 0, has_parity := true },
                                  { parity_pos := 2, has_parity := true }] },
              some { sub := "b", size := 4, inode := 2,
                     blockvec := [{ parity_pos := 1, has_parity := true }] },
              some { sub := "c", size := 12, inode := 1,
                     blockvec := [{ parity_pos := 0, has_parity := true },
                                  { parity_pos := 1, has_parity := true },
                                  { parity_pos := 2, has_parity := true }] }],
    diskarr := [{ name := "d0", first_free_block := 3, filelist := [0, 1], inodeset := [0, 1],
                  blockarr := [some { file := 0, idx := 0 }, some { file := 1, idx := 0 },
                               some { file := 0, idx := 1 }] },
                { name := "d1", first_free_block := 3, filelist := [2], inodeset := [2],
                  blockarr := [some { file := 2, idx := 0 }, some { file := 2, idx := 1 },
                               some { file := 2, idx := 2 }] }],
    block_size := 4 }

/-! ## Example states for the compactness law -/

/-- A disk whose hint lags: `a` at position 0, a hole at position 1 left by an
earlier removal, `b` at position 2, hint 1; at address 2 a fresh one-block file. -/
def compact_example : snapraid_state :=
  { files := [some { sub := "a", size := 4, inode := 1, blockvec := [{ parity_pos := 0 }] },
              some { sub := "b", size := 4, inode := 2, blockvec := [{ parity_pos := 2 }] },
              some { sub := "c", size := 4, inode := 3, blockvec := [{}] }],
    diskarr := [{ name := "d0", first_free_block := 1, filelist := [0, 1], inodeset := [0, 1],
                  blockarr := [some { file := 0, idx := 0 }, none, some { file := 1, idx := 0 }] }],
    block_size := 4 }

/-- A full table: `a` at positions 0 and 2 and `b` at position 1; at address 2
a fresh two-block file. -/
def compact_full_example : snapraid_state :=
  { files := [some { sub := "a", size := 8, inode := 1,
                     blockvec := [{ parity_pos := 0 }, { parity_pos := 2 }] },
              some { sub := "b", size := 4, inode := 2, blockvec := [{ parity_pos := 1 }] },
              some { sub := "c", size := 7, inode := 3, blockvec := [{}, {}] }],
    diskarr := [{ name := "d0", first_free_block := 3, filelist := [0, 1], inodeset := [0, 1],
                  blockarr := [some { file := 0, idx := 0 }, some { file := 1, idx := 0 },
                               some { file := 0, idx := 1 }] }],
    block_size := 4 }

/-! ## File allocation and example states for insertion -/

/-- Modelled from the spec: `file_alloc` of elem.c, which is not part of the
sources at hand (elem.h:131 declares it): a file record with
`ceil(size / block_size)` block records, none of them placed, hashed or
covered by parity, and not yet seen as present. -/
def file_alloc (block_size : Nat) (sub : String) (size : Nat) (mtime : Int) (inode : Nat) :
    snapraid_file :=
  { sub := sub, size := size,
    blockvec := List.replicate ((size + block_size - 1) / block_size)
      { parity_pos := POS_INVALID, is_hashed := false, has_parity := false, hash := [] },
    mtime := mtime, inode := inode, is_present := false }

/-- Two empty disks and, at address 0, a freshly allocated file of 5 bytes for
a block size of 4. -/
def empty_example : snapraid_state :=
  { files := [some (file_alloc 4 "a" 5 0 7)],
    diskarr := [{ name := "d0" }, { name := "d1" }], block_size := 4 }

/-- Disk 0 is empty, disk 1 holds `c` at position 0 with valid parity; at
address 1 a fresh one-block file. -/
def parity_example : snapraid_state :=
  { files := [some { sub := "c", size := 4, inode := 1,
                     blockvec := [{ parity_pos := 0, has_parity := true }] },
              some (file_alloc 4 "a" 3 0 2)],
    diskarr := [{ name := "d0" },
                { name := "d1", first_free_block := 1, filelist := [0], inodeset := [0],
                  blockarr := [some { file := 0, idx := 0 }] }],
    block_size := 4 }

/-! ## Scan engine (scan.c:119-628) -/

/-- The members of `struct stat` read by scan.c. -/
structure stat where
  st_ino : Nat := 0
  st_size : Nat := 0
  st_mtime : Int := 0
  st_nlink : Nat := 1
  deriving DecidableEq, Repr

/-- Counters of changes and delayed insert lists of one disk,
`struct snapraid_scan` (scan.c:24-36).  The counters are `unsigned`; they count
entries of one directory walk and are kept as natural numbers. -/
structure snapraid_scan where
  count_equal : Nat := 0
  count_moved : Nat := 0
  count_change : Nat := 0
  count_remove : Nat := 0
  count_insert : Nat := 0
  file_insert_list : List FilePtr := []
  link_insert_list : List LinkPtr := []
  deriving DecidableEq, Repr

/-- Ways in which the scan does not return: `fatal` is `exit(EXIT_FAILURE)`,
`fault` is an access outside an array or through a dangling pointer. -/
inductive scan_error where
  | fatal
  | fault
  deriving DecidableEq, Repr

/-- Modelled from the spec: `tommy_hashdyn_search` on the by-inode set of a
disk with `file_inode_compare`: the first file of the set with this inode. -/
def inodeset_search (files : List (Option snapraid_file)) (inodeset : List FilePtr)
    (inode : Nat) : Option FilePtr :=
  inodeset.find? (fun fp =>
    match heap_get files fp with
    | some file => file.inode == inode
    | none => false)

/-- Modelled from the spec: `tommy_hashdyn_search` on the by-path set of the
links of a disk with `link_name_compare`: the first link of the set with this
sub-path. -/
def linkset_search (links : List (Option snapraid_link)) (linkset : List LinkPtr)
    (sub : String) : Option LinkPtr :=
  linkset.find? (fun lp =>
    match heap_get links lp with
    | some link => link.sub == sub
    | none => false)

/-- Modelled from the spec: `link_alloc` of elem.c, which is not part of the
sources at hand: a link record with this sub-path and target, not yet seen as
present. -/
def link_alloc (sub : String) (linkto : String) : snapraid_link :=
  { sub := sub, linkto := linkto, is_present := false }

/-- The end of `scan_file` (scan.c:225-232): a new file record is allocated,
marked as present and appended to the delayed insert list. -/
def scan_file_delayed_insert (scan : snapraid_scan) (state : snapraid_state)
    (sub : String) (st : stat) : snapraid_scan × snapraid_state :=
  let file := file_alloc state.block_size sub st.st_size st.st_mtime st.st_ino
  let fp := state.files.length
  ({ scan with file_insert_list := scan.file_insert_list ++ [fp] },
   { state with files := state.files ++ [some { file with is_present := true }] })

/-- Processes a file (scan.c:122-233); printing is left out. -/
def scan_file (scan : snapraid_scan) (state : snapraid_state) (d : Nat) (sub : String)
    (st : stat) : Except scan_error (snapraid_scan × snapraid_state) :=
  match state.diskarr[d]? with
  | none => .error .fault
  | some disk =>
    match inodeset_search state.files disk.inodeset st.st_ino with
    | some fp =>
      match heap_get state.files fp with
      | none => .error .fault
      | some file =>
        if file.is_present then
          -- multiple files have the same inode
          if st.st_nlink > 1 then .ok (scan, state) else .error .fatal
        else if file.size = st.st_size ∧ file.mtime = st.st_mtime then
          -- the file is not changed: mark as present
          if file.sub ≠ sub then
            .ok ({ scan with count_moved := scan.count_moved + 1 },
                 { state with
                   files := state.files.set fp (some { file with is_present := true, sub := sub }),
                   need_write := true })
          else
            .ok ({ scan with count_equal := scan.count_equal + 1 },
                 { state with
                   files := state.files.set fp (some { file with is_present := true }) })
        else if file.size ≠ 0 ∧ st.st_size = 0 ∧ file.sub = sub ∧ state.force_zero = false then
          .error .fatal
        else
          let scan1 :=
            if file.sub = sub then { scan with count_change := scan.count_change + 1 }
            else { scan with count_remove := scan.count_remove + 1,
                             count_insert := scan.count_insert + 1 }
          match scan_file_remove state d fp with
          | some state1 => .ok (scan_file_delayed_insert scan1 state1 sub st)
          | none => .error .fault
    | none => .ok (scan_file_delayed_insert scan state sub st)

/-- Removes the specified link from the data set (scan.c:238-249). -/
def scan_link_remove (state : snapraid_state) (d : Nat) (lp : LinkPtr) : Option snapraid_state :=
  match state.diskarr[d]?, heap_get state.links lp with
  | some disk, some _ =>
    some { state with
      need_write := true,
      diskarr := state.diskarr.set d
        { disk with
          linkset := disk.linkset.filter (fun p => p != lp),
          linklist := disk.linklist.filter (fun p => p != lp) },
      links := state.links.set lp none }
  | _, _ => none

/-- Inserts the specified link in the data set (scan.c:254-262). -/
def scan_link_insert (state : snapraid_state) (d : Nat) (lp : LinkPtr) : Option snapraid_state :=
  match state.diskarr[d]? with
  | some disk =>
    some { state with
      need_write := true,
      diskarr := state.diskarr.set d
        { disk with
          linkset := disk.linkset ++ [lp],
          linklist := disk.linklist ++ [lp] } }
  | none => none

/-- Processes a symbolic link (scan.c:267-323); printing is left out. -/
def scan_link (scan : snapraid_scan) (state : snapraid_state) (d : Nat) (sub : String)
    (linkto : String) : Except scan_error (snapraid_scan × snapraid_state) :=
  match state.diskarr[d]? with
  | none => .error .fault
  | some disk =>
    match linkset_search state.links disk.linkset sub with
    | some lp =>
      match heap_get state.links lp with
      | none => .error .fault
      | some link =>
        if link.is_present then .error .fatal
        else if link.linkto = linkto then
          .ok ({ scan with count_equal := scan.count_equal + 1 },
               { state with links := state.links.set lp (some { link with is_present := true }) })
        else
          .ok ({ scan with count_change := scan.count_change + 1 },
               { state with
                 links := state.links.set lp
                   (some { link with is_present := true, linkto := linkto }) })
    | none =>
      let lp := state.links.length
      .ok ({ scan with link_insert_list := scan.link_insert_list ++ [lp] },
           { state with
             links := state.links ++ [some { link_alloc sub linkto with is_present := true }] })

/-- Modelled from the spec: the system path maximum `PATH_MAX` of portable.h. -/
def PATH_MAX : Nat := 4096

mutual

/-- What the file system reports for one name returned by `readdir`
(scan.c:348-443): the outcome of `lstat` and of the call that follows it. -/
inductive dir_entry where
  /-- The call to `lstat` fails. -/
  | lstat_error (name : String)
  /-- Regular file, with its `stat` and the outcome of `access(R_OK)`. -/
  | reg (name : String) (st : stat) (readable : Bool)
  /-- Symbolic link, with the outcome of `readlink`, `none` on error. -/
  | lnk (name : String) (readlink : Option String)
  /-- Directory, with what `opendir` and `readdir` give for it. -/
  | dir (name : String) (content : dir_stream)
  /-- Anything else. -/
  | special (name : String)

/-- What `opendir`, the successive `readdir` and `closedir` give for one
directory (scan.c:332-449). -/
inductive dir_stream where
  /-- The call to `opendir` fails. -/
  | open_error
  /-- The call to `readdir` fails. -/
  | read_error
  /-- No more entry from `readdir`; `closed` tells whether `closedir` succeeds. -/
  | finished (closed : Bool)
  /-- One entry returned by `readdir`, and what comes after it. -/
  | entry (e : dir_entry) (rest : dir_stream)
end

/-- Name of a directory entry, `dd->d_name`. -/
def dir_entry.name : dir_entry → String
  | .lstat_error name => name
  | .reg name _ _ => name
  | .lnk name _ => name
  | .dir name _ => name
  | .special name => name

/-- Names refused by scan.c:367: empty, with a newline, or ending with a
carriage return. -/
def unsupported_name (name : String) : Bool :=
  name.data.isEmpty || name.data.contains (Char.ofNat 10) ||
    name.data.getLast? == some (Char.ofNat 13)

mutual

/-- Processes a directory (scan.c:328-450) whose stream is given; `excluded`
stands for `filter_path(&state->filterlist, sub, is_dir) != 0`.  Printing and
the Windows-only `lstat_inode` are left out. -/
def scan_dir (excluded : String → Bool → Bool) (d : Nat) (sub : String) :
    dir_stream → snapraid_scan → snapraid_state →
    Except scan_error (snapraid_scan × snapraid_state)
  | .open_error, _, _ => .error .fatal
  | .read_error, _, _ => .error .fatal
  | .finished closed, scan, state => if closed then .ok (scan, state) else .error .fatal
  | .entry e rest, scan, state =>
    match scan_dir_entry excluded d sub e scan state with
    | .ok (scan1, state1) => scan_dir excluded d sub rest scan1 state1
    | .error err => .error err

/-- One turn of the loop of `scan_dir` (scan.c:339-444). -/
def scan_dir_entry (excluded : String → Bool → Bool) (d : Nat) (sub : String) :
    dir_entry → snapraid_scan → snapraid_state →
    Except scan_error (snapraid_scan × snapraid_state)
  | .lstat_error name, scan, state =>
    if name = "." ∨ name = ".." then .ok (scan, state)
    else .error .fatal
  | .reg name st readable, scan, state =>
    if name = "." ∨ name = ".." then .ok (scan, state)
    else if unsupported_name name then .error .fatal
    else if excluded (sub ++ name) false then .ok (scan, state)
    else if readable then scan_file scan state d (sub ++ name) st
    else .ok (scan, state)
  | .lnk name readlink, scan, state =>
    if name = "." ∨ name = ".." then .ok (scan, state)
    else if unsupported_name name then .error .fatal
    else if excluded (sub ++ name) false then .ok (scan, state)
    else
      match readlink with
      | some linkto =>
        if linkto.utf8ByteSize ≥ PATH_MAX then .error .fatal
        else scan_link scan state d (sub ++ name) linkto
      | none => .error .fatal
  | .dir name content, scan, state =>
    if name = "." ∨ name = ".." then .ok (scan, state)
    else if unsupported_name name then .error .fatal
    else if excluded (sub ++ name) true then .ok (scan, state)
    else scan_dir excluded d (sub ++ name ++ "/") content scan state
  | .special name, scan, state =>
    if name = "." ∨ name = ".." then .ok (scan, state)
    else if unsupported_name name then .error .fatal
    else .ok (scan, state)
end

/-- Check for removed files (scan.c:477-499): every file of the list that was
not seen as present is counted and removed. -/
def scan_removed_files (d : Nat) :
    List FilePtr → snapraid_scan → snapraid_state →
    Except scan_error (snapraid_scan × snapraid_state)
  | [], scan, state => .ok (scan, state)
  | fp :: rest, scan, state =>
    match heap_get state.files fp with
    | some file =>
      if file.is_present then scan_removed_files d rest scan state
      else
        match scan_file_remove state d fp with
        | some state1 =>
          scan_removed_files d rest { scan with count_remove := scan.count_remove + 1 } state1
        | none => .error .fault
    | none => .error .fault

/-- Check for removed links (scan.c:501-523). -/
def scan_removed_links (d : Nat) :
    List LinkPtr → snapraid_scan → snapraid_state →
    Except scan_error (snapraid_scan × snapraid_state)
  | [], scan, state => .ok (scan, state)
  | lp :: rest, scan, state =>
    match heap_get state.links lp with
    | some link =>
      if link.is_present then scan_removed_links d rest scan state
      else
        match scan_link_remove state d lp with
        | some state1 =>
          scan_removed_links d rest { scan with count_remove := scan.count_remove + 1 } state1
        | none => .error .fault
    | none => .error .fault

/-- The statement `++scan->count_insert` of scan.c:534 and scan.c:557, where
`scan` is the array of all the disks: it counts in the first record. -/
def count_insert_first (scans : List snapraid_scan) : List snapraid_scan :=
  match scans with
  | [] => []
  | first :: others => { first with count_insert := first.count_insert + 1 } :: others

/-- Insert all the new files of disk `d` (scan.c:525-546). -/
def scan_insert_files (d : Nat) :
    List FilePtr → List snapraid_scan → snapraid_state →
    Except scan_error (List snapraid_scan × snapraid_state)
  | [], scans, state => .ok (scans, state)
  | fp :: rest, scans, state =>
    match scan_file_insert state d fp with
    | some state1 => scan_insert_files d rest (count_insert_first scans) state1
    | none => .error .fault

/-- Insert all the new links of disk `d` (scan.c:548-569). -/
def scan_insert_links (d : Nat) :
    List LinkPtr → List snapraid_scan → snapraid_state →
    Except scan_error (List snapraid_scan × snapraid_state)
  | [], scans, state => .ok (scans, state)
  | lp :: rest, scans, state =>
    match scan_link_insert state d lp with
    | some state1 => scan_insert_links d rest (count_insert_first scans) state1
    | none => .error .fault

/-- One turn of the loop over the disks of `state_scan` (scan.c:469-570), for
the disk of index `i`; `dirs i` is what the file system gives for the
directory of that disk. -/
def state_scan_disk (excluded : String → Bool → Bool) (dirs : Nat → dir_stream) (i : Nat)
    (scans : List snapraid_scan) (state : snapraid_state) :
    Except scan_error (List snapraid_scan × snapraid_state) :=
  match scans[i]? with
  | none => .error .fault
  | some scan =>
    match scan_dir excluded i "" (dirs i) scan state with
    | .error err => .error err
    | .ok (scan1, state1) =>
      match state1.diskarr[i]? with
      | none => .error .fault
      | some disk1 =>
        match scan_removed_files i disk1.filelist scan1 state1 with
        | .error err => .error err
        | .ok (scan2, state2) =>
          match state2.diskarr[i]? with
          | none => .error .fault
          | some disk2 =>
            match scan_removed_links i disk2.linklist scan2 state2 with
            | .error err => .error err
            | .ok (scan3, state3) =>
              match scan_insert_files i scan3.file_insert_list (scans.set i scan3) state3 with
              | .error err => .error err
              | .ok (scans4, state4) =>
                scan_insert_links i scan3.link_insert_list scans4 state4

/-- The loop over the disks of `state_scan` (scan.c:469-570) from index `i`
on, `n` being the number of turns left (`diskmax - i`). -/
def state_scan_loop (excluded : String → Bool → Bool) (dirs : Nat → dir_stream) :
    Nat → Nat → List snapraid_scan → snapraid_state →
    Except scan_error (List snapraid_scan × snapraid_state)
  | 0, _, scans, state => .ok (scans, state)
  | n + 1, i, scans, state =>
    match state_scan_disk excluded dirs i scans state with
    | .ok (scans1, state1) => state_scan_loop excluded dirs n (i + 1) scans1 state1
    | .error err => .error err

/-- The test of scan.c:578 on the counters of one disk: all the files
previously present are now missing or rewritten. -/
def scan_has_empty (scan : snapraid_scan) : Bool :=
  scan.count_equal == 0 && scan.count_moved == 0 && scan.count_remove != 0

/-- The scan of all the disks, `state_scan` (scan.c:452-628).  The result is
the array of the counters of the disks and the new state; printing is left
out. -/
def state_scan (excluded : String → Bool → Bool) (dirs : Nat → dir_stream)
    (state : snapraid_state) : Except scan_error (List snapraid_scan × snapraid_state) :=
  let diskmax := state.diskarr.length
  match state_scan_loop excluded dirs diskmax 0 (List.replicate diskmax {}) state with
  | .error err => .error err
  | .ok (scans, state1) =>
    if state1.force_empty = false ∧ scans.any scan_has_empty = true then .error .fatal
    else .ok (scans, state1)

/-- A regular file or a symbolic link met by the directory walk, with its
sub-path. -/
inductive walk_item where
  | file (sub : String) (st : stat)
  | link (sub : String) (linkto : String)
  deriving DecidableEq, Repr

mutual

/-- The files and links that the walk of a directory hands to `scan_file` and
`scan_link`, in order; `none` when the walk itself meets a fatal condition. -/
def walk_dir (excluded : String → Bool → Bool) (sub : String) :
    dir_stream → Option (List walk_item)
  | .open_error => none
  | .read_error => none
  | .finished closed => if closed then some [] else none
  | .entry e rest =>
    match walk_dir_entry excluded sub e, walk_dir excluded sub rest with
    | some items, some items1 => some (items ++ items1)
    | _, _ => none

/-- The files and links met through one directory entry. -/
def walk_dir_entry (excluded : String → Bool → Bool) (sub : String) :
    dir_entry → Option (List walk_item)
  | .lstat_error name => if name = "." ∨ name = ".." then some [] else none
  | .reg name st readable =>
    if name = "." ∨ name = ".." then some []
    else if unsupported_name name then none
    else if excluded (sub ++ name) false then some []
    else if readable then some [.file (sub ++ name) st]
    else some []
  | .lnk name readlink =>
    if name = "." ∨ name = ".." then some []
    else if unsupported_name name then none
    else if excluded (sub ++ name) false then some []
    else
      match readlink with
      | some linkto =>
        if linkto.utf8ByteSize ≥ PATH_MAX then none else some [.link (sub ++ name) linkto]
      | none => none
  | .dir name content =>
    if name = "." ∨ name = ".." then some []
    else if unsupported_name name then none
    else if excluded (sub ++ name) true then some []
    else walk_dir excluded (sub ++ name ++ "/") content
  | .special name =>
    if name = "." ∨ name = ".." then some []
    else if unsupported_name name then none
    else some []
end

/-- The call to `scan_file` or `scan_link` for one walk item. -/
def scan_item (d : Nat) (item : walk_item) (scan : snapraid_scan) (state : snapraid_state) :
    Except scan_error (snapraid_scan × snapraid_state) :=
  match item with
  | .file sub st => scan_file scan state d sub st
  | .link sub linkto => scan_link scan state d sub linkto

/-- The calls to `scan_file` and `scan_link` for a sequence of walk items. -/
def scan_items (d : Nat) :
    List walk_item → snapraid_scan → snapraid_state →
    Except scan_error (snapraid_scan × snapraid_state)
  | [], scan, state => .ok (scan, state)
  | item :: rest, scan, state =>
    match scan_item d item scan state with
    | .ok (scan1, state1) => scan_items d rest scan1 state1
    | .error err => .error err

/-- Stream of a directory holding the given entries, read and closed without
error. -/
def dir_of (entries : List dir_entry) : dir_stream :=
  entries.foldr (fun e rest => .entry e rest) (.finished true)

/-- Seed scenario 1 before the first scan: two disks, nothing recorded. -/
def seed_state : snapraid_state :=
  { diskarr := [{ name := "d0", dir := "/mnt/d0/" }, { name := "d1", dir := "/mnt/d1/" }],
    block_size := 4 }

/-- Seed scenario 1: disk 0 contains `a` (5 bytes), disk 1 is empty. -/
def seed_dirs : Nat → dir_stream
  | 0 => dir_of [.dir "." (.finished true), .reg "a" { st_ino := 7, st_size := 5, st_mtime := 100 } true]
  | _ => dir_of []

/-! ## Example state with one recorded file -/

/-- Seed scenario 2 before the scan: disk 0 records `a` (5 bytes, inode 7) at
positions 0 and 1, disk 1 records nothing. -/
def recorded_example : snapraid_state :=
  { files := [some { sub := "a", size := 5, mtime := 100, inode := 7,
                     blockvec := [{ parity_pos := 0, has_parity := true },
                                  { parity_pos := 1, has_parity := true }] }],
    diskarr := [{ name := "d0", dir := "/mnt/d0/", first_free_block := 2, filelist := [0],
                  inodeset := [0],
                  blockarr := [some { file := 0, idx := 0 }, some { file := 0, idx := 1 }] },
                { name := "d1", dir := "/mnt/d1/" }],
    block_size := 4 }

/-! ## Notions for the idempotence of the scan -/

/-- The state `state1` is the state `state` where the files named by `Fs` and
the links named by `Ls` are now marked as present, nothing else differing. -/
structure marked_present (Fs : FilePtr → Prop) (Ls : LinkPtr → Prop)
    (state state1 : snapraid_state) : Prop where
  frame : state1 = { state with files := state1.files, links := state1.links }
  files_in : ∀ fp, Fs fp → ∀ file, heap_get state.files fp = some file →
    heap_get state1.files fp = some { file with is_present := true }
  files_out : ∀ fp, ¬ Fs fp → heap_get state1.files fp = heap_get state.files fp
  files_dead : ∀ fp, heap_get state.files fp = none → heap_get state1.files fp = none
  links_in : ∀ lp, Ls lp → ∀ link, heap_get state.links lp = some link →
    heap_get state1.links lp = some { link with is_present := true }
  links_out : ∀ lp, ¬ Ls lp → heap_get state1.links lp = heap_get state.links lp
  links_dead : ∀ lp, heap_get state.links lp = none → heap_get state1.links lp = none

/-- The walk item `item` is what an unchanged file system yields for the
recorded file or link `ptr`: same sub-path, inode, size and mtime for a file,
same sub-path and target for a link. -/
def recorded_entry (state : snapraid_state) (ptr : FilePtr ⊕ LinkPtr) (item : walk_item) : Prop :=
  match ptr, item with
  | .inl fp, .file sub st =>
    ∃ file, heap_get state.files fp = some file ∧ file.sub = sub ∧
      file.inode = st.st_ino ∧ file.size = st.st_size ∧ file.mtime = st.st_mtime
  | .inr lp, .link sub linkto =>
    ∃ link, heap_get state.links lp = some link ∧ link.sub = sub ∧ link.linkto = linkto
  | _, _ => False

/-- No file and no link recorded on the disk is marked as present. -/
def none_present (state : snapraid_state) (disk : snapraid_disk) : Prop :=
  (∀ fp, fp ∈ disk.filelist →
    (heap_get state.files fp).map (fun file => file.is_present) ≠ some true) ∧
  (∀ lp, lp ∈ disk.linklist →
    (heap_get state.links lp).map (fun link => link.is_present) ≠ some true)

/-- The indexes of a disk agree with its lists, and the keys are unique: the
by-inode set holds the files of the file list, whose inodes are pairwise
distinct (invariant I4), and the by-path set holds the links of the link list,
whose sub-paths are pairwise distinct. -/
def disk_indexed (state : snapraid_state) (disk : snapraid_disk) : Prop :=
  disk.inodeset.Perm disk.filelist ∧ disk.linkset.Perm disk.linklist ∧
  (disk.filelist.map (fun fp => (heap_get state.files fp).map (fun file => file.inode))).Nodup ∧
  (disk.linklist.map (fun lp => (heap_get state.links lp).map (fun link => link.sub))).Nodup

/-- Every file and every link is recorded on one disk only. -/
def disks_disjoint (state : snapraid_state) : Prop :=
  state.diskarr.Pairwise (fun a b =>
    (∀ fp, fp ∈ a.filelist → fp ∉ b.filelist) ∧ (∀ lp, lp ∈ a.linklist → lp ∉ b.linklist))

/-- The walk of the directory of disk `i` meets no fatal condition and yields
exactly one entry per recorded file and one per recorded link of the disk,
each unchanged, and nothing else; `ptrs` is the order in which the recorded
files and links are met. -/
def walk_unchanged (excluded : String → Bool → Bool) (dirs : Nat → dir_stream)
    (state : snapraid_state) (i : Nat) (disk : snapraid_disk) : Prop :=
  ∃ items ptrs, walk_dir excluded "" (dirs i) = some items ∧
    ptrs.Perm (disk.filelist.map Sum.inl ++ disk.linklist.map Sum.inr) ∧
    List.Forall₂ (recorded_entry state) ptrs items

/-- The counters of a disk whose `n` recorded files and links are all found
unchanged. -/
def scan_all_equal (n : Nat) : snapraid_scan := { count_equal := n }

/-! ## Example state for the idempotence of the scan -/

/-- Two disks after a scan and a reload: disk 0 records the files `a` and
`sub/c` and the link `l`, disk 1 records the file `b`; nothing is marked as
present. -/
def idempotent_example : snapraid_state :=
  { files := [some { sub := "a", size := 5, mtime := 100, inode := 7,
                     blockvec := [{ parity_pos := 0 }, { parity_pos := 1 }] },
              some { sub := "sub/c", size := 3, mtime := 101, inode := 9,
                     blockvec := [{ parity_pos := 2 }] },
              some { sub := "b", size := 4, mtime := 102, inode := 7,
                     blockvec := [{ parity_pos := 0 }] }],
    links := [some { sub := "l", linkto := "a" }],
    diskarr := [{ name := "d0", dir := "/mnt/d0/", first_free_block := 3, filelist := [0, 1],
                  inodeset := [1, 0], linklist := [0], linkset := [0],
                  blockarr := [some { file := 0, idx := 0 }, some { file := 0, idx := 1 },
                               some { file := 1, idx := 0 }] },
                { name := "d1", dir := "/mnt/d1/", first_free_block := 1, filelist := [2],
                  inodeset := [2], blockarr := [some { file := 2, idx := 0 }] }],
    block_size := 4 }

/-- The directories of the two disks of `idempotent_example`, unchanged. -/
def idempotent_dirs : Nat → dir_stream
  | 0 => dir_of [.dir "." (.finished true), .dir ".." (.finished true),
                 .lnk "l" (some "a"),
                 .dir "sub" (dir_of [.reg "c" { st_ino := 9, st_size := 3, st_mtime := 101 } true]),
                 .reg "a" { st_ino := 7, st_size := 5, st_mtime := 100 } true]
  | _ => dir_of [.reg "b" { st_ino := 7, st_size := 4, st_mtime := 102 } true]

/-! ## Example states for the safety checks of scan_file -/

/-- Seed scenario 5 before the scan: the state of `recorded_example` with
`force_zero` set. -/
def zero_example : snapraid_state :=
  { recorded_example with force_zero := true }

/-- The state of `recorded_example` in the middle of a scan that has already
met the file `a`. -/
def present_example : snapraid_state :=
  { recorded_example with
    files := [some { sub := "a", size := 5, mtime := 100, inode := 7, is_present := true,
                     blockvec := [{ parity_pos := 0, has_parity := true },
                                  { parity_pos := 1, has_parity := true }] }] }

/-! ## Example directories for the counters of the scan -/

/-- Seed scenario 4: the directory of disk 0 holds only `c`, with the inode
and the size recorded for `a` and another modification time; disk 1 is empty. -/
def reuse_dirs : Nat → dir_stream
  | 0 => dir_of [.reg "c" { st_ino := 7, st_size := 5, st_mtime := 200 } true]
  | _ => dir_of []

/-- Two empty disks as in `seed_state`; the directory of disk 1 holds a new
file `b` and a new symbolic link `l`, the directory of disk 0 is empty. -/
def new_dirs : Nat → dir_stream
  | 1 => dir_of [.reg "b" { st_ino := 3, st_size := 5, st_mtime := 200 } true,
                 .lnk "l" (some "b")]
  | _ => dir_of []

/-! ## File handles (handle.c) -/

/-- Modelled from the spec: `struct snapraid_handle` of handle.h, one slot of
the handle vector: the disk of the slot (its index in the array of disks), the
file currently open (`none` for the null pointer), the descriptor (-1 when
closed) and the cached path. -/
structure snapraid_handle where
  disk : Option Nat := none
  file : Option FilePtr := none
  f : Int := -1
  path : String := ""
  deriving DecidableEq, Repr

/-- What a function of handle.c does outside of the slot: the system calls
with their results, and the formatting of an error message from
`handle->file->sub` at a point where `handle->file` has been set to 0. -/
inductive handle_call where
  | call_open (path : String) (ret : Int)
  | call_fadvise (fd : Int) (ok : Bool)
  | call_pread (fd : Int) (offset size : Nat) (ok : Bool)
  | call_close (fd : Int) (ok : Bool)
  | cleared_file_read
  deriving DecidableEq, Repr

/-- Result of a function of handle.c: the value returned, the slot afterwards
and the calls made, in order. -/
structure handle_result where
  ret : Int
  handle : snapraid_handle
  calls : List handle_call
  deriving DecidableEq, Repr

/-- Closes the file of the slot, `handle_close` (handle.c:161-181);
`close_ok` tells whether `close` returns 0. -/
def handle_close (close_ok : Bool) (handle : snapraid_handle) : handle_result :=
  if handle.f ≠ -1 then
    if close_ok = false then
      { ret := -1,
        handle := { handle with file := none, f := -1 },
        calls := [.call_close handle.f false, .cleared_file_read] }
    else
      { ret := 0,
        handle := { handle with file := none, f := -1 },
        calls := [.call_close handle.f true] }
  else
    { ret := 0, handle := { handle with file := none, f := -1 }, calls := [] }

/-- Opens the file `fp` for reading in the slot, `handle_open`
(handle.c:125-159).  `open_ret` is what `open` returns, `fadvise` what
`posix_fadvise` gives where it exists (`none` where `HAVE_POSIX_FADVISE` is
unset, otherwise whether it returns 0).  The result is `none` when the disk of
the slot or the file is not a live object. -/
def handle_open (state : snapraid_state) (open_ret : Int) (fadvise : Option Bool)
    (handle : snapraid_handle) (fp : FilePtr) : Option handle_result :=
  if handle.file = some fp ∧ handle.f ≠ -1 then
    some { ret := 0, handle := handle, calls := [] }
  else
    match handle.disk with
    | none => none
    | some d =>
      match state.diskarr[d]?, heap_get state.files fp with
      | some disk, some file =>
        let path := disk.dir ++ file.sub
        if open_ret = -1 then
          some { ret := -1,
                 handle := { handle with path := path, file := none, f := -1 },
                 calls := [.call_open path open_ret] }
        else
          let opened : snapraid_handle :=
            { handle with path := path, file := some fp, f := open_ret }
          match fadvise with
          | some false =>
            some { ret := -1, handle := opened,
                   calls := [.call_open path open_ret, .call_fadvise open_ret false] }
          | some true =>
            some { ret := 0, handle := opened,
                   calls := [.call_open path open_ret, .call_fadvise open_ret true] }
          | none =>
            some { ret := 0, handle := opened, calls := [.call_open path open_ret] }
      | _, _ => none

/-- Modelled from the spec: `block_file_pos` of elem.h, the position of a block
inside its file. -/
def block_file_pos (block : BlockPtr) : Nat :=
  block.idx

/-- Modelled from the spec: `block_file_size` of elem.h, the size in bytes of a
block: `block_size`, except for the last block of a file, which holds
`file.size - file_pos * block_size` bytes. -/
def block_file_size (file : snapraid_file) (block : BlockPtr) (block_size : Nat) : Nat :=
  if block_file_pos block + 1 = file.blockmax then
    file.size - block_file_pos block * block_size
  else block_size

/-- Reads a block through the slot, `handle_read` (handle.c:183-209), in the
`HAVE_PREAD` variant; `read_ok` tells whether `pread` returns `read_size`.
The result is `none` when the file of the block is not a live object. -/
def handle_read (state : snapraid_state) (read_ok : Bool) (handle : snapraid_handle)
    (block : BlockPtr) (block_size : Nat) : Option handle_result :=
  match heap_get state.files block.file with
  | none => none
  | some file =>
    let offset := block_file_pos block * block_size
    let read_size := block_file_size file block block_size
    if read_ok = false then
      some { ret := -1, handle := handle,
             calls := [.call_pread handle.f offset read_size false] }
    else
      some { ret := read_size, handle := handle,
             calls := [.call_pread handle.f offset read_size true] }

/-! ## Dry (cmdline/dry.c) -/

/-- Modelled from the spec: `handle_map`, the handle vector of a pass, one
closed slot per data disk. -/
def handle_map (state : snapraid_state) : List snapraid_handle :=
  (List.range state.diskarr.length).map (fun j => { disk := some j })

/-- Modelled from the spec: `fs_par2block_get`, the cell of the allocation
table of the disk at a parity position, empty past the end of the table.  A
block has a file (`block_has_file`) when the cell is not empty; the file and
the position in the file given by `fs_par2file_get` are then the two members
of the block pointer. -/
def fs_par2block_get (disk : snapraid_disk) (pos : Nat) : Option BlockPtr :=
  disk_block_get disk pos

/-- Modelled from the spec: `parity_allocated_size`, the length of the parity
column, the maximum over the disks of the size of the allocation table. -/
def parity_allocated_size (state : snapraid_state) : Nat :=
  (state.diskarr.map (fun disk => tommy_array_size disk.blockarr)).foldl max 0

/-- What the platform answers to the calls of one pass of dry.  A call is
named by the parity position and the slot (or the parity level) it is made
for; the closing loop at the end of the pass calls `close` for the position
`blockmax`. -/
structure dry_env where
  /-- Whether `HAVE_POSIX_FADVISE` is set. -/
  have_fadvise : Bool := false
  /-- Value returned by `open`. -/
  open_ret : Nat → Nat → Int := fun _ _ => 3
  /-- Whether `posix_fadvise` returns 0. -/
  fadvise_ok : Nat → Nat → Bool := fun _ _ => true
  /-- Whether `pread` returns the size asked for. -/
  read_ok : Nat → Nat → Bool := fun _ _ => true
  /-- Whether `close` returns 0. -/
  close_ok : Nat → Nat → Bool := fun _ _ => true
  /-- Whether `parity_read` succeeds, by position and level. -/
  parity_read_ok : Nat → Nat → Bool := fun _ _ => true
  /-- Whether `state_progress` asks to stop after the position. -/
  progress_stop : Nat → Bool := fun _ => false
  /-- Whether `parity_open` succeeds, by level. -/
  parity_open_ok : Nat → Bool := fun _ => true
  /-- Whether `parity_close` succeeds, by level. -/
  parity_close_ok : Nat → Bool := fun _ => true

/-- Observable steps of a pass of dry, in order. -/
inductive dry_event where
  /-- Call of handle.c made for the cell at `pos` of the slot, whose block
  belongs to `file`. -/
  | data (pos slot : Nat) (file : FilePtr) (call : handle_call)
  /-- Call of handle.c made by the closing loop for the slot. -/
  | final (slot : Nat) (call : handle_call)
  /-- Call of `parity_read`. -/
  | parity (pos level : Nat) (ok : Bool)
  /-- Line `error:<pos>:<disk>:<sub>: ...` of the log, for the disk of the slot. -/
  | tag_error (pos slot : Nat)
  /-- Line `parity_error:<pos>:<level>: ...` of the log. -/
  | tag_parity_error (pos level : Nat)
  /-- Call of `state_progress` at the end of a position. -/
  | progress (pos : Nat) (stop : Bool)
  /-- Call of `parity_open`. -/
  | parity_open (level : Nat) (ok : Bool)
  /-- Call of `parity_close`. -/
  | parity_close (level : Nat) (ok : Bool)
  deriving DecidableEq, Repr

/-- Local state of `state_dry_process`: the handle vector, the counter of
errors and the steps made so far.  The counter is `unsigned`; it counts failed
calls of one pass and is kept as a natural number. -/
structure dry_vars where
  handle : List snapraid_handle := []
  error : Nat := 0
  trace : List dry_event := []
  deriving DecidableEq, Repr

/-- The read of dry.c:110-122 for the cell at `i` of slot `j`, through the
slot `h`. -/
def state_dry_read (env : dry_env) (state : snapraid_state) (i j : Nat) (block : BlockPtr)
    (h : snapraid_handle) (v : dry_vars) : Option dry_vars :=
  match handle_read state (env.read_ok i j) h block state.block_size with
  | none => none
  | some r =>
    if r.ret = -1 then
      some { v with
        error := v.error + 1,
        trace := v.trace ++ r.calls.map (.data i j block.file) ++ [.tag_error i j] }
    else
      some { v with trace := v.trace ++ r.calls.map (.data i j block.file) }

/-- One turn of the loop over the disks (dry.c:59-123), for the position `i`
and the slot `j`; the boolean of the result tells that the pass goes to
`bail`. -/
def state_dry_disk (env : dry_env) (state : snapraid_state) (i j : Nat) (v : dry_vars) :
    Option (dry_vars × Bool) :=
  match v.handle[j]? with
  | none => none
  | some h =>
    match h.disk with
    | none => some (v, false)
    | some d =>
      match state.diskarr[d]? with
      | none => none
      | some disk =>
        match fs_par2block_get disk i with
        | none => some (v, false)
        | some block =>
          if h.file = none ∨ h.file ≠ some block.file then
            let c := handle_close (env.close_ok i j) h
            let v1 : dry_vars :=
              { v with handle := v.handle.set j c.handle,
                       trace := v.trace ++ c.calls.map (.data i j block.file) }
            if c.ret = -1 then
              some ({ v1 with
                error := v1.error + 1,
                trace := v1.trace ++
                  [.data i j block.file .cleared_file_read, .tag_error i j] }, true)
            else
              match handle_open state (env.open_ret i j)
                  (if env.have_fadvise then some (env.fadvise_ok i j) else none)
                  c.handle block.file with
              | none => none
              | some o =>
                let v2 : dry_vars :=
                  { v1 with handle := v1.handle.set j o.handle,
                            trace := v1.trace ++ o.calls.map (.data i j block.file) }
                if o.ret = -1 then
                  some ({ v2 with error := v2.error + 1,
                                  trace := v2.trace ++ [.tag_error i j] }, true)
                else
                  match state_dry_read env state i j block o.handle v2 with
                  | some v3 => some (v3, false)
                  | none => none
          else
            match state_dry_read env state i j block h v with
            | some v3 => some (v3, false)
            | none => none

/-- The loop over the disks (dry.c:59-123) for the position `i`, from the slot
`j` on, `n` being the number of turns left (`diskmax - j`). -/
def state_dry_disks (env : dry_env) (state : snapraid_state) (i : Nat) :
    Nat → Nat → dry_vars → Option (dry_vars × Bool)
  | 0, _, v => some (v, false)
  | n + 1, j, v =>
    match state_dry_disk env state i j v with
    | none => none
    | some (v1, true) => some (v1, true)
    | some (v1, false) => state_dry_disks env state i n (j + 1) v1

/-- One turn of the loop over the parity levels (dry.c:126-140), for the
position `i` and the level `l`; `parity l` tells that `parity[l]` is not null. -/
def state_dry_level (env : dry_env) (parity : Nat → Bool) (i l : Nat) (v : dry_vars) :
    dry_vars :=
  if parity l then
    if env.parity_read_ok i l then
      { v with trace := v.trace ++ [.parity i l true] }
    else
      { v with error := v.error + 1,
               trace := v.trace ++ [.parity i l false, .tag_parity_error i l] }
  else v

/-- The loop over the parity levels (dry.c:126-140) for the position `i`, from
the level `l` on, `n` being the number of turns left (`state->level - l`). -/
def state_dry_levels (env : dry_env) (parity : Nat → Bool) (i : Nat) :
    Nat → Nat → dry_vars → dry_vars
  | 0, _, v => v
  | n + 1, l, v => state_dry_levels env parity i n (l + 1) (state_dry_level env parity i l v)

/-- The end of a turn of the loop over the positions (dry.c:125-150), for the
position `i`: the reads of the parity, then the call of `state_progress`. -/
def state_dry_parity (env : dry_env) (state : snapraid_state) (parity : Nat → Bool) (i : Nat)
    (v : dry_vars) : dry_vars :=
  let v1 := state_dry_levels env parity i state.level 0 v
  { v1 with trace := v1.trace ++ [.progress i (env.progress_stop i)] }

/-- The loop over the positions (dry.c:57-151) from the position `i` on, `n`
being the number of turns left (`blockmax - i`).  The result is the local
state at the label `bail`. -/
def state_dry_positions (env : dry_env) (state : snapraid_state) (parity : Nat → Bool)
    (diskmax : Nat) : Nat → Nat → dry_vars → Option dry_vars
  | 0, _, v => some v
  | n + 1, i, v =>
    match state_dry_disks env state i diskmax 0 v with
    | none => none
    | some (v1, true) => some v1
    | some (v1, false) =>
      if env.progress_stop i then some (state_dry_parity env state parity i v1)
      else state_dry_positions env state parity diskmax n (i + 1)
        (state_dry_parity env state parity i v1)

/-- One turn of the closing loop (dry.c:157-170), for the slot `j` holding
`h`. -/
def state_dry_close_slot (env : dry_env) (blockmax j : Nat) (h : snapraid_handle)
    (v : dry_vars) : dry_vars :=
  let c := handle_close (env.close_ok blockmax j) h
  let v1 : dry_vars :=
    { v with handle := v.handle.set j c.handle,
             trace := v.trace ++ c.calls.map (.final j) }
  if c.ret = -1 then
    { v1 with error := v1.error + 1, trace := v1.trace ++ [.tag_error blockmax j] }
  else v1

/-- The closing loop (dry.c:157-170) from the slot `j` on, `n` being the
number of turns left (`diskmax - j`). -/
def state_dry_close (env : dry_env) (blockmax : Nat) : Nat → Nat → dry_vars → Option dry_vars
  | 0, _, v => some v
  | n + 1, j, v =>
    match v.handle[j]? with
    | none => none
    | some h => state_dry_close env blockmax n (j + 1) (state_dry_close_slot env blockmax j h v)

/-- Result of `state_dry_process`: the value returned and the local state at
the end. -/
structure dry_result where
  ret : Int
  vars : dry_vars
  deriving DecidableEq, Repr

/-- One pass of dry over the positions from `blockstart` to `blockmax`,
`state_dry_process` (dry.c:29-188); `parity l` tells that `parity[l]` is not
null.  Progress display and usage telemetry are left out, the call of
`state_progress` apart. -/
def state_dry_process (env : dry_env) (state : snapraid_state) (parity : Nat → Bool)
    (blockstart blockmax : Nat) : Option dry_result :=
  let handle := handle_map state
  let diskmax := handle.length
  match state_dry_positions env state parity diskmax (blockmax - blockstart) blockstart
      { handle := handle, error := 0, trace := [] } with
  | none => none
  | some v =>
    match state_dry_close env blockmax diskmax 0 v with
    | none => none
    | some v1 => some { ret := if v1.error ≠ 0 then -1 else 0, vars := v1 }

/-- The end of the range of `state_dry` (dry.c:204-216) for a parity of `size`
blocks, when `blockstart` is not past it; `block_off_t` is `uint32_t`, so the
sum wraps at `2^32`. -/
def state_dry_blockmax (size blockstart blockcount : Nat) : Nat :=
  if blockcount ≠ 0 ∧ (blockstart + blockcount) % BLOCK_OFF_MOD < size then
    (blockstart + blockcount) % BLOCK_OFF_MOD
  else size

/-- How `state_dry` ends. -/
inductive dry_exit where
  /-- The starting block is refused, `exit(EXIT_FAILURE)` of dry.c:209. -/
  | rejected
  /-- Errors were counted, `exit(EXIT_FAILURE)` of dry.c:258. -/
  | failure
  /-- The function returns. -/
  | success
  deriving DecidableEq, Repr

/-- The command dry, `state_dry` (dry.c:191-261), for arguments that are
`block_off_t` values.  The result is how the command ends and the steps made;
it is `none` when the pass meets a pointer to an object that is not live. -/
def state_dry (env : dry_env) (state : snapraid_state) (blockstart blockcount : Nat) :
    Option (dry_exit × List dry_event) :=
  let size := parity_allocated_size state
  if blockstart > size then some (.rejected, [])
  else
    let blockmax := state_dry_blockmax size blockstart blockcount
    let levels := List.range state.level
    let opened := levels.map (fun l => dry_event.parity_open l (env.parity_open_ok l))
    let parity : Nat → Bool := fun l => decide (l < state.level) && env.parity_open_ok l
    let pass : Option (List dry_event × Nat) :=
      if blockstart < blockmax then
        match state_dry_process env state parity blockstart blockmax with
        | none => none
        | some r => some (r.vars.trace, if r.ret = -1 then 1 else 0)
      else some ([], 0)
    match pass with
    | none => none
    | some (trace, error) =>
      let closed := (levels.filter parity).map
        (fun l => dry_event.parity_close l (env.parity_close_ok l))
      let error1 := error + ((levels.filter parity).filter
        (fun l => !env.parity_close_ok l)).length
      some (if error1 ≠ 0 then .failure else .success, opened ++ trace ++ closed)

/-! ## Auxiliary notions for dry -/

/-- What one turn of the loop over the disks does for an occupied cell: the
slot afterwards, the steps made, the number of errors counted and whether the
pass goes to `bail`. -/
structure dry_turn where
  handle : snapraid_handle
  events : List dry_event
  errors : Nat
  bail : Bool
  deriving DecidableEq, Repr

/-- The local state after a turn for the slot `j`. -/
def dry_vars.turn (v : dry_vars) (j : Nat) (t : dry_turn) : dry_vars :=
  { handle := v.handle.set j t.handle, error := v.error + t.errors,
    trace := v.trace ++ t.events }

/-- The steps and the errors of the read of dry.c:110-122. -/
def dry_cell_read (env : dry_env) (file : snapraid_file) (block_size i j : Nat)
    (h : snapraid_handle) (block : BlockPtr) : List dry_event × Nat :=
  let call := dry_event.data i j block.file
    (.call_pread h.f (block_file_pos block * block_size)
      (block_file_size file block block_size) (env.read_ok i j))
  if env.read_ok i j then ([call], 0) else ([call, .tag_error i j], 1)

/-- The turn of the loop over the disks for the cell at `i` of the slot `j`
holding `h`, when the cell holds `block`, a block of the live file `file` of a
disk of directory `dir`. -/
def dry_cell (env : dry_env) (dir : String) (file : snapraid_file) (block_size i j : Nat)
    (h : snapraid_handle) (block : BlockPtr) : dry_turn :=
  if h.file = some block.file then
    { handle := h, events := (dry_cell_read env file block_size i j h block).1,
      errors := (dry_cell_read env file block_size i j h block).2, bail := false }
  else
    let closing : List dry_event :=
      if h.f ≠ -1 then [.data i j block.file (.call_close h.f (env.close_ok i j))] else []
    if h.f ≠ -1 ∧ env.close_ok i j = false then
      { handle := { h with file := none, f := -1 },
        events := closing ++ [.data i j block.file .cleared_file_read,
          .data i j block.file .cleared_file_read, .tag_error i j],
        errors := 1, bail := true }
    else
      let path := dir ++ file.sub
      let opening : List dry_event :=
        [.data i j block.file (.call_open path (env.open_ret i j))]
      if env.open_ret i j = -1 then
        { handle := { h with path := path, file := none, f := -1 },
          events := closing ++ opening ++ [.tag_error i j], errors := 1, bail := true }
      else
        let h1 : snapraid_handle :=
          { h with path := path, file := some block.file, f := env.open_ret i j }
        if env.have_fadvise = true ∧ env.fadvise_ok i j = false then
          { handle := h1,
            events := closing ++ opening ++
              [.data i j block.file (.call_fadvise (env.open_ret i j) false), .tag_error i j],
            errors := 1, bail := true }
        else
          let advice : List dry_event :=
            if env.have_fadvise = true then
              [.data i j block.file (.call_fadvise (env.open_ret i j) true)]
            else []
          { handle := h1,
            events := closing ++ opening ++ advice ++
              (dry_cell_read env file block_size i j h1 block).1,
            errors := (dry_cell_read env file block_size i j h1 block).2, bail := false }

/-- The handle vector has one slot per disk, slot `s` being that of disk `s`. -/
def dry_shape (diskmax : Nat) (v : dry_vars) : Prop :=
  v.handle.length = diskmax ∧
    ∀ (s : Nat) (h : snapraid_handle), v.handle[s]? = some h → h.disk = some s

/-! ## Notions for the reads of dry -/

/-- The step is a call of `pread` that fails. -/
def dry_event.failed_data_read : dry_event → Bool
  | .data _ _ _ (.call_pread _ _ _ ok) => !ok
  | _ => false

/-- The step is a call of `parity_read` that fails. -/
def dry_event.failed_parity_read : dry_event → Bool
  | .parity _ _ ok => !ok
  | _ => false

/-- The step is a call of `open` or of `posix_fadvise` that fails, so that
`handle_open` returns -1. -/
def dry_event.failed_open : dry_event → Bool
  | .data _ _ _ (.call_open _ ret) => ret == -1
  | .data _ _ _ (.call_fadvise _ ok) => !ok
  | _ => false

/-- The step is a call of `close` that fails. -/
def dry_event.failed_close : dry_event → Bool
  | .data _ _ _ (.call_close _ ok) => !ok
  | .final _ (.call_close _ ok) => !ok
  | _ => false

/-- The step is a call of `state_progress` that asks to stop. -/
def dry_event.is_stop : dry_event → Bool
  | .progress _ stop => stop
  | _ => false

/-- The steps of the loop over the parity levels for the position `i`, from
the level `l` on, `n` being the number of turns. -/
def dry_level_events (env : dry_env) (parity : Nat → Bool) (i : Nat) :
    Nat → Nat → List dry_event
  | 0, _ => []
  | n + 1, l =>
    (if parity l then
      if env.parity_read_ok i l then [dry_event.parity i l true]
      else [dry_event.parity i l false, dry_event.tag_parity_error i l]
    else []) ++ dry_level_events env parity i n (l + 1)

/-- Some step of the trace is a failed open, a failed close or a request to
stop. -/
def dry_upset (trace : List dry_event) : Prop :=
  ∃ ev, ev ∈ trace ∧ (ev.failed_open = true ∨ ev.failed_close = true ∨ ev.is_stop = true)

/-- The counter of errors is the number of failed reads of data plus the
number of failed reads of parity of the trace. -/
def dry_errors_counted (v : dry_vars) : Prop :=
  v.error = v.trace.countP dry_event.failed_data_read +
    v.trace.countP dry_event.failed_parity_read

/-- The trace holds a read for every occupied cell before the slot `j` of the
position `i`, from `blockstart` on, and a read of every present parity level
for every position before `i`. -/
def dry_reads_done (state : snapraid_state) (parity : Nat → Bool) (blockstart i j : Nat)
    (trace : List dry_event) : Prop :=
  (∀ (p s : Nat) (disk : snapraid_disk) (block : BlockPtr),
    blockstart ≤ p → (p < i ∨ (p = i ∧ s < j)) →
    state.diskarr[s]? = some disk → fs_par2block_get disk p = some block →
    ∃ fd size ok, dry_event.data p s block.file
      (.call_pread fd (block_file_pos block * state.block_size) size ok) ∈ trace) ∧
  (∀ (p l : Nat), blockstart ≤ p → p < i → l < state.level → parity l = true →
    ∃ ok, dry_event.parity p l ok ∈ trace)

/-- A platform where the read of the data fails for the cell at position 1 of
slot 0 and the read of the parity fails at position 2, every other call
succeeding. -/
def failing_reads_env : dry_env :=
  { read_ok := fun i j => !(i == 1 && j == 0), parity_read_ok := fun i _ => i != 2 }

/-! ## Notions for the opens of dry -/

/-- The step is a call of `open` for the file `fp` in the slot. -/
def dry_event.is_open (slot : Nat) (fp : FilePtr) : dry_event → Bool
  | .data _ s f (.call_open _ _) => s == slot && f == fp
  | _ => false

/-- The file of the block found in the cell at `pos` of the table of the disk,
if any. -/
def dry_cell_file (disk : snapraid_disk) (pos : Nat) : Option FilePtr :=
  (fs_par2block_get disk pos).map (fun block => block.file)

/-- On every disk, between two positions of the range whose cells hold blocks
of one file, no cell holds a block of another file. -/
def dry_not_interleaved (state : snapraid_state) (blockstart blockmax : Nat) :
    Prop :=
  ∀ disk, disk ∈ state.diskarr → ∀ p3, p3 < blockmax → ∀ p2, p2 < p3 → ∀ p1, p1 < p2 →
    (blockstart ≤ p1 ∧ dry_cell_file disk p1 ≠ none ∧
      dry_cell_file disk p3 = dry_cell_file disk p1) →
    dry_cell_file disk p2 = none ∨ dry_cell_file disk p2 = dry_cell_file disk p1

/-- Executable check of `dry_not_interleaved`. -/
def dry_not_interleaved_check (state : snapraid_state) (blockstart blockmax : Nat) : Bool :=
  state.diskarr.all (fun disk =>
    (List.range blockmax).all (fun p3 =>
      (List.range p3).all (fun p2 =>
        (List.range p2).all (fun p1 =>
          !(decide (blockstart ≤ p1) && (dry_cell_file disk p1).isSome &&
              (dry_cell_file disk p3 == dry_cell_file disk p1)) ||
            (dry_cell_file disk p2).isNone ||
            (dry_cell_file disk p2 == dry_cell_file disk p1)))))

/-- Every file is opened at most once in every slot. -/
def dry_opened_once (trace : List dry_event) : Prop :=
  ∀ (slot : Nat) (fp : FilePtr), trace.countP (dry_event.is_open slot fp) ≤ 1

/-- What is known of the calls of `open` made before the turn of the slot `j`
at the position `i`: each was made for an earlier cell of the range that holds
a block of the file opened, and either the file is still the one of the slot,
or a later cell of the slot, already met, holds a block of another file. -/
def dry_opens_seen (state : snapraid_state) (blockstart i j : Nat) (v : dry_vars) : Prop :=
  ∀ (p s : Nat) (f : FilePtr) (path : String) (ret : Int),
    dry_event.data p s f (.call_open path ret) ∈ v.trace →
    blockstart ≤ p ∧ (p < i ∨ (p = i ∧ s < j)) ∧
    (∃ disk, state.diskarr[s]? = some disk ∧ dry_cell_file disk p = some f) ∧
    ((∃ h, v.handle[s]? = some h ∧ h.file = some f) ∨
      ∃ (q : Nat) (disk : snapraid_disk), p < q ∧ (q < i ∨ (q = i ∧ s < j)) ∧
        state.diskarr[s]? = some disk ∧
        dry_cell_file disk q ≠ none ∧ dry_cell_file disk q ≠ some f)

/-! ## Notions for the range of dry -/

/-- The step is a read of data or of parity. -/
def dry_event.is_read : dry_event → Bool
  | .data _ _ _ (.call_pread _ _ _ _) => true
  | .parity _ _ _ => true
  | _ => false

/-! ## Closing a slot only for another file (handle.c) -/

/-- Closes the file of the slot if it is not `file`,
`handle_close_if_different` (handle.c:27-55); `close_ok` tells whether `close`
returns 0. -/
def handle_close_if_different (close_ok : Bool) (handle : snapraid_handle) (file : FilePtr) :
    handle_result :=
  if handle.file = some file then
    { ret := 0, handle := handle, calls := [] }
  else
    if handle.f ≠ -1 then
      if close_ok = false then
        { ret := -1,
          handle := { handle with file := none, f := -1 },
          calls := [.call_close handle.f false, .cleared_file_read] }
      else
        { ret := 0,
          handle := { handle with file := none, f := -1 },
          calls := [.call_close handle.f true] }
    else
      { ret := 0, handle := { handle with file := none, f := -1 }, calls := [] }

/-- The call is a call of `close`. -/
def handle_call.is_close : handle_call → Bool
  | .call_close _ _ => true
  | _ => false

/-! ## Notions for the error lines of dry -/

/-- The call is a system call that fails. -/
def handle_call.failed : handle_call → Bool
  | .call_open _ ret => ret == -1
  | .call_fadvise _ ok => !ok
  | .call_pread _ _ _ ok => !ok
  | .call_close _ ok => !ok
  | .cleared_file_read => false

/-- The step is a failed call made for a cell at the position `p`: a block at
`p` saw an I/O error. -/
def dry_event.io_error_at (p : Nat) : dry_event → Bool
  | .data q _ _ call => q == p && call.failed
  | _ => false

/-- The step is a line `error:<p>:...` of the log. -/
def dry_event.is_tag_at (p : Nat) : dry_event → Bool
  | .tag_error q _ => q == p
  | _ => false

/-- The step is a failed call of `close` made by the closing loop. -/
def dry_event.failed_final_close : dry_event → Bool
  | .final _ (.call_close _ ok) => !ok
  | _ => false

/-- Some step of the list is a failed call made for a cell at `p`. -/
def dry_io_error (trace : List dry_event) (p : Nat) : Prop :=
  ∃ ev, ev ∈ trace ∧ ev.io_error_at p = true

/-- Some step of the list is a line `error:<p>:...`. -/
def dry_tagged (trace : List dry_event) (p : Nat) : Prop :=
  ∃ ev, ev ∈ trace ∧ ev.is_tag_at p = true

/-- The steps of one turn concern the position `i` only, and hold a line
`error:<i>:...` exactly when they hold a failed call. -/
def dry_tags_local (i : Nat) (events : List dry_event) : Prop :=
  (∀ ev, ev ∈ events → ∀ p, (ev.io_error_at p = true ∨ ev.is_tag_at p = true) → p = i) ∧
  (dry_io_error events i ↔ dry_tagged events i) ∧
  (∀ ev, ev ∈ events → ev.failed_final_close = false)

/-- The call is a successful call of `close`, `open` or `posix_fadvise`. -/
def handle_call.is_setup : handle_call → Bool
  | .call_close _ ok => ok
  | .call_open _ ret => ret != -1
  | .call_fadvise _ ok => ok
  | _ => false

/-- The steps of a turn for a cell at `i` of the slot `j` holding a block of
`fp` to read at `off`: successful calls that bring the file in the slot, then
either the read, with a line of the log when it fails, or one failed call with
its line of the log, in which case the pass goes to `bail`. -/
def dry_turn_shape (i j : Nat) (fp : FilePtr) (off : Nat) (t : dry_turn) : Prop :=
  ∃ pre main : List dry_event, t.events = pre ++ main ∧
    (∀ ev, ev ∈ pre → ∃ call, ev = dry_event.data i j fp call ∧ call.is_setup = true) ∧
    ((∃ (fd : Int) (size : Nat),
        main = [.data i j fp (.call_pread fd off size true)] ∧
        t.errors = 0 ∧ t.bail = false) ∨
     (∃ (fd : Int) (size : Nat),
        main = [.data i j fp (.call_pread fd off size false), .tag_error i j] ∧
        t.errors = 1 ∧ t.bail = false) ∨
     (∃ fd : Int,
        main = [.data i j fp (.call_close fd false), .data i j fp .cleared_file_read,
          .data i j fp .cleared_file_read, .tag_error i j] ∧
        t.errors = 1 ∧ t.bail = true) ∨
     (∃ path : String,
        main = [.data i j fp (.call_open path (-1)), .tag_error i j] ∧
        t.errors = 1 ∧ t.bail = true) ∨
     (∃ fd : Int,
        main = [.data i j fp (.call_fadvise fd false), .tag_error i j] ∧
        t.errors = 1 ∧ t.bail = true))

/-- Invariant of the loop over the positions for the lines `error:` of the
log: failed calls and lines concern positions below `blockmax`, a position has
a failed call exactly when it has a line, and no call of the closing loop has
been made. -/
def dry_tags_sound (blockmax : Nat) (trace : List dry_event) : Prop :=
  (∀ ev, ev ∈ trace → ∀ p, (ev.io_error_at p = true ∨ ev.is_tag_at p = true) →
    p < blockmax) ∧
  (∀ p, dry_io_error trace p ↔ dry_tagged trace p) ∧
  (∀ ev, ev ∈ trace → ev.failed_final_close = false)

/-- Invariant of the closing loop for the lines `error:` of the log: below
`blockmax` a position has a failed call exactly when it has a line, and there
is a line for `blockmax` exactly when a call of `close` of the closing loop
has failed. -/
def dry_tags_closing (blockmax : Nat) (trace : List dry_event) : Prop :=
  (∀ ev, ev ∈ trace → ∀ p, ev.io_error_at p = true → p < blockmax) ∧
  (∀ p, p < blockmax → (dry_io_error trace p ↔ dry_tagged trace p)) ∧
  (dry_tagged trace blockmax ↔ ∃ ev, ev ∈ trace ∧ ev.failed_final_close = true)

/-- A platform where every call of `close` of the closing loop of a pass up
to the position 3 fails, every other call succeeding. -/
def failing_close_env : dry_env :=
  { close_ok := fun i _ => i != 3 }

/-! ## Notions for dry with missing parity -/

/-- The step is a read of the data of the cell at `pos` of the slot. -/
def dry_event.is_data_read (pos slot : Nat) : dry_event → Bool
  | .data p s _ (.call_pread _ _ _ _) => p == pos && s == slot
  | _ => false

/-- The counter of errors is the number of failed calls of the trace: opens
(or advices), closes, reads of data and reads of parity. -/
def dry_failures_counted (error : Nat) (trace : List dry_event) : Prop :=
  error = trace.countP dry_event.failed_open + trace.countP dry_event.failed_close +
    trace.countP dry_event.failed_data_read + trace.countP dry_event.failed_parity_read

/-- Every read of parity of the trace is for a level of the state whose handle
is present. -/
def dry_parity_present (state : snapraid_state) (parity : Nat → Bool)
    (trace : List dry_event) : Prop :=
  ∀ (p l : Nat) (ok : Bool), dry_event.parity p l ok ∈ trace →
    l < state.level ∧ parity l = true

/-- A platform where the first call of `open`, for the cell at position 0 of
slot 0, fails, every other call succeeding. -/
def failing_open_env : dry_env :=
  { open_ret := fun i j => if i == 0 && j == 0 then -1 else 3 }

/-! ## Notions for the cancellation of dry -/

/-- The step is a read of data or of parity for a position after `i`. -/
def dry_event.read_after (i : Nat) : dry_event → Bool
  | .data p _ _ (.call_pread _ _ _ _) => decide (i < p)
  | .parity p _ _ => decide (i < p)
  | _ => false

/-- What holds of the steps `pre` made before a stop asked for after the
position `i`: they hold a read of the data of every occupied cell at `i` and a
read of every present parity level at `i`, no read for a later position and no
earlier request to stop. -/
def dry_cancelled (state : snapraid_state) (parity : Nat → Bool) (i : Nat)
    (pre : List dry_event) : Prop :=
  (∀ (j : Nat) (disk : snapraid_disk) (block : BlockPtr),
    state.diskarr[j]? = some disk → fs_par2block_get disk i = some block →
    ∃ fd size ok, dry_event.data i j block.file
      (.call_pread fd (block_file_pos block * state.block_size) size ok) ∈ pre) ∧
  (∀ l, l < state.level → parity l = true → ∃ ok, dry_event.parity i l ok ∈ pre) ∧
  (∀ ev, ev ∈ pre → ev.read_after i = false ∧ ev.is_stop = false)

/-- The trace either holds no request to stop, or is made of steps `pre` as
in `dry_cancelled`, the request to stop after a position `i`, and steps `post`
without any read nor request to stop. -/
def dry_stop_split (state : snapraid_state) (parity : Nat → Bool)
    (trace : List dry_event) : Prop :=
  (∀ ev, ev ∈ trace → ev.is_stop = false) ∨
  ∃ (i : Nat) (pre post : List dry_event),
    trace = pre ++ dry_event.progress i true :: post ∧ dry_cancelled state parity i pre ∧
    ∀ ev, ev ∈ post → ev.is_read = false ∧ ev.is_stop = false

/-- A platform where `state_progress` asks to stop after the position 1,
every call succeeding. -/
def stopping_env : dry_env :=
  { progress_stop := fun i => i == 1 }

/-! ## Example state for the bound of first_free_block -/

/-- A disk with an empty table whose `first_free_block` is 1, past the end of
the table, and at address 0 a fresh one-block file. -/
def hint_past_example : snapraid_state :=
  { files := [some (file_alloc 4 "a" 3 0 2)],
    diskarr := [{ name := "d0", first_free_block := 1 }], block_size := 4 }

/-! ## Notions for the reuse of freed positions by one scan -/

/-- Number of empty cells of the allocation table of a disk. -/
def free_cells (disk : snapraid_disk) : Nat :=
  ((List.range (tommy_array_size disk.blockarr)).filter
    (fun p => (disk_block_get disk p).isNone)).length

/-- Total number of blocks of the files of a list, a pointer to no file
counting for nothing. -/
def blocks_total (files : List (Option snapraid_file)) : List FilePtr → Nat
  | [] => 0
  | fp :: rest =>
    (match heap_get files fp with
     | some file => file.blockmax
     | none => 0) + blocks_total files rest

/-- The part of one turn of the loop over the disks of `state_scan` that comes
before the insertions (scan.c:469-523), for the disk of index `i`: the walk of
the directory, then the check for removed files and for removed links. -/
def state_scan_disk_removals (excluded : String → Bool → Bool) (dirs : Nat → dir_stream)
    (i : Nat) (scan : snapraid_scan) (state : snapraid_state) :
    Except scan_error (snapraid_scan × snapraid_state) :=
  match scan_dir excluded i "" (dirs i) scan state with
  | .error err => .error err
  | .ok (scan1, state1) =>
    match state1.diskarr[i]? with
    | none => .error .fault
    | some disk1 =>
      match scan_removed_files i disk1.filelist scan1 state1 with
      | .error err => .error err
      | .ok (scan2, state2) =>
        match state2.diskarr[i]? with
        | none => .error .fault
        | some disk2 => scan_removed_links i disk2.linklist scan2 state2

/-- The table of disk `d` has length `L` and satisfies invariant I3. -/
def table_kept (d L : Nat) (state : snapraid_state) : Prop :=
  ∃ disk, state.diskarr[d]? = some disk ∧ tommy_array_size disk.blockarr = L ∧ I3 disk

/-! # Theorems -/

/-! ## The allocation loop of `scan_file_insert` -/

theorem disk_block_get_eq_cell (disk : snapraid_disk) (p : Nat) :
    disk_block_get disk p = cell disk.blockarr p := by
  unfold disk_block_get cell tommy_array_size tommy_array_get
  by_cases h : p < disk.blockarr.length
  · simp [h]
  · have : disk.blockarr[p]? = none := List.getElem?_eq_none (by omega)
    simp [h, this]

theorem cell_of_lt {arr : List (Option BlockPtr)} {p : Nat} (h : p < arr.length) :
    cell arr p = arr[p] := by
  simp [cell, List.getElem?_eq_getElem h]

theorem cell_of_ge {arr : List (Option BlockPtr)} {p : Nat} (h : arr.length ≤ p) :
    cell arr p = none := by
  simp [cell, List.getElem?_eq_none h]

theorem cell_set (arr : List (Option BlockPtr)) (p q : Nat) (c : Option BlockPtr) :
    cell (arr.set p c) q = if p = q ∧ p < arr.length then c else cell arr q := by
  unfold cell
  rw [List.getElem?_set]
  by_cases h : p = q
  · subst h
    by_cases h2 : p < arr.length
    · simp [h2]
    · simp [h2, List.getElem?_eq_none (Nat.le_of_not_lt h2)]
  · simp [h]

theorem cell_grow (arr : List (Option BlockPtr)) (size q : Nat) :
    cell (tommy_array_grow arr size) q = cell arr q := by
  unfold cell tommy_array_grow
  by_cases h : q < arr.length
  · rw [List.getElem?_append_left h]
  · rw [List.getElem?_append_right (Nat.le_of_not_lt h), List.getElem?_eq_none (Nat.le_of_not_lt h)]
    by_cases h2 : q - arr.length < size - arr.length
    · rw [List.getElem?_eq_getElem (by simpa using h2)]; simp
    · rw [List.getElem?_eq_none (by simpa using h2)]

theorem length_grow (arr : List (Option BlockPtr)) (size : Nat) :
    (tommy_array_grow arr size).length = max arr.length size := by
  unfold tommy_array_grow
  simp
  omega

theorem find_free_block_spec (arr : List (Option BlockPtr)) :
    ∀ (gap block_pos : Nat), block_pos + gap = arr.length →
      ∃ pos, find_free_block arr gap block_pos = some pos ∧ block_pos ≤ pos ∧
        pos ≤ arr.length ∧ cell arr pos = none ∧
        ∀ q, block_pos ≤ q → q < pos → cell arr q ≠ none := by
  intro gap
  induction gap with
  | zero =>
    intro bp h
    refine ⟨bp, rfl, le_refl _, by omega, cell_of_ge (by omega), ?_⟩
    intro q h1 h2; omega
  | succ gap ih =>
    intro bp h
    have hlt : bp < arr.length := by omega
    unfold find_free_block tommy_array_get
    rw [List.getElem?_eq_getElem hlt]
    cases hc : arr[bp] with
    | none =>
      refine ⟨bp, rfl, le_refl _, by omega, ?_, ?_⟩
      · rw [cell_of_lt hlt, hc]
      · intro q h1 h2; omega
    | some b =>
      obtain ⟨pos, h1, h2, h3, h4, h5⟩ := ih (bp + 1) (by omega)
      refine ⟨pos, h1, by omega, h3, h4, ?_⟩
      intro q hq1 hq2
      by_cases hq : q = bp
      · subst hq; rw [cell_of_lt hlt, hc]; simp
      · exact h5 q (by omega) hq2

theorem pos_at_set (vec : List snapraid_block) (i k : Nat) (b : snapraid_block) :
    pos_at (vec.set i b) k = if i = k ∧ i < vec.length then b.parity_pos else pos_at vec k := by
  unfold pos_at
  rw [List.getElem?_set]
  by_cases h : i = k
  · subst h
    by_cases h2 : i < vec.length
    · simp [h2]
    · simp [h2, List.getElem?_eq_none (Nat.le_of_not_lt h2)]
  · simp [h]

/-- What one turn of the allocation loop does, when the counters agree with
the table and one more cell fits in a `block_off_t`. -/
theorem scan_file_insert_block_spec (fp : FilePtr) (i : Nat) (v : insert_vars)
    (hmax : v.block_max = v.blockarr.length) (hpos : v.block_pos ≤ v.block_max)
    (hfit : v.blockarr.length + 1 < BLOCK_OFF_MOD) (hi : i < v.blockvec.length) :
    ∃ v1 block, scan_file_insert_block fp i v = some v1 ∧ v.blockvec[i]? = some block ∧
      v1.blockvec = v.blockvec.set i { block with parity_pos := v1.block_pos } ∧
      v1.block_max = v1.blockarr.length ∧
      v1.blockarr.length = max v.blockarr.length (v1.block_pos + 1) ∧
      v.block_pos ≤ v1.block_pos ∧ v1.block_pos ≤ v.blockarr.length ∧
      cell v.blockarr v1.block_pos = none ∧
      (∀ q, v.block_pos ≤ q → q < v1.block_pos → cell v.blockarr q ≠ none) ∧
      cell v1.blockarr v1.block_pos = some { file := fp, idx := i } ∧
      (∀ q, q ≠ v1.block_pos → cell v1.blockarr q = cell v.blockarr q) := by
  obtain ⟨pos, h1, h2, h3, h4, h5⟩ :=
    find_free_block_spec v.blockarr (v.block_max - v.block_pos) v.block_pos (by omega)
  have hb : v.blockvec[i]? = some v.blockvec[i] := List.getElem?_eq_getElem hi
  have hmod : (v.blockarr.length + 1) % BLOCK_OFF_MOD = v.blockarr.length + 1 :=
    Nat.mod_eq_of_lt hfit
  unfold scan_file_insert_block
  rw [h1]
  simp only [hb, hmax, hmod]
  by_cases hp : pos = v.blockarr.length
  · simp only [hp, if_true]
    have hlen : (tommy_array_grow v.blockarr (v.blockarr.length + 1)).length
        = v.blockarr.length + 1 := by rw [length_grow]; omega
    have hset : tommy_array_set (tommy_array_grow v.blockarr (v.blockarr.length + 1))
        v.blockarr.length (some { file := fp, idx := i })
        = some ((tommy_array_grow v.blockarr (v.blockarr.length + 1)).set v.blockarr.length
            (some { file := fp, idx := i })) := by
      unfold tommy_array_set; rw [hlen]; simp
    rw [hset]
    refine ⟨_, _, rfl, rfl, rfl, ?_, ?_, ?_, ?_, ?_, ?_, ?_, ?_⟩
    · simp [hlen]
    · simp [hlen]
    · simpa [hp] using h2
    · simp
    · simpa [hp] using h4
    · intro q hq1 hq2; exact h5 q hq1 (by simpa [hp] using hq2)
    · simp [cell_set, hlen]
    · intro q hq
      simp only at hq
      rw [cell_set, cell_grow]
      simp [Ne.symm hq]
  · have hlt : pos < v.blockarr.length := by omega
    simp only [hp, if_false]
    have hset : tommy_array_set v.blockarr pos (some { file := fp, idx := i })
        = some (v.blockarr.set pos (some { file := fp, idx := i })) := by
      unfold tommy_array_set; simp [hlt]
    rw [hset]
    refine ⟨_, _, rfl, rfl, rfl, ?_, ?_, ?_, ?_, ?_, ?_, ?_, ?_⟩
    · simp
    · simp; omega
    · exact h2
    · exact h3
    · exact h4
    · exact h5
    · simp [cell_set, hlt]
    · intro q hq
      simp only at hq
      rw [cell_set]
      simp [Ne.symm hq]

theorem scan_file_insert_loop_spec (fp : FilePtr) :
    ∀ (n i : Nat) (v : insert_vars), v.block_max = v.blockarr.length →
      v.block_pos ≤ v.block_max → v.blockarr.length + n < BLOCK_OFF_MOD →
      i + n ≤ v.blockvec.length →
      ∃ w, scan_file_insert_loop fp n i v = some w ∧ insert_post fp n i v w := by
  intro n
  induction n with
  | zero =>
    intro i v hmax _ _ _
    refine ⟨v, rfl, ?_⟩
    exact
      { len_vec := rfl
        vec_frame := fun _ _ => rfl
        vec_fields := fun k b1 h => ⟨b1, h, rfl⟩
        max_len := hmax
        len_ge := le_refl _
        len_le := le_refl _
        none_done := fun _ => rfl
        last := fun h => absurd h (by omega)
        ge_start := fun k h1 h2 => absurd h2 (by omega)
        was_free := fun k h1 h2 => absurd h2 (by omega)
        now_set := fun k h1 h2 => absurd h2 (by omega)
        no_skip := fun k h1 h2 => absurd h2 (by omega)
        increasing := fun k h1 h2 => absurd h2 (by omega)
        arr_frame := fun _ _ => rfl }
  | succ n ih =>
    intro i v hmax hpos hfit hlen
    obtain ⟨v1, block, hstep, hblock, hvec1, hmax1, hlen1, hge1, hle1, hfree1, hocc1, hset1,
      hframe1⟩ := scan_file_insert_block_spec fp i v hmax hpos (by omega) (by omega)
    have hveclen1 : v1.blockvec.length = v.blockvec.length := by rw [hvec1]; simp
    obtain ⟨w, hloop, hw⟩ := ih (i + 1) v1 hmax1 (by omega) (by omega) (by omega)
    have hposi1 : pos_at v1.blockvec i = v1.block_pos := by
      rw [hvec1, pos_at_set]; simp; omega
    have hposi : pos_at w.blockvec i = v1.block_pos := by
      unfold pos_at
      rw [hw.vec_frame i (Or.inl (by omega))]
      exact hposi1
    have hne : ∀ k, i + 1 ≤ k → k < i + 1 + n → pos_at w.blockvec k ≠ v1.block_pos := by
      intro k h1 h2 heq
      have := hw.was_free k h1 h2
      rw [heq, hset1] at this
      exact absurd this (by simp)
    have hgt : ∀ k, i + 1 ≤ k → k < i + 1 + n → v1.block_pos < pos_at w.blockvec k := by
      intro k h1 h2
      have := hw.ge_start k h1 h2
      have := hne k h1 h2
      omega
    refine ⟨w, ?_, ?_⟩
    · show (match scan_file_insert_block fp i v with
        | some v1 => scan_file_insert_loop fp n (i + 1) v1
        | none => none) = some w
      rw [hstep]; exact hloop
    · refine
        { len_vec := by rw [hw.len_vec, hveclen1]
          vec_frame := ?_
          vec_fields := ?_
          max_len := hw.max_len
          len_ge := by have := hw.len_ge; omega
          len_le := by have := hw.len_le; omega
          none_done := fun h => absurd h (by omega)
          last := ?_
          ge_start := ?_
          was_free := ?_
          now_set := ?_
          no_skip := ?_
          increasing := ?_
          arr_frame := ?_ }
      · intro k hk
        rw [hw.vec_frame k (by omega), hvec1, List.getElem?_set]
        have : i ≠ k := by omega
        simp [this]
      · intro k b1 hk
        obtain ⟨b, hb, hb1⟩ := hw.vec_fields k b1 hk
        rw [hvec1, List.getElem?_set] at hb
        by_cases hik : i = k
        · subst hik
          have hi : i < v.blockvec.length := by omega
          simp [hi] at hb
          refine ⟨block, hblock, ?_⟩
          rw [hb1, ← hb]
        · simp [hik] at hb
          exact ⟨b, hb, hb1⟩
      · intro _
        by_cases hn : n = 0
        · have := hw.none_done hn
          subst hn
          rw [this]
          exact ⟨by simpa using hposi1.symm, hlen1⟩
        · obtain ⟨h1, h2⟩ := hw.last (by omega)
          have h3 := hgt (i + 1 + n - 1) (by omega) (by omega)
          have h4 : i + (n + 1) - 1 = i + 1 + n - 1 := by omega
          rw [h4]
          refine ⟨h1, ?_⟩
          rw [h2, hlen1, h1]
          omega
      · intro k h1 h2
        by_cases hk : k = i
        · subst hk; rw [hposi]; exact hge1
        · have := hgt k (by omega) (by omega); omega
      · intro k h1 h2
        by_cases hk : k = i
        · subst hk; rw [hposi]; exact hfree1
        · rw [← hframe1 _ (hne k (by omega) (by omega))]
          exact hw.was_free k (by omega) (by omega)
      · intro k h1 h2
        by_cases hk : k = i
        · subst hk
          rw [hposi, hw.arr_frame _ (fun j hj1 hj2 => hne j hj1 hj2)]
          exact hset1
        · exact hw.now_set k (by omega) (by omega)
      · intro k h1 h2 q hq1 hq2 hq3
        by_cases hk : k = i
        · subst hk
          rw [hposi] at hq2
          exact absurd hq3 (hocc1 q hq1 hq2)
        · rcases Nat.lt_trichotomy q v1.block_pos with hlt | heq | hgt2
          · exact absurd hq3 (hocc1 q hq1 hlt)
          · exact ⟨i, le_refl _, by omega, by rw [hposi, heq]⟩
          · have hq4 : cell v1.blockarr q = none := by
              rw [hframe1 q (by omega)]; exact hq3
            obtain ⟨j, hj1, hj2, hj3⟩ :=
              hw.no_skip k (by omega) (by omega) q (by omega) hq2 hq4
            exact ⟨j, by omega, hj2, hj3⟩
      · intro k h1 h2 j hj1 hj2
        by_cases hj : j = i
        · subst hj; rw [hposi]; exact hgt k (by omega) (by omega)
        · exact hw.increasing k (by omega) (by omega) j (by omega) hj2
      · intro q hq
        have hqi : q ≠ v1.block_pos := by
          have := hq i (le_refl _) (by omega)
          rw [hposi] at this
          exact Ne.symm this
        rw [hw.arr_frame q (fun k hk1 hk2 => hq k (by omega) (by omega)), hframe1 q hqi]

/-- A sequence that is strictly increasing, stays inside `P` and skips no
member of `P` enumerates `P` in increasing order. -/
theorem eq_nth_of_no_skip (P : Nat → Prop) (f : Nat → Nat) (n : Nat)
    (hP : ∀ k, k < n → P (f k))
    (hmono : ∀ k, k < n → ∀ j, j < k → f j < f k)
    (hskip : ∀ k, k < n → ∀ q, P q → q < f k → ∃ j, j < k ∧ f j = q) :
    ∀ k, k < n → f k = Nat.nth P k := by
  intro k
  induction k using Nat.strong_induction_on with
  | _ k ih =>
    intro hk
    rw [Nat.nth_eq_sInf]
    symm
    apply IsLeast.csInf_eq
    constructor
    · refine ⟨hP k hk, ?_⟩
      intro j hj
      rw [← ih j hj (by omega)]
      exact hmono k hk j hj
    · intro x hx
      obtain ⟨hx1, hx2⟩ := hx
      by_contra hlt
      obtain ⟨j, hj1, hj2⟩ := hskip k hk x hx1 (by omega)
      have := hx2 j hj1
      rw [← ih j hj1 (by omega), hj2] at this
      omega

/-- Result of `scan_file_insert` in terms of the final local state of its
allocation loop. -/
theorem scan_file_insert_spec (state : snapraid_state) (d : Nat) (fp : FilePtr)
    (disk : snapraid_disk) (file : snapraid_file)
    (hdisk : state.diskarr[d]? = some disk) (hfile : heap_get state.files fp = some file)
    (hhint : disk.first_free_block ≤ tommy_array_size disk.blockarr)
    (hfit : tommy_array_size disk.blockarr + file.blockmax < BLOCK_OFF_MOD) :
    ∃ w, insert_post fp file.blockmax 0
        { blockarr := disk.blockarr, blockvec := file.blockvec,
          block_pos := disk.first_free_block, block_max := disk.blockarr.length } w ∧
      scan_file_insert state d fp = some { state with
        need_write := true,
        files := state.files.set fp (some { file with blockvec := w.blockvec }),
        diskarr := state.diskarr.set d
          { disk with
            first_free_block :=
              if file.blockmax ≠ 0 then w.block_pos + 1 else disk.first_free_block,
            blockarr := w.blockarr,
            inodeset := disk.inodeset ++ [fp],
            filelist := disk.filelist ++ [fp] } } := by
  unfold tommy_array_size at hhint hfit
  obtain ⟨w, hloop, hw⟩ := scan_file_insert_loop_spec fp file.blockmax 0
    { blockarr := disk.blockarr, blockvec := file.blockvec,
      block_pos := disk.first_free_block, block_max := disk.blockarr.length }
    rfl hhint hfit (by simp [snapraid_file.blockmax])
  refine ⟨w, hw, ?_⟩
  unfold scan_file_insert tommy_array_size
  simp only [hdisk, hfile, hloop]
  by_cases hn : file.blockmax = 0
  · simp [hn]
  · obtain ⟨-, h2⟩ := hw.last (by omega)
    simp only at h2
    have h3 : w.blockarr.length ≤ disk.blockarr.length + file.blockmax := by
      exact hw.len_le
    have : (w.block_pos + 1) % BLOCK_OFF_MOD = w.block_pos + 1 :=
      Nat.mod_eq_of_lt (by omega)
    simp [hn, this]

theorem heap_get_lt {α : Type} {heap : List (Option α)} {p : Nat} {a : α}
    (h : heap_get heap p = some a) : p < heap.length := by
  by_contra hlt
  have : heap[p]? = none := List.getElem?_eq_none (by omega)
  simp [heap_get, this] at h

theorem heap_get_set {α : Type} (heap : List (Option α)) (p q : Nat) (x : Option α) :
    heap_get (heap.set p x) q = if p = q ∧ p < heap.length then x else heap_get heap q := by
  unfold heap_get
  rw [List.getElem?_set]
  by_cases h : p = q
  · subst h
    by_cases h2 : p < heap.length
    · cases x <;> simp [h2]
    · simp [h2, List.getElem?_eq_none (Nat.le_of_not_lt h2)]
  · simp [h]

/-- C1: on a disk whose `first_free_block` is at most the length of its
allocation table (and whose table can take the file's blocks within the range
of `block_off_t`), `scan_file_insert` returns and gives block `i` of the file
the `i`-th smallest position `p >= first_free_block` whose cell was empty on
entry, positions at or past the end of the table reading as empty; the
assigned positions are strictly increasing and none was occupied on entry. -/
theorem scan_file_insert_assigns_nth_free (state : snapraid_state) (d : Nat) (fp : FilePtr)
    (disk : snapraid_disk) (file : snapraid_file)
    (hdisk : state.diskarr[d]? = some disk) (hfile : heap_get state.files fp = some file)
    (hhint : disk.first_free_block ≤ tommy_array_size disk.blockarr)
    (hfit : tommy_array_size disk.blockarr + file.blockmax < BLOCK_OFF_MOD) :
    ∃ state1 file1, scan_file_insert state d fp = some state1 ∧
      heap_get state1.files fp = some file1 ∧ file1.blockmax = file.blockmax ∧
      (∀ i, i < file.blockmax → pos_at file1.blockvec i =
        Nat.nth (fun p => disk.first_free_block ≤ p ∧ disk_block_get disk p = none) i) ∧
      (∀ i j, i < j → j < file.blockmax →
        pos_at file1.blockvec i < pos_at file1.blockvec j) ∧
      (∀ i, i < file.blockmax → disk_block_get disk (pos_at file1.blockvec i) = none) := by
  obtain ⟨w, hw, hres⟩ := scan_file_insert_spec state d fp disk file hdisk hfile hhint hfit
  refine ⟨_, { file with blockvec := w.blockvec }, hres, ?_, ?_, ?_, ?_, ?_⟩
  · simp [heap_get_set, heap_get_lt hfile]
  · simpa [snapraid_file.blockmax] using hw.len_vec
  · apply eq_nth_of_no_skip
    · intro k hk
      refine ⟨hw.ge_start k (by omega) (by omega), ?_⟩
      rw [disk_block_get_eq_cell]
      exact hw.was_free k (by omega) (by omega)
    · intro k hk j hj
      exact hw.increasing k (by omega) (by omega) j (by omega) hj
    · intro k hk q hq hlt
      rw [disk_block_get_eq_cell] at hq
      obtain ⟨j, -, hj2, hj3⟩ := hw.no_skip k (by omega) (by omega) q hq.1 hlt hq.2
      exact ⟨j, hj2, hj3⟩
  · intro i j hij hj
    exact hw.increasing j (by omega) (by omega) i (by omega) hij
  · intro i hi
    rw [disk_block_get_eq_cell]
    exact hw.was_free i (by omega) (by omega)

theorem scan_file_insert_assigns_nth_free_witness :
    ∃ disk file, insert_example.diskarr[0]? = some disk ∧
      heap_get insert_example.files 1 = some file ∧
      disk.first_free_block ≤ tommy_array_size disk.blockarr ∧
      tommy_array_size disk.blockarr + file.blockmax < BLOCK_OFF_MOD ∧
      ∃ state1 file1, scan_file_insert insert_example 0 1 = some state1 ∧
        heap_get state1.files 1 = some file1 ∧ file1.blockmax = file.blockmax ∧
        (∀ i, i < file.blockmax → pos_at file1.blockvec i =
          Nat.nth (fun p => disk.first_free_block ≤ p ∧ disk_block_get disk p = none) i) ∧
        (∀ i j, i < j → j < file.blockmax →
          pos_at file1.blockvec i < pos_at file1.blockvec j) ∧
        (∀ i, i < file.blockmax → disk_block_get disk (pos_at file1.blockvec i) = none) :=
  ⟨_, _, rfl, rfl, by decide, by decide,
    scan_file_insert_assigns_nth_free insert_example 0 1 _ _ rfl rfl (by decide) (by decide)⟩

/-! ## The loop of scan_file_remove -/

theorem flags_cleared_refl (files : List (Option snapraid_file)) :
    flags_cleared (fun _ => False) files files :=
  { len := rfl
    dead := fun _ h => h
    live := fun _ file h => ⟨file, h, rfl, rfl⟩
    blocks := fun _ b h => ⟨b, h, rfl, fun h => absurd h id, fun _ => rfl⟩ }

theorem flags_cleared_congr {T T1 : BlockPtr → Prop} {files files1 : List (Option snapraid_file)}
    (h : flags_cleared T files files1) (hT : ∀ bp, (block_get files bp).isSome → (T bp ↔ T1 bp)) :
    flags_cleared T1 files files1 :=
  { len := h.len
    dead := h.dead
    live := h.live
    blocks := fun bp b hb => by
      obtain ⟨b1, h1, h2, h3, h4⟩ := h.blocks bp b hb
      have hiff := hT bp (by rw [hb]; rfl)
      exact ⟨b1, h1, h2, fun t => h3 (hiff.2 t), fun t => h4 (fun t1 => t (hiff.1 t1))⟩ }

theorem flags_cleared_trans {T1 T2 : BlockPtr → Prop}
    {files files1 files2 : List (Option snapraid_file)}
    (h1 : flags_cleared T1 files files1) (h2 : flags_cleared T2 files1 files2) :
    flags_cleared (fun bp => T1 bp ∨ T2 bp) files files2 :=
  { len := by rw [h2.len, h1.len]
    dead := fun a h => h2.dead a (h1.dead a h)
    live := fun a file h => by
      obtain ⟨f1, hf1, he1, hl1⟩ := h1.live a file h
      obtain ⟨f2, hf2, he2, hl2⟩ := h2.live a f1 hf1
      refine ⟨f2, hf2, ?_, by rw [hl2, hl1]⟩
      rw [he2, he1]
    blocks := fun bp b hb => by
      obtain ⟨b1, hb1, he1, hc1, hk1⟩ := h1.blocks bp b hb
      obtain ⟨b2, hb2, he2, hc2, hk2⟩ := h2.blocks bp b1 hb1
      refine ⟨b2, hb2, ?_, ?_, ?_⟩
      · rw [he2, he1]
      · intro t
        by_cases t2 : T2 bp
        · exact hc2 t2
        · rw [hk2 t2]
          rcases t with t | t
          · exact hc1 t
          · exact absurd t t2
      · intro t
        rw [hk2 (fun t2 => t (Or.inr t2)), hk1 (fun t1 => t (Or.inl t1))] }

theorem block_get_isSome_of_cleared {T : BlockPtr → Prop}
    {files files1 : List (Option snapraid_file)} (h : flags_cleared T files files1)
    (bp : BlockPtr) : (block_get files1 bp).isSome = (block_get files bp).isSome := by
  cases hb : block_get files bp with
  | some b =>
    obtain ⟨b1, h1, -⟩ := h.blocks bp b hb
    rw [h1]; rfl
  | none =>
    unfold block_get at hb ⊢
    cases hf : heap_get files bp.file with
    | none => rw [h.dead _ hf]
    | some file =>
      obtain ⟨f1, hf1, -, hl⟩ := h.live _ file hf
      rw [hf] at hb
      simp only at hb
      rw [hf1]
      simp only
      have : file.blockvec.length ≤ bp.idx := by
        by_contra hlt
        rw [List.getElem?_eq_getElem (by omega)] at hb
        exact absurd hb (by simp)
      rw [List.getElem?_eq_none (by omega)]

theorem pos_at_of_cleared {T : BlockPtr → Prop}
    {files files1 : List (Option snapraid_file)} (h : flags_cleared T files files1)
    {a : Nat} {file file1 : snapraid_file} (hf : heap_get files a = some file)
    (hf1 : heap_get files1 a = some file1) (k : Nat) :
    pos_at file1.blockvec k = pos_at file.blockvec k := by
  unfold pos_at
  cases hb : file.blockvec[k]? with
  | some b =>
    have hbg : block_get files { file := a, idx := k } = some b := by
      simp [block_get, hf, hb]
    obtain ⟨b1, hb1, he, -⟩ := h.blocks _ b hbg
    simp [block_get, hf1] at hb1
    rw [hb1, he]
  | none =>
    obtain ⟨f1, hf1', -, hl⟩ := h.live a file hf
    rw [hf1] at hf1'
    cases hf1'
    have : file.blockvec.length ≤ k := by
      by_contra hlt
      rw [List.getElem?_eq_getElem (by omega)] at hb
      exact absurd hb (by simp)
    rw [List.getElem?_eq_none (by omega)]

/-- Clearing the flag of one live block record. -/
theorem block_flag_clear_has_parity_spec (files : List (Option snapraid_file)) (bp : BlockPtr)
    (hlive : (block_get files bp).isSome) :
    ∃ files1, block_flag_clear_has_parity files bp = some files1 ∧
      flags_cleared (fun x => x = bp) files files1 := by
  unfold block_get at hlive
  cases hf : heap_get files bp.file with
  | none => rw [hf] at hlive; exact absurd hlive (by simp)
  | some file =>
    rw [hf] at hlive
    simp only at hlive
    cases hb : file.blockvec[bp.idx]? with
    | none => rw [hb] at hlive; exact absurd hlive (by simp)
    | some block =>
      have hlt := heap_get_lt hf
      have hidx : bp.idx < file.blockvec.length := by
        by_contra hge
        rw [List.getElem?_eq_none (by omega)] at hb
        exact absurd hb (by simp)
      refine ⟨files.set bp.file (some { file with
          blockvec := file.blockvec.set bp.idx { block with has_parity := false } }),
        by unfold block_flag_clear_has_parity; rw [hf]; simp only [hb], ?_⟩
      refine { len := by simp, dead := ?_, live := ?_, blocks := ?_ }
      · intro a ha
        rw [heap_get_set]
        have : bp.file ≠ a := by
          intro h; rw [h, ha] at hf; exact absurd hf (by simp)
        simp [this, ha]
      · intro a f ha
        rw [heap_get_set]
        by_cases hab : bp.file = a
        · subst hab
          rw [ha] at hf; cases hf
          rw [if_pos ⟨rfl, hlt⟩]
          exact ⟨_, rfl, rfl, by simp⟩
        · rw [if_neg (fun h => hab h.1)]
          exact ⟨f, ha, rfl, rfl⟩
      · intro bp1 b hb1
        unfold block_get at hb1 ⊢
        rw [heap_get_set]
        by_cases hab : bp.file = bp1.file
        · rw [← hab, hf] at hb1
          simp only at hb1
          rw [if_pos ⟨hab, hlt⟩]
          simp only
          rw [List.getElem?_set]
          by_cases hidx1 : bp.idx = bp1.idx
          · rw [← hidx1, hb] at hb1
            cases hb1
            have : bp1 = bp := by
              cases bp; cases bp1; simp at hab hidx1 ⊢; exact ⟨hab.symm, hidx1.symm⟩
            simp [hidx1, ← hidx1, hidx, this]
            exact ⟨_, ⟨hidx1 ▸ hidx, rfl⟩, rfl, rfl⟩
          · have : bp1 ≠ bp := by
              intro h; rw [h] at hidx1; exact hidx1 rfl
            simp [hidx1, hb1, this]
        · have : bp1 ≠ bp := by
            intro h; rw [h] at hab; exact hab rfl
          rw [if_neg (fun h => hab h.1)]
          cases hf1 : heap_get files bp1.file with
          | none => rw [hf1] at hb1; exact absurd hb1 (by simp)
          | some f1 =>
            rw [hf1] at hb1
            simp only at hb1 ⊢
            exact ⟨b, hb1, rfl, fun h => absurd h this, fun _ => rfl⟩

theorem set_of_getElem? {α : Type} {l : List α} {d : Nat} {x : α} (h : l[d]? = some x) :
    l.set d x = l := by
  apply List.ext_getElem?
  intro j
  rw [List.getElem?_set]
  by_cases hj : d = j
  · subst hj
    have : d < l.length := by
      by_contra hlt
      rw [List.getElem?_eq_none (by omega)] at h
      exact absurd h (by simp)
    simp [this, h]
  · simp [hj]

theorem getElem?_lt {α : Type} {l : List α} {d : Nat} {x : α} (h : l[d]? = some x) :
    d < l.length := by
  by_contra hlt
  rw [List.getElem?_eq_none (by omega)] at h
  exact absurd h (by simp)

/-- The loop over the disks clears the flag of exactly the blocks found at
`block_pos`, provided they are live records. -/
theorem invalidate_other_disks_spec (block_pos : Nat) :
    ∀ (diskarr : List snapraid_disk) (files : List (Option snapraid_file)),
      (∀ oth, oth ∈ diskarr → ∀ bp, cell oth.blockarr block_pos = some bp →
        (block_get files bp).isSome) →
      ∃ files1, invalidate_other_disks diskarr block_pos files = some files1 ∧
        flags_cleared (fun bp => ∃ oth, oth ∈ diskarr ∧ cell oth.blockarr block_pos = some bp)
          files files1 := by
  intro diskarr
  induction diskarr with
  | nil =>
    intro files _
    refine ⟨files, rfl, flags_cleared_congr (flags_cleared_refl files) ?_⟩
    intro bp _
    simp
  | cons oth rest ih =>
    intro files hlive
    unfold invalidate_other_disks
    rw [disk_block_get_eq_cell]
    cases hc : cell oth.blockarr block_pos with
    | none =>
      obtain ⟨files1, h1, h2⟩ := ih files (fun o ho => hlive o (List.mem_cons_of_mem _ ho))
      refine ⟨files1, h1, flags_cleared_congr h2 ?_⟩
      intro bp _
      constructor
      · rintro ⟨o, ho, hcell⟩
        exact ⟨o, List.mem_cons_of_mem _ ho, hcell⟩
      · rintro ⟨o, ho, hcell⟩
        rcases List.mem_cons.1 ho with rfl | ho
        · rw [hc] at hcell; exact absurd hcell (by simp)
        · exact ⟨o, ho, hcell⟩
    | some bp0 =>
      obtain ⟨files1, h1, h2⟩ := block_flag_clear_has_parity_spec files bp0
        (hlive oth (List.mem_cons_self _ _) bp0 hc)
      obtain ⟨files2, h3, h4⟩ := ih files1 (fun o ho bp hbp => by
        rw [block_get_isSome_of_cleared h2]
        exact hlive o (List.mem_cons_of_mem _ ho) bp hbp)
      simp only [h1]
      refine ⟨files2, h3, flags_cleared_congr (flags_cleared_trans h2 h4) ?_⟩
      intro bp _
      constructor
      · rintro (h | ⟨o, ho, hcell⟩)
        · exact ⟨oth, List.mem_cons_self _ _, by rw [hc, h]⟩
        · exact ⟨o, List.mem_cons_of_mem _ ho, hcell⟩
      · rintro ⟨o, ho, hcell⟩
        rcases List.mem_cons.1 ho with rfl | ho
        · rw [hc] at hcell; left; exact (Option.some.inj hcell).symm
        · right; exact ⟨o, ho, hcell⟩

/-- One turn of the loop of `scan_file_remove`. -/
theorem scan_file_remove_block_spec (state : snapraid_state) (d : Nat) (fp : FilePtr) (i : Nat)
    (file : snapraid_file) (disk : snapraid_disk)
    (hfile : heap_get state.files fp = some file) (hdisk : state.diskarr[d]? = some disk)
    (hi : i < file.blockvec.length)
    (hrange : pos_at file.blockvec i < disk.blockarr.length)
    (hlive : ∀ (j : Nat) (oth : snapraid_disk) (bp : BlockPtr), state.diskarr[j]? = some oth →
      cell oth.blockarr (pos_at file.blockvec i) = some bp → (block_get state.files bp).isSome) :
    ∃ disk1 files1, scan_file_remove_block state d fp i =
        some { state with files := files1, diskarr := state.diskarr.set d disk1 } ∧
      remove_post d state.diskarr file 1 i disk disk1 state.files files1 := by
  have hb : file.blockvec[i]? = some file.blockvec[i] := List.getElem?_eq_getElem hi
  have hpos : pos_at file.blockvec i = file.blockvec[i].parity_pos := by
    simp [pos_at, hb]
  rw [hpos] at hrange hlive
  have hdlt := getElem?_lt hdisk
  obtain ⟨files1, h1, h2⟩ := invalidate_other_disks_spec file.blockvec[i].parity_pos
    (state.diskarr.set d
      { disk with
        first_free_block := if disk.first_free_block > file.blockvec[i].parity_pos
          then file.blockvec[i].parity_pos else disk.first_free_block,
        blockarr := disk.blockarr.set file.blockvec[i].parity_pos none })
    state.files (by
      intro oth hoth bp hbp
      obtain ⟨j, hj⟩ := List.mem_iff_getElem?.1 hoth
      rw [List.getElem?_set] at hj
      by_cases hjd : d = j
      · simp [hjd.symm, hdlt] at hj
        rw [← hj] at hbp
        simp [cell_set, hrange] at hbp
      · simp [hjd] at hj
        exact hlive j oth bp hj hbp)
  refine ⟨{ disk with
      first_free_block := if disk.first_free_block > file.blockvec[i].parity_pos
        then file.blockvec[i].parity_pos else disk.first_free_block,
      blockarr := disk.blockarr.set file.blockvec[i].parity_pos none }, files1, ?_, ?_⟩
  · unfold scan_file_remove_block
    simp only [hfile, hdisk, hb, tommy_array_set, hrange, if_true, h1]
  · have key : ∀ k, i ≤ k → k < i + 1 → k = i := fun k h1 h2 => by omega
    refine
      { disk_eq := rfl
        len_arr := by simp
        cleared := ?_
        arr_frame := ?_
        hint_le := ?_
        hint_le_pos := ?_
        hint_cases := ?_
        flags := flags_cleared_congr h2 ?_ }
    · intro k hk1 hk2
      rw [key k hk1 hk2, hpos]
      simp [cell_set, hrange]
    · intro q hq
      have := hq i (le_refl _) (by omega)
      rw [hpos] at this
      simp [cell_set, this]
    · simp only; split <;> omega
    · intro k hk1 hk2
      rw [key k hk1 hk2, hpos]
      simp only; split <;> omega
    · simp only
      by_cases h : disk.first_free_block > file.blockvec[i].parity_pos
      · right; exact ⟨i, le_refl _, by omega, by rw [hpos]; simp [h]⟩
      · left; simp [h]
    · intro bp _
      constructor
      · rintro ⟨oth, hoth, hcell⟩
        obtain ⟨j, hj⟩ := List.mem_iff_getElem?.1 hoth
        rw [List.getElem?_set] at hj
        by_cases hjd : d = j
        · simp [hjd.symm, hdlt] at hj
          rw [← hj] at hcell
          simp [cell_set, hrange] at hcell
        · simp [hjd] at hj
          exact ⟨i, le_refl _, by omega, j, oth, Ne.symm hjd, hj, by rw [hpos]; exact hcell⟩
      · rintro ⟨k, hk1, hk2, j, oth, hjd, hj, hcell⟩
        rw [key k hk1 hk2, hpos] at hcell
        refine ⟨oth, ?_, hcell⟩
        apply List.mem_iff_getElem?.2
        refine ⟨j, ?_⟩
        rw [List.getElem?_set_ne (Ne.symm hjd)]
        exact hj

/-- The loop of `scan_file_remove` over the blocks `i, ..., i + n - 1`, when
the positions of the file lie inside the table and the cells of all the disks
refer to live records. -/
theorem scan_file_remove_loop_spec (d : Nat) (fp : FilePtr) :
    ∀ (n i : Nat) (state : snapraid_state) (file : snapraid_file) (disk : snapraid_disk),
      heap_get state.files fp = some file → state.diskarr[d]? = some disk →
      i + n ≤ file.blockvec.length →
      (∀ k, i ≤ k → k < i + n → pos_at file.blockvec k < disk.blockarr.length) →
      (∀ (j : Nat) (oth : snapraid_disk) (p : Nat) (bp : BlockPtr),
        state.diskarr[j]? = some oth → cell oth.blockarr p = some bp →
        (block_get state.files bp).isSome) →
      ∃ disk1 files1, scan_file_remove_loop d fp n i state =
          some { state with files := files1, diskarr := state.diskarr.set d disk1 } ∧
        remove_post d state.diskarr file n i disk disk1 state.files files1 := by
  intro n
  induction n with
  | zero =>
    intro i state file disk _ hdisk _ _ _
    refine ⟨disk, state.files, ?_, ?_⟩
    · rw [set_of_getElem? hdisk]; rfl
    · exact
        { disk_eq := rfl
          len_arr := rfl
          cleared := fun k h1 h2 => absurd h2 (by omega)
          arr_frame := fun _ _ => rfl
          hint_le := le_refl _
          hint_le_pos := fun k h1 h2 => absurd h2 (by omega)
          hint_cases := Or.inl rfl
          flags := flags_cleared_congr (flags_cleared_refl _) (fun bp _ => by
            constructor
            · intro h; exact absurd h id
            · rintro ⟨k, h1, h2, -⟩; omega) }
  | succ n ih =>
    intro i state file disk hfile hdisk hlen hrange hlive
    obtain ⟨disk1, files1, hstep, hp1⟩ := scan_file_remove_block_spec state d fp i file disk
      hfile hdisk (by omega) (hrange i (le_refl _) (by omega))
      (fun j oth bp hj hc => hlive j oth _ bp hj hc)
    obtain ⟨file1, hfile1, -, hlen1⟩ := hp1.flags.live fp file hfile
    have hposeq : ∀ k, pos_at file1.blockvec k = pos_at file.blockvec k :=
      fun k => pos_at_of_cleared hp1.flags hfile hfile1 k
    have hdlt := getElem?_lt hdisk
    have hdisk1 : (state.diskarr.set d disk1)[d]? = some disk1 := by
      rw [List.getElem?_set]; simp [hdlt]
    obtain ⟨disk2, files2, hloop, hp2⟩ := ih (i + 1)
      { state with files := files1, diskarr := state.diskarr.set d disk1 } file1 disk1
      hfile1 hdisk1 (by omega)
      (fun k h1 h2 => by rw [hposeq, hp1.len_arr]; exact hrange k (by omega) (by omega))
      (fun j oth p bp hj hc => by
        simp only at hj ⊢
        rw [block_get_isSome_of_cleared hp1.flags]
        rw [List.getElem?_set] at hj
        by_cases hjd : d = j
        · simp [hjd.symm, hdlt] at hj
          rw [← hj] at hc
          by_cases hq : pos_at file.blockvec i = p
          · rw [← hq, hp1.cleared i (le_refl _) (by omega)] at hc
            exact absurd hc (by simp)
          · rw [hp1.arr_frame p (fun k h1 h2 => by
              have : k = i := by omega
              rw [this]; exact hq)] at hc
            exact hlive d disk p bp hdisk hc
        · simp [hjd] at hj
          exact hlive j oth p bp hj hc)
    simp only [List.set_set] at hloop
    refine ⟨disk2, files2, ?_, ?_⟩
    · show (match scan_file_remove_block state d fp i with
        | some state1 => scan_file_remove_loop d fp n (i + 1) state1
        | none => none) = _
      rw [hstep]
      exact hloop
    · refine
        { disk_eq := by rw [hp2.disk_eq, hp1.disk_eq]
          len_arr := by rw [hp2.len_arr, hp1.len_arr]
          cleared := ?_
          arr_frame := ?_
          hint_le := le_trans hp2.hint_le hp1.hint_le
          hint_le_pos := ?_
          hint_cases := ?_
          flags := flags_cleared_congr (flags_cleared_trans hp1.flags hp2.flags) ?_ }
      · intro k h1 h2
        by_cases hk : k = i
        · subst hk
          by_cases hex : ∃ k1, k + 1 ≤ k1 ∧ k1 < k + 1 + n ∧
              pos_at file.blockvec k1 = pos_at file.blockvec k
          · obtain ⟨k1, hk1, hk2, hk3⟩ := hex
            rw [← hk3, ← hposeq k1]
            exact hp2.cleared k1 hk1 hk2
          · rw [hp2.arr_frame _ (fun k1 hk1 hk2 heq => hex ⟨k1, hk1, hk2, by rw [← hposeq k1, heq]⟩)]
            exact hp1.cleared k (le_refl _) (by omega)
        · rw [← hposeq k]
          exact hp2.cleared k (by omega) (by omega)
      · intro q hq
        rw [hp2.arr_frame q (fun k h1 h2 => by rw [hposeq]; exact hq k (by omega) (by omega)),
          hp1.arr_frame q (fun k h1 h2 => hq k h1 (by omega))]
      · intro k h1 h2
        by_cases hk : k = i
        · subst hk
          exact le_trans hp2.hint_le (hp1.hint_le_pos k (le_refl _) (by omega))
        · rw [← hposeq k]
          exact hp2.hint_le_pos k (by omega) (by omega)
      · rcases hp2.hint_cases with h | ⟨k, h1, h2, h3⟩
        · rcases hp1.hint_cases with h0 | ⟨k, h1, h2, h3⟩
          · left; rw [h, h0]
          · right; exact ⟨k, h1, by omega, by rw [h, h3]⟩
        · right; exact ⟨k, by omega, by omega, by rw [h3, hposeq]⟩
      · intro bp _
        constructor
        · rintro (⟨k, h1, h2, j, oth, hjd, hj, hc⟩ | ⟨k, h1, h2, j, oth, hjd, hj, hc⟩)
          · exact ⟨k, h1, by omega, j, oth, hjd, hj, hc⟩
          · simp only at hj
            rw [List.getElem?_set_ne (Ne.symm hjd)] at hj
            rw [hposeq] at hc
            exact ⟨k, by omega, by omega, j, oth, hjd, hj, hc⟩
        · rintro ⟨k, h1, h2, j, oth, hjd, hj, hc⟩
          by_cases hk : k = i
          · left; exact ⟨k, h1, by omega, j, oth, hjd, hj, hc⟩
          · right
            refine ⟨k, by omega, by omega, j, oth, hjd, ?_, by rw [hposeq]; exact hc⟩
            simp only
            rw [List.getElem?_set_ne (Ne.symm hjd)]
            exact hj

/-! ## Soundness of the executable invariant checks -/

theorem I1_of_check {state : snapraid_state} {disk : snapraid_disk}
    (h : I1_check state disk = true) : I1 state disk := by
  unfold I1_check at h
  rw [Bool.and_eq_true, List.all_eq_true, List.all_eq_true] at h
  constructor
  · intro fp hfp
    have h1 := h.1 fp hfp
    unfold file_linked_check at h1
    unfold file_linked
    cases hf : heap_get state.files fp with
    | none => rw [hf] at h1; exact absurd h1 (by simp)
    | some file =>
      rw [hf] at h1
      simp only [List.all_eq_true, List.mem_range, beq_iff_eq] at h1
      exact ⟨file, rfl, h1⟩
  · intro p bp hbp
    have hlt : p < disk.blockarr.length := by
      by_contra hge
      rw [disk_block_get_eq_cell, cell_of_ge (by omega)] at hbp
      exact absurd hbp (by simp)
    have h2 := h.2 p (List.mem_range.2 hlt)
    unfold cell_linked_check at h2
    rw [hbp] at h2
    simp only [Bool.and_eq_true] at h2
    refine ⟨by simpa using h2.1, ?_⟩
    cases hb : block_get state.files bp with
    | none => rw [hb] at h2; exact absurd h2.2 (by simp)
    | some b =>
      rw [hb] at h2
      exact ⟨b, rfl, by simpa using h2.2⟩

theorem I1_all_of_check {state : snapraid_state} (h : I1_all_check state = true) :
    I1_all state := by
  unfold I1_all_check at h
  rw [List.all_eq_true] at h
  intro disk hdisk
  exact I1_of_check (h disk hdisk)

theorem I3_of_check {disk : snapraid_disk} (h : I3_check disk = true) : I3 disk := by
  unfold I3_check at h
  rw [List.all_eq_true] at h
  intro p hp
  have := h p (List.mem_range.2 hp)
  intro hn
  rw [hn] at this
  exact absurd this (by simp)

/-! ## scan_file_remove (claims C5, C6) -/

theorem mem_positions (file : snapraid_file) (p : Nat) :
    p ∈ positions file ↔ ∃ k, k < file.blockmax ∧ pos_at file.blockvec k = p := by
  unfold positions snapraid_file.blockmax pos_at
  rw [List.mem_map]
  constructor
  · rintro ⟨b, hb, rfl⟩
    obtain ⟨k, hk, hkb⟩ := List.getElem_of_mem hb
    refine ⟨k, hk, ?_⟩
    rw [List.getElem?_eq_getElem hk, hkb]
  · rintro ⟨k, hk, rfl⟩
    rw [List.getElem?_eq_getElem hk]
    exact ⟨_, List.getElem_mem _, rfl⟩

theorem foldl_min_eq (l : List Nat) :
    ∀ (a x : Nat), x ≤ a → (∀ p, p ∈ l → x ≤ p) → (x = a ∨ x ∈ l) → x = l.foldl min a := by
  induction l with
  | nil =>
    intro a x _ _ h
    rcases h with h | h
    · exact h
    · exact absurd h (by simp)
  | cons q l ih =>
    intro a x h1 h2 h3
    rw [List.foldl_cons]
    apply ih
    · exact le_min h1 (h2 q (List.mem_cons_self _ _))
    · intro p hp; exact h2 p (List.mem_cons_of_mem _ hp)
    · rcases h3 with h | h
      · left; rw [h]
        have := h2 q (List.mem_cons_self _ _)
        omega
      · rcases List.mem_cons.1 h with h | h
        · left
          rw [h]
          have : q ≤ a := by omega
          omega
        · right; exact h

/-- Result of `scan_file_remove` in terms of the disk and the store of files
left by its loop. -/
theorem scan_file_remove_spec (state : snapraid_state) (d : Nat) (fp : FilePtr)
    (file : snapraid_file) (disk : snapraid_disk)
    (hfile : heap_get state.files fp = some file) (hdisk : state.diskarr[d]? = some disk)
    (hrange : ∀ k, k < file.blockmax → pos_at file.blockvec k < disk.blockarr.length)
    (hlive : ∀ (j : Nat) (oth : snapraid_disk) (p : Nat) (bp : BlockPtr),
      state.diskarr[j]? = some oth → cell oth.blockarr p = some bp →
      (block_get state.files bp).isSome) :
    ∃ disk1 files1, scan_file_remove state d fp = some { state with
        need_write := true,
        files := files1.set fp none,
        diskarr := state.diskarr.set d
          { disk1 with
            inodeset := disk1.inodeset.filter (fun p => p != fp),
            filelist := disk1.filelist.filter (fun p => p != fp) } } ∧
      remove_post d state.diskarr file file.blockmax 0 disk disk1 state.files files1 := by
  obtain ⟨disk1, files1, hloop, hpost⟩ := scan_file_remove_loop_spec d fp file.blockmax 0
    { state with need_write := true } file disk hfile hdisk
    (by simp [snapraid_file.blockmax]) (fun k _ h2 => hrange k (by omega)) hlive
  refine ⟨disk1, files1, ?_, hpost⟩
  unfold scan_file_remove
  simp only [hfile, hloop]
  have hdlt := getElem?_lt hdisk
  have : (state.diskarr.set d disk1)[d]? = some disk1 := by
    rw [List.getElem?_set]; simp [hdlt]
  simp only [this, List.set_set]

theorem cells_live_of_I1_all {state : snapraid_state} (h : I1_all state)
    (j : Nat) (oth : snapraid_disk) (p : Nat) (bp : BlockPtr)
    (hj : state.diskarr[j]? = some oth) (hc : cell oth.blockarr p = some bp) :
    (block_get state.files bp).isSome := by
  have hI := h oth (List.mem_iff_getElem?.2 ⟨j, hj⟩)
  obtain ⟨-, b, hb, -⟩ := hI.2 p bp (by rw [disk_block_get_eq_cell]; exact hc)
  rw [hb]; rfl

theorem range_of_I1 {state : snapraid_state} {disk : snapraid_disk} (h : I1 state disk)
    {fp : FilePtr} {file : snapraid_file} (hmem : fp ∈ disk.filelist)
    (hfile : heap_get state.files fp = some file) (k : Nat) (hk : k < file.blockmax) :
    pos_at file.blockvec k < disk.blockarr.length := by
  obtain ⟨file1, hf1, hl⟩ := h.1 fp hmem
  rw [hfile] at hf1
  cases hf1
  have := hl k hk
  rw [disk_block_get_eq_cell] at this
  by_contra hge
  rw [cell_of_ge (by omega)] at this
  exact absurd this (by simp)

/-- C5: for a file `f` of a disk, `scan_file_remove(disk, f)` returns and
afterwards every cell at a position held by a block of `f` is empty, every
other cell of that disk's table is unchanged, the table's length is unchanged,
`first_free_block` is the minimum of its previous value and the positions of
`f`'s blocks, `f` is no longer in the disk's file list or inode set, and
`need_write` is set. -/
theorem scan_file_remove_effect (state : snapraid_state) (d : Nat) (fp : FilePtr)
    (disk : snapraid_disk) (file : snapraid_file)
    (hI1 : I1_all state) (hdisk : state.diskarr[d]? = some disk)
    (hmem : fp ∈ disk.filelist) (hfile : heap_get state.files fp = some file) :
    ∃ state1 disk1, scan_file_remove state d fp = some state1 ∧
      state1.diskarr[d]? = some disk1 ∧
      (∀ p, p ∈ positions file → disk_block_get disk1 p = none) ∧
      (∀ p, p ∉ positions file → disk_block_get disk1 p = disk_block_get disk p) ∧
      tommy_array_size disk1.blockarr = tommy_array_size disk.blockarr ∧
      disk1.first_free_block = (positions file).foldl min disk.first_free_block ∧
      fp ∉ disk1.filelist ∧ fp ∉ disk1.inodeset ∧ state1.need_write = true := by
  have hI := hI1 disk (List.mem_iff_getElem?.2 ⟨d, hdisk⟩)
  obtain ⟨disk1, files1, hres, hpost⟩ := scan_file_remove_spec state d fp file disk hfile hdisk
    (range_of_I1 hI hmem hfile) (cells_live_of_I1_all hI1)
  have hdlt := getElem?_lt hdisk
  refine ⟨_, { disk1 with
      inodeset := disk1.inodeset.filter (fun p => p != fp),
      filelist := disk1.filelist.filter (fun p => p != fp) }, hres,
    by simp only; rw [List.getElem?_set]; simp [hdlt], ?_, ?_, ?_, ?_, ?_, ?_, rfl⟩
  · intro p hp
    obtain ⟨k, hk, rfl⟩ := (mem_positions file p).1 hp
    rw [disk_block_get_eq_cell]
    exact hpost.cleared k (by omega) (by omega)
  · intro p hp
    rw [disk_block_get_eq_cell, disk_block_get_eq_cell]
    apply hpost.arr_frame
    intro k _ hk heq
    exact hp ((mem_positions file p).2 ⟨k, by omega, heq⟩)
  · exact hpost.len_arr
  · apply foldl_min_eq
    · exact hpost.hint_le
    · intro p hp
      obtain ⟨k, hk, rfl⟩ := (mem_positions file p).1 hp
      exact hpost.hint_le_pos k (by omega) (by omega)
    · rcases hpost.hint_cases with h | ⟨k, -, hk, h⟩
      · left; exact h
      · right; rw [h]; exact (mem_positions file _).2 ⟨k, by omega, rfl⟩
  · simp [List.mem_filter]
  · simp [List.mem_filter]

theorem scan_file_remove_effect_witness :
    ∃ disk file, I1_all remove_example ∧ remove_example.diskarr[0]? = some disk ∧
      0 ∈ disk.filelist ∧ heap_get remove_example.files 0 = some file ∧
      ∃ state1 disk1, scan_file_remove remove_example 0 0 = some state1 ∧
        state1.diskarr[0]? = some disk1 ∧
        (∀ p, p ∈ positions file → disk_block_get disk1 p = none) ∧
        (∀ p, p ∉ positions file → disk_block_get disk1 p = disk_block_get disk p) ∧
        tommy_array_size disk1.blockarr = tommy_array_size disk.blockarr ∧
        disk1.first_free_block = (positions file).foldl min disk.first_free_block ∧
        0 ∉ disk1.filelist ∧ 0 ∉ disk1.inodeset ∧ state1.need_write = true :=
  ⟨_, _, I1_all_of_check (by decide), rfl, by decide, rfl,
    scan_file_remove_effect remove_example 0 0 _ _ (I1_all_of_check (by decide)) rfl
      (by decide) rfl⟩

/-- C6: when `scan_file_remove` removes a file `f`, then at every position `p`
held by a block of `f`, every block (of another file) that occupies `p` on any
disk of the array has its has-parity flag cleared afterwards, and the blocks
at positions not held by `f` are unchanged, has-parity flag included. -/
theorem scan_file_remove_invalidates (state : snapraid_state) (d : Nat) (fp : FilePtr)
    (disk : snapraid_disk) (file : snapraid_file)
    (hI1 : I1_all state) (hdisk : state.diskarr[d]? = some disk)
    (hmem : fp ∈ disk.filelist) (hfile : heap_get state.files fp = some file) :
    ∃ state1, scan_file_remove state d fp = some state1 ∧
      (∀ (j : Nat) (oth : snapraid_disk) (p : Nat) (bp : BlockPtr),
        state1.diskarr[j]? = some oth → p ∈ positions file →
        disk_block_get oth p = some bp → bp.file ≠ fp →
        ∃ b, block_get state1.files bp = some b ∧ b.has_parity = false) ∧
      (∀ (j : Nat) (oth : snapraid_disk) (p : Nat) (bp : BlockPtr),
        state1.diskarr[j]? = some oth → p ∉ positions file →
        disk_block_get oth p = some bp →
        block_get state1.files bp = block_get state.files bp) := by
  have hI := hI1 disk (List.mem_iff_getElem?.2 ⟨d, hdisk⟩)
  obtain ⟨disk1, files1, hres, hpost⟩ := scan_file_remove_spec state d fp file disk hfile hdisk
    (range_of_I1 hI hmem hfile) (cells_live_of_I1_all hI1)
  have hdlt := getElem?_lt hdisk
  have hother : ∀ bp : BlockPtr, bp.file ≠ fp →
      block_get (files1.set fp none) bp = block_get files1 bp := by
    intro bp hne
    unfold block_get
    rw [heap_get_set]
    simp [Ne.symm hne]
  refine ⟨_, hres, ?_, ?_⟩
  · intro j oth p bp hj hp hc hne
    simp only at hj ⊢
    obtain ⟨k, hk, rfl⟩ := (mem_positions file p).1 hp
    rw [disk_block_get_eq_cell] at hc
    rw [List.getElem?_set] at hj
    by_cases hjd : d = j
    · simp [hjd.symm, hdlt] at hj
      rw [← hj] at hc
      simp only at hc
      rw [hpost.cleared k (by omega) (by omega)] at hc
      exact absurd hc (by simp)
    · simp [hjd] at hj
      have hl := cells_live_of_I1_all hI1 j oth _ bp hj hc
      obtain ⟨b, hb⟩ := Option.isSome_iff_exists.1 hl
      obtain ⟨b1, hb1, -, hclear, -⟩ := hpost.flags.blocks bp b hb
      refine ⟨b1, by rw [hother bp hne]; exact hb1, ?_⟩
      exact hclear ⟨k, by omega, by omega, j, oth, Ne.symm hjd, hj, hc⟩
  · intro j oth p bp hj hp hc
    simp only at hj ⊢
    have hnotpos : ∀ k, k < file.blockmax → pos_at file.blockvec k ≠ p :=
      fun k hk heq => hp ((mem_positions file p).2 ⟨k, hk, heq⟩)
    -- the cell held the same pointer before the call
    have hold : ∃ oth0, state.diskarr[j]? = some oth0 ∧ cell oth0.blockarr p = some bp := by
      rw [disk_block_get_eq_cell] at hc
      rw [List.getElem?_set] at hj
      by_cases hjd : d = j
      · simp [hjd.symm, hdlt] at hj
        rw [← hj] at hc
        simp only at hc
        rw [hpost.arr_frame p (fun k _ hk => hnotpos k (by omega))] at hc
        exact ⟨disk, by rw [← hjd]; exact hdisk, hc⟩
      · simp [hjd] at hj
        exact ⟨oth, hj, hc⟩
    obtain ⟨oth0, hj0, hc0⟩ := hold
    have hI0 := hI1 oth0 (List.mem_iff_getElem?.2 ⟨j, hj0⟩)
    obtain ⟨-, b, hb, hbp⟩ := hI0.2 p bp (by rw [disk_block_get_eq_cell]; exact hc0)
    -- the record does not belong to the removed file
    have hne : bp.file ≠ fp := by
      intro heq
      unfold block_get at hb
      rw [heq, hfile] at hb
      simp only at hb
      have hidx := getElem?_lt hb
      apply hnotpos bp.idx hidx
      unfold pos_at
      rw [hb]
      exact hbp
    -- no turn of the loop has met this record
    have hnot : ¬ ∃ k, 0 ≤ k ∧ k < 0 + file.blockmax ∧ ∃ (j1 : Nat) (oth1 : snapraid_disk),
        j1 ≠ d ∧ state.diskarr[j1]? = some oth1 ∧
        cell oth1.blockarr (pos_at file.blockvec k) = some bp := by
      rintro ⟨k, -, hk, j1, oth1, -, hj1, hc1⟩
      have hI1' := hI1 oth1 (List.mem_iff_getElem?.2 ⟨j1, hj1⟩)
      obtain ⟨-, b', hb', hbp'⟩ := hI1'.2 _ bp (by rw [disk_block_get_eq_cell]; exact hc1)
      rw [hb] at hb'
      cases hb'
      exact hnotpos k (by omega) (by rw [← hbp', hbp])
    obtain ⟨b1, hb1, he, -, hkeep⟩ := hpost.flags.blocks bp b hb
    rw [hother bp hne, hb1, hb, he, hkeep hnot]

theorem scan_file_remove_invalidates_witness :
    ∃ disk file, I1_all remove_example ∧ remove_example.diskarr[0]? = some disk ∧
      0 ∈ disk.filelist ∧ heap_get remove_example.files 0 = some file ∧
      ∃ state1, scan_file_remove remove_example 0 0 = some state1 ∧
        (∀ (j : Nat) (oth : snapraid_disk) (p : Nat) (bp : BlockPtr),
          state1.diskarr[j]? = some oth → p ∈ positions file →
          disk_block_get oth p = some bp → bp.file ≠ 0 →
          ∃ b, block_get state1.files bp = some b ∧ b.has_parity = false) ∧
        (∀ (j : Nat) (oth : snapraid_disk) (p : Nat) (bp : BlockPtr),
          state1.diskarr[j]? = some oth → p ∉ positions file →
          disk_block_get oth p = some bp →
          block_get state1.files bp = block_get remove_example.files bp) :=
  ⟨_, _, I1_all_of_check (by decide), rfl, by decide, rfl,
    scan_file_remove_invalidates remove_example 0 0 _ _ (I1_all_of_check (by decide)) rfl
      (by decide) rfl⟩

/-! ## Invariant I1 (claim C2) -/

/-- C2: invariant I1 is preserved by the allocator.  If on a disk every block
record of every file is the target of the cell at its parity position and every
non-empty cell refers to such a record, then `scan_file_insert` of a file that
is not yet in the list returns and the same holds for every file of that disk,
the inserted one included; and `scan_file_remove` of a file of the disk returns
and the same holds for every remaining file. -/
theorem allocator_preserves_I1 (state : snapraid_state) (d : Nat) (fp : FilePtr)
    (disk : snapraid_disk) (file : snapraid_file)
    (hdisk : state.diskarr[d]? = some disk) (hfile : heap_get state.files fp = some file) :
    (fp ∉ disk.filelist → I1 state disk →
      disk.first_free_block ≤ tommy_array_size disk.blockarr →
      tommy_array_size disk.blockarr + file.blockmax < BLOCK_OFF_MOD →
      ∃ state1 disk1, scan_file_insert state d fp = some state1 ∧
        state1.diskarr[d]? = some disk1 ∧ disk1.filelist = disk.filelist ++ [fp] ∧
        I1 state1 disk1) ∧
    (fp ∈ disk.filelist → I1_all state →
      ∃ state1 disk1, scan_file_remove state d fp = some state1 ∧
        state1.diskarr[d]? = some disk1 ∧
        (∀ fp1, fp1 ∈ disk1.filelist ↔ fp1 ∈ disk.filelist ∧ fp1 ≠ fp) ∧
        I1 state1 disk1) := by
  constructor
  · intro hfresh hI hhint hfit
    obtain ⟨w, hw, hres⟩ := scan_file_insert_spec state d fp disk file hdisk hfile hhint hfit
    have hdlt := getElem?_lt hdisk
    have hflt := heap_get_lt hfile
    refine ⟨_, { disk with
        first_free_block := if file.blockmax ≠ 0 then w.block_pos + 1 else disk.first_free_block,
        blockarr := w.blockarr,
        inodeset := disk.inodeset ++ [fp],
        filelist := disk.filelist ++ [fp] }, hres,
      by simp only; rw [List.getElem?_set]; simp [hdlt], rfl, ?_, ?_⟩
    · intro fp1 hfp1
      simp only [List.mem_append, List.mem_singleton] at hfp1
      unfold file_linked
      simp only [disk_block_get_eq_cell]
      rcases hfp1 with hold | rfl
      · have hne : fp ≠ fp1 := fun h => hfresh (h ▸ hold)
        obtain ⟨file1, hf1, hl1⟩ := hI.1 fp1 hold
        refine ⟨file1, by rw [heap_get_set]; simp [hne, hf1], ?_⟩
        intro i hi
        have hc := hl1 i hi
        rw [disk_block_get_eq_cell] at hc
        rw [hw.arr_frame _ (fun k _ hk heq => by
          have := hw.was_free k (by omega) hk
          rw [heq] at this
          simp only at this
          rw [hc] at this
          exact absurd this (by simp))]
        exact hc
      · refine ⟨{ file with blockvec := w.blockvec }, by rw [heap_get_set]; simp [hflt], ?_⟩
        intro i hi
        simp only [snapraid_file.blockmax] at hi
        rw [hw.len_vec] at hi
        exact hw.now_set i (by omega) (by simpa [snapraid_file.blockmax] using hi)
    · intro p bp hbp
      rw [disk_block_get_eq_cell] at hbp
      simp only at hbp
      simp only [List.mem_append, List.mem_singleton]
      by_cases hex : ∃ k, k < file.blockmax ∧ pos_at w.blockvec k = p
      · obtain ⟨k, hk, rfl⟩ := hex
        rw [hw.now_set k (by omega) (by omega)] at hbp
        cases hbp
        refine ⟨Or.inr rfl, ?_⟩
        unfold block_get
        simp only
        rw [heap_get_set]
        simp only [hflt, and_self, if_true]
        have hk' : k < w.blockvec.length := by
          rw [hw.len_vec]; exact hk
        refine ⟨w.blockvec[k], List.getElem?_eq_getElem hk', ?_⟩
        simp [pos_at, List.getElem?_eq_getElem hk']
      · rw [hw.arr_frame p (fun k _ hk heq => hex ⟨k, by omega, heq⟩)] at hbp
        obtain ⟨hin, b, hb, hbpos⟩ := hI.2 p bp (by rw [disk_block_get_eq_cell]; exact hbp)
        have hne : fp ≠ bp.file := fun h => hfresh (h ▸ hin)
        refine ⟨Or.inl hin, b, ?_, hbpos⟩
        unfold block_get at hb ⊢
        rw [heap_get_set]
        simp only [hne, false_and, if_false]
        exact hb
  · intro hmem hI1
    have hI := hI1 disk (List.mem_iff_getElem?.2 ⟨d, hdisk⟩)
    obtain ⟨disk1, files1, hres, hpost⟩ := scan_file_remove_spec state d fp file disk hfile hdisk
      (range_of_I1 hI hmem hfile) (cells_live_of_I1_all hI1)
    have hdlt := getElem?_lt hdisk
    have hfl : disk1.filelist = disk.filelist := by rw [hpost.disk_eq]
    obtain ⟨file0, hf0, hl0⟩ := hI.1 fp hmem
    rw [hfile] at hf0
    cases hf0
    refine ⟨_, { disk1 with
        inodeset := disk1.inodeset.filter (fun p => p != fp),
        filelist := disk1.filelist.filter (fun p => p != fp) }, hres,
      by simp only; rw [List.getElem?_set]; simp [hdlt], ?_, ?_, ?_⟩
    · intro fp1
      simp [List.mem_filter, hfl]
    · intro fp1 hfp1
      simp only [List.mem_filter, hfl, bne_iff_ne] at hfp1
      obtain ⟨hin, hne⟩ := hfp1
      obtain ⟨file1, hf1, hl1⟩ := hI.1 fp1 hin
      obtain ⟨file2, hf2, -, hlen2⟩ := hpost.flags.live fp1 file1 hf1
      unfold file_linked
      simp only [disk_block_get_eq_cell]
      refine ⟨file2, by rw [heap_get_set]; simp [Ne.symm hne, hf2], ?_⟩
      intro i hi
      rw [pos_at_of_cleared hpost.flags hf1 hf2 i]
      have hi1 : i < file1.blockmax := by
        simp only [snapraid_file.blockmax] at hi ⊢; omega
      have hc := hl1 i hi1
      rw [disk_block_get_eq_cell] at hc
      rw [hpost.arr_frame _ (fun k _ hk heq => by
        have := hl0 k (by omega)
        rw [disk_block_get_eq_cell, heq, hc] at this
        cases this
        exact hne rfl)]
      exact hc
    · intro p bp hbp
      rw [disk_block_get_eq_cell] at hbp
      simp only at hbp
      have hnotpos : ∀ k, k < file.blockmax → pos_at file.blockvec k ≠ p := by
        intro k hk heq
        rw [← heq, hpost.cleared k (by omega) (by omega)] at hbp
        exact absurd hbp (by simp)
      rw [hpost.arr_frame p (fun k _ hk => hnotpos k (by omega))] at hbp
      obtain ⟨hin, b, hb, hbpos⟩ := hI.2 p bp (by rw [disk_block_get_eq_cell]; exact hbp)
      have hne : bp.file ≠ fp := by
        intro heq
        unfold block_get at hb
        rw [heq, hfile] at hb
        simp only at hb
        apply hnotpos bp.idx (getElem?_lt hb)
        unfold pos_at
        rw [hb]
        exact hbpos
      obtain ⟨b1, hb1, he, -⟩ := hpost.flags.blocks bp b hb
      refine ⟨by simp [List.mem_filter, hfl, hin, hne], b1, ?_, by rw [he]; exact hbpos⟩
      unfold block_get at hb1 ⊢
      rw [heap_get_set]
      simp only [Ne.symm hne, false_and, if_false]
      exact hb1

theorem allocator_preserves_I1_witness :
    (∃ disk file, insert_example.diskarr[0]? = some disk ∧
      heap_get insert_example.files 1 = some file ∧ 1 ∉ disk.filelist ∧
      I1 insert_example disk ∧ disk.first_free_block ≤ tommy_array_size disk.blockarr ∧
      tommy_array_size disk.blockarr + file.blockmax < BLOCK_OFF_MOD ∧
      ∃ state1 disk1, scan_file_insert insert_example 0 1 = some state1 ∧
        state1.diskarr[0]? = some disk1 ∧ disk1.filelist = disk.filelist ++ [1] ∧
        I1 state1 disk1) ∧
    (∃ disk file, remove_example.diskarr[0]? = some disk ∧
      heap_get remove_example.files 0 = some file ∧ 0 ∈ disk.filelist ∧
      I1_all remove_example ∧
      ∃ state1 disk1, scan_file_remove remove_example 0 0 = some state1 ∧
        state1.diskarr[0]? = some disk1 ∧
        (∀ fp1, fp1 ∈ disk1.filelist ↔ fp1 ∈ disk.filelist ∧ fp1 ≠ 0) ∧
        I1 state1 disk1) :=
  ⟨⟨_, _, rfl, rfl, by decide, I1_of_check (by decide), by decide, by decide,
      (allocator_preserves_I1 insert_example 0 1 _ _ rfl rfl).1 (by decide)
        (I1_of_check (by decide)) (by decide) (by decide)⟩,
    ⟨_, _, rfl, rfl, by decide, I1_all_of_check (by decide),
      (allocator_preserves_I1 remove_example 0 0 _ _ rfl rfl).2 (by decide)
        (I1_all_of_check (by decide))⟩⟩

/-! ## Invariant I3 (claim C3) -/

theorem hint_le_size_of_I3 {disk : snapraid_disk} (h : I3 disk) :
    disk.first_free_block ≤ tommy_array_size disk.blockarr := by
  by_contra hlt
  unfold tommy_array_size at hlt
  apply h disk.blockarr.length (by omega)
  rw [disk_block_get_eq_cell]
  exact cell_of_ge (le_refl _)

/-- C3: invariant I3 is preserved by the allocator.  If on a disk no position
strictly less than `first_free_block` has an empty cell, then
`scan_file_insert` of any file (with any number of blocks, zero included)
returns and this still holds, and `scan_file_remove` of any file of that disk
returns and this still holds. -/
theorem allocator_preserves_I3 (state : snapraid_state) (d : Nat) (fp : FilePtr)
    (disk : snapraid_disk) (file : snapraid_file)
    (hdisk : state.diskarr[d]? = some disk) (hfile : heap_get state.files fp = some file)
    (hI3 : I3 disk) :
    (tommy_array_size disk.blockarr + file.blockmax < BLOCK_OFF_MOD →
      ∃ state1 disk1, scan_file_insert state d fp = some state1 ∧
        state1.diskarr[d]? = some disk1 ∧ I3 disk1) ∧
    (fp ∈ disk.filelist → I1_all state →
      ∃ state1 disk1, scan_file_remove state d fp = some state1 ∧
        state1.diskarr[d]? = some disk1 ∧ I3 disk1) := by
  have hdlt := getElem?_lt hdisk
  constructor
  · intro hfit
    obtain ⟨w, hw, hres⟩ := scan_file_insert_spec state d fp disk file hdisk hfile
      (hint_le_size_of_I3 hI3) hfit
    refine ⟨_, { disk with
        first_free_block :=
          if file.blockmax ≠ 0 then w.block_pos + 1 else disk.first_free_block,
        blockarr := w.blockarr,
        inodeset := disk.inodeset ++ [fp],
        filelist := disk.filelist ++ [fp] }, hres,
      by simp only; rw [List.getElem?_set]; simp [hdlt], ?_⟩
    intro p hp
    rw [disk_block_get_eq_cell]
    simp only at hp ⊢
    by_cases hn : file.blockmax = 0
    · have := hw.none_done hn
      rw [this]
      simp only [hn, ne_eq, not_true_eq_false, if_false] at hp
      have := hI3 p hp
      rw [disk_block_get_eq_cell] at this
      exact this
    · simp only [hn, ne_eq, not_false_eq_true, if_true] at hp
      obtain ⟨hlast, -⟩ := hw.last (by omega)
      by_cases hex : ∃ k, k < file.blockmax ∧ pos_at w.blockvec k = p
      · obtain ⟨k, hk, rfl⟩ := hex
        rw [hw.now_set k (by omega) (by omega)]
        simp
      · rw [hw.arr_frame p (fun k _ hk heq => hex ⟨k, by omega, heq⟩)]
        simp only
        by_cases hlt : p < disk.first_free_block
        · have := hI3 p hlt
          rw [disk_block_get_eq_cell] at this
          exact this
        · intro hfree
          have hne : pos_at w.blockvec (0 + file.blockmax - 1) ≠ p :=
            fun heq => hex ⟨0 + file.blockmax - 1, by omega, heq⟩
          obtain ⟨j, -, hj, hjp⟩ := hw.no_skip (0 + file.blockmax - 1) (by omega) (by omega) p
            (by simp only; omega) (by omega) hfree
          exact hex ⟨j, by omega, hjp⟩
  · intro hmem hI1
    have hI := hI1 disk (List.mem_iff_getElem?.2 ⟨d, hdisk⟩)
    obtain ⟨disk1, files1, hres, hpost⟩ := scan_file_remove_spec state d fp file disk hfile hdisk
      (range_of_I1 hI hmem hfile) (cells_live_of_I1_all hI1)
    refine ⟨_, { disk1 with
        inodeset := disk1.inodeset.filter (fun p => p != fp),
        filelist := disk1.filelist.filter (fun p => p != fp) }, hres,
      by simp only; rw [List.getElem?_set]; simp [hdlt], ?_⟩
    intro p hp
    simp only at hp
    rw [disk_block_get_eq_cell]
    simp only
    rw [hpost.arr_frame p (fun k _ hk heq => by
      have := hpost.hint_le_pos k (by omega) hk
      omega)]
    have := hI3 p (lt_of_lt_of_le hp hpost.hint_le)
    rw [disk_block_get_eq_cell] at this
    exact this

theorem allocator_preserves_I3_witness :
    (∃ disk file, insert_example.diskarr[0]? = some disk ∧
      heap_get insert_example.files 1 = some file ∧ I3 disk ∧
      tommy_array_size disk.blockarr + file.blockmax < BLOCK_OFF_MOD ∧
      ∃ state1 disk1, scan_file_insert insert_example 0 1 = some state1 ∧
        state1.diskarr[0]? = some disk1 ∧ I3 disk1) ∧
    (∃ disk file, remove_example.diskarr[0]? = some disk ∧
      heap_get remove_example.files 0 = some file ∧ I3 disk ∧ 0 ∈ disk.filelist ∧
      I1_all remove_example ∧
      ∃ state1 disk1, scan_file_remove remove_example 0 0 = some state1 ∧
        state1.diskarr[0]? = some disk1 ∧ I3 disk1) :=
  ⟨⟨_, _, rfl, rfl, I3_of_check (by decide), by decide,
      (allocator_preserves_I3 insert_example 0 1 _ _ rfl rfl (I3_of_check (by decide))).1
        (by decide)⟩,
    ⟨_, _, rfl, rfl, I3_of_check (by decide), by decide, I1_all_of_check (by decide),
      (allocator_preserves_I3 remove_example 0 0 _ _ rfl rfl (I3_of_check (by decide))).2
        (by decide) (I1_all_of_check (by decide))⟩⟩

/-! ## Compactness law (claim C4) -/

/-- C4, as stated, fails: on `compact_example`, which satisfies I1 and I3,
removing `b` (position 2) and then inserting a file with the same number of
blocks gives the new file position 1. -/
theorem compactness_counterexample :
    ∃ disk file state1 state2 file2,
      I1_all compact_example ∧ compact_example.diskarr[0]? = some disk ∧ I3 disk ∧
      1 ∈ disk.filelist ∧ heap_get compact_example.files 1 = some file ∧
      scan_file_remove compact_example 0 1 = some state1 ∧
      scan_file_insert state1 0 2 = some state2 ∧
      heap_get state2.files 2 = some file2 ∧ file2.blockmax = file.blockmax ∧
      positions file = [2] ∧ positions file2 = [1] ∧
      ¬ (∀ p, p ∈ positions file2 ↔ p ∈ positions file) :=
  ⟨_, _, _, _, _, I1_all_of_check (by decide), rfl, I3_of_check (by decide), by decide, rfl,
    rfl, rfl, rfl, rfl, rfl, rfl, fun h => absurd ((h 1).1 (by decide)) (by decide)⟩

theorem pos_at_injective_of_linked {disk : snapraid_disk} {fp : FilePtr} {file : snapraid_file}
    (hl : ∀ i, i < file.blockmax →
      disk_block_get disk (pos_at file.blockvec i) = some { file := fp, idx := i })
    (i j : Nat) (hi : i < file.blockmax) (hj : j < file.blockmax)
    (h : pos_at file.blockvec i = pos_at file.blockvec j) : i = j := by
  have h1 := hl i hi
  have h2 := hl j hj
  rw [h, h2] at h1
  simpa using h1.symm

/-- C4, amended: on a disk satisfying I1 and I3 where moreover no cell below a
position of `f` is empty, `scan_file_remove` of `f` followed, with no
allocator operation on that disk in between, by `scan_file_insert` of a file
with the same number of blocks gives the new file exactly the positions `f`
held. -/
theorem remove_then_insert_compact (state : snapraid_state) (d : Nat) (fp : FilePtr)
    (disk : snapraid_disk) (file : snapraid_file)
    (hI1 : I1_all state) (hI3 : I3 disk) (hdisk : state.diskarr[d]? = some disk)
    (hmem : fp ∈ disk.filelist) (hfile : heap_get state.files fp = some file)
    (hfull : ∀ q, q ∈ positions file → ∀ p, p < q → disk_block_get disk p ≠ none)
    (hfit : tommy_array_size disk.blockarr + file.blockmax < BLOCK_OFF_MOD) :
    ∃ state1 disk1, scan_file_remove state d fp = some state1 ∧
      state1.diskarr[d]? = some disk1 ∧
      ∀ (state2 : snapraid_state) (fp2 : FilePtr) (file2 : snapraid_file),
        state2.diskarr[d]? = some disk1 → heap_get state2.files fp2 = some file2 →
        file2.blockmax = file.blockmax →
        ∃ state3 file3, scan_file_insert state2 d fp2 = some state3 ∧
          heap_get state3.files fp2 = some file3 ∧
          ∀ p, p ∈ positions file3 ↔ p ∈ positions file := by
  have hI := hI1 disk (List.mem_iff_getElem?.2 ⟨d, hdisk⟩)
  obtain ⟨disk1, files1, hres, hpost⟩ := scan_file_remove_spec state d fp file disk hfile hdisk
    (range_of_I1 hI hmem hfile) (cells_live_of_I1_all hI1)
  have hdlt := getElem?_lt hdisk
  obtain ⟨file0, hf0, hl0⟩ := hI.1 fp hmem
  rw [hfile] at hf0
  cases hf0
  refine ⟨_, { disk1 with
      inodeset := disk1.inodeset.filter (fun p => p != fp),
      filelist := disk1.filelist.filter (fun p => p != fp) }, hres,
    by simp only; rw [List.getElem?_set]; simp [hdlt], ?_⟩
  intro state2 fp2 file2 hdisk2 hfile2 hsame
  have hhint2 : disk1.first_free_block ≤ disk1.blockarr.length := by
    have h1 := hpost.hint_le
    have h2 := hint_le_size_of_I3 hI3
    have h3 := hpost.len_arr
    unfold tommy_array_size at h2
    omega
  obtain ⟨w, hw, hres2⟩ := scan_file_insert_spec state2 d fp2 _ file2 hdisk2 hfile2
    (by simpa [tommy_array_size] using hhint2)
    (by simp only [tommy_array_size, hpost.len_arr, hsame]; exact hfit)
  simp only at hw
  rw [hsame] at hw
  refine ⟨_, { file2 with blockvec := w.blockvec }, hres2, ?_, ?_⟩
  · simp [heap_get_set, heap_get_lt hfile2]
  -- the two sets of positions as finite sets
  have hP : ∀ p, p ∈ positions file ↔
      p ∈ (Finset.range file.blockmax).image (pos_at file.blockvec) := by
    intro p
    rw [mem_positions, Finset.mem_image]
    constructor
    · rintro ⟨k, hk, h⟩; exact ⟨k, Finset.mem_range.2 hk, h⟩
    · rintro ⟨k, hk, h⟩; exact ⟨k, Finset.mem_range.1 hk, h⟩
  have hQ : ∀ p, p ∈ positions { file2 with blockvec := w.blockvec } ↔
      p ∈ (Finset.range file.blockmax).image (pos_at w.blockvec) := by
    intro p
    rw [mem_positions, Finset.mem_image]
    have hlen : ({ file2 with blockvec := w.blockvec } : snapraid_file).blockmax
        = file.blockmax := by
      simp only [snapraid_file.blockmax] at hsame ⊢
      rw [hw.len_vec]; exact hsame
    rw [hlen]
    constructor
    · rintro ⟨k, hk, h⟩; exact ⟨k, Finset.mem_range.2 hk, h⟩
    · rintro ⟨k, hk, h⟩; exact ⟨k, Finset.mem_range.1 hk, h⟩
  have hcardP : ((Finset.range file.blockmax).image (pos_at file.blockvec)).card
      = file.blockmax := by
    rw [Finset.card_image_of_injOn, Finset.card_range]
    intro i hi j hj h
    exact pos_at_injective_of_linked hl0 i j (by simpa using hi) (by simpa using hj) h
  have hcardQ : ((Finset.range file.blockmax).image (pos_at w.blockvec)).card
      = file.blockmax := by
    rw [Finset.card_image_of_injOn, Finset.card_range]
    intro i hi j hj h
    have hi' : i < file.blockmax := by simpa using hi
    have hj' : j < file.blockmax := by simpa using hj
    rcases Nat.lt_trichotomy i j with hlt | heq | hgt
    · have := hw.increasing j (by omega) (by omega) i (by omega) hlt
      omega
    · exact heq
    · have := hw.increasing i (by omega) (by omega) j (by omega) hgt
      omega
  -- every new position was a position of the removed file
  have hsub : (Finset.range file.blockmax).image (pos_at w.blockvec) ⊆
      (Finset.range file.blockmax).image (pos_at file.blockvec) := by
    intro q hq
    by_contra hnot
    obtain ⟨k, hk, rfl⟩ := Finset.mem_image.1 hq
    have hk' : k < file.blockmax := Finset.mem_range.1 hk
    have hnotpos : ∀ i, i < file.blockmax → pos_at file.blockvec i ≠ pos_at w.blockvec k :=
      fun i hi heq => hnot (Finset.mem_image.2 ⟨i, Finset.mem_range.2 hi, heq⟩)
    have hfree1 := hw.was_free k (by omega) (by omega)
    simp only at hfree1
    have hfree : disk_block_get disk (pos_at w.blockvec k) = none := by
      rw [disk_block_get_eq_cell, ← hpost.arr_frame _ (fun i _ hi => hnotpos i (by omega))]
      exact hfree1
    -- all the positions of the removed file were taken by earlier blocks
    have hall : (Finset.range file.blockmax).image (pos_at file.blockvec) ⊆
        (Finset.range k).image (pos_at w.blockvec) := by
      intro p hp
      obtain ⟨i, hi, rfl⟩ := Finset.mem_image.1 hp
      have hi' : i < file.blockmax := Finset.mem_range.1 hi
      have hlt : pos_at file.blockvec i < pos_at w.blockvec k := by
        rcases Nat.lt_trichotomy (pos_at file.blockvec i) (pos_at w.blockvec k) with h | h | h
        · exact h
        · exact absurd h (hnotpos i hi')
        · exact absurd hfree (hfull _ ((mem_positions file _).2 ⟨i, hi', rfl⟩) _ h)
      obtain ⟨j, -, hj, hjp⟩ := hw.no_skip k (by omega) (by omega) (pos_at file.blockvec i)
        (hpost.hint_le_pos i (by omega) (by omega)) hlt
        (hpost.cleared i (by omega) (by omega))
      exact Finset.mem_image.2 ⟨j, Finset.mem_range.2 hj, hjp⟩
    have h1 := Finset.card_le_card hall
    have h2 : ((Finset.range k).image (pos_at w.blockvec)).card ≤ k := by
      calc ((Finset.range k).image (pos_at w.blockvec)).card
          ≤ (Finset.range k).card := Finset.card_image_le
        _ = k := Finset.card_range k
    rw [hcardP] at h1
    omega
  have heq := Finset.eq_of_subset_of_card_le hsub (by rw [hcardP, hcardQ])
  intro p
  rw [hQ, hP, heq]

theorem remove_then_insert_compact_witness :
    ∃ disk file, I1_all compact_full_example ∧ I3 disk ∧
      compact_full_example.diskarr[0]? = some disk ∧ 0 ∈ disk.filelist ∧
      heap_get compact_full_example.files 0 = some file ∧
      (∀ q, q ∈ positions file → ∀ p, p < q → disk_block_get disk p ≠ none) ∧
      tommy_array_size disk.blockarr + file.blockmax < BLOCK_OFF_MOD ∧
      ∃ state1 disk1, scan_file_remove compact_full_example 0 0 = some state1 ∧
        state1.diskarr[0]? = some disk1 ∧
        ∀ (state2 : snapraid_state) (fp2 : FilePtr) (file2 : snapraid_file),
          state2.diskarr[0]? = some disk1 → heap_get state2.files fp2 = some file2 →
          file2.blockmax = file.blockmax →
          ∃ state3 file3, scan_file_insert state2 0 fp2 = some state3 ∧
            heap_get state3.files fp2 = some file3 ∧
            ∀ p, p ∈ positions file3 ↔ p ∈ positions file :=
  ⟨_, _, I1_all_of_check (by decide), I3_of_check (by decide), rfl, by decide, rfl,
    by decide, by decide,
    remove_then_insert_compact compact_full_example 0 0 _ _ (I1_all_of_check (by decide))
      (I3_of_check (by decide)) rfl (by decide) rfl (by decide) (by decide)⟩

/-! ## scan_file_insert and has-parity (claim C7), empty disk (claim C8) -/

/-- C7, as stated, fails: on `parity_example` the file inserted on disk 0 gets
position 0, and the block that occupies position 0 on disk 1 still has its
has-parity flag set afterwards. -/
theorem insert_invalidation_counterexample :
    ∃ state1 file1 oth bp b, scan_file_insert parity_example 0 1 = some state1 ∧
      heap_get state1.files 1 = some file1 ∧ 0 ∈ positions file1 ∧
      state1.diskarr[1]? = some oth ∧ disk_block_get oth 0 = some bp ∧
      block_get state1.files bp = some b ∧ b.has_parity = true :=
  ⟨_, _, _, _, _, rfl, rfl, by decide, rfl, rfl, rfl, rfl⟩

/-- C7, amended: `scan_file_insert` invalidates nothing.  For every position
`p` it assigns to a block of the inserted file, every block occupying `p` on
every other disk keeps its has-parity flag as it was, and the tables of the
other disks are unchanged. -/
theorem scan_file_insert_keeps_has_parity (state : snapraid_state) (d : Nat) (fp : FilePtr)
    (disk : snapraid_disk) (file : snapraid_file)
    (hdisk : state.diskarr[d]? = some disk) (hfile : heap_get state.files fp = some file)
    (hhint : disk.first_free_block ≤ tommy_array_size disk.blockarr)
    (hfit : tommy_array_size disk.blockarr + file.blockmax < BLOCK_OFF_MOD) :
    ∃ state1 file1, scan_file_insert state d fp = some state1 ∧
      heap_get state1.files fp = some file1 ∧
      ∀ p, p ∈ positions file1 →
        ∀ (j : Nat) (oth : snapraid_disk) (bp : BlockPtr), j ≠ d →
          state1.diskarr[j]? = some oth → disk_block_get oth p = some bp →
          state.diskarr[j]? = some oth ∧
          (block_get state1.files bp).map (fun b => b.has_parity) =
            (block_get state.files bp).map (fun b => b.has_parity) := by
  obtain ⟨w, hw, hres⟩ := scan_file_insert_spec state d fp disk file hdisk hfile hhint hfit
  have hflt := heap_get_lt hfile
  refine ⟨_, { file with blockvec := w.blockvec }, hres, ?_, ?_⟩
  · simp [heap_get_set, hflt]
  · intro p _ j oth bp hjd hj _
    simp only at hj ⊢
    rw [List.getElem?_set_ne (Ne.symm hjd)] at hj
    refine ⟨hj, ?_⟩
    unfold block_get
    rw [heap_get_set]
    by_cases hbf : fp = bp.file
    · rw [← hbf, hfile]
      simp only [hflt, and_self, if_true]
      cases hb1 : w.blockvec[bp.idx]? with
      | some b1 =>
        obtain ⟨b, hb, he⟩ := hw.vec_fields bp.idx b1 hb1
        simp only at hb
        rw [hb, he]
        rfl
      | none =>
        have h1 : w.blockvec.length ≤ bp.idx := by
          by_contra hlt
          rw [List.getElem?_eq_getElem (by omega)] at hb1
          exact absurd hb1 (by simp)
        have h2 := hw.len_vec
        simp only at h2
        rw [List.getElem?_eq_none (by omega)]
    · simp [hbf]

theorem scan_file_insert_keeps_has_parity_witness :
    ∃ disk file, parity_example.diskarr[0]? = some disk ∧
      heap_get parity_example.files 1 = some file ∧
      disk.first_free_block ≤ tommy_array_size disk.blockarr ∧
      tommy_array_size disk.blockarr + file.blockmax < BLOCK_OFF_MOD ∧
      ∃ state1 file1, scan_file_insert parity_example 0 1 = some state1 ∧
        heap_get state1.files 1 = some file1 ∧
        ∀ p, p ∈ positions file1 →
          ∀ (j : Nat) (oth : snapraid_disk) (bp : BlockPtr), j ≠ 0 →
            state1.diskarr[j]? = some oth → disk_block_get oth p = some bp →
            parity_example.diskarr[j]? = some oth ∧
            (block_get state1.files bp).map (fun b => b.has_parity) =
              (block_get parity_example.files bp).map (fun b => b.has_parity) :=
  ⟨_, _, rfl, rfl, by decide, by decide,
    scan_file_insert_keeps_has_parity parity_example 0 1 _ _ rfl rfl (by decide) (by decide)⟩

/-- C8: inserting a file of `n` blocks on a disk whose allocation table is
empty and whose `first_free_block` is 0 returns, assigns the positions
`0, 1, ..., n - 1` to the blocks `0, ..., n - 1`, leaves that disk's table with
length exactly `n`, and leaves every other disk unchanged, table included. -/
theorem scan_file_insert_empty_disk (state : snapraid_state) (d : Nat) (fp : FilePtr)
    (disk : snapraid_disk) (file : snapraid_file)
    (hdisk : state.diskarr[d]? = some disk) (hfile : heap_get state.files fp = some file)
    (hempty : tommy_array_size disk.blockarr = 0) (hhint : disk.first_free_block = 0)
    (hfit : file.blockmax < BLOCK_OFF_MOD) :
    ∃ state1 disk1 file1, scan_file_insert state d fp = some state1 ∧
      state1.diskarr[d]? = some disk1 ∧ heap_get state1.files fp = some file1 ∧
      positions file1 = List.range file.blockmax ∧
      tommy_array_size disk1.blockarr = file.blockmax ∧
      ∀ j, j ≠ d → state1.diskarr[j]? = state.diskarr[j]? := by
  have hnil : disk.blockarr = [] := List.length_eq_zero.1 hempty
  obtain ⟨w, hw, hres⟩ := scan_file_insert_spec state d fp disk file hdisk hfile
    (by rw [hhint]; exact Nat.zero_le _) (by rw [hempty]; simpa using hfit)
  rw [hnil, hhint] at hw
  have hdlt := getElem?_lt hdisk
  have hflt := heap_get_lt hfile
  -- block `k` gets position `k`
  have hpos : ∀ k, k < file.blockmax → pos_at w.blockvec k = k := by
    intro k
    induction k using Nat.strong_induction_on with
    | _ k ih =>
      intro hk
      rcases Nat.lt_trichotomy (pos_at w.blockvec k) k with hlt | heq | hgt
      · -- too small: the earlier blocks already use `0, ..., k - 1`
        exfalso
        have := hw.increasing k (by omega) (by omega) (pos_at w.blockvec k) (by omega) hlt
        rw [ih _ hlt (by omega)] at this
        omega
      · exact heq
      · -- too large: position `k` would have been skipped
        exfalso
        obtain ⟨j, -, hj, hjp⟩ := hw.no_skip k (by omega) (by omega) k (Nat.zero_le _) hgt
          (by simp [cell])
        rw [ih j hj (by omega)] at hjp
        omega
  refine ⟨_, { disk with
      first_free_block := if file.blockmax ≠ 0 then w.block_pos + 1 else disk.first_free_block,
      blockarr := w.blockarr,
      inodeset := disk.inodeset ++ [fp],
      filelist := disk.filelist ++ [fp] }, { file with blockvec := w.blockvec }, hres,
    by simp only; rw [List.getElem?_set]; simp [hdlt], by simp [heap_get_set, hflt], ?_, ?_, ?_⟩
  · apply List.ext_getElem?
    intro k
    unfold positions
    simp only [List.getElem?_map]
    by_cases hk : k < file.blockmax
    · have hk' : k < w.blockvec.length := by
        rw [hw.len_vec]; exact hk
      have := hpos k hk
      unfold pos_at at this
      rw [List.getElem?_eq_getElem hk'] at this ⊢
      simp only at this
      simp [this, hk]
    · have hk' : w.blockvec.length ≤ k := by
        rw [hw.len_vec]; simp only [snapraid_file.blockmax] at hk ⊢; omega
      rw [List.getElem?_eq_none hk']
      simp [List.getElem?_eq_none (show (List.range file.blockmax).length ≤ k by simp; omega)]
  · simp only [tommy_array_size]
    by_cases hn : file.blockmax = 0
    · rw [hw.none_done hn]; simp [hn]
    · obtain ⟨h1, h2⟩ := hw.last (by omega)
      rw [h2, h1, hpos _ (by omega)]
      simp only [List.length_nil]
      omega
  · intro j hj
    simp only
    rw [List.getElem?_set_ne (Ne.symm hj)]

theorem scan_file_insert_empty_disk_witness :
    ∃ disk file, empty_example.diskarr[0]? = some disk ∧
      heap_get empty_example.files 0 = some file ∧
      tommy_array_size disk.blockarr = 0 ∧ disk.first_free_block = 0 ∧
      file.blockmax < BLOCK_OFF_MOD ∧
      ∃ state1 disk1 file1, scan_file_insert empty_example 0 0 = some state1 ∧
        state1.diskarr[0]? = some disk1 ∧ heap_get state1.files 0 = some file1 ∧
        positions file1 = List.range file.blockmax ∧
        tommy_array_size disk1.blockarr = file.blockmax ∧
        ∀ j, j ≠ 0 → state1.diskarr[j]? = empty_example.diskarr[j]? :=
  ⟨_, _, rfl, rfl, rfl, rfl, by decide,
    scan_file_insert_empty_disk empty_example 0 0 _ _ rfl rfl rfl rfl (by decide)⟩

/-- The seed scenario of C8 evaluated: the 5-byte file gets the positions 0
and 1, the table of disk 0 has length 2 and the table of disk 1 length 0. -/
theorem scan_file_insert_empty_disk_seed :
    (scan_file_insert empty_example 0 0).map
      (fun s => (s.files.map (Option.map positions),
        s.diskarr.map (fun d => tommy_array_size d.blockarr))) =
    some ([some [0, 1]], [2, 0]) := by rfl

/-! ## scan_file on a renamed file (claim C10) -/

/-- C10, rename-only: when `scan_file` processes an entry whose inode matches a
recorded, not yet present file with the same size and mtime but a different
sub-path, it returns normally, increments the moved counter by one and changes
nothing else in the scan record, stores the new sub-path, marks the file
present, sets `need_write`, and leaves the file's block vector with all its
parity positions, every other file and every disk (allocation table and
`first_free_block` included) unchanged. -/
theorem scan_file_rename_only (scan : snapraid_scan) (state : snapraid_state) (d : Nat)
    (sub : String) (st : stat) (disk : snapraid_disk) (fp : FilePtr) (file : snapraid_file)
    (hdisk : state.diskarr[d]? = some disk)
    (hfound : inodeset_search state.files disk.inodeset st.st_ino = some fp)
    (hfile : heap_get state.files fp = some file)
    (hnew : file.is_present = false)
    (hsize : file.size = st.st_size) (hmtime : file.mtime = st.st_mtime)
    (hsub : file.sub ≠ sub) :
    ∃ scan1 state1 file1, scan_file scan state d sub st = .ok (scan1, state1) ∧
      scan1 = { scan with count_moved := scan.count_moved + 1 } ∧
      heap_get state1.files fp = some file1 ∧
      file1.sub = sub ∧ file1.is_present = true ∧
      file1.blockvec = file.blockvec ∧ positions file1 = positions file ∧
      state1.need_write = true ∧ state1.diskarr = state.diskarr ∧
      ∀ fp1, fp1 ≠ fp → heap_get state1.files fp1 = heap_get state.files fp1 := by
  have hflt := heap_get_lt hfile
  refine ⟨{ scan with count_moved := scan.count_moved + 1 },
    { state with
      files := state.files.set fp (some { file with is_present := true, sub := sub }),
      need_write := true },
    { file with is_present := true, sub := sub }, ?_, rfl, ?_, rfl, rfl, rfl, rfl, rfl, rfl, ?_⟩
  · unfold scan_file
    simp only [hdisk, hfound, hfile, hnew, hsize, hmtime]
    simp [hsub]
  · rw [heap_get_set]
    simp [hflt]
  · intro fp1 hne
    rw [heap_get_set]
    simp [Ne.symm hne]

theorem scan_file_rename_only_witness :
    ∃ disk file, recorded_example.diskarr[0]? = some disk ∧
      inodeset_search recorded_example.files disk.inodeset 7 = some 0 ∧
      heap_get recorded_example.files 0 = some file ∧
      file.is_present = false ∧ file.size = 5 ∧ file.mtime = 100 ∧ file.sub ≠ "b" ∧
      ∃ scan1 state1 file1,
        scan_file {} recorded_example 0 "b" { st_ino := 7, st_size := 5, st_mtime := 100 }
          = .ok (scan1, state1) ∧
        scan1 = { ({} : snapraid_scan) with count_moved := 0 + 1 } ∧
        heap_get state1.files 0 = some file1 ∧
        file1.sub = "b" ∧ file1.is_present = true ∧
        file1.blockvec = file.blockvec ∧ positions file1 = positions file ∧
        state1.need_write = true ∧ state1.diskarr = recorded_example.diskarr ∧
        ∀ fp1, fp1 ≠ 0 → heap_get state1.files fp1 = heap_get recorded_example.files fp1 :=
  ⟨_, _, rfl, rfl, rfl, rfl, rfl, rfl, by decide,
    scan_file_rename_only {} recorded_example 0 "b" { st_ino := 7, st_size := 5, st_mtime := 100 }
      _ 0 _ rfl rfl rfl rfl rfl rfl (by decide)⟩

/-! ## Idempotence of the scan (claim C9) -/

theorem scan_items_append (d : Nat) :
    ∀ (items items1 : List walk_item) (scan : snapraid_scan) (state : snapraid_state),
      scan_items d (items ++ items1) scan state =
        match scan_items d items scan state with
        | .ok (scan1, state1) => scan_items d items1 scan1 state1
        | .error err => .error err := by
  intro items
  induction items with
  | nil => intro items1 scan state; rfl
  | cons item rest ih =>
    intro items1 scan state
    simp only [List.cons_append, scan_items]
    cases scan_item d item scan state with
    | error err => rfl
    | ok r => obtain ⟨scan1, state1⟩ := r; exact ih items1 scan1 state1

mutual

/-- When the walk of a directory meets no fatal condition, `scan_dir` is the
sequence of calls to `scan_file` and `scan_link` for the items of the walk. -/
theorem scan_dir_of_walk (excluded : String → Bool → Bool) (d : Nat) :
    ∀ (stream : dir_stream) (sub : String) (items : List walk_item) (scan : snapraid_scan)
      (state : snapraid_state), walk_dir excluded sub stream = some items →
      scan_dir excluded d sub stream scan state = scan_items d items scan state
  | .open_error, sub, items, scan, state, h => by simp [walk_dir] at h
  | .read_error, sub, items, scan, state, h => by simp [walk_dir] at h
  | .finished closed, sub, items, scan, state, h => by
    cases closed with
    | true =>
      simp [walk_dir] at h
      subst h
      simp [scan_dir, scan_items]
    | false => simp [walk_dir] at h
  | .entry e rest, sub, items, scan, state, h => by
    simp only [walk_dir] at h
    cases h1 : walk_dir_entry excluded sub e with
    | none => rw [h1] at h; simp at h
    | some items1 =>
      cases h2 : walk_dir excluded sub rest with
      | none => rw [h1, h2] at h; simp at h
      | some items2 =>
        rw [h1, h2] at h
        simp only [Option.some.injEq] at h
        subst h
        rw [scan_items_append]
        simp only [scan_dir]
        rw [scan_dir_entry_of_walk excluded d e sub items1 scan state h1]
        cases scan_items d items1 scan state with
        | error err => rfl
        | ok r =>
          obtain ⟨scan1, state1⟩ := r
          exact scan_dir_of_walk excluded d rest sub items2 scan1 state1 h2

theorem scan_dir_entry_of_walk (excluded : String → Bool → Bool) (d : Nat) :
    ∀ (e : dir_entry) (sub : String) (items : List walk_item) (scan : snapraid_scan)
      (state : snapraid_state), walk_dir_entry excluded sub e = some items →
      scan_dir_entry excluded d sub e scan state = scan_items d items scan state
  | .lstat_error name, sub, items, scan, state, h => by
    simp only [walk_dir_entry] at h
    simp only [scan_dir_entry]
    split at h
    · simp only [Option.some.injEq] at h; subst h; simp [*, scan_items]
    · simp at h
  | .reg name st readable, sub, items, scan, state, h => by
    simp only [walk_dir_entry] at h
    simp only [scan_dir_entry]
    split at h
    · simp only [Option.some.injEq] at h; subst h; simp [*, scan_items]
    · split at h
      · simp at h
      · split at h
        · simp only [Option.some.injEq] at h; subst h; simp [*, scan_items]
        · split at h
          · simp only [Option.some.injEq] at h; subst h
            simp only [*, if_false, if_true, scan_items, scan_item]
            cases scan_file scan state d (sub ++ name) st with
            | error err => simp
            | ok r => simp
          · simp only [Option.some.injEq] at h; subst h; simp [*, scan_items]
  | .lnk name readlink, sub, items, scan, state, h => by
    simp only [walk_dir_entry] at h
    simp only [scan_dir_entry]
    split at h
    · simp only [Option.some.injEq] at h; subst h; simp [*, scan_items]
    · split at h
      · simp at h
      · split at h
        · simp only [Option.some.injEq] at h; subst h; simp [*, scan_items]
        · cases readlink with
          | none => simp at h
          | some linkto =>
            simp only at h
            split at h
            · simp at h
            · simp only [Option.some.injEq] at h; subst h
              simp only [*, if_false, scan_items, scan_item]
              cases scan_link scan state d (sub ++ name) linkto with
              | error err => simp
              | ok r => simp
  | .dir name content, sub, items, scan, state, h => by
    simp only [walk_dir_entry] at h
    simp only [scan_dir_entry]
    split at h
    · simp only [Option.some.injEq] at h; subst h; simp [*, scan_items]
    · split at h
      · simp at h
      · split at h
        · simp only [Option.some.injEq] at h; subst h; simp [*, scan_items]
        · simp only [*, if_false]
          exact scan_dir_of_walk excluded d content (sub ++ name ++ "/") items scan state h
  | .special name, sub, items, scan, state, h => by
    simp only [walk_dir_entry] at h
    simp only [scan_dir_entry]
    split at h
    · simp only [Option.some.injEq] at h; subst h; simp [*, scan_items]
    · split at h
      · simp at h
      · simp only [Option.some.injEq] at h; subst h; simp [*, scan_items]
end

theorem marked_present_refl (state : snapraid_state) :
    marked_present (fun _ => False) (fun _ => False) state state :=
  { frame := rfl
    files_in := fun _ h => absurd h id
    files_out := fun _ _ => rfl
    files_dead := fun _ h => h
    links_in := fun _ h => absurd h id
    links_out := fun _ _ => rfl
    links_dead := fun _ h => h }

theorem marked_present_congr {Fs Fs1 : FilePtr → Prop} {Ls Ls1 : LinkPtr → Prop}
    {state state1 : snapraid_state} (h : marked_present Fs Ls state state1)
    (hF : ∀ fp, Fs fp ↔ Fs1 fp) (hL : ∀ lp, Ls lp ↔ Ls1 lp) :
    marked_present Fs1 Ls1 state state1 :=
  { frame := h.frame
    files_in := fun fp hfp => h.files_in fp ((hF fp).2 hfp)
    files_out := fun fp hfp => h.files_out fp (fun t => hfp ((hF fp).1 t))
    files_dead := h.files_dead
    links_in := fun lp hlp => h.links_in lp ((hL lp).2 hlp)
    links_out := fun lp hlp => h.links_out lp (fun t => hlp ((hL lp).1 t))
    links_dead := h.links_dead }

theorem marked_present_trans {Fs Fs1 : FilePtr → Prop} {Ls Ls1 : LinkPtr → Prop}
    {state state1 state2 : snapraid_state} (h : marked_present Fs Ls state state1)
    (h1 : marked_present Fs1 Ls1 state1 state2) :
    marked_present (fun fp => Fs fp ∨ Fs1 fp) (fun lp => Ls lp ∨ Ls1 lp) state state2 :=
  { frame := by rw [h1.frame, h.frame]
    files_in := fun fp hfp file hfile => by
      by_cases t : Fs fp
      · have e1 := h.files_in fp t file hfile
        by_cases t1 : Fs1 fp
        · have e2 := h1.files_in fp t1 _ e1
          exact e2
        · rw [h1.files_out fp t1]; exact e1
      · have e1 := h.files_out fp t
        rcases hfp with t0 | t1
        · exact absurd t0 t
        · exact h1.files_in fp t1 file (by rw [e1]; exact hfile)
    files_out := fun fp hfp => by
      rw [h1.files_out fp (fun t => hfp (Or.inr t)), h.files_out fp (fun t => hfp (Or.inl t))]
    files_dead := fun fp hfp => h1.files_dead fp (h.files_dead fp hfp)
    links_in := fun lp hlp link hlink => by
      by_cases t : Ls lp
      · have e1 := h.links_in lp t link hlink
        by_cases t1 : Ls1 lp
        · have e2 := h1.links_in lp t1 _ e1
          exact e2
        · rw [h1.links_out lp t1]; exact e1
      · have e1 := h.links_out lp t
        rcases hlp with t0 | t1
        · exact absurd t0 t
        · exact h1.links_in lp t1 link (by rw [e1]; exact hlink)
    links_out := fun lp hlp => by
      rw [h1.links_out lp (fun t => hlp (Or.inr t)), h.links_out lp (fun t => hlp (Or.inl t))]
    links_dead := fun lp hlp => h1.links_dead lp (h.links_dead lp hlp) }

/-- Marking files as present changes no inode. -/
theorem marked_present_inode {Fs : FilePtr → Prop} {Ls : LinkPtr → Prop}
    {state state1 : snapraid_state} (h : marked_present Fs Ls state state1) (fp : FilePtr) :
    (heap_get state1.files fp).map (fun file => file.inode) =
      (heap_get state.files fp).map (fun file => file.inode) := by
  by_cases t : Fs fp
  · cases hf : heap_get state.files fp with
    | none => rw [h.files_dead fp hf]
    | some file => rw [h.files_in fp t file hf]; rfl
  · rw [h.files_out fp t]

/-- Marking links as present changes no sub-path. -/
theorem marked_present_sub {Fs : FilePtr → Prop} {Ls : LinkPtr → Prop}
    {state state1 : snapraid_state} (h : marked_present Fs Ls state state1) (lp : LinkPtr) :
    (heap_get state1.links lp).map (fun link => link.sub) =
      (heap_get state.links lp).map (fun link => link.sub) := by
  by_cases t : Ls lp
  · cases hl : heap_get state.links lp with
    | none => rw [h.links_dead lp hl]
    | some link => rw [h.links_in lp t link hl]; rfl
  · rw [h.links_out lp t]

theorem inodeset_search_congr (files files1 : List (Option snapraid_file)) (inode : Nat) :
    ∀ (inodeset : List FilePtr),
      (∀ fp, fp ∈ inodeset → (heap_get files1 fp).map (fun file => file.inode) =
        (heap_get files fp).map (fun file => file.inode)) →
      inodeset_search files1 inodeset inode = inodeset_search files inodeset inode := by
  intro inodeset
  induction inodeset with
  | nil => intro _; rfl
  | cons p rest ih =>
    intro h
    unfold inodeset_search at ih ⊢
    rw [List.find?_cons, List.find?_cons]
    have hp := h p (List.mem_cons_self _ _)
    have hrest := ih (fun fp hfp => h fp (List.mem_cons_of_mem _ hfp))
    cases h1 : heap_get files1 p with
    | none =>
      cases h0 : heap_get files p with
      | none => simpa using hrest
      | some f0 => rw [h1, h0] at hp; simp at hp
    | some f1 =>
      cases h0 : heap_get files p with
      | none => rw [h1, h0] at hp; simp at hp
      | some f0 =>
        rw [h1, h0] at hp
        simp only [Option.map_some', Option.some.injEq] at hp
        simp only [hp]
        cases f0.inode == inode with
        | true => rfl
        | false => simpa using hrest

theorem linkset_search_congr (links links1 : List (Option snapraid_link)) (sub : String) :
    ∀ (linkset : List LinkPtr),
      (∀ lp, lp ∈ linkset → (heap_get links1 lp).map (fun link => link.sub) =
        (heap_get links lp).map (fun link => link.sub)) →
      linkset_search links1 linkset sub = linkset_search links linkset sub := by
  intro linkset
  induction linkset with
  | nil => intro _; rfl
  | cons p rest ih =>
    intro h
    unfold linkset_search at ih ⊢
    rw [List.find?_cons, List.find?_cons]
    have hp := h p (List.mem_cons_self _ _)
    have hrest := ih (fun lp hlp => h lp (List.mem_cons_of_mem _ hlp))
    cases h1 : heap_get links1 p with
    | none =>
      cases h0 : heap_get links p with
      | none => simpa using hrest
      | some f0 => rw [h1, h0] at hp; simp at hp
    | some f1 =>
      cases h0 : heap_get links p with
      | none => rw [h1, h0] at hp; simp at hp
      | some f0 =>
        rw [h1, h0] at hp
        simp only [Option.map_some', Option.some.injEq] at hp
        simp only [hp]
        cases f0.sub == sub with
        | true => rfl
        | false => simpa using hrest

/-- A file of the by-inode set whose inode no other file of the set has is the
one found by its inode. -/
theorem inodeset_search_found (files : List (Option snapraid_file)) (inodeset : List FilePtr)
    (fp : FilePtr) (file : snapraid_file) (hmem : fp ∈ inodeset)
    (hfile : heap_get files fp = some file)
    (huniq : ∀ p, p ∈ inodeset →
      (heap_get files p).map (fun f => f.inode) = some file.inode → p = fp) :
    inodeset_search files inodeset file.inode = some fp := by
  unfold inodeset_search
  generalize hfind : List.find? _ inodeset = r
  cases r with
  | none =>
    rw [List.find?_eq_none] at hfind
    have := hfind fp hmem
    rw [hfile] at this
    simp at this
  | some p =>
    have hp := List.find?_some hfind
    have hpm := List.mem_of_find?_eq_some hfind
    cases hg : heap_get files p with
    | none => rw [hg] at hp; simp at hp
    | some g =>
      rw [hg] at hp
      simp only [beq_iff_eq] at hp
      rw [huniq p hpm (by rw [hg]; simp [hp])]

theorem linkset_search_found (links : List (Option snapraid_link)) (linkset : List LinkPtr)
    (lp : LinkPtr) (link : snapraid_link) (hmem : lp ∈ linkset)
    (hlink : heap_get links lp = some link)
    (huniq : ∀ p, p ∈ linkset →
      (heap_get links p).map (fun l => l.sub) = some link.sub → p = lp) :
    linkset_search links linkset link.sub = some lp := by
  unfold linkset_search
  generalize hfind : List.find? _ linkset = r
  cases r with
  | none =>
    rw [List.find?_eq_none] at hfind
    have := hfind lp hmem
    rw [hlink] at this
    simp at this
  | some p =>
    have hp := List.find?_some hfind
    have hpm := List.mem_of_find?_eq_some hfind
    cases hg : heap_get links p with
    | none => rw [hg] at hp; simp at hp
    | some g =>
      rw [hg] at hp
      simp only [beq_iff_eq] at hp
      rw [huniq p hpm (by rw [hg]; simp [hp])]

theorem forall₂_imp_mem {α β : Type} {R S : α → β → Prop} {l1 : List α} {l2 : List β}
    (h : List.Forall₂ R l1 l2) (himp : ∀ a b, a ∈ l1 → R a b → S a b) :
    List.Forall₂ S l1 l2 := by
  induction h with
  | nil => exact List.Forall₂.nil
  | cons hab _ ih =>
    exact List.Forall₂.cons (himp _ _ (List.mem_cons_self _ _) hab)
      (ih (fun a b ha => himp a b (List.mem_cons_of_mem _ ha)))

/-- Effect of `scan_file` on an entry that matches a recorded file in inode, size, mtime
and sub-path: the file is marked as present and counted as equal. -/
theorem scan_file_equal (scan : snapraid_scan) (state : snapraid_state) (d : Nat)
    (sub : String) (st : stat) (disk : snapraid_disk) (fp : FilePtr) (file : snapraid_file)
    (hdisk : state.diskarr[d]? = some disk)
    (hfound : inodeset_search state.files disk.inodeset st.st_ino = some fp)
    (hfile : heap_get state.files fp = some file) (hnew : file.is_present = false)
    (hsize : file.size = st.st_size) (hmtime : file.mtime = st.st_mtime)
    (hsub : file.sub = sub) :
    scan_file scan state d sub st =
        .ok ({ scan with count_equal := scan.count_equal + 1 },
          { state with files := state.files.set fp (some { file with is_present := true }) }) ∧
      marked_present (fun p => p = fp) (fun _ => False) state
        { state with files := state.files.set fp (some { file with is_present := true }) } := by
  have hflt := heap_get_lt hfile
  constructor
  · unfold scan_file
    simp only [hdisk, hfound, hfile, hnew, hsize, hmtime]
    simp [hsub]
  · exact
      { frame := rfl
        files_in := fun p hp f hf => by
          subst hp
          rw [hfile] at hf
          cases hf
          simp only
          rw [heap_get_set]
          simp [hflt]
        files_out := fun p hp => by
          simp only
          rw [heap_get_set]
          simp [Ne.symm hp]
        files_dead := fun p hp => by
          simp only
          rw [heap_get_set]
          have : fp ≠ p := by
            intro h; rw [h, hp] at hfile; exact absurd hfile (by simp)
          simp [this, hp]
        links_in := fun _ h => absurd h id
        links_out := fun _ _ => rfl
        links_dead := fun _ h => h }

/-- Effect of `scan_link` on an entry that matches a recorded link in sub-path and
target: the link is marked as present and counted as equal. -/
theorem scan_link_equal (scan : snapraid_scan) (state : snapraid_state) (d : Nat)
    (sub : String) (linkto : String) (disk : snapraid_disk) (lp : LinkPtr)
    (link : snapraid_link)
    (hdisk : state.diskarr[d]? = some disk)
    (hfound : linkset_search state.links disk.linkset sub = some lp)
    (hlink : heap_get state.links lp = some link) (hnew : link.is_present = false)
    (hto : link.linkto = linkto) :
    scan_link scan state d sub linkto =
        .ok ({ scan with count_equal := scan.count_equal + 1 },
          { state with links := state.links.set lp (some { link with is_present := true }) }) ∧
      marked_present (fun _ => False) (fun p => p = lp) state
        { state with links := state.links.set lp (some { link with is_present := true }) } := by
  have hllt := heap_get_lt hlink
  constructor
  · unfold scan_link
    simp only [hdisk, hfound, hlink, hnew, hto]
    simp
  · exact
      { frame := rfl
        files_in := fun _ h => absurd h id
        files_out := fun _ _ => rfl
        files_dead := fun _ h => h
        links_in := fun p hp l hl => by
          subst hp
          rw [hlink] at hl
          cases hl
          simp only
          rw [heap_get_set]
          simp [hllt]
        links_out := fun p hp => by
          simp only
          rw [heap_get_set]
          simp [Ne.symm hp]
        links_dead := fun p hp => by
          simp only
          rw [heap_get_set]
          have : lp ≠ p := by
            intro h; rw [h, hp] at hlink; exact absurd hlink (by simp)
          simp [this, hp] }

/-- The calls of one directory walk when every item is the unchanged entry of
a recorded file or link, each met once: all are counted as equal and marked as
present, and nothing else changes. -/
theorem scan_items_unchanged (d : Nat) (disk : snapraid_disk) :
    ∀ (ptrs : List (FilePtr ⊕ LinkPtr)) (items : List walk_item) (scan : snapraid_scan)
      (state : snapraid_state), state.diskarr[d]? = some disk →
      List.Forall₂ (recorded_entry state) ptrs items → ptrs.Nodup →
      (∀ fp, Sum.inl fp ∈ ptrs → ∀ file, heap_get state.files fp = some file →
        file.is_present = false ∧
        inodeset_search state.files disk.inodeset file.inode = some fp) →
      (∀ lp, Sum.inr lp ∈ ptrs → ∀ link, heap_get state.links lp = some link →
        link.is_present = false ∧
        linkset_search state.links disk.linkset link.sub = some lp) →
      ∃ state1, scan_items d items scan state =
          .ok ({ scan with count_equal := scan.count_equal + items.length }, state1) ∧
        marked_present (fun fp => Sum.inl fp ∈ ptrs) (fun lp => Sum.inr lp ∈ ptrs)
          state state1 := by
  intro ptrs
  induction ptrs with
  | nil =>
    intro items scan state _ hF _ _ _
    cases hF
    refine ⟨state, rfl, marked_present_congr (marked_present_refl state) ?_ ?_⟩
    · intro fp; simp
    · intro lp; simp
  | cons p ps ih =>
    intro items scan state hdisk hF hnodup hfiles hlinks
    cases hF with
    | cons hentry hrest =>
      rename_i item its
      have hpnot : p ∉ ps := (List.nodup_cons.1 hnodup).1
      have hps : ps.Nodup := (List.nodup_cons.1 hnodup).2
      -- the step for the head item, as a marking
      have hstep : ∃ (scan1 : snapraid_scan) (state1 : snapraid_state)
          (Fs : FilePtr → Prop) (Ls : LinkPtr → Prop),
          scan_item d item scan state = .ok (scan1, state1) ∧
          scan1 = { scan with count_equal := scan.count_equal + 1 } ∧
          marked_present Fs Ls state state1 ∧
          (∀ fp, Fs fp ↔ Sum.inl fp = p) ∧ (∀ lp, Ls lp ↔ Sum.inr lp = p) := by
        cases p with
        | inl fp =>
          cases item with
          | link sub linkto => exact absurd hentry (by simp [recorded_entry])
          | file sub st =>
            obtain ⟨file, hfile, hsub, hino, hsize, hmtime⟩ := hentry
            obtain ⟨hnew, hfound⟩ := hfiles fp (List.mem_cons_self _ _) file hfile
            rw [hino] at hfound
            obtain ⟨h1, h2⟩ := scan_file_equal scan state d sub st disk fp file hdisk hfound
              hfile hnew hsize hmtime hsub
            refine ⟨_, _, _, _, h1, rfl, h2, ?_, ?_⟩
            · intro q; simp
            · intro q; simp
        | inr lp =>
          cases item with
          | file sub st => exact absurd hentry (by simp [recorded_entry])
          | link sub linkto =>
            obtain ⟨link, hlink, hsub, hto⟩ := hentry
            obtain ⟨hnew, hfound⟩ := hlinks lp (List.mem_cons_self _ _) link hlink
            rw [hsub] at hfound
            obtain ⟨h1, h2⟩ := scan_link_equal scan state d sub linkto disk lp link hdisk
              hfound hlink hnew hto
            refine ⟨_, _, _, _, h1, rfl, h2, ?_, ?_⟩
            · intro q; simp
            · intro q; simp
      obtain ⟨scan1, state1, Fs, Ls, hrun, hscan1, hmark, hFs, hLs⟩ := hstep
      -- the pointers of the tail are untouched by the step
      have hfsame : ∀ fp, Sum.inl fp ∈ ps → heap_get state1.files fp = heap_get state.files fp := by
        intro fp hfp
        apply hmark.files_out
        intro t
        rw [hFs] at t
        exact hpnot (t ▸ hfp)
      have hlsame : ∀ lp, Sum.inr lp ∈ ps → heap_get state1.links lp = heap_get state.links lp := by
        intro lp hlp
        apply hmark.links_out
        intro t
        rw [hLs] at t
        exact hpnot (t ▸ hlp)
      have hdisk1 : state1.diskarr[d]? = some disk := by
        rw [hmark.frame]; exact hdisk
      obtain ⟨state2, hrun2, hmark2⟩ := ih its scan1 state1 hdisk1
        (forall₂_imp_mem hrest (fun a b ha hab => by
          cases a with
          | inl fp =>
            cases b with
            | link _ _ => exact absurd hab (by simp [recorded_entry])
            | file sub st =>
              obtain ⟨file, hfile, hr⟩ := hab
              exact ⟨file, by rw [hfsame fp ha]; exact hfile, hr⟩
          | inr lp =>
            cases b with
            | file _ _ => exact absurd hab (by simp [recorded_entry])
            | link sub linkto =>
              obtain ⟨link, hlink, hr⟩ := hab
              exact ⟨link, by rw [hlsame lp ha]; exact hlink, hr⟩))
        hps
        (fun fp hfp file hfile => by
          rw [hfsame fp hfp] at hfile
          obtain ⟨h1, h2⟩ := hfiles fp (List.mem_cons_of_mem _ hfp) file hfile
          refine ⟨h1, ?_⟩
          rw [inodeset_search_congr state.files state1.files file.inode disk.inodeset
            (fun q _ => marked_present_inode hmark q)]
          exact h2)
        (fun lp hlp link hlink => by
          rw [hlsame lp hlp] at hlink
          obtain ⟨h1, h2⟩ := hlinks lp (List.mem_cons_of_mem _ hlp) link hlink
          refine ⟨h1, ?_⟩
          rw [linkset_search_congr state.links state1.links link.sub disk.linkset
            (fun q _ => marked_present_sub hmark q)]
          exact h2)
      refine ⟨state2, ?_, marked_present_congr (marked_present_trans hmark hmark2) ?_ ?_⟩
      · simp only [scan_items]
        rw [hrun]
        simp only
        rw [hrun2, hscan1]
        simp only [List.length_cons]
        have : scan.count_equal + 1 + its.length = scan.count_equal + (its.length + 1) := by
          omega
        rw [this]
      · intro fp
        rw [hFs, List.mem_cons]
      · intro lp
        rw [hLs, List.mem_cons]

theorem forall₂_exists_right {α β : Type} {R : α → β → Prop} {l1 : List α} {l2 : List β}
    (h : List.Forall₂ R l1 l2) : ∀ a, a ∈ l1 → ∃ b, b ∈ l2 ∧ R a b := by
  induction h with
  | nil => intro a ha; exact absurd ha (by simp)
  | cons hab _ ih =>
    intro a ha
    rcases List.mem_cons.1 ha with rfl | ha
    · exact ⟨_, List.mem_cons_self _ _, hab⟩
    · obtain ⟨b, hb, hr⟩ := ih a ha
      exact ⟨b, List.mem_cons_of_mem _ hb, hr⟩

theorem scan_removed_files_none (d : Nat) :
    ∀ (list : List FilePtr) (scan : snapraid_scan) (state : snapraid_state),
      (∀ fp, fp ∈ list → ∃ file, heap_get state.files fp = some file ∧ file.is_present = true) →
      scan_removed_files d list scan state = .ok (scan, state) := by
  intro list
  induction list with
  | nil => intro scan state _; rfl
  | cons fp rest ih =>
    intro scan state h
    obtain ⟨file, hfile, hp⟩ := h fp (List.mem_cons_self _ _)
    simp only [scan_removed_files, hfile, hp, if_true]
    exact ih scan state (fun q hq => h q (List.mem_cons_of_mem _ hq))

theorem scan_removed_links_none (d : Nat) :
    ∀ (list : List LinkPtr) (scan : snapraid_scan) (state : snapraid_state),
      (∀ lp, lp ∈ list → ∃ link, heap_get state.links lp = some link ∧ link.is_present = true) →
      scan_removed_links d list scan state = .ok (scan, state) := by
  intro list
  induction list with
  | nil => intro scan state _; rfl
  | cons lp rest ih =>
    intro scan state h
    obtain ⟨link, hlink, hp⟩ := h lp (List.mem_cons_self _ _)
    simp only [scan_removed_links, hlink, hp, if_true]
    exact ih scan state (fun q hq => h q (List.mem_cons_of_mem _ hq))

theorem recorded_entry_of_marked {Fs : FilePtr → Prop} {Ls : LinkPtr → Prop}
    {state state1 : snapraid_state} (h : marked_present Fs Ls state state1)
    (ptr : FilePtr ⊕ LinkPtr) (item : walk_item) (hr : recorded_entry state ptr item) :
    recorded_entry state1 ptr item := by
  cases ptr with
  | inl fp =>
    cases item with
    | link _ _ => exact absurd hr (by simp [recorded_entry])
    | file sub st =>
      obtain ⟨file, hfile, hrest⟩ := hr
      by_cases t : Fs fp
      · exact ⟨_, h.files_in fp t file hfile, hrest⟩
      · exact ⟨file, by rw [h.files_out fp t]; exact hfile, hrest⟩
  | inr lp =>
    cases item with
    | file _ _ => exact absurd hr (by simp [recorded_entry])
    | link sub linkto =>
      obtain ⟨link, hlink, hrest⟩ := hr
      by_cases t : Ls lp
      · exact ⟨_, h.links_in lp t link hlink, hrest⟩
      · exact ⟨link, by rw [h.links_out lp t]; exact hlink, hrest⟩

/-- The turn of `state_scan` for a disk whose walk yields exactly the
unchanged entries of its recorded files and links. -/
theorem state_scan_disk_unchanged (excluded : String → Bool → Bool) (dirs : Nat → dir_stream)
    (i : Nat) (scans : List snapraid_scan) (state : snapraid_state) (disk : snapraid_disk)
    (hdisk : state.diskarr[i]? = some disk) (hscan : scans[i]? = some {})
    (hidx : disk_indexed state disk) (hnone : none_present state disk)
    (hwalk : walk_unchanged excluded dirs state i disk) :
    ∃ state1, state_scan_disk excluded dirs i scans state =
        .ok (scans.set i (scan_all_equal (disk.filelist.length + disk.linklist.length)),
          state1) ∧
      marked_present (fun fp => fp ∈ disk.filelist) (fun lp => lp ∈ disk.linklist)
        state state1 := by
  obtain ⟨items, ptrs, hw, hperm, hF⟩ := hwalk
  obtain ⟨hiperm, hlperm, hinodes, hsubs⟩ := hidx
  have hmemf : ∀ fp, Sum.inl fp ∈ ptrs ↔ fp ∈ disk.filelist := by
    intro fp; rw [hperm.mem_iff]; simp
  have hmeml : ∀ lp, Sum.inr lp ∈ ptrs ↔ lp ∈ disk.linklist := by
    intro lp; rw [hperm.mem_iff]; simp
  have hnodup : ptrs.Nodup := by
    rw [hperm.nodup_iff, List.nodup_append]
    refine ⟨(List.Nodup.of_map _ hinodes).map Sum.inl_injective,
      (List.Nodup.of_map _ hsubs).map Sum.inr_injective, ?_⟩
    intro a ha hb
    simp only [List.mem_map] at ha hb
    obtain ⟨x, -, rfl⟩ := ha
    obtain ⟨y, -, hy⟩ := hb
    exact absurd hy (by simp)
  have hlen : items.length = disk.filelist.length + disk.linklist.length := by
    rw [← hF.length_eq, hperm.length_eq]; simp
  obtain ⟨state1, hrun, hmark⟩ := scan_items_unchanged i disk ptrs items {} state hdisk hF hnodup
    (fun fp hfp file hfile => by
      have hin := (hmemf fp).1 hfp
      constructor
      · have := hnone.1 fp hin
        rw [hfile] at this
        cases hp : file.is_present with
        | false => rfl
        | true => exact absurd (by simp [hp]) this
      · apply inodeset_search_found _ _ _ _ (hiperm.mem_iff.2 hin) hfile
        intro p hp heq
        apply List.inj_on_of_nodup_map hinodes (hiperm.mem_iff.1 hp) hin
        rw [heq, hfile]
        rfl)
    (fun lp hlp link hlink => by
      have hin := (hmeml lp).1 hlp
      constructor
      · have := hnone.2 lp hin
        rw [hlink] at this
        cases hp : link.is_present with
        | false => rfl
        | true => exact absurd (by simp [hp]) this
      · apply linkset_search_found _ _ _ _ (hlperm.mem_iff.2 hin) hlink
        intro p hp heq
        apply List.inj_on_of_nodup_map hsubs (hlperm.mem_iff.1 hp) hin
        rw [heq, hlink]
        rfl)
  have hmark1 : marked_present (fun fp => fp ∈ disk.filelist) (fun lp => lp ∈ disk.linklist)
      state state1 := marked_present_congr hmark hmemf hmeml
  have hdisk1 : state1.diskarr[i]? = some disk := by rw [hmark.frame]; exact hdisk
  refine ⟨state1, ?_, hmark1⟩
  have hfiles : ∀ fp, fp ∈ disk.filelist →
      ∃ file, heap_get state1.files fp = some file ∧ file.is_present = true := by
    intro fp hfp
    obtain ⟨item, -, hr⟩ := forall₂_exists_right hF _ ((hmemf fp).2 hfp)
    cases item with
    | link _ _ => exact absurd hr (by simp [recorded_entry])
    | file sub st =>
      obtain ⟨file, hfile, -⟩ := hr
      exact ⟨_, hmark1.files_in fp hfp file hfile, rfl⟩
  have hlinks : ∀ lp, lp ∈ disk.linklist →
      ∃ link, heap_get state1.links lp = some link ∧ link.is_present = true := by
    intro lp hlp
    obtain ⟨item, -, hr⟩ := forall₂_exists_right hF _ ((hmeml lp).2 hlp)
    cases item with
    | file _ _ => exact absurd hr (by simp [recorded_entry])
    | link sub linkto =>
      obtain ⟨link, hlink, -⟩ := hr
      exact ⟨_, hmark1.links_in lp hlp link hlink, rfl⟩
  unfold state_scan_disk
  simp only [hscan]
  rw [scan_dir_of_walk excluded i (dirs i) "" items {} state hw, hrun]
  simp only [hdisk1]
  rw [scan_removed_files_none i disk.filelist _ state1 hfiles]
  simp only [hdisk1]
  rw [scan_removed_links_none i disk.linklist _ state1 hlinks]
  simp only [scan_insert_files, scan_insert_links, hlen, scan_all_equal, Nat.zero_add]

/-- The loop of `state_scan` over the disks `k, k + 1, ...` when the walk of
every disk yields exactly the unchanged entries of its recorded files and
links; `state0` is the state before the scan. -/
theorem state_scan_loop_unchanged (excluded : String → Bool → Bool) (dirs : Nat → dir_stream)
    (state0 : snapraid_state) (hdisj : disks_disjoint state0)
    (hall : ∀ (i : Nat) (disk : snapraid_disk), state0.diskarr[i]? = some disk →
      disk_indexed state0 disk ∧ none_present state0 disk ∧
      walk_unchanged excluded dirs state0 i disk) :
    ∀ (n k : Nat) (scans : List snapraid_scan) (state : snapraid_state),
      k + n = state0.diskarr.length → scans.length = state0.diskarr.length →
      (∀ (j : Nat) (disk : snapraid_disk), state0.diskarr[j]? = some disk →
        scans[j]? = some (if j < k
          then scan_all_equal (disk.filelist.length + disk.linklist.length) else {})) →
      marked_present
        (fun fp => ∃ (j : Nat) (disk : snapraid_disk),
          j < k ∧ state0.diskarr[j]? = some disk ∧ fp ∈ disk.filelist)
        (fun lp => ∃ (j : Nat) (disk : snapraid_disk),
          j < k ∧ state0.diskarr[j]? = some disk ∧ lp ∈ disk.linklist) state0 state →
      ∃ scans1 state1, state_scan_loop excluded dirs n k scans state = .ok (scans1, state1) ∧
        scans1.length = state0.diskarr.length ∧
        (∀ (j : Nat) (disk : snapraid_disk), state0.diskarr[j]? = some disk →
          scans1[j]? = some (scan_all_equal (disk.filelist.length + disk.linklist.length))) ∧
        marked_present
          (fun fp => ∃ (j : Nat) (disk : snapraid_disk),
            state0.diskarr[j]? = some disk ∧ fp ∈ disk.filelist)
          (fun lp => ∃ (j : Nat) (disk : snapraid_disk),
            state0.diskarr[j]? = some disk ∧ lp ∈ disk.linklist) state0 state1 := by
  intro n
  induction n with
  | zero =>
    intro k scans state hk hlen hscans hmark
    refine ⟨scans, state, rfl, hlen, ?_, marked_present_congr hmark ?_ ?_⟩
    · intro j disk hj
      have hjlt := getElem?_lt hj
      rw [hscans j disk hj, if_pos (by omega)]
    · intro fp
      constructor
      · rintro ⟨j, disk, -, hj, hfp⟩; exact ⟨j, disk, hj, hfp⟩
      · rintro ⟨j, disk, hj, hfp⟩
        exact ⟨j, disk, by have := getElem?_lt hj; omega, hj, hfp⟩
    · intro lp
      constructor
      · rintro ⟨j, disk, -, hj, hlp⟩; exact ⟨j, disk, hj, hlp⟩
      · rintro ⟨j, disk, hj, hlp⟩
        exact ⟨j, disk, by have := getElem?_lt hj; omega, hj, hlp⟩
  | succ n ih =>
    intro k scans state hk hlen hscans hmark
    have hklt : k < state0.diskarr.length := by omega
    have hdk : state0.diskarr[k]? = some state0.diskarr[k] := List.getElem?_eq_getElem hklt
    obtain ⟨hidx, hnone, hwalk⟩ := hall k _ hdk
    have hdiskarr : state.diskarr = state0.diskarr := by rw [hmark.frame]
    -- the files and links of disk `k` were not touched by the earlier turns
    have hfout : ∀ fp, fp ∈ state0.diskarr[k].filelist →
        heap_get state.files fp = heap_get state0.files fp := by
      intro fp hfp
      apply hmark.files_out
      rintro ⟨j, disk, hjk, hj, hin⟩
      have hjlt := getElem?_lt hj
      have := (List.pairwise_iff_getElem.1 hdisj j k hjlt hklt hjk).1 fp
        (by rw [List.getElem?_eq_getElem hjlt] at hj; cases hj; exact hin)
      exact this hfp
    have hlout : ∀ lp, lp ∈ state0.diskarr[k].linklist →
        heap_get state.links lp = heap_get state0.links lp := by
      intro lp hlp
      apply hmark.links_out
      rintro ⟨j, disk, hjk, hj, hin⟩
      have hjlt := getElem?_lt hj
      have := (List.pairwise_iff_getElem.1 hdisj j k hjlt hklt hjk).2 lp
        (by rw [List.getElem?_eq_getElem hjlt] at hj; cases hj; exact hin)
      exact this hlp
    obtain ⟨state1, hrun, hmark1⟩ := state_scan_disk_unchanged excluded dirs k scans state
      state0.diskarr[k] (by rw [hdiskarr]; exact hdk)
      (by rw [hscans k _ hdk, if_neg (by omega)])
      (by
        obtain ⟨h1, h2, h3, h4⟩ := hidx
        refine ⟨h1, h2, ?_, ?_⟩
        · have : (fun fp => (heap_get state.files fp).map (fun file => file.inode)) =
              (fun fp => (heap_get state0.files fp).map (fun file => file.inode)) :=
            funext (fun fp => marked_present_inode hmark fp)
          rw [this]; exact h3
        · have : (fun lp => (heap_get state.links lp).map (fun link => link.sub)) =
              (fun lp => (heap_get state0.links lp).map (fun link => link.sub)) :=
            funext (fun lp => marked_present_sub hmark lp)
          rw [this]; exact h4)
      (by
        constructor
        · intro fp hfp; rw [hfout fp hfp]; exact hnone.1 fp hfp
        · intro lp hlp; rw [hlout lp hlp]; exact hnone.2 lp hlp)
      (by
        obtain ⟨items, ptrs, h1, h2, h3⟩ := hwalk
        exact ⟨items, ptrs, h1, h2, h3.imp (fun a b => recorded_entry_of_marked hmark a b)⟩)
    obtain ⟨scans2, state2, hloop, hlen2, hscans2, hmark2⟩ := ih (k + 1)
      (scans.set k (scan_all_equal
        (state0.diskarr[k].filelist.length + state0.diskarr[k].linklist.length)))
      state1 (by omega) (by simpa using hlen)
      (by
        intro j disk hj
        rw [List.getElem?_set]
        by_cases hjk : k = j
        · subst hjk
          rw [hdk] at hj
          cases hj
          simp [hlen, hklt]
        · simp only [hjk, if_false]
          rw [hscans j disk hj]
          by_cases hlt : j < k
          · rw [if_pos hlt, if_pos (by omega)]
          · rw [if_neg hlt, if_neg (by omega)])
      (marked_present_congr (marked_present_trans hmark hmark1)
        (by
          intro fp
          constructor
          · rintro (⟨j, disk, hjk, hj, hin⟩ | hin)
            · exact ⟨j, disk, by omega, hj, hin⟩
            · exact ⟨k, _, by omega, hdk, hin⟩
          · rintro ⟨j, disk, hjk, hj, hin⟩
            by_cases hjeq : j = k
            · subst hjeq
              rw [hdk] at hj
              cases hj
              exact Or.inr hin
            · exact Or.inl ⟨j, disk, by omega, hj, hin⟩)
        (by
          intro lp
          constructor
          · rintro (⟨j, disk, hjk, hj, hin⟩ | hin)
            · exact ⟨j, disk, by omega, hj, hin⟩
            · exact ⟨k, _, by omega, hdk, hin⟩
          · rintro ⟨j, disk, hjk, hj, hin⟩
            by_cases hjeq : j = k
            · subst hjeq
              rw [hdk] at hj
              cases hj
              exact Or.inr hin
            · exact Or.inl ⟨j, disk, by omega, hj, hin⟩))
    refine ⟨scans2, state2, ?_, hlen2, hscans2, hmark2⟩
    simp only [state_scan_loop]
    rw [hrun]
    exact hloop

/-- C9, scan idempotence: if no recorded file or link of any disk is marked
present, every file and link is recorded on one disk, the indexes of every
disk agree with its lists with pairwise distinct inodes and sub-paths, and
the directory walk of each disk yields exactly one entry per recorded file
with the same inode, size, mtime and sub-path, one entry per recorded link with
the same sub-path and target, and nothing else, then `state_scan` ends without
a fatal error; the counters of each disk are `equal` = the number of its
recorded files and links and `moved = change = remove = insert = 0`, so that
`equal` sums up to the number `N` of recorded files and links; `need_write`,
every disk (allocation table and `first_free_block` included) and every block
vector with its parity positions are left unchanged. -/
theorem state_scan_idempotent (excluded : String → Bool → Bool) (dirs : Nat → dir_stream)
    (state : snapraid_state) (hdisj : disks_disjoint state)
    (hall : ∀ (i : Nat) (disk : snapraid_disk), state.diskarr[i]? = some disk →
      disk_indexed state disk ∧ none_present state disk ∧
      walk_unchanged excluded dirs state i disk) :
    ∃ scans state1, state_scan excluded dirs state = .ok (scans, state1) ∧
      scans = state.diskarr.map
        (fun disk => scan_all_equal (disk.filelist.length + disk.linklist.length)) ∧
      (scans.map (fun scan => scan.count_equal)).sum =
        (state.diskarr.map (fun disk => disk.filelist.length + disk.linklist.length)).sum ∧
      (∀ scan, scan ∈ scans → scan.count_moved = 0 ∧ scan.count_change = 0 ∧
        scan.count_remove = 0 ∧ scan.count_insert = 0) ∧
      state1.need_write = state.need_write ∧ state1.diskarr = state.diskarr ∧
      (∀ fp file, heap_get state.files fp = some file →
        ∃ file1, heap_get state1.files fp = some file1 ∧ file1.blockvec = file.blockvec ∧
          positions file1 = positions file) := by
  obtain ⟨scans, state1, hloop, hlen, hscans, hmark⟩ :=
    state_scan_loop_unchanged excluded dirs state hdisj hall state.diskarr.length 0
      (List.replicate state.diskarr.length {}) state (by omega) (by simp)
      (by
        intro j disk hj
        have hjlt := getElem?_lt hj
        rw [List.getElem?_eq_getElem (by simpa using hjlt)]
        simp)
      (marked_present_congr (marked_present_refl state)
        (by intro fp; constructor
            · intro h; exact absurd h id
            · rintro ⟨j, disk, hj, -⟩; omega)
        (by intro lp; constructor
            · intro h; exact absurd h id
            · rintro ⟨j, disk, hj, -⟩; omega))
  have hscans_eq : scans = state.diskarr.map
      (fun disk => scan_all_equal (disk.filelist.length + disk.linklist.length)) := by
    apply List.ext_getElem?
    intro j
    rw [List.getElem?_map]
    by_cases hj : j < state.diskarr.length
    · rw [hscans j _ (List.getElem?_eq_getElem hj), List.getElem?_eq_getElem hj]
      rfl
    · rw [List.getElem?_eq_none (by omega), List.getElem?_eq_none (by omega)]
      rfl
  have hzero : ∀ scan, scan ∈ scans → scan.count_moved = 0 ∧ scan.count_change = 0 ∧
      scan.count_remove = 0 ∧ scan.count_insert = 0 := by
    intro scan hscan
    rw [hscans_eq, List.mem_map] at hscan
    obtain ⟨disk, -, rfl⟩ := hscan
    exact ⟨rfl, rfl, rfl, rfl⟩
  have hguard : scans.any scan_has_empty = false := by
    rw [List.any_eq_false]
    intro scan hscan
    obtain ⟨-, -, h3, -⟩ := hzero scan hscan
    simp [scan_has_empty, h3]
  refine ⟨scans, state1, ?_, hscans_eq, ?_, hzero, by rw [hmark.frame],
    by rw [hmark.frame], ?_⟩
  · unfold state_scan
    simp only [hloop, hguard]
    simp
  · rw [hscans_eq, List.map_map]
    rfl
  · intro fp file hfile
    by_cases t : ∃ (j : Nat) (disk : snapraid_disk),
        state.diskarr[j]? = some disk ∧ fp ∈ disk.filelist
    · exact ⟨_, hmark.files_in fp t file hfile, rfl, rfl⟩
    · exact ⟨file, by rw [hmark.files_out fp t]; exact hfile, rfl, rfl⟩

/-! ## Idempotence of the scan: the example -/

theorem state_scan_idempotent_witness :
    disks_disjoint idempotent_example ∧
    (∀ (i : Nat) (disk : snapraid_disk), idempotent_example.diskarr[i]? = some disk →
      disk_indexed idempotent_example disk ∧ none_present idempotent_example disk ∧
      walk_unchanged (fun _ _ => false) idempotent_dirs idempotent_example i disk) ∧
    ∃ scans state1,
      state_scan (fun _ _ => false) idempotent_dirs idempotent_example = .ok (scans, state1) ∧
      scans = idempotent_example.diskarr.map
        (fun disk => scan_all_equal (disk.filelist.length + disk.linklist.length)) ∧
      (scans.map (fun scan => scan.count_equal)).sum =
        (idempotent_example.diskarr.map
          (fun disk => disk.filelist.length + disk.linklist.length)).sum ∧
      (∀ scan, scan ∈ scans → scan.count_moved = 0 ∧ scan.count_change = 0 ∧
        scan.count_remove = 0 ∧ scan.count_insert = 0) ∧
      state1.need_write = idempotent_example.need_write ∧
      state1.diskarr = idempotent_example.diskarr ∧
      (∀ fp file, heap_get idempotent_example.files fp = some file →
        ∃ file1, heap_get state1.files fp = some file1 ∧ file1.blockvec = file.blockvec ∧
          positions file1 = positions file) :=
  have hdisj : disks_disjoint idempotent_example := by unfold disks_disjoint; decide
  have hall : ∀ (i : Nat) (disk : snapraid_disk), idempotent_example.diskarr[i]? = some disk →
      disk_indexed idempotent_example disk ∧ none_present idempotent_example disk ∧
      walk_unchanged (fun _ _ => false) idempotent_dirs idempotent_example i disk := by
    intro i disk h
    match i with
    | 0 =>
      simp only [idempotent_example, List.getElem?_cons_zero, Option.some.injEq] at h
      subst h
      refine ⟨by unfold disk_indexed; decide, by unfold none_present; decide, ?_⟩
      exact ⟨_, [.inr 0, .inl 1, .inl 0], rfl, by decide,
        List.Forall₂.cons ⟨_, rfl, rfl, rfl⟩
          (List.Forall₂.cons ⟨_, rfl, rfl, rfl, rfl, rfl⟩
            (List.Forall₂.cons ⟨_, rfl, rfl, rfl, rfl, rfl⟩ List.Forall₂.nil))⟩
    | 1 =>
      simp only [idempotent_example, List.getElem?_cons_succ, List.getElem?_cons_zero,
        Option.some.injEq] at h
      subst h
      refine ⟨by unfold disk_indexed; decide, by unfold none_present; decide, ?_⟩
      exact ⟨_, [.inl 2], rfl, by decide,
        List.Forall₂.cons ⟨_, rfl, rfl, rfl, rfl, rfl⟩ List.Forall₂.nil⟩
    | n + 2 => simp [idempotent_example] at h
  ⟨hdisj, hall, state_scan_idempotent (fun _ _ => false) idempotent_dirs idempotent_example hdisj hall⟩

/-- The scan of `idempotent_example` evaluated: three entries are equal on
disk 0 and one on disk 1, and `need_write` stays clear. -/
theorem state_scan_idempotent_seed :
    (state_scan (fun _ _ => false) idempotent_dirs idempotent_example).map
      (fun r => (r.1.map (fun scan => (scan.count_equal, scan.count_moved, scan.count_change,
          scan.count_remove, scan.count_insert)), r.2.need_write,
        r.2.diskarr == idempotent_example.diskarr)) =
    .ok ([(3, 0, 0, 0, 0), (1, 0, 0, 0, 0)], false, true) := by rfl

/-! ## Safety checks of scan_file (claims C11, C16) -/

/-- C11: for an entry whose inode matches a recorded file that is not yet
present, with stored size greater than 0, current size 0 and the same
sub-path, `scan_file` fails fatally if and only if `force_zero` is not set;
when `force_zero` is set it returns, counts exactly one change, frees every
position of the file through `scan_file_remove` without reducing the length of
the table, and queues a replacement file that has no block. -/
theorem scan_file_zero_size (scan : snapraid_scan) (state : snapraid_state) (d : Nat)
    (sub : String) (st : stat) (disk : snapraid_disk) (fp : FilePtr) (file : snapraid_file)
    (hI1 : I1_all state) (hdisk : state.diskarr[d]? = some disk)
    (hfound : inodeset_search state.files disk.inodeset st.st_ino = some fp)
    (hmem : fp ∈ disk.filelist) (hfile : heap_get state.files fp = some file)
    (hnp : file.is_present = false) (hsize : 0 < file.size) (hzero : st.st_size = 0)
    (hsub : file.sub = sub) :
    (scan_file scan state d sub st = .error .fatal ↔ state.force_zero = false) ∧
    (state.force_zero = true →
      ∃ (state1 : snapraid_state) (disk1 : snapraid_disk) (file1 : snapraid_file),
        scan_file_remove state d fp = some state1 ∧
        scan_file scan state d sub st = .ok
          ({ scan with count_change := scan.count_change + 1,
                       file_insert_list := scan.file_insert_list ++ [state1.files.length] },
           { state1 with files := state1.files ++ [some file1] }) ∧
        file1.blockmax = 0 ∧ file1.sub = sub ∧ file1.size = 0 ∧ file1.is_present = true ∧
        state1.diskarr[d]? = some disk1 ∧
        (∀ p, p ∈ positions file → disk_block_get disk1 p = none) ∧
        tommy_array_size disk1.blockarr = tommy_array_size disk.blockarr) := by
  have hI := hI1 disk (List.mem_iff_getElem?.2 ⟨d, hdisk⟩)
  obtain ⟨disk1, files1, hres, hpost⟩ := scan_file_remove_spec state d fp file disk hfile hdisk
    (range_of_I1 hI hmem hfile) (cells_live_of_I1_all hI1)
  have hdlt := getElem?_lt hdisk
  have hne : ¬ (file.size = st.st_size ∧ file.mtime = st.st_mtime) := by
    rw [hzero]; intro h; omega
  have hs0 : file.size ≠ 0 := by omega
  constructor
  · unfold scan_file
    simp only [hdisk, hfound, hfile, hnp, hne, hs0, hzero, hsub, hres]
    cases hz : state.force_zero <;> simp [hs0]
  · intro hz
    refine ⟨_, { disk1 with
        inodeset := disk1.inodeset.filter (fun p => p != fp),
        filelist := disk1.filelist.filter (fun p => p != fp) },
      { file_alloc state.block_size sub st.st_size st.st_mtime st.st_ino with
        is_present := true }, hres, ?_, ?_, rfl, ?_, rfl, ?_, ?_, ?_⟩
    · unfold scan_file
      simp only [hdisk, hfound, hfile, hnp, hne, hs0, hzero, hsub, hres, hz]
      simp [scan_file_delayed_insert, hzero]
    · simp [snapraid_file.blockmax, file_alloc, hzero]
      rcases Nat.eq_zero_or_pos state.block_size with h | h
      · simp [h]
      · exact Nat.div_eq_of_lt (by omega)
    · simp [file_alloc, hzero]
    · simp only; rw [List.getElem?_set]; simp [hdlt]
    · intro p hp
      obtain ⟨k, hk, rfl⟩ := (mem_positions file p).1 hp
      rw [disk_block_get_eq_cell]
      exact hpost.cleared k (by omega) (by omega)
    · exact hpost.len_arr

theorem scan_file_zero_size_witness :
    ∃ disk file, I1_all zero_example ∧ zero_example.diskarr[0]? = some disk ∧
      inodeset_search zero_example.files disk.inodeset 7 = some 0 ∧
      0 ∈ disk.filelist ∧ heap_get zero_example.files 0 = some file ∧
      file.is_present = false ∧ 0 < file.size ∧ file.sub = "a" ∧
      (scan_file {} zero_example 0 "a" { st_ino := 7, st_size := 0, st_mtime := 100 }
          = .error .fatal ↔ zero_example.force_zero = false) ∧
      ∃ (state1 : snapraid_state) (disk1 : snapraid_disk) (file1 : snapraid_file),
        scan_file_remove zero_example 0 0 = some state1 ∧
        scan_file {} zero_example 0 "a" { st_ino := 7, st_size := 0, st_mtime := 100 } = .ok
          ({ count_change := 1, file_insert_list := [state1.files.length] },
           { state1 with files := state1.files ++ [some file1] }) ∧
        file1.blockmax = 0 ∧ file1.sub = "a" ∧ file1.size = 0 ∧ file1.is_present = true ∧
        state1.diskarr[0]? = some disk1 ∧
        (∀ p, p ∈ positions file → disk_block_get disk1 p = none) ∧
        tommy_array_size disk1.blockarr = tommy_array_size disk.blockarr :=
  ⟨_, _, I1_all_of_check (by decide), rfl, rfl, by decide, rfl, rfl, by decide, rfl,
    (scan_file_zero_size {} zero_example 0 "a" { st_ino := 7, st_size := 0, st_mtime := 100 }
      _ 0 _ (I1_all_of_check (by decide)) rfl rfl (by decide) rfl rfl (by decide) rfl rfl).1,
    (scan_file_zero_size {} zero_example 0 "a" { st_ino := 7, st_size := 0, st_mtime := 100 }
      _ 0 _ (I1_all_of_check (by decide)) rfl rfl (by decide) rfl rfl (by decide) rfl rfl).2
      rfl⟩

/-- C16: when the inode of the entry matches a recorded file that is already
marked as present, `scan_file` ignores the entry if its link count is greater
than 1, returning the counters, the delayed insert lists and the whole state
(file records, allocation tables, `need_write`) unchanged, and fails fatally
otherwise. -/
theorem scan_file_already_present (scan : snapraid_scan) (state : snapraid_state) (d : Nat)
    (sub : String) (st : stat) (disk : snapraid_disk) (fp : FilePtr) (file : snapraid_file)
    (hdisk : state.diskarr[d]? = some disk)
    (hfound : inodeset_search state.files disk.inodeset st.st_ino = some fp)
    (hfile : heap_get state.files fp = some file) (hp : file.is_present = true) :
    (1 < st.st_nlink → scan_file scan state d sub st = .ok (scan, state)) ∧
    (st.st_nlink ≤ 1 → scan_file scan state d sub st = .error .fatal) := by
  constructor
  · intro h
    unfold scan_file
    simp [hdisk, hfound, hfile, hp, h]
  · intro h
    unfold scan_file
    simp only [hdisk, hfound, hfile, hp]
    simp [Nat.not_lt.2 h]

theorem scan_file_already_present_witness :
    ∃ disk file, present_example.diskarr[0]? = some disk ∧
      inodeset_search present_example.files disk.inodeset 7 = some 0 ∧
      heap_get present_example.files 0 = some file ∧ file.is_present = true ∧
      scan_file {} present_example 0 "h"
          { st_ino := 7, st_size := 5, st_mtime := 100, st_nlink := 2 }
        = .ok ({}, present_example) ∧
      scan_file {} present_example 0 "h"
          { st_ino := 7, st_size := 5, st_mtime := 100, st_nlink := 1 }
        = .error .fatal :=
  ⟨_, _, rfl, rfl, rfl, rfl,
    (scan_file_already_present {} present_example 0 "h"
      { st_ino := 7, st_size := 5, st_mtime := 100, st_nlink := 2 } _ 0 _ rfl rfl rfl rfl).1
      (by decide),
    (scan_file_already_present {} present_example 0 "h"
      { st_ino := 7, st_size := 5, st_mtime := 100, st_nlink := 1 } _ 0 _ rfl rfl rfl rfl).2
      (by decide)⟩

/-! ## Counters and guard of state_scan (claims C12 to C15) -/

theorem scan_file_remove_block_force_empty {state state1 : snapraid_state} {d : Nat}
    {fp : FilePtr} {i : Nat} (h : scan_file_remove_block state d fp i = some state1) :
    state1.force_empty = state.force_empty := by
  unfold scan_file_remove_block at h
  split at h
  · split at h
    · simp only at h
      split at h
      · split at h
        · simp only [Option.some.injEq] at h; subst h; rfl
        · simp at h
      · simp at h
    · simp at h
  · simp at h

theorem scan_file_remove_loop_force_empty (d : Nat) (fp : FilePtr) :
    ∀ (n i : Nat) (state state1 : snapraid_state),
      scan_file_remove_loop d fp n i state = some state1 →
      state1.force_empty = state.force_empty
  | 0, _, state, state1, h => by
    simp only [scan_file_remove_loop, Option.some.injEq] at h; subst h; rfl
  | n + 1, i, state, state1, h => by
    simp only [scan_file_remove_loop] at h
    cases h1 : scan_file_remove_block state d fp i with
    | none => rw [h1] at h; simp at h
    | some state2 =>
      rw [h1] at h
      rw [scan_file_remove_loop_force_empty d fp n (i + 1) state2 state1 h,
        scan_file_remove_block_force_empty h1]

theorem scan_file_remove_force_empty {state state1 : snapraid_state} {d : Nat}
    {fp : FilePtr} (h : scan_file_remove state d fp = some state1) :
    state1.force_empty = state.force_empty := by
  unfold scan_file_remove at h
  split at h
  · split at h
    · rename_i state2 h2
      split at h
      · simp only [Option.some.injEq] at h; subst h
        have e := scan_file_remove_loop_force_empty d fp _ _ _ _ h2
        exact e
      · simp at h
    · simp at h
  · simp at h

theorem scan_file_insert_force_empty {state state1 : snapraid_state} {d : Nat}
    {fp : FilePtr} (h : scan_file_insert state d fp = some state1) :
    state1.force_empty = state.force_empty := by
  unfold scan_file_insert at h
  split at h
  · split at h
    · simp only [Option.some.injEq] at h; subst h; rfl
    · simp at h
  · simp at h

theorem scan_link_remove_force_empty {state state1 : snapraid_state} {d : Nat}
    {lp : LinkPtr} (h : scan_link_remove state d lp = some state1) :
    state1.force_empty = state.force_empty := by
  unfold scan_link_remove at h
  split at h
  · simp only [Option.some.injEq] at h; subst h; rfl
  · simp at h

theorem scan_link_insert_force_empty {state state1 : snapraid_state} {d : Nat}
    {lp : LinkPtr} (h : scan_link_insert state d lp = some state1) :
    state1.force_empty = state.force_empty := by
  unfold scan_link_insert at h
  split at h
  · simp only [Option.some.injEq] at h; subst h; rfl
  · simp at h

theorem scan_file_force_empty {scan scan1 : snapraid_scan} {state state1 : snapraid_state}
    {d : Nat} {sub : String} {st : stat}
    (h : scan_file scan state d sub st = .ok (scan1, state1)) :
    state1.force_empty = state.force_empty := by
  unfold scan_file at h
  split at h
  · simp at h
  · split at h
    · split at h
      · simp at h
      · split at h
        · split at h
          · simp only [Except.ok.injEq, Prod.mk.injEq] at h; rw [← h.2]
          · simp at h
        · split at h
          · split at h
            · simp only [Except.ok.injEq, Prod.mk.injEq] at h; rw [← h.2]
            · simp only [Except.ok.injEq, Prod.mk.injEq] at h; rw [← h.2]
          · split at h
            · simp at h
            · simp only at h
              split at h
              · rename_i state2 h2
                simp only [scan_file_delayed_insert, Except.ok.injEq, Prod.mk.injEq] at h
                rw [← h.2]
                have e := scan_file_remove_force_empty h2
                exact e
              · simp at h
    · simp only [scan_file_delayed_insert, Except.ok.injEq, Prod.mk.injEq] at h
      rw [← h.2]

theorem scan_link_force_empty {scan scan1 : snapraid_scan} {state state1 : snapraid_state}
    {d : Nat} {sub linkto : String}
    (h : scan_link scan state d sub linkto = .ok (scan1, state1)) :
    state1.force_empty = state.force_empty := by
  unfold scan_link at h
  split at h
  · simp at h
  · split at h
    · split at h
      · simp at h
      · split at h
        · simp at h
        · split at h
          · simp only [Except.ok.injEq, Prod.mk.injEq] at h; rw [← h.2]
          · simp only [Except.ok.injEq, Prod.mk.injEq] at h; rw [← h.2]
    · simp only [Except.ok.injEq, Prod.mk.injEq] at h
      rw [← h.2]

mutual

theorem scan_dir_force_empty (excluded : String → Bool → Bool) (d : Nat) :
    ∀ (stream : dir_stream) (sub : String) (scan scan1 : snapraid_scan)
      (state state1 : snapraid_state),
      scan_dir excluded d sub stream scan state = .ok (scan1, state1) →
      state1.force_empty = state.force_empty
  | .open_error, sub, scan, scan1, state, state1, h => by simp [scan_dir] at h
  | .read_error, sub, scan, scan1, state, state1, h => by simp [scan_dir] at h
  | .finished closed, sub, scan, scan1, state, state1, h => by
    simp only [scan_dir] at h
    split at h
    · simp only [Except.ok.injEq, Prod.mk.injEq] at h; rw [← h.2]
    · simp at h
  | .entry e rest, sub, scan, scan1, state, state1, h => by
    simp only [scan_dir] at h
    cases h1 : scan_dir_entry excluded d sub e scan state with
    | error err => rw [h1] at h; simp at h
    | ok r =>
      obtain ⟨scan2, state2⟩ := r
      rw [h1] at h
      rw [scan_dir_force_empty excluded d rest sub scan2 scan1 state2 state1 h,
        scan_dir_entry_force_empty excluded d e sub scan scan2 state state2 h1]

theorem scan_dir_entry_force_empty (excluded : String → Bool → Bool) (d : Nat) :
    ∀ (e : dir_entry) (sub : String) (scan scan1 : snapraid_scan)
      (state state1 : snapraid_state),
      scan_dir_entry excluded d sub e scan state = .ok (scan1, state1) →
      state1.force_empty = state.force_empty
  | .lstat_error name, sub, scan, scan1, state, state1, h => by
    simp only [scan_dir_entry] at h
    split at h
    · simp only [Except.ok.injEq, Prod.mk.injEq] at h; rw [← h.2]
    · simp at h
  | .reg name st readable, sub, scan, scan1, state, state1, h => by
    simp only [scan_dir_entry] at h
    split at h
    · simp only [Except.ok.injEq, Prod.mk.injEq] at h; rw [← h.2]
    · split at h
      · simp at h
      · split at h
        · simp only [Except.ok.injEq, Prod.mk.injEq] at h; rw [← h.2]
        · split at h
          · exact scan_file_force_empty h
          · simp only [Except.ok.injEq, Prod.mk.injEq] at h; rw [← h.2]
  | .lnk name readlink, sub, scan, scan1, state, state1, h => by
    simp only [scan_dir_entry] at h
    split at h
    · simp only [Except.ok.injEq, Prod.mk.injEq] at h; rw [← h.2]
    · split at h
      · simp at h
      · split at h
        · simp only [Except.ok.injEq, Prod.mk.injEq] at h; rw [← h.2]
        · split at h
          · split at h
            · simp at h
            · exact scan_link_force_empty h
          · simp at h
  | .dir name content, sub, scan, scan1, state, state1, h => by
    simp only [scan_dir_entry] at h
    split at h
    · simp only [Except.ok.injEq, Prod.mk.injEq] at h; rw [← h.2]
    · split at h
      · simp at h
      · split at h
        · simp only [Except.ok.injEq, Prod.mk.injEq] at h; rw [← h.2]
        · exact scan_dir_force_empty excluded d content _ scan scan1 state state1 h
  | .special name, sub, scan, scan1, state, state1, h => by
    simp only [scan_dir_entry] at h
    split at h
    · simp only [Except.ok.injEq, Prod.mk.injEq] at h; rw [← h.2]
    · split at h
      · simp at h
      · simp only [Except.ok.injEq, Prod.mk.injEq] at h; rw [← h.2]

end

theorem scan_removed_files_force_empty (d : Nat) :
    ∀ (l : List FilePtr) (scan scan1 : snapraid_scan) (state state1 : snapraid_state),
      scan_removed_files d l scan state = .ok (scan1, state1) →
      state1.force_empty = state.force_empty
  | [], scan, scan1, state, state1, h => by
    simp only [scan_removed_files, Except.ok.injEq, Prod.mk.injEq] at h; rw [← h.2]
  | fp :: rest, scan, scan1, state, state1, h => by
    simp only [scan_removed_files] at h
    split at h
    · split at h
      · exact scan_removed_files_force_empty d rest _ _ _ _ h
      · split at h
        · rename_i state2 h2
          rw [scan_removed_files_force_empty d rest _ _ _ _ h, scan_file_remove_force_empty h2]
        · simp at h
    · simp at h

theorem scan_removed_links_force_empty (d : Nat) :
    ∀ (l : List LinkPtr) (scan scan1 : snapraid_scan) (state state1 : snapraid_state),
      scan_removed_links d l scan state = .ok (scan1, state1) →
      state1.force_empty = state.force_empty
  | [], scan, scan1, state, state1, h => by
    simp only [scan_removed_links, Except.ok.injEq, Prod.mk.injEq] at h; rw [← h.2]
  | lp :: rest, scan, scan1, state, state1, h => by
    simp only [scan_removed_links] at h
    split at h
    · split at h
      · exact scan_removed_links_force_empty d rest _ _ _ _ h
      · split at h
        · rename_i state2 h2
          rw [scan_removed_links_force_empty d rest _ _ _ _ h, scan_link_remove_force_empty h2]
        · simp at h
    · simp at h

theorem scan_insert_files_force_empty (d : Nat) :
    ∀ (l : List FilePtr) (scans scans1 : List snapraid_scan) (state state1 : snapraid_state),
      scan_insert_files d l scans state = .ok (scans1, state1) →
      state1.force_empty = state.force_empty
  | [], scans, scans1, state, state1, h => by
    simp only [scan_insert_files, Except.ok.injEq, Prod.mk.injEq] at h; rw [← h.2]
  | fp :: rest, scans, scans1, state, state1, h => by
    simp only [scan_insert_files] at h
    split at h
    · rename_i state2 h2
      rw [scan_insert_files_force_empty d rest _ _ _ _ h, scan_file_insert_force_empty h2]
    · simp at h

theorem scan_insert_links_force_empty (d : Nat) :
    ∀ (l : List LinkPtr) (scans scans1 : List snapraid_scan) (state state1 : snapraid_state),
      scan_insert_links d l scans state = .ok (scans1, state1) →
      state1.force_empty = state.force_empty
  | [], scans, scans1, state, state1, h => by
    simp only [scan_insert_links, Except.ok.injEq, Prod.mk.injEq] at h; rw [← h.2]
  | lp :: rest, scans, scans1, state, state1, h => by
    simp only [scan_insert_links] at h
    split at h
    · rename_i state2 h2
      rw [scan_insert_links_force_empty d rest _ _ _ _ h, scan_link_insert_force_empty h2]
    · simp at h

theorem state_scan_disk_force_empty {excluded : String → Bool → Bool} {dirs : Nat → dir_stream}
    {i : Nat} {scans scans1 : List snapraid_scan} {state state1 : snapraid_state}
    (h : state_scan_disk excluded dirs i scans state = .ok (scans1, state1)) :
    state1.force_empty = state.force_empty := by
  unfold state_scan_disk at h
  split at h
  · simp at h
  · split at h
    · simp at h
    · rename_i sc1 st1 h1
      split at h
      · simp at h
      · split at h
        · simp at h
        · rename_i sc2 st2 h2
          split at h
          · simp at h
          · split at h
            · simp at h
            · rename_i sc3 st3 h3
              split at h
              · simp at h
              · rename_i sc4 st4 h4
                rw [scan_insert_links_force_empty _ _ _ _ _ _ h,
                  scan_insert_files_force_empty _ _ _ _ _ _ h4,
                  scan_removed_links_force_empty _ _ _ _ _ _ h3,
                  scan_removed_files_force_empty _ _ _ _ _ _ h2,
                  scan_dir_force_empty _ _ _ _ _ _ _ _ h1]

theorem state_scan_loop_force_empty (excluded : String → Bool → Bool) (dirs : Nat → dir_stream) :
    ∀ (n i : Nat) (scans scans1 : List snapraid_scan) (state state1 : snapraid_state),
      state_scan_loop excluded dirs n i scans state = .ok (scans1, state1) →
      state1.force_empty = state.force_empty
  | 0, _, scans, scans1, state, state1, h => by
    simp only [state_scan_loop, Except.ok.injEq, Prod.mk.injEq] at h; rw [← h.2]
  | n + 1, i, scans, scans1, state, state1, h => by
    simp only [state_scan_loop] at h
    split at h
    · rename_i sc2 st2 h2
      rw [state_scan_loop_force_empty excluded dirs n (i + 1) _ _ _ _ h,
        state_scan_disk_force_empty h2]
    · simp at h

/-- C14: once the loop over the disks has ended without a fatal error, with
counters `scans`, `state_scan` fails fatally if and only if `force_empty` is
not set and the counters of some disk have equal = 0, moved = 0 and
remove > 0, whatever the change and insert counters are; otherwise it returns
the counters and the state of the loop. -/
theorem state_scan_empty_guard (excluded : String → Bool → Bool) (dirs : Nat → dir_stream)
    (state state1 : snapraid_state) (scans : List snapraid_scan)
    (hloop : state_scan_loop excluded dirs state.diskarr.length 0
      (List.replicate state.diskarr.length {}) state = .ok (scans, state1)) :
    (state_scan excluded dirs state = .error .fatal ↔
      state.force_empty = false ∧
      ∃ (i : Nat) (scan : snapraid_scan), scans[i]? = some scan ∧
        scan.count_equal = 0 ∧ scan.count_moved = 0 ∧ 0 < scan.count_remove) ∧
    (state_scan excluded dirs state ≠ .error .fatal →
      state_scan excluded dirs state = .ok (scans, state1)) := by
  have hfe := state_scan_loop_force_empty excluded dirs _ _ _ _ _ _ hloop
  have hany : scans.any scan_has_empty = true ↔
      ∃ (i : Nat) (scan : snapraid_scan), scans[i]? = some scan ∧
        scan.count_equal = 0 ∧ scan.count_moved = 0 ∧ 0 < scan.count_remove := by
    rw [List.any_eq_true]
    constructor
    · rintro ⟨scan, hmem, hs⟩
      obtain ⟨i, hi⟩ := List.mem_iff_getElem?.1 hmem
      simp only [scan_has_empty, Bool.and_eq_true, beq_iff_eq, bne_iff_ne, ne_eq] at hs
      exact ⟨i, scan, hi, hs.1.1, hs.1.2, by omega⟩
    · rintro ⟨i, scan, hi, h1, h2, h3⟩
      refine ⟨scan, List.mem_iff_getElem?.2 ⟨i, hi⟩, ?_⟩
      simp only [scan_has_empty, Bool.and_eq_true, beq_iff_eq, bne_iff_ne, ne_eq]
      exact ⟨⟨h1, h2⟩, by omega⟩
  unfold state_scan
  simp only [hloop, hfe]
  by_cases hg : state.force_empty = false ∧ scans.any scan_has_empty = true
  · rw [if_pos hg]
    exact ⟨⟨fun _ => ⟨hg.1, hany.1 hg.2⟩, fun _ => rfl⟩, fun h => absurd rfl h⟩
  · rw [if_neg hg]
    refine ⟨⟨fun h => by simp at h, fun h => absurd ⟨h.1, hany.2 h.2⟩ hg⟩, fun _ => rfl⟩

theorem state_scan_empty_guard_witness :
    ∃ scans state1, state_scan_loop (fun _ _ => false) reuse_dirs recorded_example.diskarr.length 0
        (List.replicate recorded_example.diskarr.length {}) recorded_example
        = .ok (scans, state1) ∧
      (state_scan (fun _ _ => false) reuse_dirs recorded_example = .error .fatal ↔
        recorded_example.force_empty = false ∧
        ∃ (i : Nat) (scan : snapraid_scan), scans[i]? = some scan ∧
          scan.count_equal = 0 ∧ scan.count_moved = 0 ∧ 0 < scan.count_remove) ∧
      (state_scan (fun _ _ => false) reuse_dirs recorded_example ≠ .error .fatal →
        state_scan (fun _ _ => false) reuse_dirs recorded_example = .ok (scans, state1)) :=
  ⟨_, _, rfl, state_scan_empty_guard (fun _ _ => false) reuse_dirs recorded_example _ _ rfl⟩

/-- C12: in seed scenario 4 on disk 0 (the single recorded file `a`, the only
entry `c` with the same inode and size, another sub-path and another
modification time, `force_empty` set so that the guard lets the scan end),
`state_scan` leaves the counters of disk 0 at remove = 1 and insert = 2: the
new file is counted by `scan_file` and again by the insert loop. -/
theorem state_scan_inode_reuse_counts :
    ∃ state1, state_scan (fun _ _ => false) reuse_dirs
        { recorded_example with force_empty := true } =
      .ok ([{ count_equal := 0, count_moved := 0, count_change := 0, count_remove := 1,
              count_insert := 2, file_insert_list := [1] }, {}], state1) :=
  ⟨_, rfl⟩

/-- C13: on two empty disks where the directory of disk 1 holds one new file
and one new link, `state_scan` inserts both on disk 1 and nothing on disk 0,
and leaves the insert counter of disk 0 at 2 and that of disk 1 at 0. -/
theorem state_scan_insert_counted_in_first :
    ∃ (state1 : snapraid_state) (disk0 disk1 : snapraid_disk),
      state_scan (fun _ _ => false) new_dirs seed_state =
        .ok ([{ count_insert := 2 },
              { count_insert := 0, file_insert_list := [0], link_insert_list := [0] }],
             state1) ∧
      state1.diskarr = [disk0, disk1] ∧
      disk0.filelist = [] ∧ disk0.linklist = [] ∧
      disk1.filelist = [0] ∧ disk1.linklist = [0] :=
  ⟨_, _, _, rfl, rfl, rfl, rfl, rfl, rfl⟩

/-- C15: for the recorded link `l` with target `a`, not yet present, and the
entry `l` with target `b`, `scan_link` counts one change, rewrites the target
and marks the link as present, and `need_write` is left unset. -/
theorem scan_link_update_leaves_need_write :
    idempotent_example.need_write = false ∧
    ∃ (state1 : snapraid_state),
      scan_link {} idempotent_example 0 "l" "b" = .ok ({ count_change := 1 }, state1) ∧
      heap_get state1.links 0 = some { sub := "l", linkto := "b", is_present := true } ∧
      state1.need_write = false :=
  ⟨rfl, _, rfl, rfl, rfl⟩

/-! ## The loops of state_dry_process -/

theorem state_dry_disk_eq (env : dry_env) (state : snapraid_state) (i j : Nat) (v : dry_vars)
    (h : snapraid_handle) (disk : snapraid_disk) (block : BlockPtr) (file : snapraid_file)
    (hh : v.handle[j]? = some h) (hd : h.disk = some j) (hdisk : state.diskarr[j]? = some disk)
    (hblock : fs_par2block_get disk i = some block)
    (hfile : heap_get state.files block.file = some file) :
    state_dry_disk env state i j v =
      some (v.turn j (dry_cell env disk.dir file state.block_size i j h block),
            (dry_cell env disk.dir file state.block_size i j h block).bail) := by
  unfold state_dry_disk
  simp only [hh, hd, hdisk, hblock]
  unfold dry_cell dry_cell_read state_dry_read handle_read handle_open handle_close dry_vars.turn
  simp only [hfile, hd, hdisk]
  by_cases h1 : h.file = some block.file
  · have : ¬ (h.file = none ∨ h.file ≠ some block.file) := by simp [h1]
    simp only [this, h1, if_true, if_false]
    cases env.read_ok i j <;> simp [set_of_getElem? hh]
  · have : (h.file = none ∨ h.file ≠ some block.file) := Or.inr h1
    simp only [this, h1, if_true, if_false]
    by_cases h2 : h.f = -1 <;> cases hc : env.close_ok i j <;>
      by_cases h3 : env.open_ret i j = -1 <;> cases hf : env.have_fadvise <;>
      cases ha : env.fadvise_ok i j <;> cases hr : env.read_ok i j <;>
      simp [h1, h2, h3, hdisk, List.set_set]

theorem dry_cell_disk (env : dry_env) (dir : String) (file : snapraid_file)
    (block_size i j : Nat) (h : snapraid_handle) (block : BlockPtr) :
    (dry_cell env dir file block_size i j h block).handle.disk = h.disk := by
  unfold dry_cell
  simp only
  split_ifs <;> rfl

theorem dry_shape_set {diskmax : Nat} {v : dry_vars} (hs : dry_shape diskmax v) (j : Nat)
    (h h1 : snapraid_handle) (hh : v.handle[j]? = some h) (hd : h1.disk = h.disk)
    (error : Nat) (trace : List dry_event) :
    dry_shape diskmax { handle := v.handle.set j h1, error := error, trace := trace } := by
  refine ⟨by simp [hs.1], ?_⟩
  intro s h2 h3
  simp only [List.getElem?_set] at h3
  split_ifs at h3 with e1 e2
  · simp only [Option.some.injEq] at h3
    subst h3; subst e1
    rw [hd]; exact hs.2 _ _ hh
  · exact hs.2 _ _ h3

theorem dry_shape_map (state : snapraid_state) :
    dry_shape state.diskarr.length { handle := handle_map state, error := 0, trace := [] } := by
  refine ⟨by simp [handle_map], ?_⟩
  intro s h hh
  simp only [handle_map, List.getElem?_map] at hh
  cases hr : (List.range state.diskarr.length)[s]? with
  | none => rw [hr] at hh; simp at hh
  | some k =>
    rw [hr] at hh
    simp only [Option.map_some', Option.some.injEq] at hh
    have := List.getElem?_range (m := s) (n := state.diskarr.length)
    have hk : k = s := by
      have hlt : s < (List.range state.diskarr.length).length := getElem?_lt hr
      rw [List.getElem?_eq_getElem hlt] at hr
      simp at hr
      omega
    subst hh; subst hk; rfl

theorem state_dry_levels_handle (env : dry_env) (parity : Nat → Bool) (i : Nat) :
    ∀ (n l : Nat) (v : dry_vars), (state_dry_levels env parity i n l v).handle = v.handle
  | 0, _, v => rfl
  | n + 1, l, v => by
    simp only [state_dry_levels]
    rw [state_dry_levels_handle env parity i n (l + 1)]
    unfold state_dry_level
    split_ifs <;> rfl

theorem state_dry_parity_handle (env : dry_env) (state : snapraid_state) (parity : Nat → Bool)
    (i : Nat) (v : dry_vars) : (state_dry_parity env state parity i v).handle = v.handle := by
  unfold state_dry_parity
  exact state_dry_levels_handle env parity i _ _ v

theorem state_dry_close_slot_shape {diskmax : Nat} {v : dry_vars} (hs : dry_shape diskmax v)
    (env : dry_env) (blockmax j : Nat) (h : snapraid_handle) (hh : v.handle[j]? = some h) :
    dry_shape diskmax (state_dry_close_slot env blockmax j h v) := by
  unfold state_dry_close_slot handle_close
  simp only
  split_ifs <;> exact dry_shape_set hs j h { h with file := none, f := -1 } hh rfl _ _

/-- Proof rule for `state_dry_process`: `P i j` is to hold before the turn of
the slot `j` at the position `i`, `B` at the label `bail`, `F j` before the
turn of the slot `j` in the closing loop. -/
theorem state_dry_process_rule (env : dry_env) (state : snapraid_state) (parity : Nat → Bool)
    (blockstart blockmax : Nat)
    (P : Nat → Nat → dry_vars → Prop) (B : dry_vars → Prop) (F : Nat → dry_vars → Prop)
    (hlive : ∀ (j : Nat) (disk : snapraid_disk) (p : Nat) (block : BlockPtr),
      state.diskarr[j]? = some disk → fs_par2block_get disk p = some block →
      ∃ file, heap_get state.files block.file = some file)
    (hinit : P blockstart 0 { handle := handle_map state, error := 0, trace := [] })
    (hskip : ∀ (i j : Nat) (v : dry_vars) (disk : snapraid_disk),
      blockstart ≤ i → i < blockmax → state.diskarr[j]? = some disk →
      fs_par2block_get disk i = none → P i j v → P i (j + 1) v)
    (hcell : ∀ (i j : Nat) (v : dry_vars) (h : snapraid_handle) (disk : snapraid_disk)
      (block : BlockPtr) (file : snapraid_file),
      blockstart ≤ i → i < blockmax → v.handle[j]? = some h → h.disk = some j →
      state.diskarr[j]? = some disk → fs_par2block_get disk i = some block →
      heap_get state.files block.file = some file → P i j v →
      ((dry_cell env disk.dir file state.block_size i j h block).bail = false →
        P i (j + 1) (v.turn j (dry_cell env disk.dir file state.block_size i j h block))) ∧
      ((dry_cell env disk.dir file state.block_size i j h block).bail = true →
        B (v.turn j (dry_cell env disk.dir file state.block_size i j h block))))
    (hparity : ∀ (i : Nat) (v : dry_vars), blockstart ≤ i → i < blockmax →
      P i state.diskarr.length v →
      (env.progress_stop i = true → B (state_dry_parity env state parity i v)) ∧
      (env.progress_stop i = false → P (i + 1) 0 (state_dry_parity env state parity i v)))
    (hend : ∀ (i : Nat) (v : dry_vars), blockmax ≤ i → P i 0 v → B v)
    (hbail : ∀ v, B v → F 0 v)
    (hclose : ∀ (j : Nat) (v : dry_vars) (h : snapraid_handle), j < state.diskarr.length →
      v.handle[j]? = some h → F j v → F (j + 1) (state_dry_close_slot env blockmax j h v)) :
    ∃ r, state_dry_process env state parity blockstart blockmax = some r ∧
      F state.diskarr.length r.vars ∧ r.ret = if r.vars.error ≠ 0 then -1 else 0 := by
  have hdisks : ∀ (i : Nat), blockstart ≤ i → i < blockmax → ∀ (n j : Nat) (v : dry_vars),
      j + n = state.diskarr.length → dry_shape state.diskarr.length v → P i j v →
      ∃ v1 bail, state_dry_disks env state i n j v = some (v1, bail) ∧
        dry_shape state.diskarr.length v1 ∧
        (bail = false → P i state.diskarr.length v1) ∧ (bail = true → B v1) := by
    intro i hi1 hi2 n
    induction n with
    | zero =>
      intro j v hj hs hp
      simp only [Nat.add_zero] at hj
      subst hj
      exact ⟨v, false, rfl, hs, fun _ => hp, fun h => by simp at h⟩
    | succ n ih =>
      intro j v hj hs hp
      have hjlt : j < v.handle.length := by rw [hs.1]; omega
      have hh : v.handle[j]? = some v.handle[j] := List.getElem?_eq_getElem hjlt
      have hd := hs.2 _ _ hh
      have hjlt2 : j < state.diskarr.length := by omega
      have hdisk : state.diskarr[j]? = some state.diskarr[j] := List.getElem?_eq_getElem hjlt2
      simp only [state_dry_disks]
      cases hb : fs_par2block_get state.diskarr[j] i with
      | none =>
        have : state_dry_disk env state i j v = some (v, false) := by
          unfold state_dry_disk
          simp only [hh, hd, hdisk, hb]
        rw [this]
        exact ih (j + 1) v (by omega) hs (hskip i j v _ hi1 hi2 hdisk hb hp)
      | some block =>
        obtain ⟨file, hfile⟩ := hlive j _ i block hdisk hb
        rw [state_dry_disk_eq env state i j v _ _ block file hh hd hdisk hb hfile]
        have hc := hcell i j v _ _ block file hi1 hi2 hh hd hdisk hb hfile hp
        have hs1 : dry_shape state.diskarr.length
            (v.turn j (dry_cell env state.diskarr[j].dir file state.block_size i j
              v.handle[j] block)) :=
          dry_shape_set hs j _ _ hh (dry_cell_disk _ _ _ _ _ _ _ _) _ _
        cases hbail : (dry_cell env state.diskarr[j].dir file state.block_size i j
            v.handle[j] block).bail with
        | true => exact ⟨_, true, rfl, hs1, fun h => by simp at h, fun _ => hc.2 hbail⟩
        | false => exact ih (j + 1) _ (by omega) hs1 (hc.1 hbail)
  have hpos : ∀ (n i : Nat) (v : dry_vars), blockstart ≤ i → n = blockmax - i →
      dry_shape state.diskarr.length v → P i 0 v →
      ∃ v1, state_dry_positions env state parity state.diskarr.length n i v = some v1 ∧
        dry_shape state.diskarr.length v1 ∧ B v1 := by
    intro n
    induction n with
    | zero =>
      intro i v _ hn hs hp
      exact ⟨v, rfl, hs, hend i v (by omega) hp⟩
    | succ n ih =>
      intro i v hi hn hs hp
      obtain ⟨v1, bail, hrun, hs1, h1, h2⟩ :=
        hdisks i hi (by omega) state.diskarr.length 0 v (by omega) hs hp
      simp only [state_dry_positions, hrun]
      have hs2 : dry_shape state.diskarr.length (state_dry_parity env state parity i v1) := by
        unfold dry_shape
        rw [state_dry_parity_handle]
        exact hs1
      cases bail with
      | true => exact ⟨v1, rfl, hs1, h2 rfl⟩
      | false =>
        have hpar := hparity i v1 hi (by omega) (h1 rfl)
        cases hstop : env.progress_stop i with
        | true => exact ⟨_, by simp, hs2, hpar.1 hstop⟩
        | false =>
          simp only [Bool.false_eq_true, if_false]
          exact ih (i + 1) _ (by omega) (by omega) hs2 (hpar.2 hstop)
  have hcl : ∀ (n j : Nat) (v : dry_vars), j + n = state.diskarr.length →
      dry_shape state.diskarr.length v → F j v →
      ∃ v1, state_dry_close env blockmax n j v = some v1 ∧ F state.diskarr.length v1 := by
    intro n
    induction n with
    | zero =>
      intro j v hj _ hf
      simp only [Nat.add_zero] at hj
      subst hj
      exact ⟨v, rfl, hf⟩
    | succ n ih =>
      intro j v hj hs hf
      have hjlt : j < v.handle.length := by rw [hs.1]; omega
      have hh : v.handle[j]? = some v.handle[j] := List.getElem?_eq_getElem hjlt
      simp only [state_dry_close, hh]
      exact ih (j + 1) _ (by omega) (state_dry_close_slot_shape hs env blockmax j _ hh)
        (hclose j v _ (by omega) hh hf)
  obtain ⟨v1, hrun, hs1, hb1⟩ := hpos (blockmax - blockstart) blockstart _ (Nat.le_refl _) rfl
    (dry_shape_map state) hinit
  obtain ⟨v2, hrun2, hf2⟩ := hcl state.diskarr.length 0 v1 (by omega) hs1 (hbail v1 hb1)
  have hlen : (handle_map state).length = state.diskarr.length := by simp [handle_map]
  refine ⟨{ ret := if v2.error ≠ 0 then -1 else 0, vars := v2 }, ?_, hf2, rfl⟩
  unfold state_dry_process
  simp only [hlen, hrun, hrun2]

/-! ## The reads of a pass of dry (claim C20) -/

theorem state_dry_levels_eq (env : dry_env) (parity : Nat → Bool) (i : Nat) :
    ∀ (n l : Nat) (v : dry_vars), state_dry_levels env parity i n l v =
      { handle := v.handle,
        error := v.error +
          (dry_level_events env parity i n l).countP dry_event.failed_parity_read,
        trace := v.trace ++ dry_level_events env parity i n l }
  | 0, _, v => by simp [state_dry_levels, dry_level_events]
  | n + 1, l, v => by
    simp only [state_dry_levels, dry_level_events]
    rw [state_dry_levels_eq env parity i n (l + 1)]
    unfold state_dry_level
    cases parity l <;> cases env.parity_read_ok i l <;>
      simp [dry_event.failed_parity_read, List.countP_cons, Nat.add_assoc, Nat.add_comm]

theorem state_dry_parity_eq (env : dry_env) (state : snapraid_state) (parity : Nat → Bool)
    (i : Nat) (v : dry_vars) : state_dry_parity env state parity i v =
      { handle := v.handle,
        error := v.error +
          (dry_level_events env parity i state.level 0).countP dry_event.failed_parity_read,
        trace := v.trace ++ dry_level_events env parity i state.level 0 ++
          [.progress i (env.progress_stop i)] } := by
  unfold state_dry_parity
  simp only [state_dry_levels_eq]

theorem dry_level_events_read (env : dry_env) (parity : Nat → Bool) (i : Nat) :
    ∀ (n l k : Nat), l ≤ k → k < l + n → parity k = true →
      ∃ ok, dry_event.parity i k ok ∈ dry_level_events env parity i n l
  | 0, l, k, h1, h2, _ => by omega
  | n + 1, l, k, h1, h2, hp => by
    simp only [dry_level_events]
    by_cases hk : k = l
    · subst hk
      rw [hp]
      cases env.parity_read_ok i k
      · exact ⟨false, by simp⟩
      · exact ⟨true, by simp⟩
    · obtain ⟨ok, hok⟩ := dry_level_events_read env parity i n (l + 1) k (by omega) (by omega) hp
      exact ⟨ok, List.mem_append_right _ hok⟩

theorem dry_level_events_kind (env : dry_env) (parity : Nat → Bool) (i : Nat) :
    ∀ (n l : Nat) (ev : dry_event), ev ∈ dry_level_events env parity i n l →
      ∃ k, parity k = true ∧
        (ev = .parity i k (env.parity_read_ok i k) ∨
          (ev = .tag_parity_error i k ∧ env.parity_read_ok i k = false))
  | 0, l, ev, h => by simp [dry_level_events] at h
  | n + 1, l, ev, h => by
    simp only [dry_level_events, List.mem_append] at h
    rcases h with h | h
    · cases hp : parity l with
      | false => simp [hp] at h
      | true =>
        cases hr : env.parity_read_ok i l with
        | false =>
          simp only [hp, hr, if_true, Bool.false_eq_true, if_false, List.mem_cons,
            List.mem_singleton, List.not_mem_nil, or_false] at h
          rcases h with h | h
          · exact ⟨l, hp, Or.inl (by rw [h, hr])⟩
          · exact ⟨l, hp, Or.inr ⟨h, hr⟩⟩
        | true =>
          simp only [hp, hr, if_true, List.mem_singleton] at h
          exact ⟨l, hp, Or.inl (by rw [h, hr])⟩
    · exact dry_level_events_kind env parity i n (l + 1) ev h

theorem dry_cell_bail (env : dry_env) (dir : String) (file : snapraid_file)
    (block_size i j : Nat) (h : snapraid_handle) (block : BlockPtr)
    (hb : (dry_cell env dir file block_size i j h block).bail = true) :
    ∃ ev, ev ∈ (dry_cell env dir file block_size i j h block).events ∧
      (ev.failed_open = true ∨ ev.failed_close = true) := by
  unfold dry_cell at hb ⊢
  split_ifs at hb ⊢ <;> simp_all [dry_event.failed_open, dry_event.failed_close]

theorem dry_cell_reads (env : dry_env) (dir : String) (file : snapraid_file)
    (block_size i j : Nat) (h : snapraid_handle) (block : BlockPtr)
    (hb : (dry_cell env dir file block_size i j h block).bail = false) :
    (dry_cell env dir file block_size i j h block).errors =
      (dry_cell env dir file block_size i j h block).events.countP
        dry_event.failed_data_read ∧
    (dry_cell env dir file block_size i j h block).events.countP
        dry_event.failed_parity_read = 0 ∧
    ∃ fd size ok, dry_event.data i j block.file
        (.call_pread fd (block_file_pos block * block_size) size ok) ∈
      (dry_cell env dir file block_size i j h block).events := by
  unfold dry_cell dry_cell_read at hb ⊢
  split_ifs at hb ⊢ <;>
    simp_all [dry_event.failed_data_read, dry_event.failed_parity_read, List.countP_cons]

theorem option_get_eq {α : Type} {o : Option α} {r : α} (h : o = some r)
    (hs : o.isSome = true) : o.get hs = r := by
  subst h; rfl

theorem dry_level_events_no_data (env : dry_env) (parity : Nat → Bool) (i n l : Nat) :
    (dry_level_events env parity i n l).countP dry_event.failed_data_read = 0 := by
  rw [List.countP_eq_zero]
  intro ev hev
  obtain ⟨k, -, h | ⟨h, -⟩⟩ := dry_level_events_kind env parity i n l ev hev <;>
    subst h <;> simp [dry_event.failed_data_read]

theorem dry_upset_append_left {trace : List dry_event} (h : dry_upset trace)
    (more : List dry_event) : dry_upset (trace ++ more) := by
  obtain ⟨ev, hev, hu⟩ := h
  exact ⟨ev, List.mem_append_left _ hev, hu⟩

theorem dry_reads_done_append {state : snapraid_state} {parity : Nat → Bool}
    {blockstart i j : Nat} {trace : List dry_event}
    (h : dry_reads_done state parity blockstart i j trace) (more : List dry_event) :
    dry_reads_done state parity blockstart i j (trace ++ more) := by
  refine ⟨?_, ?_⟩
  · intro p s disk block h1 h2 h3 h4
    obtain ⟨fd, size, ok, hm⟩ := h.1 p s disk block h1 h2 h3 h4
    exact ⟨fd, size, ok, List.mem_append_left _ hm⟩
  · intro p l h1 h2 h3 h4
    obtain ⟨ok, hm⟩ := h.2 p l h1 h2 h3 h4
    exact ⟨ok, List.mem_append_left _ hm⟩

/-- C20: `state_dry_process` returns on every state satisfying I1, and for
every run in which no open and no close fails and no stop is asked for, the
trace holds a read of the data for every occupied cell (position, disk) of the
range and a read of the parity for every present level at every position of
the range, the counter of errors is the number of failed reads of data plus
the number of failed reads of parity, and the value returned is -1 if and only
if that counter is not zero. -/
theorem state_dry_process_counts_reads (env : dry_env) (state : snapraid_state)
    (parity : Nat → Bool) (blockstart blockmax : Nat) (hI1 : I1_all state) :
    ∃ r, state_dry_process env state parity blockstart blockmax = some r ∧
      ((∀ ev, ev ∈ r.vars.trace →
          ev.failed_open = false ∧ ev.failed_close = false ∧ ev.is_stop = false) →
        (∀ (i j : Nat) (disk : snapraid_disk) (block : BlockPtr),
          blockstart ≤ i → i < blockmax →
          state.diskarr[j]? = some disk → fs_par2block_get disk i = some block →
          ∃ fd size ok, dry_event.data i j block.file
            (.call_pread fd (block_file_pos block * state.block_size) size ok) ∈
              r.vars.trace) ∧
        (∀ (i l : Nat), blockstart ≤ i → i < blockmax → l < state.level → parity l = true →
          ∃ ok, dry_event.parity i l ok ∈ r.vars.trace) ∧
        r.vars.error = r.vars.trace.countP dry_event.failed_data_read +
          r.vars.trace.countP dry_event.failed_parity_read ∧
        (r.ret = -1 ↔ r.vars.error ≠ 0)) := by
  have hlive : ∀ (j : Nat) (disk : snapraid_disk) (p : Nat) (block : BlockPtr),
      state.diskarr[j]? = some disk → fs_par2block_get disk p = some block →
      ∃ file, heap_get state.files block.file = some file := by
    intro j disk p block hj hb
    have := cells_live_of_I1_all hI1 j disk p block hj
      (by rw [← disk_block_get_eq_cell]; exact hb)
    unfold block_get at this
    cases hf : heap_get state.files block.file with
    | none => rw [hf] at this; simp at this
    | some file => exact ⟨file, rfl⟩
  obtain ⟨r, hrun, hF, hret⟩ := state_dry_process_rule env state parity blockstart blockmax
    (fun i j v => dry_errors_counted v ∧ dry_reads_done state parity blockstart i j v.trace)
    (fun v => dry_upset v.trace ∨
      (dry_errors_counted v ∧ dry_reads_done state parity blockstart blockmax 0 v.trace))
    (fun _ v => dry_upset v.trace ∨
      (dry_errors_counted v ∧ dry_reads_done state parity blockstart blockmax 0 v.trace))
    hlive
    (by
      refine ⟨by simp [dry_errors_counted], ?_, ?_⟩
      · intro p s disk block h1 h2; omega
      · intro p l h1 h2; omega)
    (by
      intro i j v disk hi1 hi2 hdisk hnone ⟨hacc, hreads⟩
      refine ⟨hacc, ?_, hreads.2⟩
      intro p s disk1 block h1 h2 h3 h4
      by_cases hps : p = i ∧ s = j
      · obtain ⟨rfl, rfl⟩ := hps
        rw [hdisk] at h3
        cases h3
        rw [hnone] at h4
        exact absurd h4 (by simp)
      · exact hreads.1 p s disk1 block h1 (by omega) h3 h4)
    (by
      intro i j v h disk block file hi1 hi2 hh hd hdisk hblock hfile ⟨hacc, hreads⟩
      constructor
      · intro hb
        obtain ⟨e1, e2, fd, size, ok, hm⟩ :=
          dry_cell_reads env disk.dir file state.block_size i j h block hb
        refine ⟨?_, ?_, ?_⟩
        · unfold dry_errors_counted at hacc ⊢
          simp only [dry_vars.turn, List.countP_append]
          rw [hacc, e1, e2]
          omega
        · intro p s disk1 block1 h1 h2 h3 h4
          by_cases hps : p = i ∧ s = j
          · obtain ⟨rfl, rfl⟩ := hps
            rw [hdisk] at h3
            cases h3
            rw [hblock] at h4
            cases h4
            exact ⟨fd, size, ok, List.mem_append_right _ hm⟩
          · obtain ⟨fd1, size1, ok1, hm1⟩ := hreads.1 p s disk1 block1 h1 (by omega) h3 h4
            exact ⟨fd1, size1, ok1, List.mem_append_left _ hm1⟩
        · intro p l h1 h2 h3 h4
          obtain ⟨ok1, hm1⟩ := hreads.2 p l h1 h2 h3 h4
          exact ⟨ok1, List.mem_append_left _ hm1⟩
      · intro hb
        obtain ⟨ev, hev, hu⟩ := dry_cell_bail env disk.dir file state.block_size i j h block hb
        left
        refine ⟨ev, List.mem_append_right _ hev, ?_⟩
        rcases hu with hu | hu
        · exact Or.inl hu
        · exact Or.inr (Or.inl hu))
    (by
      intro i v hi1 hi2 ⟨hacc, hreads⟩
      rw [state_dry_parity_eq]
      constructor
      · intro hstop
        left
        exact ⟨.progress i (env.progress_stop i), by simp,
          Or.inr (Or.inr (by simp [dry_event.is_stop, hstop]))⟩
      · intro hstop
        refine ⟨?_, ?_, ?_⟩
        · unfold dry_errors_counted at hacc ⊢
          simp only [List.countP_append, dry_level_events_no_data]
          rw [hacc]
          simp [List.countP_cons, dry_event.failed_data_read, dry_event.failed_parity_read]
          omega
        · intro p s disk block h1 h2 h3 h4
          have hs : s < state.diskarr.length := getElem?_lt h3
          obtain ⟨fd1, size1, ok1, hm1⟩ := hreads.1 p s disk block h1 (by omega) h3 h4
          exact ⟨fd1, size1, ok1,
            List.mem_append_left _ (List.mem_append_left _ hm1)⟩
        · intro p l h1 h2 h3 h4
          by_cases hp : p = i
          · subst hp
            obtain ⟨ok, hm⟩ := dry_level_events_read env parity p state.level 0 l
              (by omega) (by omega) h4
            exact ⟨ok, List.mem_append_left _ (List.mem_append_right _ hm)⟩
          · obtain ⟨ok1, hm1⟩ := hreads.2 p l h1 (by omega) h3 h4
            exact ⟨ok1, List.mem_append_left _ (List.mem_append_left _ hm1)⟩)
    (by
      intro i v hi ⟨hacc, hreads⟩
      right
      refine ⟨hacc, ?_, ?_⟩
      · intro p s disk block h1 h2 h3 h4
        exact hreads.1 p s disk block h1 (by omega) h3 h4
      · intro p l h1 h2 h3 h4
        exact hreads.2 p l h1 (by omega) h3 h4)
    (fun v hb => hb)
    (by
      intro j v h hj hh hf
      unfold state_dry_close_slot handle_close
      rcases hf with hf | ⟨hacc, hreads⟩
      · left
        simp only
        split_ifs <;> simp only [List.append_assoc] <;> exact dry_upset_append_left hf _
      · by_cases h1 : h.f = -1
        · right
          simp only [h1, ne_eq, not_true_eq_false, if_false, List.map_nil, List.append_nil]
          exact ⟨hacc, hreads⟩
        · cases hc : env.close_ok blockmax j with
          | false =>
            left
            simp only [h1, ne_eq, not_false_eq_true, if_true]
            exact ⟨.final j (.call_close h.f false), by simp,
              Or.inr (Or.inl (by simp [dry_event.failed_close]))⟩
          | true =>
            right
            simp only [h1, ne_eq, not_false_eq_true, if_true, Bool.true_eq_false, if_false]
            rw [if_neg (by decide)]
            refine ⟨?_, dry_reads_done_append hreads _⟩
            unfold dry_errors_counted at hacc ⊢
            simp only [List.countP_append]
            rw [hacc]
            simp [List.countP_cons, dry_event.failed_data_read,
              dry_event.failed_parity_read])
  refine ⟨r, hrun, ?_⟩
  intro hno
  rcases hF with ⟨ev, hev, hu⟩ | ⟨hacc, hreads⟩
  · obtain ⟨n1, n2, n3⟩ := hno ev hev
    rw [n1, n2, n3] at hu
    simp at hu
  · refine ⟨?_, ?_, hacc, ?_⟩
    · intro i j disk block h1 h2 h3 h4
      exact hreads.1 i j disk block h1 (Or.inl h2) h3 h4
    · intro i l h1 h2 h3 h4
      exact hreads.2 i l h1 h2 h3 h4
    · rw [hret]
      split_ifs with he
      · simp [he]
      · simp at he
        simp [he]

theorem state_dry_process_counts_reads_witness :
    I1_all remove_example ∧
    ∃ r, state_dry_process failing_reads_env remove_example (fun _ => true) 0 3 = some r ∧
      (∀ ev, ev ∈ r.vars.trace →
        ev.failed_open = false ∧ ev.failed_close = false ∧ ev.is_stop = false) ∧
      r.vars.error = 2 ∧
      (∀ (i j : Nat) (disk : snapraid_disk) (block : BlockPtr), 0 ≤ i → i < 3 →
        remove_example.diskarr[j]? = some disk → fs_par2block_get disk i = some block →
        ∃ fd size ok, dry_event.data i j block.file
          (.call_pread fd (block_file_pos block * remove_example.block_size) size ok) ∈
            r.vars.trace) ∧
      (∀ (i l : Nat), 0 ≤ i → i < 3 → l < remove_example.level →
        (fun _ => true) l = true → ∃ ok, dry_event.parity i l ok ∈ r.vars.trace) ∧
      r.vars.error = r.vars.trace.countP dry_event.failed_data_read +
        r.vars.trace.countP dry_event.failed_parity_read ∧
      (r.ret = -1 ↔ r.vars.error ≠ 0) := by
  refine ⟨I1_all_of_check (by decide), ?_⟩
  obtain ⟨r, hr, himp⟩ := state_dry_process_counts_reads failing_reads_env remove_example
    (fun _ => true) 0 3 (I1_all_of_check (by decide))
  have hr2 := option_get_eq hr rfl
  subst hr2
  exact ⟨_, rfl, by decide, by decide, himp (by decide)⟩

/-! ## The opens of a pass of dry (claim C17) -/

theorem dry_not_interleaved_of_check {state : snapraid_state} {blockstart blockmax : Nat}
    (h : dry_not_interleaved_check state blockstart blockmax = true) :
    dry_not_interleaved state blockstart blockmax := by
  intro disk hd p3 h3 p2 h2 p1 h1 ⟨hb, hn, he⟩
  simp only [dry_not_interleaved_check, List.all_eq_true, List.mem_range] at h
  have := h disk hd p3 h3 p2 h2 p1 h1
  simp only [Bool.or_eq_true, Bool.not_eq_true', Bool.and_eq_false_imp, Bool.and_eq_true,
    decide_eq_true_eq, beq_iff_eq, Option.isNone_iff_eq_none, beq_eq_false_iff_ne] at this
  rcases this with (h4 | h4) | h4
  · have hs : (dry_cell_file disk p1).isSome = true := by
      cases hc : dry_cell_file disk p1 with
      | none => exact absurd hc hn
      | some x => rfl
    exact absurd he (h4 ⟨hb, hs⟩)
  · exact Or.inl h4
  · exact Or.inr h4

theorem dry_cell_opens (env : dry_env) (dir : String) (file : snapraid_file)
    (block_size i j : Nat) (h : snapraid_handle) (block : BlockPtr) :
    (∀ (p s : Nat) (f : FilePtr) (path : String) (ret : Int),
      dry_event.data p s f (.call_open path ret) ∈
        (dry_cell env dir file block_size i j h block).events →
      p = i ∧ s = j ∧ f = block.file ∧ h.file ≠ some block.file) ∧
    ((dry_cell env dir file block_size i j h block).bail = false →
      (dry_cell env dir file block_size i j h block).handle.file = some block.file) := by
  unfold dry_cell dry_cell_read
  split_ifs <;> simp_all

theorem dry_cell_open_count (env : dry_env) (dir : String) (file : snapraid_file)
    (block_size i j : Nat) (h : snapraid_handle) (block : BlockPtr) (slot : Nat)
    (fp : FilePtr) :
    (dry_cell env dir file block_size i j h block).events.countP
      (dry_event.is_open slot fp) ≤ 1 := by
  unfold dry_cell dry_cell_read
  split_ifs <;> simp [List.countP_cons, dry_event.is_open] <;> split <;> simp

theorem dry_level_events_no_open (env : dry_env) (parity : Nat → Bool) (i n l : Nat)
    (p s : Nat) (f : FilePtr) (call : handle_call) :
    dry_event.data p s f call ∉ dry_level_events env parity i n l := by
  intro hm
  obtain ⟨k, -, h | ⟨h, -⟩⟩ := dry_level_events_kind env parity i n l _ hm <;> cases h

theorem dry_level_events_open_count (env : dry_env) (parity : Nat → Bool) (i n l : Nat)
    (slot : Nat) (fp : FilePtr) :
    (dry_level_events env parity i n l).countP (dry_event.is_open slot fp) = 0 := by
  rw [List.countP_eq_zero]
  intro ev hev
  obtain ⟨k, -, h | ⟨h, -⟩⟩ := dry_level_events_kind env parity i n l ev hev <;>
    subst h <;> simp [dry_event.is_open]

theorem dry_opens_seen_mono {state : snapraid_state} {blockstart i j i1 j1 : Nat}
    {v : dry_vars} (h : dry_opens_seen state blockstart i j v)
    (hlex : ∀ (q s : Nat), (q < i ∨ (q = i ∧ s < j)) → s < state.diskarr.length →
      (q < i1 ∨ (q = i1 ∧ s < j1))) :
    dry_opens_seen state blockstart i1 j1 v := by
  intro p s f path ret hm
  obtain ⟨h1, h2, ⟨disk, h3, h4⟩, h5⟩ := h p s f path ret hm
  have hs : s < state.diskarr.length := getElem?_lt h3
  refine ⟨h1, hlex p s h2 hs, ⟨disk, h3, h4⟩, ?_⟩
  rcases h5 with h5 | ⟨q, disk1, h6, h7, h8, h9⟩
  · exact Or.inl h5
  · exact Or.inr ⟨q, disk1, h6, hlex q s h7 hs, h8, h9⟩

/-- C17 (amended): on every state satisfying I1 where, on every disk, no cell
between two cells of the range holding blocks of one file holds a block of
another file, `state_dry_process` returns and, for every slot, every file is
opened at most once. -/
theorem state_dry_process_opens_once (env : dry_env) (state : snapraid_state)
    (parity : Nat → Bool) (blockstart blockmax : Nat) (hI1 : I1_all state)
    (hrun : dry_not_interleaved state blockstart blockmax) :
    ∃ r, state_dry_process env state parity blockstart blockmax = some r ∧
      ∀ (slot : Nat) (fp : FilePtr), r.vars.trace.countP (dry_event.is_open slot fp) ≤ 1 := by
  have hlive : ∀ (j : Nat) (disk : snapraid_disk) (p : Nat) (block : BlockPtr),
      state.diskarr[j]? = some disk → fs_par2block_get disk p = some block →
      ∃ file, heap_get state.files block.file = some file := by
    intro j disk p block hj hb
    have := cells_live_of_I1_all hI1 j disk p block hj
      (by rw [← disk_block_get_eq_cell]; exact hb)
    unfold block_get at this
    cases hf : heap_get state.files block.file with
    | none => rw [hf] at this; simp at this
    | some file => exact ⟨file, rfl⟩
  obtain ⟨r, hr, hF, -⟩ := state_dry_process_rule env state parity blockstart blockmax
    (fun i j v => dry_opens_seen state blockstart i j v ∧ dry_opened_once v.trace)
    (fun v => dry_opened_once v.trace)
    (fun _ v => dry_opened_once v.trace)
    hlive
    (by
      refine ⟨?_, ?_⟩
      · intro p s f path ret hm
        simp at hm
      · intro slot fp
        simp)
    (by
      intro i j v disk _ _ _ _ ⟨hseen, honce⟩
      exact ⟨dry_opens_seen_mono hseen (fun q s h _ => by omega), honce⟩)
    (by
      intro i j v h disk block file hi1 hi2 hh hd hdisk hblock hfile ⟨hseen, honce⟩
      obtain ⟨hop, hfl⟩ := dry_cell_opens env disk.dir file state.block_size i j h block
      have hcf : dry_cell_file disk i = some block.file := by
        simp [dry_cell_file, hblock]
      have honce1 : dry_opened_once
          (v.turn j (dry_cell env disk.dir file state.block_size i j h block)).trace := by
        intro slot fp
        simp only [dry_vars.turn, List.countP_append]
        by_cases hnew : (dry_cell env disk.dir file state.block_size i j h block).events.countP
            (dry_event.is_open slot fp) = 0
        · rw [hnew]
          exact honce slot fp
        · have hold : v.trace.countP (dry_event.is_open slot fp) = 0 := by
            rw [List.countP_eq_zero]
            intro ev hev hopen
            obtain ⟨ev1, hev1, hopen1⟩ := List.countP_pos_iff.1 (Nat.pos_of_ne_zero hnew)
            cases ev1 with
            | data p1 s1 f1 call1 =>
              cases call1 with
              | call_open path1 ret1 =>
                obtain ⟨-, e2, e3, hdiff⟩ := hop p1 s1 f1 path1 ret1 hev1
                simp only [dry_event.is_open, Bool.and_eq_true, beq_iff_eq] at hopen1
                obtain ⟨e4, e5⟩ := hopen1
                subst e2; subst e3; subst e4; subst e5
                cases ev with
                | data p s f call =>
                  cases call with
                  | call_open path ret =>
                    simp only [dry_event.is_open, Bool.and_eq_true, beq_iff_eq] at hopen
                    obtain ⟨e6, e7⟩ := hopen
                    subst e6; subst e7
                    obtain ⟨g1, g2, ⟨disk1, g3, g4⟩, g5⟩ := hseen _ _ _ _ _ hev
                    rw [hdisk] at g3
                    cases g3
                    rcases g5 with ⟨h2, g6, g7⟩ | ⟨q, disk2, g6, g7, g8, g9, g10⟩
                    · rw [hh] at g6
                      cases g6
                      exact hdiff g7
                    · rw [hdisk] at g8
                      cases g8
                      have hq : q < i := by omega
                      have hp : p < q := g6
                      have := hrun disk (List.mem_iff_getElem?.2 ⟨s, hdisk⟩) i hi2 q hq p hp
                        ⟨g1, by rw [g4]; simp, by rw [g4, hcf]⟩
                      rcases this with h3 | h3
                      · exact g9 h3
                      · rw [g4] at h3
                        exact g10 h3
                  | _ => simp [dry_event.is_open] at hopen
                | _ => simp [dry_event.is_open] at hopen
              | _ => simp [dry_event.is_open] at hopen1
            | _ => simp [dry_event.is_open] at hopen1
          rw [hold]
          have := dry_cell_open_count env disk.dir file state.block_size i j h block slot fp
          omega
      refine ⟨fun hb => ⟨?_, honce1⟩, fun _ => honce1⟩
      intro p s f path ret hm
      simp only [dry_vars.turn, List.mem_append] at hm
      have hjlt : j < v.handle.length := getElem?_lt hh
      rcases hm with hm | hm
      · obtain ⟨g1, g2, ⟨disk1, g3, g4⟩, g5⟩ := hseen p s f path ret hm
        refine ⟨g1, by omega, ⟨disk1, g3, g4⟩, ?_⟩
        by_cases hs : s = j
        · subst hs
          rw [hdisk] at g3
          cases g3
          by_cases hf : f = block.file
          · subst hf
            left
            refine ⟨_, ?_, hfl hb⟩
            simp only [dry_vars.turn]
            rw [List.getElem?_set]
            simp [hjlt]
          · right
            refine ⟨i, disk, by omega, by omega, hdisk, by rw [hcf]; simp, ?_⟩
            rw [hcf]
            intro e
            exact hf (Option.some.inj e).symm
        · rcases g5 with ⟨h2, g6, g7⟩ | ⟨q, disk2, g6, g7, g8, g9⟩
          · left
            refine ⟨h2, ?_, g7⟩
            simp only [dry_vars.turn]
            rw [List.getElem?_set_ne (fun e => hs e.symm)]
            exact g6
          · right
            exact ⟨q, disk2, g6, by omega, g8, g9⟩
      · obtain ⟨e1, e2, e3, -⟩ := hop p s f path ret hm
        subst e1; subst e2; subst e3
        refine ⟨hi1, by omega, ⟨disk, hdisk, hcf⟩, Or.inl ⟨_, ?_, hfl hb⟩⟩
        simp only [dry_vars.turn]
        rw [List.getElem?_set]
        simp [hjlt])
    (by
      intro i v hi1 hi2 ⟨hseen, honce⟩
      have hP : dry_opens_seen state blockstart (i + 1) 0
            (state_dry_parity env state parity i v) ∧
          dry_opened_once (state_dry_parity env state parity i v).trace := by
        rw [state_dry_parity_eq]
        constructor
        · intro p s f path ret hm
          simp only [List.mem_append, List.mem_singleton] at hm
          rcases hm with (hm | hm) | hm
          · exact dry_opens_seen_mono hseen (fun q s h _ => by omega) p s f path ret hm
          · exact absurd hm (dry_level_events_no_open env parity i _ _ p s f _)
          · cases hm
        · intro slot fp
          simp only [List.countP_append, dry_level_events_open_count]
          have := honce slot fp
          simp [List.countP_cons, dry_event.is_open]
          exact this
      exact ⟨fun _ => hP.2, fun _ => hP⟩)
    (fun i v _ h => h.2)
    (fun v h => h)
    (by
      intro j v h hj hh honce slot fp
      have := honce slot fp
      unfold state_dry_close_slot handle_close
      simp only
      split_ifs <;>
        simp [List.countP_append, List.countP_cons, dry_event.is_open] <;> exact this)
  exact ⟨r, hr, hF⟩

theorem state_dry_process_opens_once_witness :
    I1_all idempotent_example ∧ dry_not_interleaved idempotent_example 0 3 ∧
    ∃ r, state_dry_process {} idempotent_example (fun _ => true) 0 3 = some r ∧
      ∀ (slot : Nat) (fp : FilePtr), r.vars.trace.countP (dry_event.is_open slot fp) ≤ 1 :=
  ⟨I1_all_of_check (by decide), dry_not_interleaved_of_check (by decide),
    state_dry_process_opens_once {} idempotent_example (fun _ => true) 0 3
      (I1_all_of_check (by decide)) (dry_not_interleaved_of_check (by decide))⟩

/-- C17: on disk 0 of `remove_example`, where the block of `b` at position 1
lies between the blocks of `a` at positions 0 and 2, one pass of
`state_dry_process` over the positions 0 to 2 opens `a` twice in slot 0,
although the state satisfies I1. -/
theorem state_dry_process_reopens_counterexample :
    I1_all remove_example ∧
    ∃ r, state_dry_process {} remove_example (fun _ => true) 0 3 = some r ∧
      r.vars.trace.countP (dry_event.is_open 0 0) = 2 :=
  ⟨I1_all_of_check (by decide), _, rfl, by decide⟩

/-! ## The range of state_dry (claims C18, C19) -/

theorem state_dry_blockmax_exact (size blockstart blockcount : Nat)
    (h : blockstart + blockcount < BLOCK_OFF_MOD) :
    state_dry_blockmax size blockstart blockcount =
      if blockcount = 0 then size else min (blockstart + blockcount) size := by
  unfold state_dry_blockmax
  rw [Nat.mod_eq_of_lt h]
  by_cases h0 : blockcount = 0
  · simp [h0]
  · simp only [h0, ne_eq, not_false_eq_true, true_and, if_false]
    split_ifs with h1
    · omega
    · omega

theorem state_dry_blockmax_le (size blockstart blockcount : Nat) :
    state_dry_blockmax size blockstart blockcount ≤ size := by
  unfold state_dry_blockmax
  split_ifs with h1
  · omega
  · omega

/-- C18: `state_dry` refuses its arguments if and only if `blockstart` is
greater than `parity_allocated_size`; when `blockstart` is the end of the
range, in particular when it is `parity_allocated_size`, it returns without
any read of data or of parity, and with success when every parity file that
was opened closes without error. -/
theorem state_dry_start (env : dry_env) (state : snapraid_state)
    (blockstart blockcount : Nat) :
    (∀ trace, state_dry env state blockstart blockcount = some (.rejected, trace) ↔
      (parity_allocated_size state < blockstart ∧ trace = [])) ∧
    (blockstart = parity_allocated_size state ∨
        blockstart = state_dry_blockmax (parity_allocated_size state) blockstart blockcount →
      ∃ exit trace, state_dry env state blockstart blockcount = some (exit, trace) ∧
        (∀ ev, ev ∈ trace → ev.is_read = false) ∧
        ((∀ l, l < state.level → env.parity_open_ok l = true →
            env.parity_close_ok l = true) → exit = .success)) := by
  constructor
  · intro trace
    unfold state_dry
    by_cases h : blockstart > parity_allocated_size state
    · rw [if_pos h]
      constructor
      · intro e
        simp only [Option.some.injEq, Prod.mk.injEq, true_and] at e
        exact ⟨h, e.symm⟩
      · intro e; rw [e.2]
    · rw [if_neg h]
      constructor
      · intro e
        exfalso
        simp only at e
        split at e
        · simp at e
        · simp only [Option.some.injEq, Prod.mk.injEq] at e
          split_ifs at e <;> simp at e
      · intro e
        exact absurd e.1 h
  · intro hs
    have hle : ¬ blockstart > parity_allocated_size state := by
      rcases hs with hs | hs
      · omega
      · have := state_dry_blockmax_le (parity_allocated_size state) blockstart blockcount
        omega
    have hnot : ¬ blockstart <
        state_dry_blockmax (parity_allocated_size state) blockstart blockcount := by
      rcases hs with hs | hs
      · have := state_dry_blockmax_le (parity_allocated_size state) blockstart blockcount
        omega
      · omega
    unfold state_dry
    simp only [hle, hnot, if_false]
    refine ⟨_, _, rfl, ?_, ?_⟩
    · intro ev hev
      simp only [List.append_nil, List.mem_append, List.mem_map, List.mem_range,
        List.mem_filter] at hev
      rcases hev with ⟨l, -, rfl⟩ | ⟨l, -, rfl⟩ <;> rfl
    · intro hok
      have : (List.filter (fun l => !env.parity_close_ok l)
          (List.filter (fun l => decide (l < state.level) && env.parity_open_ok l)
            (List.range state.level))) = [] := by
        rw [List.filter_eq_nil_iff]
        intro l hl
        simp only [List.mem_filter, List.mem_range, Bool.and_eq_true, decide_eq_true_eq] at hl
        simp [hok l hl.1 hl.2.2]
      simp [this]

theorem state_dry_start_witness :
    (∀ trace, state_dry {} remove_example 4 0 = some (.rejected, trace) ↔
      (parity_allocated_size remove_example < 4 ∧ trace = [])) ∧
    ∃ exit trace, state_dry {} remove_example 3 0 = some (exit, trace) ∧
      (∀ ev, ev ∈ trace → ev.is_read = false) ∧ exit = .success :=
  ⟨(state_dry_start {} remove_example 4 0).1,
    match (state_dry_start {} remove_example 3 0).2 (Or.inl (by decide)) with
    | ⟨exit, trace, h1, h2, h3⟩ => ⟨exit, trace, h1, h2, h3 (fun _ _ _ => rfl)⟩⟩

/-- C19: for a parity of 3 blocks, `blockstart = 1` and
`blockcount = 4294967295`, the sum wraps to 0, the end of the range becomes 0
and `state_dry` returns without processing any position, whereas with
`blockcount = 0` it processes the positions 1 and 2. -/
theorem state_dry_range_wraps :
    parity_allocated_size remove_example = 3 ∧
    state_dry_blockmax 3 1 4294967295 = 0 ∧
    state_dry {} remove_example 1 4294967295 =
      some (.success, [.parity_open 0 true, .parity_close 0 true]) ∧
    ∃ trace, state_dry {} remove_example 1 0 = some (.success, trace) ∧
      dry_event.progress 1 false ∈ trace ∧ dry_event.progress 2 false ∈ trace :=
  ⟨by decide, by decide, by decide, _, rfl, by decide, by decide⟩

/-! ## The functions closing a slot (claims C24, C25, C27) -/

/-- C24: after one call of `handle_close`, whether `close` succeeds or fails,
the slot has no file and the descriptor -1, and a second call makes no call
of `close` (no call at all), returns 0 and leaves the slot as it is. -/
theorem handle_close_idempotent (close_ok close_ok1 : Bool) (handle : snapraid_handle) :
    (handle_close close_ok handle).handle.file = none ∧
    (handle_close close_ok handle).handle.f = -1 ∧
    handle_close close_ok1 (handle_close close_ok handle).handle =
      { ret := 0, handle := (handle_close close_ok handle).handle, calls := [] } := by
  unfold handle_close
  by_cases h : handle.f = -1 <;> cases close_ok <;> simp [h]

/-- C25: when the slot already points at `file`, `handle_close_if_different`
returns 0, makes no call and leaves the slot unchanged; otherwise it calls
`close` exactly when a descriptor is open, returns 0 when that call succeeds
or none was made and -1 when it fails, and in both cases leaves the slot with
no file and the descriptor -1, the disk and the path unchanged. -/
theorem handle_close_if_different_effect (close_ok : Bool) (handle : snapraid_handle)
    (file : FilePtr) :
    (handle.file = some file →
      handle_close_if_different close_ok handle file =
        { ret := 0, handle := handle, calls := [] }) ∧
    (handle.file ≠ some file →
      (handle_close_if_different close_ok handle file).handle =
        { handle with file := none, f := -1 } ∧
      ((handle.f = -1 ∨ close_ok = true) →
        (handle_close_if_different close_ok handle file).ret = 0) ∧
      (handle.f ≠ -1 → close_ok = false →
        (handle_close_if_different close_ok handle file).ret = -1) ∧
      (handle.f = -1 →
        ∀ call, call ∈ (handle_close_if_different close_ok handle file).calls →
          call.is_close = false) ∧
      (handle.f ≠ -1 →
        handle_call.call_close handle.f close_ok ∈
          (handle_close_if_different close_ok handle file).calls)) := by
  unfold handle_close_if_different
  constructor
  · intro h
    simp [h]
  · intro h
    by_cases h1 : handle.f = -1 <;> cases close_ok <;> simp [h, h1, handle_call.is_close]

theorem handle_close_if_different_effect_witness :
    handle_close_if_different false { disk := some 0, file := some 1, f := 3, path := "b" } 1 =
      { ret := 0, handle := { disk := some 0, file := some 1, f := 3, path := "b" },
        calls := [] } ∧
    (handle_close_if_different false { disk := some 0, file := some 1, f := 3, path := "b" }
      0).handle = { disk := some 0, file := none, f := -1, path := "b" } ∧
    (handle_close_if_different false { disk := some 0, file := some 1, f := 3, path := "b" }
      0).ret = -1 ∧
    (handle_close_if_different true { disk := some 0, file := some 1, f := 3, path := "b" }
      0).ret = 0 :=
  ⟨(handle_close_if_different_effect false
      { disk := some 0, file := some 1, f := 3, path := "b" } 1).1 rfl,
    ((handle_close_if_different_effect false
      { disk := some 0, file := some 1, f := 3, path := "b" } 0).2 (by decide)).1,
    ((handle_close_if_different_effect false
      { disk := some 0, file := some 1, f := 3, path := "b" } 0).2 (by decide)).2.2.1
      (by decide) rfl,
    ((handle_close_if_different_effect true
      { disk := some 0, file := some 1, f := 3, path := "b" } 0).2 (by decide)).2.1
      (Or.inr rfl)⟩

/-- C27: for a slot holding an open descriptor, when `close` fails both
`handle_close` and `handle_close_if_different` (called for another file)
format their error message from `handle->file->sub` after `handle->file` has
been set to 0. -/
theorem handle_close_reads_cleared_file :
    handle_call.cleared_file_read ∈
      (handle_close false { disk := some 0, file := some 1, f := 3, path := "b" }).calls ∧
    handle_call.cleared_file_read ∈
      (handle_close_if_different false
        { disk := some 0, file := some 1, f := 3, path := "b" } 0).calls :=
  ⟨by decide, by decide⟩

/-! ## The error lines of a pass of dry (claim C21) -/

theorem dry_cell_read_cases (env : dry_env) (file : snapraid_file) (block_size i j : Nat)
    (h : snapraid_handle) (block : BlockPtr) :
    dry_cell_read env file block_size i j h block =
        ([.data i j block.file (.call_pread h.f (block_file_pos block * block_size)
          (block_file_size file block block_size) true)], 0) ∨
    dry_cell_read env file block_size i j h block =
        ([.data i j block.file (.call_pread h.f (block_file_pos block * block_size)
          (block_file_size file block block_size) false), .tag_error i j], 1) := by
  unfold dry_cell_read
  cases hr : env.read_ok i j
  · right; simp
  · left; simp

/-- The five ways a turn of the loop over the disks goes for an occupied
cell. -/
theorem dry_cell_cases (env : dry_env) (dir : String) (file : snapraid_file)
    (block_size i j : Nat) (h : snapraid_handle) (block : BlockPtr) :
    (h.file = some block.file ∧
      dry_cell env dir file block_size i j h block =
        { handle := h, events := (dry_cell_read env file block_size i j h block).1,
          errors := (dry_cell_read env file block_size i j h block).2, bail := false }) ∨
    (h.file ≠ some block.file ∧ h.f ≠ -1 ∧
      dry_cell env dir file block_size i j h block =
        { handle := { h with file := none, f := -1 },
          events := [.data i j block.file (.call_close h.f false),
            .data i j block.file .cleared_file_read,
            .data i j block.file .cleared_file_read, .tag_error i j],
          errors := 1, bail := true }) ∨
    (h.file ≠ some block.file ∧
      ∃ closing : List dry_event,
        (closing = [] ∨ closing = [.data i j block.file (.call_close h.f true)]) ∧
        ((dry_cell env dir file block_size i j h block =
            { handle := { h with path := dir ++ file.sub, file := none, f := -1 },
              events := closing ++
                [.data i j block.file (.call_open (dir ++ file.sub) (-1)), .tag_error i j],
              errors := 1, bail := true }) ∨
          (env.open_ret i j ≠ -1 ∧
            dry_cell env dir file block_size i j h block =
              { handle := { h with path := dir ++ file.sub, file := some block.file,
                                   f := env.open_ret i j },
                events := closing ++
                  [.data i j block.file (.call_open (dir ++ file.sub) (env.open_ret i j)),
                   .data i j block.file (.call_fadvise (env.open_ret i j) false),
                   .tag_error i j],
                errors := 1, bail := true }) ∨
          (env.open_ret i j ≠ -1 ∧
            ∃ advice : List dry_event,
              (advice = [] ∨
                advice = [.data i j block.file (.call_fadvise (env.open_ret i j) true)]) ∧
              dry_cell env dir file block_size i j h block =
                { handle := { h with path := dir ++ file.sub, file := some block.file,
                                     f := env.open_ret i j },
                  events := closing ++
                    (.data i j block.file
                        (.call_open (dir ++ file.sub) (env.open_ret i j)) ::
                      (advice ++ (dry_cell_read env file block_size i j
                        { h with path := dir ++ file.sub, file := some block.file,
                                 f := env.open_ret i j } block).1)),
                  errors := (dry_cell_read env file block_size i j
                    { h with path := dir ++ file.sub, file := some block.file,
                             f := env.open_ret i j } block).2,
                  bail := false }))) := by
  by_cases h1 : h.file = some block.file
  · left
    exact ⟨h1, by simp [dry_cell, h1]⟩
  · right
    by_cases h2 : h.f ≠ -1 ∧ env.close_ok i j = false
    · left
      refine ⟨h1, h2.1, ?_⟩
      simp [dry_cell, h1, h2.1, h2.2]
    · right
      refine ⟨h1, if h.f ≠ -1 then
          [.data i j block.file (.call_close h.f (env.close_ok i j))] else [], ?_, ?_⟩
      · by_cases h3 : h.f = -1
        · left; simp [h3]
        · right
          have : env.close_ok i j = true := by
            cases hc : env.close_ok i j
            · exact absurd ⟨h3, hc⟩ h2
            · rfl
          simp [h3, this]
      · by_cases h4 : env.open_ret i j = -1
        · left
          simp only [dry_cell, h1, h2, h4, if_true, if_false]
          simp
        · right
          by_cases h5 : env.have_fadvise = true ∧ env.fadvise_ok i j = false
          · left
            refine ⟨h4, ?_⟩
            simp only [dry_cell, h1, h2, h4, h5, if_true, if_false]
            simp
          · right
            refine ⟨h4, if env.have_fadvise = true then
              [.data i j block.file (.call_fadvise (env.open_ret i j) true)] else [], ?_, ?_⟩
            · by_cases h6 : env.have_fadvise = true
              · right; simp [h6]
              · left; simp [h6]
            · simp only [dry_cell, h1, h2, h4, h5, if_true, if_false]
              simp

theorem dry_cell_shape (env : dry_env) (dir : String) (file : snapraid_file)
    (block_size i j : Nat) (h : snapraid_handle) (block : BlockPtr) :
    dry_turn_shape i j block.file (block_file_pos block * block_size)
      (dry_cell env dir file block_size i j h block) := by
  have hsetup : ∀ (pre1 pre2 : List dry_event),
      (∀ ev, ev ∈ pre1 → ∃ call, ev = dry_event.data i j block.file call ∧
        call.is_setup = true) →
      (∀ ev, ev ∈ pre2 → ∃ call, ev = dry_event.data i j block.file call ∧
        call.is_setup = true) →
      ∀ ev, ev ∈ pre1 ++ pre2 → ∃ call, ev = dry_event.data i j block.file call ∧
        call.is_setup = true := by
    intro pre1 pre2 h1 h2 ev hev
    rcases List.mem_append.1 hev with hm | hm
    · exact h1 ev hm
    · exact h2 ev hm
  have hone : ∀ call : handle_call, call.is_setup = true →
      ∀ ev, ev ∈ [dry_event.data i j block.file call] →
        ∃ call, ev = dry_event.data i j block.file call ∧ call.is_setup = true := by
    intro call hc ev hev
    rw [List.mem_singleton] at hev
    exact ⟨call, hev, hc⟩
  have hnil : ∀ ev, ev ∈ ([] : List dry_event) →
      ∃ call, ev = dry_event.data i j block.file call ∧ call.is_setup = true := by
    intro ev hev
    cases hev
  have hread : ∀ (h1 : snapraid_handle) (pre : List dry_event),
      (∀ ev, ev ∈ pre → ∃ call, ev = dry_event.data i j block.file call ∧
        call.is_setup = true) →
      dry_turn_shape i j block.file (block_file_pos block * block_size)
        { handle := h1, events := pre ++ (dry_cell_read env file block_size i j h1 block).1,
          errors := (dry_cell_read env file block_size i j h1 block).2, bail := false } := by
    intro h1 pre hpre
    rcases dry_cell_read_cases env file block_size i j h1 block with e2 | e2
    · exact ⟨pre, _, by rw [e2], hpre, Or.inl ⟨_, _, rfl, by rw [e2], rfl⟩⟩
    · exact ⟨pre, _, by rw [e2], hpre, Or.inr (Or.inl ⟨_, _, rfl, by rw [e2], rfl⟩)⟩
  rcases dry_cell_cases env dir file block_size i j h block with
    ⟨-, e⟩ | ⟨-, -, e⟩ | ⟨-, closing, hcl, e | ⟨h4, e⟩ | ⟨h4, advice, had, e⟩⟩
  · rw [e]
    exact hread h [] hnil
  · rw [e]
    exact ⟨[], _, rfl, hnil, Or.inr (Or.inr (Or.inl ⟨_, rfl, rfl, rfl⟩))⟩
  · rw [e]
    have hc : ∀ ev, ev ∈ closing → ∃ call, ev = dry_event.data i j block.file call ∧
        call.is_setup = true := by
      rcases hcl with rfl | rfl
      · exact hnil
      · exact hone _ rfl
    exact ⟨closing, _, rfl, hc, Or.inr (Or.inr (Or.inr (Or.inl ⟨_, rfl, rfl, rfl⟩)))⟩
  · rw [e]
    have hc : ∀ ev, ev ∈ closing → ∃ call, ev = dry_event.data i j block.file call ∧
        call.is_setup = true := by
      rcases hcl with rfl | rfl
      · exact hnil
      · exact hone _ rfl
    refine ⟨closing ++ [.data i j block.file
        (.call_open (dir ++ file.sub) (env.open_ret i j))],
      [.data i j block.file (.call_fadvise (env.open_ret i j) false), .tag_error i j],
      by simp, hsetup _ _ hc (hone _ (by simp [handle_call.is_setup, h4])),
      Or.inr (Or.inr (Or.inr (Or.inr ⟨_, rfl, rfl, rfl⟩)))⟩
  · rw [e]
    have hc : ∀ ev, ev ∈ closing → ∃ call, ev = dry_event.data i j block.file call ∧
        call.is_setup = true := by
      rcases hcl with rfl | rfl
      · exact hnil
      · exact hone _ rfl
    have ha : ∀ ev, ev ∈ advice → ∃ call, ev = dry_event.data i j block.file call ∧
        call.is_setup = true := by
      rcases had with rfl | rfl
      · exact hnil
      · exact hone _ rfl
    have := hread
      { h with path := dir ++ file.sub, file := some block.file, f := env.open_ret i j }
      (closing ++ ([.data i j block.file
        (.call_open (dir ++ file.sub) (env.open_ret i j))] ++ advice))
      (hsetup _ _ hc (hsetup _ _ (hone _ (by simp [handle_call.is_setup, h4])) ha))
    simpa using this

theorem handle_call.not_failed_of_setup {call : handle_call} (h : call.is_setup = true) :
    call.failed = false := by
  cases call <;> simp_all [handle_call.is_setup, handle_call.failed]

theorem dry_tags_local_of_shape {i j : Nat} {fp : FilePtr} {off : Nat} {t : dry_turn}
    (hs : dry_turn_shape i j fp off t) : dry_tags_local i t.events := by
  obtain ⟨pre, main, e, hpre, hmain⟩ := hs
  rw [e]
  have hq : ∀ ev, ev ∈ pre → ∀ p, ev.io_error_at p = false ∧ ev.is_tag_at p = false ∧
      ev.failed_final_close = false := by
    intro ev hev p
    obtain ⟨call, rfl, hc⟩ := hpre ev hev
    simp [dry_event.io_error_at, dry_event.is_tag_at, dry_event.failed_final_close,
      handle_call.not_failed_of_setup hc]
  have hm : dry_tags_local i main := by
    unfold dry_tags_local dry_io_error dry_tagged
    rcases hmain with ⟨fd, size, rfl, -, -⟩ | ⟨fd, size, rfl, -, -⟩ | ⟨fd, rfl, -, -⟩ |
      ⟨path, rfl, -, -⟩ | ⟨fd, rfl, -, -⟩ <;>
      simp [dry_event.io_error_at, dry_event.is_tag_at, handle_call.failed,
        dry_event.failed_final_close]
  refine ⟨?_, ?_, ?_⟩
  · intro ev hev p hp
    rcases List.mem_append.1 hev with h1 | h1
    · have := hq ev h1 p
      rw [this.1, this.2.1] at hp
      simp at hp
    · exact hm.1 ev h1 p hp
  · constructor
    · rintro ⟨ev, hev, hp⟩
      rcases List.mem_append.1 hev with h1 | h1
      · rw [(hq ev h1 i).1] at hp
        simp at hp
      · obtain ⟨ev1, h2, h3⟩ := hm.2.1.1 ⟨ev, h1, hp⟩
        exact ⟨ev1, List.mem_append_right _ h2, h3⟩
    · rintro ⟨ev, hev, hp⟩
      rcases List.mem_append.1 hev with h1 | h1
      · rw [(hq ev h1 i).2.1] at hp
        simp at hp
      · obtain ⟨ev1, h2, h3⟩ := hm.2.1.2 ⟨ev, h1, hp⟩
        exact ⟨ev1, List.mem_append_right _ h2, h3⟩
  · intro ev hev
    rcases List.mem_append.1 hev with h1 | h1
    · exact (hq ev h1 0).2.2
    · exact hm.2.2 ev h1

/-- The three ways a turn of the closing loop goes. -/
theorem state_dry_close_slot_cases (env : dry_env) (blockmax j : Nat) (h : snapraid_handle)
    (v : dry_vars) :
    ∃ (events : List dry_event) (errs : Nat),
      state_dry_close_slot env blockmax j h v =
        { handle := v.handle.set j { h with file := none, f := -1 },
          error := v.error + errs, trace := v.trace ++ events } ∧
      ((events = [] ∧ errs = 0) ∨
       (∃ fd : Int, events = [.final j (.call_close fd true)] ∧ errs = 0) ∨
       (∃ fd : Int, events = [.final j (.call_close fd false), .final j .cleared_file_read,
          .tag_error blockmax j] ∧ errs = 1)) := by
  unfold state_dry_close_slot handle_close
  by_cases h1 : h.f = -1
  · exact ⟨[], 0, by simp [h1], Or.inl ⟨rfl, rfl⟩⟩
  · cases hc : env.close_ok blockmax j
    · exact ⟨_, 1, by simp [h1], Or.inr (Or.inr ⟨h.f, rfl, rfl⟩)⟩
    · exact ⟨_, 0, by simp [h1], Or.inr (Or.inl ⟨h.f, rfl, rfl⟩)⟩

theorem dry_tags_sound_append {blockmax i : Nat} {trace events : List dry_event}
    (h : dry_tags_sound blockmax trace) (he : dry_tags_local i events) (hi : i < blockmax) :
    dry_tags_sound blockmax (trace ++ events) := by
  refine ⟨?_, ?_, ?_⟩
  · intro ev hev p hp
    rcases List.mem_append.1 hev with h1 | h1
    · exact h.1 ev h1 p hp
    · rw [he.1 ev h1 p hp]; exact hi
  · intro p
    constructor
    · rintro ⟨ev, hev, hp⟩
      rcases List.mem_append.1 hev with h1 | h1
      · obtain ⟨ev1, h2, h3⟩ := (h.2.1 p).1 ⟨ev, h1, hp⟩
        exact ⟨ev1, List.mem_append_left _ h2, h3⟩
      · have hpi := he.1 ev h1 p (Or.inl hp)
        subst hpi
        obtain ⟨ev1, h2, h3⟩ := he.2.1.1 ⟨ev, h1, hp⟩
        exact ⟨ev1, List.mem_append_right _ h2, h3⟩
    · rintro ⟨ev, hev, hp⟩
      rcases List.mem_append.1 hev with h1 | h1
      · obtain ⟨ev1, h2, h3⟩ := (h.2.1 p).2 ⟨ev, h1, hp⟩
        exact ⟨ev1, List.mem_append_left _ h2, h3⟩
      · have hpi := he.1 ev h1 p (Or.inr hp)
        subst hpi
        obtain ⟨ev1, h2, h3⟩ := he.2.1.2 ⟨ev, h1, hp⟩
        exact ⟨ev1, List.mem_append_right _ h2, h3⟩
  · intro ev hev
    rcases List.mem_append.1 hev with h1 | h1
    · exact h.2.2 ev h1
    · exact he.2.2 ev h1

theorem dry_tags_local_parity (env : dry_env) (parity : Nat → Bool) (i n l : Nat) :
    dry_tags_local i (dry_level_events env parity i n l ++
      [.progress i (env.progress_stop i)]) := by
  have hq : ∀ ev, ev ∈ dry_level_events env parity i n l ++
      [dry_event.progress i (env.progress_stop i)] →
      (∀ p, ev.io_error_at p = false ∧ ev.is_tag_at p = false) ∧
        ev.failed_final_close = false := by
    intro ev hev
    rcases List.mem_append.1 hev with h1 | h1
    · obtain ⟨k, -, h | ⟨h, -⟩⟩ := dry_level_events_kind env parity i n l ev h1 <;>
        subst h <;>
        simp [dry_event.io_error_at, dry_event.is_tag_at, dry_event.failed_final_close]
    · rw [List.mem_singleton] at h1
      subst h1
      simp [dry_event.io_error_at, dry_event.is_tag_at, dry_event.failed_final_close]
  refine ⟨?_, ?_, fun ev hev => (hq ev hev).2⟩
  · intro ev hev p hp
    have := (hq ev hev).1 p
    rw [this.1, this.2] at hp
    simp at hp
  · constructor
    · rintro ⟨ev, hev, hp⟩
      rw [((hq ev hev).1 i).1] at hp
      simp at hp
    · rintro ⟨ev, hev, hp⟩
      rw [((hq ev hev).1 i).2] at hp
      simp at hp

theorem dry_tags_closing_of_sound {blockmax : Nat} {trace : List dry_event}
    (h : dry_tags_sound blockmax trace) : dry_tags_closing blockmax trace := by
  refine ⟨fun ev hev p hp => h.1 ev hev p (Or.inl hp), fun p _ => h.2.1 p, ?_⟩
  constructor
  · rintro ⟨ev, hev, hp⟩
    have := h.1 ev hev blockmax (Or.inr hp)
    omega
  · rintro ⟨ev, hev, hp⟩
    rw [h.2.2 ev hev] at hp
    simp at hp

theorem dry_tags_closing_step {blockmax j : Nat} {trace events : List dry_event}
    (h : dry_tags_closing blockmax trace)
    (he : events = [] ∨
      (∃ fd : Int, events = [.final j (.call_close fd true)]) ∨
      (∃ fd : Int, events = [.final j (.call_close fd false), .final j .cleared_file_read,
        .tag_error blockmax j])) :
    dry_tags_closing blockmax (trace ++ events) := by
  have hio : ∀ ev, ev ∈ events → ∀ p, ev.io_error_at p = false := by
    intro ev hev p
    rcases he with rfl | ⟨fd, rfl⟩ | ⟨fd, rfl⟩ <;> simp at hev <;>
      rcases hev with rfl | hev <;> try rcases hev with rfl | rfl
    all_goals simp [dry_event.io_error_at]
  have htag : ∀ ev, ev ∈ events → ∀ p, ev.is_tag_at p = true → p = blockmax := by
    intro ev hev p hp
    rcases he with rfl | ⟨fd, rfl⟩ | ⟨fd, rfl⟩ <;> simp at hev <;>
      rcases hev with rfl | hev <;> try rcases hev with rfl | rfl
    all_goals simp [dry_event.is_tag_at] at hp
    exact hp.symm
  have hboth : (∃ ev, ev ∈ events ∧ ev.is_tag_at blockmax = true) ↔
      ∃ ev, ev ∈ events ∧ ev.failed_final_close = true := by
    rcases he with rfl | ⟨fd, rfl⟩ | ⟨fd, rfl⟩ <;>
      simp [dry_event.is_tag_at, dry_event.failed_final_close]
  refine ⟨?_, ?_, ?_⟩
  · intro ev hev p hp
    rcases List.mem_append.1 hev with h1 | h1
    · exact h.1 ev h1 p hp
    · rw [hio ev h1 p] at hp
      simp at hp
  · intro p hp
    constructor
    · rintro ⟨ev, hev, hq⟩
      rcases List.mem_append.1 hev with h1 | h1
      · obtain ⟨ev1, h2, h3⟩ := (h.2.1 p hp).1 ⟨ev, h1, hq⟩
        exact ⟨ev1, List.mem_append_left _ h2, h3⟩
      · rw [hio ev h1 p] at hq
        simp at hq
    · rintro ⟨ev, hev, hq⟩
      rcases List.mem_append.1 hev with h1 | h1
      · obtain ⟨ev1, h2, h3⟩ := (h.2.1 p hp).2 ⟨ev, h1, hq⟩
        exact ⟨ev1, List.mem_append_left _ h2, h3⟩
      · have := htag ev h1 p hq
        omega
  · constructor
    · rintro ⟨ev, hev, hq⟩
      rcases List.mem_append.1 hev with h1 | h1
      · obtain ⟨ev1, h2, h3⟩ := h.2.2.1 ⟨ev, h1, hq⟩
        exact ⟨ev1, List.mem_append_left _ h2, h3⟩
      · obtain ⟨ev1, h2, h3⟩ := hboth.1 ⟨ev, h1, hq⟩
        exact ⟨ev1, List.mem_append_right _ h2, h3⟩
    · rintro ⟨ev, hev, hq⟩
      rcases List.mem_append.1 hev with h1 | h1
      · obtain ⟨ev1, h2, h3⟩ := h.2.2.2 ⟨ev, h1, hq⟩
        exact ⟨ev1, List.mem_append_left _ h2, h3⟩
      · obtain ⟨ev1, h2, h3⟩ := hboth.2 ⟨ev, h1, hq⟩
        exact ⟨ev1, List.mem_append_right _ h2, h3⟩

theorem dry_live_of_I1_all {state : snapraid_state} (hI1 : I1_all state) (j : Nat)
    (disk : snapraid_disk) (p : Nat) (block : BlockPtr)
    (hj : state.diskarr[j]? = some disk) (hb : fs_par2block_get disk p = some block) :
    ∃ file, heap_get state.files block.file = some file := by
  have := cells_live_of_I1_all hI1 j disk p block hj
    (by rw [← disk_block_get_eq_cell]; exact hb)
  unfold block_get at this
  cases hf : heap_get state.files block.file with
  | none => rw [hf] at this; simp at this
  | some file => exact ⟨file, rfl⟩

/-- C21 (amended): on every state satisfying I1 `state_dry_process` returns,
and in its trace the positions at which a call made for a block (open, advice,
read or close) failed are exactly the positions below `blockmax` that appear in
a line `error:<pos>:...`; a line for the position `blockmax` itself is there
exactly when a call of `close` of the closing loop failed. -/
theorem state_dry_process_error_tags (env : dry_env) (state : snapraid_state)
    (parity : Nat → Bool) (blockstart blockmax : Nat) (hI1 : I1_all state) :
    ∃ r, state_dry_process env state parity blockstart blockmax = some r ∧
      (∀ p, dry_io_error r.vars.trace p ↔ (p < blockmax ∧ dry_tagged r.vars.trace p)) ∧
      (dry_tagged r.vars.trace blockmax ↔
        ∃ ev, ev ∈ r.vars.trace ∧ ev.failed_final_close = true) := by
  obtain ⟨r, hr, hF, -⟩ := state_dry_process_rule env state parity blockstart blockmax
    (fun _ _ v => dry_tags_sound blockmax v.trace)
    (fun v => dry_tags_sound blockmax v.trace)
    (fun _ v => dry_tags_closing blockmax v.trace)
    (dry_live_of_I1_all hI1)
    (by
      refine ⟨?_, ?_, ?_⟩
      · intro ev hev; cases hev
      · intro p
        constructor <;> rintro ⟨ev, hev, -⟩ <;> cases hev
      · intro ev hev; cases hev)
    (fun _ _ _ _ _ _ _ _ h => h)
    (by
      intro i j v h disk block file _ hi2 _ _ _ _ _ hs
      have := dry_tags_sound_append hs
        (dry_tags_local_of_shape (dry_cell_shape env disk.dir file state.block_size i j h block))
        hi2
      exact ⟨fun _ => this, fun _ => this⟩)
    (by
      intro i v _ hi2 hs
      have : dry_tags_sound blockmax (state_dry_parity env state parity i v).trace := by
        rw [state_dry_parity_eq]
        simp only [List.append_assoc]
        exact dry_tags_sound_append hs (dry_tags_local_parity env parity i _ _) hi2
      exact ⟨fun _ => this, fun _ => this⟩)
    (fun _ _ _ h => h)
    (fun _ h => dry_tags_closing_of_sound h)
    (by
      intro j v h _ _ hf
      obtain ⟨events, errs, e, hcases⟩ := state_dry_close_slot_cases env blockmax j h v
      rw [e]
      refine @dry_tags_closing_step blockmax j _ _ hf ?_
      rcases hcases with ⟨e1, -⟩ | ⟨fd, e1, -⟩ | ⟨fd, e1, -⟩
      · exact Or.inl e1
      · exact Or.inr (Or.inl ⟨fd, e1⟩)
      · exact Or.inr (Or.inr ⟨fd, e1⟩))
  refine ⟨r, hr, ?_, hF.2.2⟩
  intro p
  constructor
  · rintro ⟨ev, hev, hp⟩
    have hlt := hF.1 ev hev p hp
    exact ⟨hlt, (hF.2.1 p hlt).1 ⟨ev, hev, hp⟩⟩
  · rintro ⟨hlt, ht⟩
    exact (hF.2.1 p hlt).2 ht

theorem state_dry_process_error_tags_witness :
    I1_all remove_example ∧
    ∃ r, state_dry_process failing_reads_env remove_example (fun _ => true) 0 3 = some r ∧
      (∀ p, dry_io_error r.vars.trace p ↔ (p < 3 ∧ dry_tagged r.vars.trace p)) ∧
      (dry_tagged r.vars.trace 3 ↔
        ∃ ev, ev ∈ r.vars.trace ∧ ev.failed_final_close = true) :=
  ⟨I1_all_of_check (by decide),
    state_dry_process_error_tags failing_reads_env remove_example (fun _ => true) 0 3
      (I1_all_of_check (by decide))⟩

/-- C21: when the calls of `close` of the closing loop fail, the trace of a
pass over the positions 0 to 2 of `remove_example` holds a line `error:3:...`
although no call made for a block at the position 3 failed (no block is
processed at that position). -/
theorem state_dry_process_tags_counterexample :
    I1_all remove_example ∧
    ∃ r, state_dry_process failing_close_env remove_example (fun _ => true) 0 3 = some r ∧
      (∃ ev, ev ∈ r.vars.trace ∧ ev.is_tag_at 3 = true) ∧
      ∀ ev, ev ∈ r.vars.trace → ev.io_error_at 3 = false :=
  ⟨I1_all_of_check (by decide), _, rfl, by decide, by decide⟩

/-! ## Dry with missing parity (claim C22) -/

theorem dry_failures_counted_append {error errs : Nat} {trace events : List dry_event}
    (h : dry_failures_counted error trace) (he : dry_failures_counted errs events) :
    dry_failures_counted (error + errs) (trace ++ events) := by
  unfold dry_failures_counted at *
  simp only [List.countP_append]
  omega

theorem dry_setup_quiet (i j : Nat) (fp : FilePtr) (call : handle_call)
    (hc : call.is_setup = true) :
    (dry_event.data i j fp call).failed_open = false ∧
    (dry_event.data i j fp call).failed_close = false ∧
    (dry_event.data i j fp call).failed_data_read = false ∧
    (dry_event.data i j fp call).failed_parity_read = false := by
  cases call <;>
    simp_all [handle_call.is_setup, dry_event.failed_open, dry_event.failed_close,
      dry_event.failed_data_read, dry_event.failed_parity_read]

theorem dry_failures_counted_of_shape {i j : Nat} {fp : FilePtr} {off : Nat} {t : dry_turn}
    (hs : dry_turn_shape i j fp off t) :
    dry_failures_counted t.errors t.events ∧
      ∀ (p l : Nat) (ok : Bool), dry_event.parity p l ok ∉ t.events := by
  obtain ⟨pre, main, e, hpre, hmain⟩ := hs
  rw [e]
  have hq : dry_failures_counted 0 pre := by
    unfold dry_failures_counted
    have h0 : ∀ (f : dry_event → Bool),
        (∀ (call : handle_call), call.is_setup = true →
          f (dry_event.data i j fp call) = false) → pre.countP f = 0 := by
      intro f hf
      rw [List.countP_eq_zero]
      intro ev hev
      obtain ⟨call, rfl, hc⟩ := hpre ev hev
      rw [hf call hc]
      simp
    rw [h0 dry_event.failed_open, h0 dry_event.failed_close, h0 dry_event.failed_data_read,
      h0 dry_event.failed_parity_read]
    · exact fun call hc => (dry_setup_quiet i j fp call hc).2.2.2
    · exact fun call hc => (dry_setup_quiet i j fp call hc).2.2.1
    · exact fun call hc => (dry_setup_quiet i j fp call hc).2.1
    · exact fun call hc => (dry_setup_quiet i j fp call hc).1
  have hm : dry_failures_counted t.errors main := by
    unfold dry_failures_counted
    rcases hmain with ⟨fd, size, rfl, e1, -⟩ | ⟨fd, size, rfl, e1, -⟩ | ⟨fd, rfl, e1, -⟩ |
      ⟨path, rfl, e1, -⟩ | ⟨fd, rfl, e1, -⟩ <;> rw [e1] <;>
      simp [List.countP_cons, dry_event.failed_open, dry_event.failed_close,
        dry_event.failed_data_read, dry_event.failed_parity_read]
  refine ⟨by simpa using dry_failures_counted_append hq hm, ?_⟩
  intro p l ok hmem
  rcases List.mem_append.1 hmem with h1 | h1
  · obtain ⟨call, h2, -⟩ := hpre _ h1
    cases h2
  · rcases hmain with ⟨fd, size, rfl, -, -⟩ | ⟨fd, size, rfl, -, -⟩ | ⟨fd, rfl, -, -⟩ |
      ⟨path, rfl, -, -⟩ | ⟨fd, rfl, -, -⟩ <;> simp at h1

theorem dry_level_events_level (env : dry_env) (parity : Nat → Bool) (i : Nat) :
    ∀ (n l p k : Nat) (ok : Bool), dry_event.parity p k ok ∈ dry_level_events env parity i n l →
      p = i ∧ l ≤ k ∧ k < l + n ∧ parity k = true
  | 0, l, p, k, ok, h => by simp [dry_level_events] at h
  | n + 1, l, p, k, ok, h => by
    simp only [dry_level_events, List.mem_append] at h
    rcases h with h | h
    · cases hp : parity l with
      | false => simp [hp] at h
      | true =>
        cases hr : env.parity_read_ok i l <;> simp [hp, hr] at h <;>
          obtain ⟨rfl, rfl, -⟩ := h <;> exact ⟨rfl, by omega, by omega, hp⟩
    · obtain ⟨h1, h2, h3, h4⟩ := dry_level_events_level env parity i n (l + 1) p k ok h
      exact ⟨h1, by omega, by omega, h4⟩

theorem dry_failures_counted_parity (env : dry_env) (parity : Nat → Bool) (i n l : Nat) :
    dry_failures_counted
      ((dry_level_events env parity i n l).countP dry_event.failed_parity_read)
      (dry_level_events env parity i n l ++ [.progress i (env.progress_stop i)]) := by
  unfold dry_failures_counted
  have h0 : ∀ (f : dry_event → Bool),
      (∀ (p k : Nat) (ok : Bool), f (dry_event.parity p k ok) = false) →
      (∀ (p k : Nat), f (dry_event.tag_parity_error p k) = false) →
      (dry_level_events env parity i n l).countP f = 0 := by
    intro f hf1 hf2
    rw [List.countP_eq_zero]
    intro ev hev
    obtain ⟨k, -, h | ⟨h, -⟩⟩ := dry_level_events_kind env parity i n l ev hev <;> subst h
    · rw [hf1]; simp
    · rw [hf2]; simp
  simp only [List.countP_append]
  rw [h0 dry_event.failed_open (fun _ _ _ => rfl) (fun _ _ => rfl),
    h0 dry_event.failed_close (fun _ _ _ => rfl) (fun _ _ => rfl),
    h0 dry_event.failed_data_read (fun _ _ _ => rfl) (fun _ _ => rfl)]
  simp [List.countP_cons, dry_event.failed_open, dry_event.failed_close,
    dry_event.failed_data_read, dry_event.failed_parity_read]

theorem dry_reads_done_skip {state : snapraid_state} {parity : Nat → Bool}
    {blockstart i j : Nat} {trace : List dry_event} {disk : snapraid_disk}
    (h : dry_reads_done state parity blockstart i j trace)
    (hdisk : state.diskarr[j]? = some disk) (hnone : fs_par2block_get disk i = none) :
    dry_reads_done state parity blockstart i (j + 1) trace := by
  refine ⟨?_, h.2⟩
  intro p s disk1 block h1 h2 h3 h4
  by_cases hps : p = i ∧ s = j
  · obtain ⟨rfl, rfl⟩ := hps
    rw [hdisk] at h3
    cases h3
    rw [hnone] at h4
    exact absurd h4 (by simp)
  · exact h.1 p s disk1 block h1 (by omega) h3 h4

theorem dry_reads_done_cell {state : snapraid_state} {parity : Nat → Bool}
    {blockstart i j : Nat} {trace events : List dry_event} {disk : snapraid_disk}
    {block : BlockPtr}
    (h : dry_reads_done state parity blockstart i j trace)
    (hdisk : state.diskarr[j]? = some disk) (hblock : fs_par2block_get disk i = some block)
    (hread : ∃ fd size ok, dry_event.data i j block.file
      (.call_pread fd (block_file_pos block * state.block_size) size ok) ∈ events) :
    dry_reads_done state parity blockstart i (j + 1) (trace ++ events) := by
  obtain ⟨fd, size, ok, hm⟩ := hread
  refine ⟨?_, (dry_reads_done_append h events).2⟩
  intro p s disk1 block1 h1 h2 h3 h4
  by_cases hps : p = i ∧ s = j
  · obtain ⟨rfl, rfl⟩ := hps
    rw [hdisk] at h3
    cases h3
    rw [hblock] at h4
    cases h4
    exact ⟨fd, size, ok, List.mem_append_right _ hm⟩
  · exact (dry_reads_done_append h events).1 p s disk1 block1 h1 (by omega) h3 h4

theorem dry_reads_done_parity {state : snapraid_state} {parity : Nat → Bool}
    {blockstart i : Nat} {trace : List dry_event} (env : dry_env)
    (h : dry_reads_done state parity blockstart i state.diskarr.length trace) :
    dry_reads_done state parity blockstart (i + 1) 0
      (trace ++ dry_level_events env parity i state.level 0) := by
  refine ⟨?_, ?_⟩
  · intro p s disk block h1 h2 h3 h4
    have hs : s < state.diskarr.length := getElem?_lt h3
    obtain ⟨fd1, size1, ok1, hm1⟩ := h.1 p s disk block h1 (by omega) h3 h4
    exact ⟨fd1, size1, ok1, List.mem_append_left _ hm1⟩
  · intro p l h1 h2 h3 h4
    by_cases hp : p = i
    · subst hp
      obtain ⟨ok, hm⟩ := dry_level_events_read env parity p state.level 0 l
        (by omega) (by omega) h4
      exact ⟨ok, List.mem_append_right _ hm⟩
    · obtain ⟨ok1, hm1⟩ := h.2 p l h1 (by omega) h3 h4
      exact ⟨ok1, List.mem_append_left _ hm1⟩

theorem dry_reads_done_end {state : snapraid_state} {parity : Nat → Bool}
    {blockstart blockmax i : Nat} {trace : List dry_event} (hi : blockmax ≤ i)
    (h : dry_reads_done state parity blockstart i 0 trace) :
    dry_reads_done state parity blockstart blockmax 0 trace := by
  refine ⟨?_, ?_⟩
  · intro p s disk block h1 h2 h3 h4
    exact h.1 p s disk block h1 (by omega) h3 h4
  · intro p l h1 h2 h3 h4
    exact h.2 p l h1 (by omega) h3 h4

theorem dry_parity_present_append {state : snapraid_state} {parity : Nat → Bool}
    {trace events : List dry_event} (h : dry_parity_present state parity trace)
    (he : dry_parity_present state parity events) :
    dry_parity_present state parity (trace ++ events) := by
  intro p l ok hm
  rcases List.mem_append.1 hm with h1 | h1
  · exact h p l ok h1
  · exact he p l ok h1

/-- C22 (amended): on every state satisfying I1 `state_dry_process` returns
and makes no read of parity for a level whose handle is absent; when every
level of the state is absent, the pass returns 0 if and only if no read of
data, no open and no close of its trace failed, and when moreover no open and
no close failed and no stop was asked for, the trace holds a read of the data
for every occupied cell of the range. -/
theorem state_dry_process_missing_parity (env : dry_env) (state : snapraid_state)
    (parity : Nat → Bool) (blockstart blockmax : Nat) (hI1 : I1_all state) :
    ∃ r, state_dry_process env state parity blockstart blockmax = some r ∧
      (∀ l, parity l = false → ∀ (p : Nat) (ok : Bool),
        dry_event.parity p l ok ∉ r.vars.trace) ∧
      ((∀ l, l < state.level → parity l = false) →
        (r.ret = 0 ↔ ∀ ev, ev ∈ r.vars.trace →
          ev.failed_data_read = false ∧ ev.failed_open = false ∧
            ev.failed_close = false) ∧
        ((∀ ev, ev ∈ r.vars.trace →
            ev.failed_open = false ∧ ev.failed_close = false ∧ ev.is_stop = false) →
          ∀ (i j : Nat) (disk : snapraid_disk) (block : BlockPtr),
            blockstart ≤ i → i < blockmax →
            state.diskarr[j]? = some disk → fs_par2block_get disk i = some block →
            ∃ fd size ok, dry_event.data i j block.file
              (.call_pread fd (block_file_pos block * state.block_size) size ok) ∈
                r.vars.trace)) := by
  obtain ⟨r, hr, ⟨hcount, hpres, hreads⟩, hret⟩ :=
    state_dry_process_rule env state parity blockstart blockmax
    (fun i j v => dry_failures_counted v.error v.trace ∧
      dry_parity_present state parity v.trace ∧
      dry_reads_done state parity blockstart i j v.trace)
    (fun v => dry_failures_counted v.error v.trace ∧
      dry_parity_present state parity v.trace ∧
      (dry_upset v.trace ∨ dry_reads_done state parity blockstart blockmax 0 v.trace))
    (fun _ v => dry_failures_counted v.error v.trace ∧
      dry_parity_present state parity v.trace ∧
      (dry_upset v.trace ∨ dry_reads_done state parity blockstart blockmax 0 v.trace))
    (dry_live_of_I1_all hI1)
    (by
      refine ⟨by simp [dry_failures_counted], ?_, ?_, ?_⟩
      · intro p l ok hm; cases hm
      · intro p s disk block h1 h2; omega
      · intro p l h1 h2; omega)
    (fun i j v disk _ _ hdisk hnone h =>
      ⟨h.1, h.2.1, dry_reads_done_skip h.2.2 hdisk hnone⟩)
    (by
      intro i j v h disk block file _ _ _ _ hdisk hblock _ ⟨hc, hp, hd⟩
      have hshape := dry_cell_shape env disk.dir file state.block_size i j h block
      obtain ⟨hc1, hp1⟩ := dry_failures_counted_of_shape hshape
      have hc2 := dry_failures_counted_append hc hc1
      have hp2 : dry_parity_present state parity
          (v.trace ++ (dry_cell env disk.dir file state.block_size i j h block).events) :=
        dry_parity_present_append hp (fun p l ok hm => absurd hm (hp1 p l ok))
      constructor
      · intro hb
        obtain ⟨-, -, hread⟩ := dry_cell_reads env disk.dir file state.block_size i j h block hb
        exact ⟨hc2, hp2, dry_reads_done_cell hd hdisk hblock hread⟩
      · intro hb
        obtain ⟨ev, hev, hu⟩ := dry_cell_bail env disk.dir file state.block_size i j h block hb
        refine ⟨hc2, hp2, Or.inl ⟨ev, List.mem_append_right _ hev, ?_⟩⟩
        rcases hu with hu | hu
        · exact Or.inl hu
        · exact Or.inr (Or.inl hu))
    (by
      intro i v _ _ ⟨hc, hp, hd⟩
      rw [state_dry_parity_eq]
      have hc2 : dry_failures_counted
          (v.error + (dry_level_events env parity i state.level 0).countP
            dry_event.failed_parity_read)
          (v.trace ++ dry_level_events env parity i state.level 0 ++
            [.progress i (env.progress_stop i)]) := by
        rw [List.append_assoc]
        exact dry_failures_counted_append hc (dry_failures_counted_parity env parity i _ _)
      have hp2 : dry_parity_present state parity
          (v.trace ++ dry_level_events env parity i state.level 0 ++
            [.progress i (env.progress_stop i)]) := by
        refine dry_parity_present_append (dry_parity_present_append hp ?_) ?_
        · intro p l ok hm
          obtain ⟨-, -, h3, h4⟩ := dry_level_events_level env parity i _ _ p l ok hm
          exact ⟨by omega, h4⟩
        · intro p l ok hm
          rw [List.mem_singleton] at hm
          cases hm
      constructor
      · intro hstop
        exact ⟨hc2, hp2, Or.inl ⟨.progress i (env.progress_stop i), by simp,
          Or.inr (Or.inr (by simp [dry_event.is_stop, hstop]))⟩⟩
      · intro _
        exact ⟨hc2, hp2, dry_reads_done_append (dry_reads_done_parity env hd) _⟩)
    (fun i v hi h => ⟨h.1, h.2.1, Or.inr (dry_reads_done_end hi h.2.2)⟩)
    (fun _ h => h)
    (by
      intro j v h _ _ ⟨hc, hp, hd⟩
      obtain ⟨events, errs, e, hcases⟩ := state_dry_close_slot_cases env blockmax j h v
      rw [e]
      have hc1 : dry_failures_counted errs events := by
        unfold dry_failures_counted
        rcases hcases with ⟨rfl, rfl⟩ | ⟨fd, rfl, rfl⟩ | ⟨fd, rfl, rfl⟩ <;>
          simp [List.countP_cons, dry_event.failed_open, dry_event.failed_close,
            dry_event.failed_data_read, dry_event.failed_parity_read]
      have hp1 : dry_parity_present state parity events := by
        intro p l ok hm
        rcases hcases with ⟨rfl, -⟩ | ⟨fd, rfl, -⟩ | ⟨fd, rfl, -⟩ <;> simp at hm
      refine ⟨dry_failures_counted_append hc hc1, dry_parity_present_append hp hp1, ?_⟩
      rcases hd with hd | hd
      · exact Or.inl (dry_upset_append_left hd _)
      · exact Or.inr (dry_reads_done_append hd _))
  refine ⟨r, hr, ?_, ?_⟩
  · intro l hl p ok hm
    have := (hpres p l ok hm).2
    rw [hl] at this
    exact absurd this (by simp)
  · intro habs
    have hnopar : r.vars.trace.countP dry_event.failed_parity_read = 0 := by
      rw [List.countP_eq_zero]
      intro ev hev hf
      cases ev with
      | parity p l ok =>
        obtain ⟨h1, h2⟩ := hpres p l ok hev
        rw [habs l h1] at h2
        exact absurd h2 (by simp)
      | _ => simp [dry_event.failed_parity_read] at hf
    constructor
    · rw [hret]
      unfold dry_failures_counted at hcount
      rw [hnopar] at hcount
      constructor
      · intro h0
        have he : r.vars.error = 0 := by
          by_contra hne
          rw [if_pos hne] at h0
          exact absurd h0 (by decide)
        rw [he] at hcount
        have h1 : r.vars.trace.countP dry_event.failed_open = 0 := by omega
        have h2 : r.vars.trace.countP dry_event.failed_close = 0 := by omega
        have h3 : r.vars.trace.countP dry_event.failed_data_read = 0 := by omega
        rw [List.countP_eq_zero] at h1 h2 h3
        intro ev hev
        exact ⟨by simpa using h3 ev hev, by simpa using h1 ev hev, by simpa using h2 ev hev⟩
      · intro hall
        have h1 : r.vars.trace.countP dry_event.failed_open = 0 := by
          rw [List.countP_eq_zero]
          intro ev hev
          simp [(hall ev hev).2.1]
        have h2 : r.vars.trace.countP dry_event.failed_close = 0 := by
          rw [List.countP_eq_zero]
          intro ev hev
          simp [(hall ev hev).2.2]
        have h3 : r.vars.trace.countP dry_event.failed_data_read = 0 := by
          rw [List.countP_eq_zero]
          intro ev hev
          simp [(hall ev hev).1]
        have he : r.vars.error = 0 := by omega
        rw [he]
        simp
    · intro hno i j disk block h1 h2 h3 h4
      rcases hreads with ⟨ev, hev, hu⟩ | hd
      · obtain ⟨n1, n2, n3⟩ := hno ev hev
        rw [n1, n2, n3] at hu
        simp at hu
      · exact hd.1 i j disk block h1 (Or.inl h2) h3 h4

theorem state_dry_process_missing_parity_witness :
    I1_all remove_example ∧
    ∃ r, state_dry_process failing_reads_env remove_example (fun _ => false) 0 3 = some r ∧
      (∀ (p : Nat) (ok : Bool), dry_event.parity p 0 ok ∉ r.vars.trace) ∧
      (r.ret = 0 ↔ ∀ ev, ev ∈ r.vars.trace →
        ev.failed_data_read = false ∧ ev.failed_open = false ∧ ev.failed_close = false) ∧
      r.ret = -1 ∧
      ∀ (i j : Nat) (disk : snapraid_disk) (block : BlockPtr), 0 ≤ i → i < 3 →
        remove_example.diskarr[j]? = some disk → fs_par2block_get disk i = some block →
        ∃ fd size ok, dry_event.data i j block.file
          (.call_pread fd (block_file_pos block * remove_example.block_size) size ok) ∈
            r.vars.trace := by
  refine ⟨I1_all_of_check (by decide), ?_⟩
  obtain ⟨r, hr, h1, h2⟩ := state_dry_process_missing_parity failing_reads_env remove_example
    (fun _ => false) 0 3 (I1_all_of_check (by decide))
  have hr2 := option_get_eq hr rfl
  subst hr2
  exact ⟨_, rfl, h1 0 rfl, (h2 (fun _ _ => rfl)).1, by decide,
    (h2 (fun _ _ => rfl)).2 (by decide)⟩

/-- C22: with every parity level absent, when the first open fails the pass
over the positions 0 to 2 of `remove_example` goes to the closing loop and
makes no read for the occupied cell at position 1 of slot 0. -/
theorem state_dry_process_bail_counterexample :
    I1_all remove_example ∧
    ∃ (disk : snapraid_disk) (block : BlockPtr),
      remove_example.diskarr[0]? = some disk ∧ fs_par2block_get disk 1 = some block ∧
      ∃ r, state_dry_process failing_open_env remove_example (fun _ => false) 0 3 = some r ∧
        ∀ ev, ev ∈ r.vars.trace → ev.is_data_read 1 0 = false :=
  ⟨I1_all_of_check (by decide), _, _, rfl, rfl, _, rfl, by decide⟩

/-! ## Cancellation of a pass of dry (claim C23) -/

theorem dry_turn_events_at {i j : Nat} {fp : FilePtr} {off : Nat} {t : dry_turn}
    (hs : dry_turn_shape i j fp off t) (ev : dry_event) (hev : ev ∈ t.events) :
    (∃ call, ev = dry_event.data i j fp call) ∨ ev = dry_event.tag_error i j := by
  obtain ⟨pre, main, e, hpre, hmain⟩ := hs
  rw [e] at hev
  rcases List.mem_append.1 hev with h1 | h1
  · obtain ⟨call, h2, -⟩ := hpre ev h1
    exact Or.inl ⟨call, h2⟩
  · rcases hmain with ⟨fd, size, rfl, -, -⟩ | ⟨fd, size, rfl, -, -⟩ | ⟨fd, rfl, -, -⟩ |
      ⟨path, rfl, -, -⟩ | ⟨fd, rfl, -, -⟩ <;>
      simp only [List.mem_cons, List.mem_singleton, List.not_mem_nil, or_false] at h1
    · exact Or.inl ⟨_, h1⟩
    · rcases h1 with h1 | h1
      · exact Or.inl ⟨_, h1⟩
      · exact Or.inr h1
    · rcases h1 with h1 | h1 | h1 | h1
      · exact Or.inl ⟨_, h1⟩
      · exact Or.inl ⟨_, h1⟩
      · exact Or.inl ⟨_, h1⟩
      · exact Or.inr h1
    · rcases h1 with h1 | h1
      · exact Or.inl ⟨_, h1⟩
      · exact Or.inr h1
    · rcases h1 with h1 | h1
      · exact Or.inl ⟨_, h1⟩
      · exact Or.inr h1

theorem dry_event.read_after_mono {i k : Nat} {ev : dry_event} (h : ev.read_after i = false)
    (hik : i ≤ k) : ev.read_after k = false := by
  cases ev with
  | data p s f call =>
    cases call <;> simp [dry_event.read_after] at h ⊢
    omega
  | parity p l ok =>
    simp [dry_event.read_after] at h ⊢
    omega
  | _ => rfl

theorem dry_turn_quiet {i j : Nat} {fp : FilePtr} {off : Nat} {t : dry_turn}
    (hs : dry_turn_shape i j fp off t) (ev : dry_event) (hev : ev ∈ t.events) :
    ev.read_after i = false ∧ ev.is_stop = false := by
  rcases dry_turn_events_at hs ev hev with ⟨call, rfl⟩ | rfl
  · cases call <;> simp [dry_event.read_after, dry_event.is_stop]
  · simp [dry_event.read_after, dry_event.is_stop]

theorem dry_level_events_quiet (env : dry_env) (parity : Nat → Bool) (i n l : Nat)
    (ev : dry_event) (hev : ev ∈ dry_level_events env parity i n l) :
    ev.read_after i = false ∧ ev.is_stop = false := by
  obtain ⟨k, -, h | ⟨h, -⟩⟩ := dry_level_events_kind env parity i n l ev hev <;> subst h <;>
    simp [dry_event.read_after, dry_event.is_stop]

theorem dry_close_events_quiet {blockmax j : Nat} {events : List dry_event}
    (he : events = [] ∨
      (∃ fd : Int, events = [.final j (.call_close fd true)]) ∨
      (∃ fd : Int, events = [.final j (.call_close fd false), .final j .cleared_file_read,
        .tag_error blockmax j]))
    (ev : dry_event) (hev : ev ∈ events) : ev.is_read = false ∧ ev.is_stop = false := by
  rcases he with rfl | ⟨fd, rfl⟩ | ⟨fd, rfl⟩ <;>
    simp only [List.mem_cons, List.mem_singleton, List.not_mem_nil, or_false] at hev
  · rcases hev with rfl
    simp [dry_event.is_read, dry_event.is_stop]
  · rcases hev with rfl | rfl | rfl <;> simp [dry_event.is_read, dry_event.is_stop]

/-- C23: on every state satisfying I1 `state_dry_process` returns with every
slot closed (no file, descriptor -1); and when `state_progress` asks to stop
after the position `i`, the trace is made of steps that hold the reads of the
data of every occupied cell at `i` and of every present parity level at `i`,
no read for a later position and no earlier request to stop, then the request,
then steps (of the closing loop) without any read. -/
theorem state_dry_process_cancel (env : dry_env) (state : snapraid_state)
    (parity : Nat → Bool) (blockstart blockmax : Nat) (hI1 : I1_all state) :
    ∃ r, state_dry_process env state parity blockstart blockmax = some r ∧
      r.vars.handle.length = state.diskarr.length ∧
      (∀ h, h ∈ r.vars.handle → h.file = none ∧ h.f = -1) ∧
      ∀ i, dry_event.progress i true ∈ r.vars.trace →
        ∃ (pre post : List dry_event),
          r.vars.trace = pre ++ dry_event.progress i true :: post ∧
          dry_cancelled state parity i pre ∧
          ∀ ev, ev ∈ post → ev.is_read = false ∧ ev.is_stop = false := by
  obtain ⟨r, hr, ⟨hlen, hsplit, hclosed⟩, -⟩ :=
    state_dry_process_rule env state parity blockstart blockmax
    (fun i j v => v.handle.length = state.diskarr.length ∧
      dry_reads_done state parity blockstart i j v.trace ∧
      ∀ ev, ev ∈ v.trace → ev.read_after i = false ∧ ev.is_stop = false)
    (fun v => v.handle.length = state.diskarr.length ∧ dry_stop_split state parity v.trace)
    (fun j v => v.handle.length = state.diskarr.length ∧
      dry_stop_split state parity v.trace ∧
      ∀ (s : Nat) (h : snapraid_handle), s < j → v.handle[s]? = some h →
        h.file = none ∧ h.f = -1)
    (dry_live_of_I1_all hI1)
    (by
      refine ⟨by simp [handle_map], ⟨?_, ?_⟩, ?_⟩
      · intro p s disk block h1 h2; omega
      · intro p l h1 h2; omega
      · intro ev hev; cases hev)
    (fun i j v disk _ _ hdisk hnone h => ⟨h.1, dry_reads_done_skip h.2.1 hdisk hnone, h.2.2⟩)
    (by
      intro i j v h disk block file _ _ _ _ hdisk hblock _ ⟨hl, hd, hq⟩
      have hshape := dry_cell_shape env disk.dir file state.block_size i j h block
      have hl1 : (v.turn j (dry_cell env disk.dir file state.block_size i j h block)
          ).handle.length = state.diskarr.length := by
        simp [dry_vars.turn, hl]
      have hq1 : ∀ ev, ev ∈ (v.turn j (dry_cell env disk.dir file state.block_size i j h
          block)).trace → ev.read_after i = false ∧ ev.is_stop = false := by
        intro ev hev
        rcases List.mem_append.1 hev with h1 | h1
        · exact hq ev h1
        · exact dry_turn_quiet hshape ev h1
      constructor
      · intro hb
        obtain ⟨-, -, hread⟩ := dry_cell_reads env disk.dir file state.block_size i j h block hb
        exact ⟨hl1, dry_reads_done_cell hd hdisk hblock hread, hq1⟩
      · intro _
        exact ⟨hl1, Or.inl (fun ev hev => (hq1 ev hev).2)⟩)
    (by
      intro i v hi1 _ ⟨hl, hd, hq⟩
      rw [state_dry_parity_eq]
      have hd1 := dry_reads_done_parity env hd
      have hq1 : ∀ ev, ev ∈ v.trace ++ dry_level_events env parity i state.level 0 →
          ev.read_after i = false ∧ ev.is_stop = false := by
        intro ev hev
        rcases List.mem_append.1 hev with h1 | h1
        · exact hq ev h1
        · exact dry_level_events_quiet env parity i _ _ ev h1
      constructor
      · intro hstop
        refine ⟨hl, Or.inr ⟨i, v.trace ++ dry_level_events env parity i state.level 0, [],
          by rw [hstop], ⟨?_, ?_, hq1⟩, fun ev hev => by cases hev⟩⟩
        · intro j disk block h1 h2
          exact hd1.1 i j disk block hi1 (by omega) h1 h2
        · intro l h1 h2
          exact hd1.2 i l hi1 (by omega) h1 h2
      · intro hstop
        refine ⟨hl, dry_reads_done_append hd1 _, ?_⟩
        intro ev hev
        rcases List.mem_append.1 hev with h1 | h1
        · exact ⟨dry_event.read_after_mono (hq1 ev h1).1 (by omega), (hq1 ev h1).2⟩
        · rw [List.mem_singleton] at h1
          subst h1
          simp [dry_event.read_after, dry_event.is_stop, hstop])
    (fun i v _ h => ⟨h.1, Or.inl (fun ev hev => (h.2.2 ev hev).2)⟩)
    (fun v h => ⟨h.1, h.2, fun s h1 hs _ => by omega⟩)
    (by
      intro j v h hj hh ⟨hl, hsp, hcl⟩
      obtain ⟨events, errs, e, hcases⟩ := state_dry_close_slot_cases env blockmax j h v
      rw [e]
      have hev : events = [] ∨
          (∃ fd : Int, events = [.final j (.call_close fd true)]) ∨
          (∃ fd : Int, events = [.final j (.call_close fd false), .final j .cleared_file_read,
            .tag_error blockmax j]) := by
        rcases hcases with ⟨e1, -⟩ | ⟨fd, e1, -⟩ | ⟨fd, e1, -⟩
        · exact Or.inl e1
        · exact Or.inr (Or.inl ⟨fd, e1⟩)
        · exact Or.inr (Or.inr ⟨fd, e1⟩)
      refine ⟨by simp [hl], ?_, ?_⟩
      · rcases hsp with hsp | ⟨i, pre, post, e1, hc, hp⟩
        · left
          intro ev hm
          rcases List.mem_append.1 hm with h1 | h1
          · exact hsp ev h1
          · exact (dry_close_events_quiet hev ev h1).2
        · right
          refine ⟨i, pre, post ++ events, by simp [e1], hc, ?_⟩
          intro ev hm
          rcases List.mem_append.1 hm with h1 | h1
          · exact hp ev h1
          · exact dry_close_events_quiet hev ev h1
      · intro s h1 hs hm
        simp only at hm
        by_cases hsj : s = j
        · subst hsj
          rw [List.getElem?_set] at hm
          have hlt : s < v.handle.length := getElem?_lt hh
          simp only [hlt, if_true, Option.some.injEq] at hm
          subst hm
          exact ⟨rfl, rfl⟩
        · rw [List.getElem?_set_ne (fun e => hsj e.symm)] at hm
          exact hcl s h1 (by omega) hm)
  refine ⟨r, hr, hlen, ?_, ?_⟩
  · intro h hm
    obtain ⟨s, hs⟩ := List.mem_iff_getElem?.1 hm
    have hlt : s < r.vars.handle.length := getElem?_lt hs
    exact hclosed s h (by omega) hs
  · intro i hm
    rcases hsplit with hns | ⟨i1, pre, post, e1, hc, hp⟩
    · have := hns _ hm
      simp [dry_event.is_stop] at this
    · rw [e1] at hm
      rcases List.mem_append.1 hm with h1 | h1
      · have := (hc.2.2 _ h1).2
        simp [dry_event.is_stop] at this
      · rcases List.mem_cons.1 h1 with h2 | h2
        · cases h2
          exact ⟨pre, post, e1, hc, hp⟩
        · have := (hp _ h2).2
          simp [dry_event.is_stop] at this

theorem state_dry_process_cancel_witness :
    I1_all remove_example ∧
    ∃ r, state_dry_process stopping_env remove_example (fun _ => true) 0 3 = some r ∧
      r.vars.handle.length = remove_example.diskarr.length ∧
      (∀ h, h ∈ r.vars.handle → h.file = none ∧ h.f = -1) ∧
      dry_event.progress 1 true ∈ r.vars.trace ∧
      ∃ (pre post : List dry_event),
        r.vars.trace = pre ++ dry_event.progress 1 true :: post ∧
        dry_cancelled remove_example (fun _ => true) 1 pre ∧
        ∀ ev, ev ∈ post → ev.is_read = false ∧ ev.is_stop = false := by
  refine ⟨I1_all_of_check (by decide), ?_⟩
  obtain ⟨r, hr, h1, h2, h3⟩ := state_dry_process_cancel stopping_env remove_example
    (fun _ => true) 0 3 (I1_all_of_check (by decide))
  have hr2 := option_get_eq hr rfl
  subst hr2
  exact ⟨_, rfl, h1, h2, by decide, h3 1 (by decide)⟩

/-! ## The bound of first_free_block (claim C28) -/

/-- C28: when `first_free_block` is not greater than the size of the table,
`scan_file_insert` of a live file returns (no access of `tommy_array_get` or
`tommy_array_set` is outside of the table, grown as needed), does not decrease
`first_free_block` and leaves it not greater than the size of the table; and
`scan_file_remove` of a file of the disk returns and leaves it not greater
than the size of the table.  When the bound does not hold on entry,
`scan_file_insert` of a file that has blocks makes an access outside of the
table. -/
theorem allocator_keeps_hint_in_table (state : snapraid_state) (d : Nat) (fp : FilePtr)
    (disk : snapraid_disk) (file : snapraid_file)
    (hdisk : state.diskarr[d]? = some disk) (hfile : heap_get state.files fp = some file) :
    (disk.first_free_block ≤ tommy_array_size disk.blockarr →
      (tommy_array_size disk.blockarr + file.blockmax < BLOCK_OFF_MOD →
        ∃ state1 disk1, scan_file_insert state d fp = some state1 ∧
          state1.diskarr[d]? = some disk1 ∧
          disk.first_free_block ≤ disk1.first_free_block ∧
          disk1.first_free_block ≤ tommy_array_size disk1.blockarr) ∧
      (fp ∈ disk.filelist → I1_all state →
        ∃ state1 disk1, scan_file_remove state d fp = some state1 ∧
          state1.diskarr[d]? = some disk1 ∧
          disk1.first_free_block ≤ tommy_array_size disk1.blockarr)) ∧
    (tommy_array_size disk.blockarr < disk.first_free_block → file.blockmax ≠ 0 →
      scan_file_insert state d fp = none) := by
  have hdlt := getElem?_lt hdisk
  refine ⟨fun hbound => ⟨?_, ?_⟩, ?_⟩
  · intro hfit
    obtain ⟨w, hw, hres⟩ := scan_file_insert_spec state d fp disk file hdisk hfile hbound hfit
    refine ⟨_, { disk with
        first_free_block :=
          if file.blockmax ≠ 0 then w.block_pos + 1 else disk.first_free_block,
        blockarr := w.blockarr,
        inodeset := disk.inodeset ++ [fp],
        filelist := disk.filelist ++ [fp] }, hres,
      by simp only; rw [List.getElem?_set]; simp [hdlt], ?_, ?_⟩
    · simp only
      by_cases hn : file.blockmax = 0
      · simp [hn]
      · simp only [hn, ne_eq, not_false_eq_true, if_true]
        obtain ⟨h1, -⟩ := hw.last (by omega)
        have := hw.ge_start (file.blockmax - 1) (by omega) (by omega)
        simp only at this
        rw [h1]
        simp only [Nat.zero_add]
        omega
    · simp only [tommy_array_size]
      by_cases hn : file.blockmax = 0
      · have := hw.none_done hn
        rw [this]
        simp only [hn, ne_eq, not_true_eq_false, if_false]
        exact hbound
      · simp only [hn, ne_eq, not_false_eq_true, if_true]
        obtain ⟨-, h2⟩ := hw.last (by omega)
        rw [h2]
        omega
  · intro hmem hI1
    have hI := hI1 disk (List.mem_iff_getElem?.2 ⟨d, hdisk⟩)
    obtain ⟨disk1, files1, hres, hpost⟩ := scan_file_remove_spec state d fp file disk hfile
      hdisk (range_of_I1 hI hmem hfile) (cells_live_of_I1_all hI1)
    refine ⟨_, { disk1 with
        inodeset := disk1.inodeset.filter (fun p => p != fp),
        filelist := disk1.filelist.filter (fun p => p != fp) }, hres,
      by simp only; rw [List.getElem?_set]; simp [hdlt], ?_⟩
    simp only [tommy_array_size] at hbound ⊢
    have h1 := hpost.hint_le
    have h2 := hpost.len_arr
    omega
  · intro hlt hn
    unfold tommy_array_size at hlt
    unfold scan_file_insert
    simp only [hdisk, hfile]
    have hpos : 0 < file.blockmax := by omega
    obtain ⟨n, hn1⟩ : ∃ n, file.blockmax = n + 1 := ⟨file.blockmax - 1, by omega⟩
    rw [hn1]
    simp only [scan_file_insert_loop, scan_file_insert_block, tommy_array_size]
    have hgap : disk.blockarr.length - disk.first_free_block = 0 := by omega
    rw [hgap]
    simp only [find_free_block]
    have hne : ¬ disk.first_free_block = disk.blockarr.length := by omega
    simp only [hne, if_false]
    have hb : ∃ b, file.blockvec[0]? = some b := by
      have : 0 < file.blockvec.length := by
        simp only [snapraid_file.blockmax] at hpos
        exact hpos
      exact ⟨file.blockvec[0], List.getElem?_eq_getElem this⟩
    obtain ⟨b, hb⟩ := hb
    simp only [hb, tommy_array_set]
    have hge : ¬ disk.first_free_block < disk.blockarr.length := by omega
    simp [hge]

theorem allocator_keeps_hint_in_table_witness :
    (∃ disk file, insert_example.diskarr[0]? = some disk ∧
      heap_get insert_example.files 1 = some file ∧
      ∃ state1 disk1, scan_file_insert insert_example 0 1 = some state1 ∧
        state1.diskarr[0]? = some disk1 ∧
        disk.first_free_block ≤ disk1.first_free_block ∧
        disk1.first_free_block ≤ tommy_array_size disk1.blockarr) ∧
    (∃ state1 disk1, scan_file_remove remove_example 0 0 = some state1 ∧
      state1.diskarr[0]? = some disk1 ∧
      disk1.first_free_block ≤ tommy_array_size disk1.blockarr) ∧
    scan_file_insert hint_past_example 0 0 = none :=
  ⟨⟨_, _, rfl, rfl,
      ((allocator_keeps_hint_in_table insert_example 0 1 _ _ rfl rfl).1 (by decide)).1
        (by decide)⟩,
    ((allocator_keeps_hint_in_table remove_example 0 0 _ _ rfl rfl).1 (by decide)).2
      (by decide) (I1_all_of_check (by decide)),
    (allocator_keeps_hint_in_table hint_past_example 0 0 _ _ rfl rfl).2 (by decide)
      (by decide)⟩

/-! ## Removals before insertions (claim C26) -/

theorem state_scan_disk_eq (excluded : String → Bool → Bool) (dirs : Nat → dir_stream)
    (i : Nat) (scans : List snapraid_scan) (state : snapraid_state) :
    state_scan_disk excluded dirs i scans state =
      match scans[i]? with
      | none => .error .fault
      | some scan =>
        match state_scan_disk_removals excluded dirs i scan state with
        | .error err => .error err
        | .ok (scan3, state3) =>
          match scan_insert_files i scan3.file_insert_list (scans.set i scan3) state3 with
          | .error err => .error err
          | .ok (scans4, state4) => scan_insert_links i scan3.link_insert_list scans4 state4 := by
  unfold state_scan_disk state_scan_disk_removals
  cases scans[i]? with
  | none => rfl
  | some scan =>
    simp only
    cases scan_dir excluded i "" (dirs i) scan state with
    | error err => rfl
    | ok r =>
      obtain ⟨scan1, state1⟩ := r
      simp only
      cases state1.diskarr[i]? with
      | none => rfl
      | some disk1 =>
        simp only
        cases scan_removed_files i disk1.filelist scan1 state1 with
        | error err => rfl
        | ok r =>
          obtain ⟨scan2, state2⟩ := r
          simp only
          cases state2.diskarr[i]? with
          | none => rfl
          | some disk2 =>
            simp only

theorem free_cells_eq_card (disk : snapraid_disk) :
    free_cells disk =
      ((Finset.range disk.blockarr.length).filter (fun p => cell disk.blockarr p = none)).card := by
  unfold free_cells tommy_array_size
  rw [Finset.card_def, Finset.filter_val, Finset.range_val, Multiset.range, Multiset.filter_coe,
    Multiset.coe_card]
  congr 1
  apply List.filter_congr
  intro p _
  rw [disk_block_get_eq_cell]
  cases cell disk.blockarr p <;> simp

/-- The allocation loop on a table of length `L` that satisfies I3 and has at
least as many empty cells as the file has blocks: the table keeps its length,
the file takes that many empty cells, and I3 holds for the new hint. -/
theorem insert_post_fill {fp : FilePtr} {m : Nat} {v w : insert_vars}
    (hw : insert_post fp m 0 v w)
    (hI3 : ∀ p, p < v.block_pos → cell v.blockarr p ≠ none)
    (hroom : m ≤ ((Finset.range v.blockarr.length).filter
      (fun p => cell v.blockarr p = none)).card) :
    w.blockarr.length = v.blockarr.length ∧
    ((Finset.range w.blockarr.length).filter (fun p => cell w.blockarr p = none)).card + m =
      ((Finset.range v.blockarr.length).filter (fun p => cell v.blockarr p = none)).card ∧
    ∀ p, p < (if m ≠ 0 then w.block_pos + 1 else v.block_pos) → cell w.blockarr p ≠ none := by
  have hin : ∀ k, k < m → pos_at w.blockvec k < v.blockarr.length := by
    intro k hk
    by_contra hge
    have hsub : (Finset.range v.blockarr.length).filter (fun p => cell v.blockarr p = none) ⊆
        (Finset.range k).image (fun j => pos_at w.blockvec j) := by
      intro q hq
      rw [Finset.mem_filter, Finset.mem_range] at hq
      have hq1 : v.block_pos ≤ q := by
        by_contra hlt
        exact hI3 q (by omega) hq.2
      obtain ⟨j, -, hj, hjq⟩ := hw.no_skip k (Nat.zero_le _) (by omega) q hq1 (by omega) hq.2
      rw [Finset.mem_image]
      exact ⟨j, Finset.mem_range.2 hj, hjq⟩
    have h1 := Finset.card_le_card hsub
    have h2 : ((Finset.range k).image (fun j => pos_at w.blockvec j)).card ≤ k := by
      have : ((Finset.range k).image (fun j => pos_at w.blockvec j)).card ≤
          (Finset.range k).card := Finset.card_image_le
      simpa using this
    omega
  have hlen : w.blockarr.length = v.blockarr.length := by
    by_cases hm : m = 0
    · rw [hw.none_done hm]
    · obtain ⟨h1, h2⟩ := hw.last (by omega)
      have h3 := hin (m - 1) (by omega)
      have h4 : 0 + m - 1 = m - 1 := by omega
      rw [h4] at h1
      omega
  have hinj : ∀ j, j < m → ∀ k, k < m → pos_at w.blockvec j = pos_at w.blockvec k → j = k := by
    intro j hj k hk hjk
    rcases Nat.lt_trichotomy j k with h | h | h
    · have := hw.increasing k (Nat.zero_le _) (by omega) j (Nat.zero_le _) h
      omega
    · exact h
    · have := hw.increasing j (Nat.zero_le _) (by omega) k (Nat.zero_le _) h
      omega
  have hcell : ∀ q, cell w.blockarr q = none ↔
      (cell v.blockarr q = none ∧ ∀ k, k < m → pos_at w.blockvec k ≠ q) := by
    intro q
    by_cases hq : ∃ k, k < m ∧ pos_at w.blockvec k = q
    · obtain ⟨k, hk, hkq⟩ := hq
      have := hw.now_set k (Nat.zero_le _) (by omega)
      rw [hkq] at this
      constructor
      · intro h
        rw [h] at this
        exact absurd this (by simp)
      · intro h
        exact absurd hkq (h.2 k hk)
    · have hne : ∀ k, k < m → pos_at w.blockvec k ≠ q := fun k hk e => hq ⟨k, hk, e⟩
      rw [hw.arr_frame q (fun k _ hk => hne k (by omega))]
      exact ⟨fun h => ⟨h, hne⟩, fun h => h.1⟩
  refine ⟨hlen, ?_, ?_⟩
  · rw [hlen]
    have himg : (Finset.range m).image (fun j => pos_at w.blockvec j) ⊆
        (Finset.range v.blockarr.length).filter (fun p => cell v.blockarr p = none) := by
      intro q hq
      rw [Finset.mem_image] at hq
      obtain ⟨k, hk, hkq⟩ := hq
      rw [Finset.mem_range] at hk
      rw [Finset.mem_filter, Finset.mem_range, ← hkq]
      exact ⟨hin k hk, hw.was_free k (Nat.zero_le _) (by omega)⟩
    have hcard : ((Finset.range m).image (fun j => pos_at w.blockvec j)).card = m := by
      rw [Finset.card_image_of_injOn, Finset.card_range]
      intro j hj k hk hjk
      exact hinj j (Finset.mem_range.1 (by simpa using hj)) k
        (Finset.mem_range.1 (by simpa using hk)) hjk
    have hsd : (Finset.range v.blockarr.length).filter (fun p => cell w.blockarr p = none) =
        (Finset.range v.blockarr.length).filter (fun p => cell v.blockarr p = none) \
          (Finset.range m).image (fun j => pos_at w.blockvec j) := by
      ext q
      rw [Finset.mem_sdiff, Finset.mem_filter, Finset.mem_filter, Finset.mem_image, hcell q]
      constructor
      · rintro ⟨h1, h2, h3⟩
        refine ⟨⟨h1, h2⟩, ?_⟩
        rintro ⟨k, hk, hkq⟩
        exact h3 k (Finset.mem_range.1 hk) hkq
      · rintro ⟨⟨h1, h2⟩, h3⟩
        exact ⟨h1, h2, fun k hk e => h3 ⟨k, Finset.mem_range.2 hk, e⟩⟩
    rw [hsd, Finset.card_sdiff himg, hcard]
    have := Finset.card_le_card himg
    rw [hcard] at this
    omega
  · intro p hp
    by_cases hm : m = 0
    · rw [hw.none_done hm]
      rw [if_neg (by simpa using hm)] at hp
      exact hI3 p hp
    · rw [if_pos hm] at hp
      obtain ⟨h1, -⟩ := hw.last (by omega)
      have h4 : 0 + m - 1 = m - 1 := by omega
      rw [h4] at h1
      intro hnone
      obtain ⟨hv, hne⟩ := (hcell p).1 hnone
      have hp1 : v.block_pos ≤ p := by
        by_contra hlt
        exact hI3 p (by omega) hv
      have hp2 : p ≠ pos_at w.blockvec (m - 1) := fun e => hne (m - 1) (by omega) e.symm
      obtain ⟨j, -, hj, hjq⟩ := hw.no_skip (m - 1) (Nat.zero_le _) (by omega) p hp1 (by omega) hv
      exact hne j (by omega) hjq

theorem table_kept_of_diskarr {d L : Nat} {state state1 : snapraid_state}
    (h : state1.diskarr = state.diskarr) (t : table_kept d L state) : table_kept d L state1 := by
  obtain ⟨disk, h1, h2, h3⟩ := t
  exact ⟨disk, by rw [h]; exact h1, h2, h3⟩

theorem table_kept_set {d L : Nat} {state state1 : snapraid_state} {disk0 disk1 : snapraid_disk}
    (h1 : state.diskarr[d]? = some disk0) (hs : state1.diskarr = state.diskarr.set d disk1)
    (hlen : tommy_array_size disk1.blockarr = L) (hI3 : I3 disk1) : table_kept d L state1 :=
  ⟨disk1, by rw [hs, List.getElem?_set]; simp [getElem?_lt h1], hlen, hI3⟩

theorem scan_file_remove_block_table_kept {state state1 : snapraid_state} {d L : Nat}
    {fp : FilePtr} {i : Nat} (h : scan_file_remove_block state d fp i = some state1)
    (t : table_kept d L state) : table_kept d L state1 := by
  obtain ⟨disk0, h1, h2, h3⟩ := t
  unfold scan_file_remove_block at h
  split at h
  · rename_i file disk hf hd
    rw [h1] at hd
    cases hd
    split at h
    · rename_i block hb
      simp only at h
      split at h
      · rename_i blockarr hset
        split at h
        · simp only [Option.some.injEq] at h
          subst h
          unfold tommy_array_set at hset
          split at hset
          · rename_i hlt
            simp only [Option.some.injEq] at hset
            subst hset
            refine table_kept_set h1 rfl ?_ ?_
            · simpa [tommy_array_size] using h2
            · intro p hp
              simp only at hp
              have hp1 : p < disk0.first_free_block := by split_ifs at hp <;> omega
              have hp2 : ¬ (block.parity_pos = p ∧ block.parity_pos < disk0.blockarr.length) := by
                intro e
                rw [e.1] at hp
                split_ifs at hp <;> omega
              have := h3 p hp1
              rw [disk_block_get_eq_cell] at this ⊢
              simp only
              rw [cell_set, if_neg hp2]
              exact this
          · simp at hset
        · simp at h
      · simp at h
    · simp at h
  · simp at h

theorem scan_file_remove_loop_table_kept (d L : Nat) (fp : FilePtr) :
    ∀ (n i : Nat) (state state1 : snapraid_state),
      scan_file_remove_loop d fp n i state = some state1 →
      table_kept d L state → table_kept d L state1
  | 0, _, state, state1, h, t => by
    simp only [scan_file_remove_loop, Option.some.injEq] at h; subst h; exact t
  | n + 1, i, state, state1, h, t => by
    simp only [scan_file_remove_loop] at h
    cases h1 : scan_file_remove_block state d fp i with
    | none => rw [h1] at h; simp at h
    | some state2 =>
      rw [h1] at h
      exact scan_file_remove_loop_table_kept d L fp n (i + 1) state2 state1 h
        (scan_file_remove_block_table_kept h1 t)

theorem scan_file_remove_table_kept {state state1 : snapraid_state} {d L : Nat}
    {fp : FilePtr} (h : scan_file_remove state d fp = some state1)
    (t : table_kept d L state) : table_kept d L state1 := by
  unfold scan_file_remove at h
  split at h
  · split at h
    · rename_i state2 h2
      have t2 := scan_file_remove_loop_table_kept d L fp _ _ _ _ h2
        (@table_kept_of_diskarr d L state _ rfl t)
      obtain ⟨disk0, h1, h3, h4⟩ := t2
      split at h
      · rename_i disk hd
        rw [h1] at hd
        cases hd
        simp only [Option.some.injEq] at h
        subst h
        refine table_kept_set h1 rfl ?_ ?_
        · exact h3
        · intro p hp
          have := h4 p hp
          rw [disk_block_get_eq_cell] at this ⊢
          exact this
      · simp at h
    · simp at h
  · simp at h

theorem scan_link_remove_table_kept {state state1 : snapraid_state} {d L : Nat}
    {lp : LinkPtr} (h : scan_link_remove state d lp = some state1)
    (t : table_kept d L state) : table_kept d L state1 := by
  obtain ⟨disk0, h1, h3, h4⟩ := t
  unfold scan_link_remove at h
  split at h
  · rename_i disk link hd hl
    rw [h1] at hd
    cases hd
    simp only [Option.some.injEq] at h
    subst h
    refine table_kept_set h1 rfl ?_ ?_
    · exact h3
    · intro p hp
      have := h4 p hp
      rw [disk_block_get_eq_cell] at this ⊢
      exact this
  · simp at h

theorem scan_file_table_kept {scan scan1 : snapraid_scan} {state state1 : snapraid_state}
    {d L : Nat} {sub : String} {st : stat}
    (h : scan_file scan state d sub st = .ok (scan1, state1))
    (t : table_kept d L state) : table_kept d L state1 := by
  unfold scan_file at h
  split at h
  · simp at h
  · split at h
    · split at h
      · simp at h
      · split at h
        · split at h
          · simp only [Except.ok.injEq, Prod.mk.injEq] at h; rw [← h.2]; exact t
          · simp at h
        · split at h
          · split at h
            · simp only [Except.ok.injEq, Prod.mk.injEq] at h; rw [← h.2]
              exact table_kept_of_diskarr rfl t
            · simp only [Except.ok.injEq, Prod.mk.injEq] at h; rw [← h.2]
              exact table_kept_of_diskarr rfl t
          · split at h
            · simp at h
            · simp only at h
              split at h
              · rename_i state2 h2
                simp only [scan_file_delayed_insert, Except.ok.injEq, Prod.mk.injEq] at h
                rw [← h.2]
                exact @table_kept_of_diskarr d L state2 _ rfl
                  (scan_file_remove_table_kept h2 t)
              · simp at h
    · simp only [scan_file_delayed_insert, Except.ok.injEq, Prod.mk.injEq] at h
      rw [← h.2]
      exact table_kept_of_diskarr rfl t

theorem scan_link_table_kept {scan scan1 : snapraid_scan} {state state1 : snapraid_state}
    {d L : Nat} {sub linkto : String}
    (h : scan_link scan state d sub linkto = .ok (scan1, state1))
    (t : table_kept d L state) : table_kept d L state1 := by
  unfold scan_link at h
  split at h
  · simp at h
  · split at h
    · split at h
      · simp at h
      · split at h
        · simp at h
        · split at h
          · simp only [Except.ok.injEq, Prod.mk.injEq] at h; rw [← h.2]
            exact table_kept_of_diskarr rfl t
          · simp only [Except.ok.injEq, Prod.mk.injEq] at h; rw [← h.2]
            exact table_kept_of_diskarr rfl t
    · simp only [Except.ok.injEq, Prod.mk.injEq] at h
      rw [← h.2]
      exact table_kept_of_diskarr rfl t

mutual

theorem scan_dir_table_kept (excluded : String → Bool → Bool) (d L : Nat) :
    ∀ (stream : dir_stream) (sub : String) (scan scan1 : snapraid_scan)
      (state state1 : snapraid_state),
      scan_dir excluded d sub stream scan state = .ok (scan1, state1) →
      table_kept d L state → table_kept d L state1
  | .open_error, sub, scan, scan1, state, state1, h, t => by simp [scan_dir] at h
  | .read_error, sub, scan, scan1, state, state1, h, t => by simp [scan_dir] at h
  | .finished closed, sub, scan, scan1, state, state1, h, t => by
    simp only [scan_dir] at h
    split at h
    · simp only [Except.ok.injEq, Prod.mk.injEq] at h; rw [← h.2]; exact t
    · simp at h
  | .entry e rest, sub, scan, scan1, state, state1, h, t => by
    simp only [scan_dir] at h
    cases h1 : scan_dir_entry excluded d sub e scan state with
    | error err => rw [h1] at h; simp at h
    | ok r =>
      obtain ⟨scan2, state2⟩ := r
      rw [h1] at h
      exact scan_dir_table_kept excluded d L rest sub scan2 scan1 state2 state1 h
        (scan_dir_entry_table_kept excluded d L e sub scan scan2 state state2 h1 t)

theorem scan_dir_entry_table_kept (excluded : String → Bool → Bool) (d L : Nat) :
    ∀ (e : dir_entry) (sub : String) (scan scan1 : snapraid_scan)
      (state state1 : snapraid_state),
      scan_dir_entry excluded d sub e scan state = .ok (scan1, state1) →
      table_kept d L state → table_kept d L state1
  | .lstat_error name, sub, scan, scan1, state, state1, h, t => by
    simp only [scan_dir_entry] at h
    split at h
    · simp only [Except.ok.injEq, Prod.mk.injEq] at h; rw [← h.2]; exact t
    · simp at h
  | .reg name st readable, sub, scan, scan1, state, state1, h, t => by
    simp only [scan_dir_entry] at h
    split at h
    · simp only [Except.ok.injEq, Prod.mk.injEq] at h; rw [← h.2]; exact t
    · split at h
      · simp at h
      · split at h
        · simp only [Except.ok.injEq, Prod.mk.injEq] at h; rw [← h.2]; exact t
        · split at h
          · exact scan_file_table_kept h t
          · simp only [Except.ok.injEq, Prod.mk.injEq] at h; rw [← h.2]; exact t
  | .lnk name readlink, sub, scan, scan1, state, state1, h, t => by
    simp only [scan_dir_entry] at h
    split at h
    · simp only [Except.ok.injEq, Prod.mk.injEq] at h; rw [← h.2]; exact t
    · split at h
      · simp at h
      · split at h
        · simp only [Except.ok.injEq, Prod.mk.injEq] at h; rw [← h.2]; exact t
        · split at h
          · split at h
            · simp at h
            · exact scan_link_table_kept h t
          · simp at h
  | .dir name content, sub, scan, scan1, state, state1, h, t => by
    simp only [scan_dir_entry] at h
    split at h
    · simp only [Except.ok.injEq, Prod.mk.injEq] at h; rw [← h.2]; exact t
    · split at h
      · simp at h
      · split at h
        · simp only [Except.ok.injEq, Prod.mk.injEq] at h; rw [← h.2]; exact t
        · exact scan_dir_table_kept excluded d L content _ scan scan1 state state1 h t
  | .special name, sub, scan, scan1, state, state1, h, t => by
    simp only [scan_dir_entry] at h
    split at h
    · simp only [Except.ok.injEq, Prod.mk.injEq] at h; rw [← h.2]; exact t
    · split at h
      · simp at h
      · simp only [Except.ok.injEq, Prod.mk.injEq] at h; rw [← h.2]; exact t

end

theorem scan_removed_files_table_kept (d L : Nat) :
    ∀ (l : List FilePtr) (scan scan1 : snapraid_scan) (state state1 : snapraid_state),
      scan_removed_files d l scan state = .ok (scan1, state1) →
      table_kept d L state → table_kept d L state1
  | [], scan, scan1, state, state1, h, t => by
    simp only [scan_removed_files, Except.ok.injEq, Prod.mk.injEq] at h; rw [← h.2]; exact t
  | fp :: rest, scan, scan1, state, state1, h, t => by
    simp only [scan_removed_files] at h
    split at h
    · split at h
      · exact scan_removed_files_table_kept d L rest _ _ _ _ h t
      · split at h
        · rename_i state2 h2
          exact scan_removed_files_table_kept d L rest _ _ _ _ h
            (scan_file_remove_table_kept h2 t)
        · simp at h
    · simp at h

theorem scan_removed_links_table_kept (d L : Nat) :
    ∀ (l : List LinkPtr) (scan scan1 : snapraid_scan) (state state1 : snapraid_state),
      scan_removed_links d l scan state = .ok (scan1, state1) →
      table_kept d L state → table_kept d L state1
  | [], scan, scan1, state, state1, h, t => by
    simp only [scan_removed_links, Except.ok.injEq, Prod.mk.injEq] at h; rw [← h.2]; exact t
  | lp :: rest, scan, scan1, state, state1, h, t => by
    simp only [scan_removed_links] at h
    split at h
    · split at h
      · exact scan_removed_links_table_kept d L rest _ _ _ _ h t
      · split at h
        · rename_i state2 h2
          exact scan_removed_links_table_kept d L rest _ _ _ _ h
            (scan_link_remove_table_kept h2 t)
        · simp at h
    · simp at h

theorem state_scan_disk_removals_table_kept {excluded : String → Bool → Bool}
    {dirs : Nat → dir_stream} {i L : Nat} {scan scan3 : snapraid_scan}
    {state state3 : snapraid_state}
    (h : state_scan_disk_removals excluded dirs i scan state = .ok (scan3, state3))
    (t : table_kept i L state) : table_kept i L state3 := by
  unfold state_scan_disk_removals at h
  split at h
  · simp at h
  · rename_i sc1 st1 h1
    split at h
    · simp at h
    · split at h
      · simp at h
      · rename_i sc2 st2 h2
        split at h
        · simp at h
        · exact scan_removed_links_table_kept _ _ _ _ _ _ _ h
            (scan_removed_files_table_kept _ _ _ _ _ _ _ h2
              (scan_dir_table_kept _ _ _ _ _ _ _ _ _ h1 t))

theorem blocks_total_congr {files files1 : List (Option snapraid_file)}
    (h : ∀ fp, (heap_get files1 fp).map snapraid_file.blockmax =
      (heap_get files fp).map snapraid_file.blockmax) :
    ∀ l, blocks_total files1 l = blocks_total files l
  | [] => rfl
  | fp :: rest => by
    simp only [blocks_total]
    rw [blocks_total_congr h rest]
    have := h fp
    cases h1 : heap_get files1 fp <;> cases h2 : heap_get files fp <;>
      simp [h1, h2] at this ⊢
    exact this

/-- The insert loop on a table of length `L` that satisfies I3 and whose empty
cells are as many as the blocks of the files to insert: the loop returns, the
table keeps its length and has no empty cell left. -/
theorem scan_insert_files_fill (d L : Nat) :
    ∀ (l : List FilePtr) (scans : List snapraid_scan) (state : snapraid_state)
      (disk : snapraid_disk),
      state.diskarr[d]? = some disk → tommy_array_size disk.blockarr = L → I3 disk →
      (∀ fp, fp ∈ l → (heap_get state.files fp).isSome = true) →
      free_cells disk = blocks_total state.files l →
      L + blocks_total state.files l < BLOCK_OFF_MOD →
      ∃ scans1 state1 disk1, scan_insert_files d l scans state = .ok (scans1, state1) ∧
        state1.diskarr[d]? = some disk1 ∧ tommy_array_size disk1.blockarr = L ∧
        free_cells disk1 = 0
  | [], scans, state, disk, hdisk, hlen, hI3, hlive, hfree, hfit => by
    exact ⟨scans, state, disk, rfl, hdisk, hlen, by simpa [blocks_total] using hfree⟩
  | fp :: rest, scans, state, disk, hdisk, hlen, hI3, hlive, hfree, hfit => by
    have hdlt := getElem?_lt hdisk
    have hl := hlive fp (List.mem_cons_self _ _)
    cases hf : heap_get state.files fp with
    | none => rw [hf] at hl; simp at hl
    | some file =>
      simp only [blocks_total, hf] at hfree hfit
      obtain ⟨w, hw, hres⟩ := scan_file_insert_spec state d fp disk file hdisk hf
        (hint_le_size_of_I3 hI3) (by rw [hlen]; omega)
      have hI3c : ∀ p, p < disk.first_free_block → cell disk.blockarr p ≠ none := by
        intro p hp
        have := hI3 p hp
        rw [disk_block_get_eq_cell] at this
        exact this
      have hcard := free_cells_eq_card disk
      obtain ⟨h1, h2, h3⟩ := insert_post_fill hw hI3c (by simp only; omega)
      simp only at h1 h2 h3
      simp only [scan_insert_files, hres]
      have hfiles : ∀ q, (heap_get (state.files.set fp
          (some { file with blockvec := w.blockvec })) q).map snapraid_file.blockmax =
          (heap_get state.files q).map snapraid_file.blockmax := by
        intro q
        rw [heap_get_set]
        by_cases hq : fp = q ∧ fp < state.files.length
        · rw [if_pos hq, ← hq.1, hf]
          simp [snapraid_file.blockmax, hw.len_vec]
        · rw [if_neg hq]
      have htot := blocks_total_congr hfiles rest
      apply scan_insert_files_fill d L rest (count_insert_first scans) _
        { disk with
          first_free_block :=
            if file.blockmax ≠ 0 then w.block_pos + 1 else disk.first_free_block,
          blockarr := w.blockarr,
          inodeset := disk.inodeset ++ [fp],
          filelist := disk.filelist ++ [fp] }
      · simp only
        rw [List.getElem?_set]
        simp [hdlt]
      · simp only [tommy_array_size] at hlen ⊢
        omega
      · intro p hp
        rw [disk_block_get_eq_cell]
        exact h3 p hp
      · intro q hq
        simp only
        rw [heap_get_set]
        by_cases hq2 : fp = q ∧ fp < state.files.length
        · rw [if_pos hq2]; rfl
        · rw [if_neg hq2]
          exact hlive q (List.mem_cons_of_mem _ hq)
      · rw [free_cells_eq_card]
        simp only
        rw [htot]
        omega
      · simp only
        rw [htot]
        omega

theorem scan_insert_links_table (d : Nat) :
    ∀ (l : List LinkPtr) (scans : List snapraid_scan) (state : snapraid_state)
      (disk : snapraid_disk), state.diskarr[d]? = some disk →
      ∃ scans1 state1 disk1, scan_insert_links d l scans state = .ok (scans1, state1) ∧
        state1.diskarr[d]? = some disk1 ∧ disk1.blockarr = disk.blockarr
  | [], scans, state, disk, hdisk => ⟨scans, state, disk, rfl, hdisk, rfl⟩
  | lp :: rest, scans, state, disk, hdisk => by
    have hdlt := getElem?_lt hdisk
    simp only [scan_insert_links, scan_link_insert, hdisk]
    apply scan_insert_links_table d rest (count_insert_first scans) _
      { disk with linkset := disk.linkset ++ [lp], linklist := disk.linklist ++ [lp] }
    simp only
    rw [List.getElem?_set]
    simp [hdlt]

/-- C26: if the allocation table of disk `i` has length `L` with no empty cell
and `first_free_block = L`, and in one scan of that disk the walk of the
directory and the checks for removed files and links leave `k` cells of the
table empty while the files queued for insertion, all live, have `k` blocks in
total, then the turn of `state_scan` for that disk returns, and after it the
table still has length `L` and no cell is empty. -/
theorem state_scan_disk_refills_table (excluded : String → Bool → Bool)
    (dirs : Nat → dir_stream) (i L k : Nat) (scans : List snapraid_scan)
    (state : snapraid_state) (disk : snapraid_disk) (scan scan3 : snapraid_scan)
    (state3 : snapraid_state) (disk3 : snapraid_disk)
    (hdisk : state.diskarr[i]? = some disk) (hlen : tommy_array_size disk.blockarr = L)
    (hfull : ∀ p, p < L → disk_block_get disk p ≠ none)
    (hhint : disk.first_free_block = L)
    (hscan : scans[i]? = some scan)
    (hrem : state_scan_disk_removals excluded dirs i scan state = .ok (scan3, state3))
    (hdisk3 : state3.diskarr[i]? = some disk3)
    (hfreed : free_cells disk3 = k)
    (hlive : ∀ fp, fp ∈ scan3.file_insert_list → (heap_get state3.files fp).isSome = true)
    (hnew : blocks_total state3.files scan3.file_insert_list = k)
    (hfit : L + k < BLOCK_OFF_MOD) :
    ∃ scans1 state1 disk1, state_scan_disk excluded dirs i scans state = .ok (scans1, state1) ∧
      state1.diskarr[i]? = some disk1 ∧ tommy_array_size disk1.blockarr = L ∧
      ∀ p, p < L → disk_block_get disk1 p ≠ none := by
  have t0 : table_kept i L state :=
    ⟨disk, hdisk, hlen, fun p hp => hfull p (by rw [← hhint]; exact hp)⟩
  obtain ⟨disk3a, hd3, hlen3, hI3⟩ := state_scan_disk_removals_table_kept hrem t0
  rw [hdisk3] at hd3
  cases hd3
  obtain ⟨scans4, state4, disk4, hins, hd4, hlen4, hfree4⟩ :=
    scan_insert_files_fill i L scan3.file_insert_list (scans.set i scan3) state3 disk3
      hdisk3 hlen3 hI3 hlive (by rw [hfreed, hnew]) (by rw [hnew]; exact hfit)
  obtain ⟨scans5, state5, disk5, hinl, hd5, harr⟩ :=
    scan_insert_links_table i scan3.link_insert_list scans4 state4 disk4 hd4
  refine ⟨scans5, state5, disk5, ?_, hd5, ?_, ?_⟩
  · rw [state_scan_disk_eq]
    simp only [hscan, hrem, hins]
    exact hinl
  · rw [harr]; exact hlen4
  · intro p hp
    rw [disk_block_get_eq_cell, harr]
    rw [free_cells_eq_card, Finset.card_eq_zero, Finset.filter_eq_empty_iff] at hfree4
    apply hfree4
    rw [Finset.mem_range]
    unfold tommy_array_size at hlen4
    omega

theorem state_scan_disk_refills_table_witness :
    (∃ scans1 state1 disk1,
      state_scan_disk (fun _ _ => false) reuse_dirs 0 [{}, {}] recorded_example =
        .ok (scans1, state1) ∧
      state1.diskarr[0]? = some disk1 ∧ tommy_array_size disk1.blockarr = 2 ∧
      ∀ p, p < 2 → disk_block_get disk1 p ≠ none) ∧
    (match state_scan_disk (fun _ _ => false) reuse_dirs 0 [{}, {}] recorded_example with
     | .ok (_, state1) => (heap_get state1.files 1).map positions
     | .error _ => none) = some [0, 1] :=
  ⟨state_scan_disk_refills_table (fun _ _ => false) reuse_dirs 0 2 2 [{}, {}] recorded_example
    _ {} _ _ _ rfl rfl (by decide) rfl rfl rfl rfl rfl (by decide) rfl (by decide), rfl⟩

end Snapraid
